import Mathlib

/-!
Scene Fusion object synchronisation: a verification development.

Shallow embedding of the Scene Fusion plugin sources
(`Source/SceneFusion/Private`) and theorems about them.

Conventions of the embedding

* A nullable C++ pointer is an `Option` of an address (`none` is `nullptr`).
* Engine containers (`TMap`, `std::unordered_map`) are association lists with
  one entry per key; only lookups are observable.
* Values that the sources obtain from a library outside the repository (a
  freshly allocated `sfObject`, the slot the sparse-array allocator hands out)
  are explicit arguments of the embedded function.
-/

namespace SceneFusion

/-! ## Definitions -/

/-! ### Association lists (TMap / std::unordered_map) -/

/-- Lookup of a key: `TMap::FindRef` / `unordered_map::find`. -/
def mapFind (m : List (Nat × Nat)) (k : Nat) : Option Nat :=
  match m with
  | [] => none
  | (k', v) :: rest => if k' = k then some v else mapFind rest k

/-- Removal of a key: `TMap::Remove` / `unordered_map::erase`. -/
def mapErase (m : List (Nat × Nat)) (k : Nat) : List (Nat × Nat) :=
  match m with
  | [] => []
  | (k', v) :: rest => if k' = k then mapErase rest k else (k', v) :: mapErase rest k

/-- Insert or overwrite: `TMap::Add` / `unordered_map::operator[] =`. -/
def mapSet (m : List (Nat × Nat)) (k v : Nat) : List (Nat × Nat) :=
  (k, v) :: mapErase m k

/-! ### sfObjectMap.cpp -/

/-- Address of a native entity (`UObject*`, non-null). -/
abbrev UObjectAddr := Nat

/-- Identity of a replicated object (`sfObject::SPtr`, non-null). -/
abbrev sfObjectAddr := Nat

/-- The two static maps of `sfObjectMap`. -/
structure sfObjectMap where
  m_uToSFObjectMap : List (UObjectAddr × sfObjectAddr)
  m_sfToUObjectMap : List (sfObjectAddr × UObjectAddr)
deriving DecidableEq, Repr

namespace sfObjectMap

/-- The map before any insertion. -/
def empty : sfObjectMap := ⟨[], []⟩

/-- `sfObjectMap::Contains(const UObject*)`. -/
def ContainsUObject (m : sfObjectMap) (uobjPtr : Option UObjectAddr) : Bool :=
  match uobjPtr with
  | none => false
  | some u => (mapFind m.m_uToSFObjectMap u).isSome

/-- `sfObjectMap::Contains(sfObject::SPtr)`. -/
def ContainsSFObject (m : sfObjectMap) (objPtr : Option sfObjectAddr) : Bool :=
  match objPtr with
  | none => false
  | some o => (mapFind m.m_sfToUObjectMap o).isSome

/-- `sfObjectMap::GetSFObject`. -/
def GetSFObject (m : sfObjectMap) (uobjPtr : Option UObjectAddr) : Option sfObjectAddr :=
  match uobjPtr with
  | none => none
  | some u => mapFind m.m_uToSFObjectMap u

/-- `sfObjectMap::GetUObject`. -/
def GetUObject (m : sfObjectMap) (objPtr : Option sfObjectAddr) : Option UObjectAddr :=
  match objPtr with
  | none => none
  | some o => mapFind m.m_sfToUObjectMap o

/-- `sfObjectMap::Add`: nothing for a null argument, otherwise both maps are
written, whatever they held before. -/
def Add (m : sfObjectMap) (objPtr : Option sfObjectAddr) (uobjPtr : Option UObjectAddr) :
    sfObjectMap :=
  match objPtr, uobjPtr with
  | some o, some u =>
      { m_sfToUObjectMap := mapSet m.m_sfToUObjectMap o u
        m_uToSFObjectMap := mapSet m.m_uToSFObjectMap u o }
  | _, _ => m

/-- `sfObjectMap::GetOrCreateSFObject`. `created` is the object that
`sfObject::Create(type, sfDictionaryProperty::Create())` returns when it is
called. The result is the returned pointer and the new map. -/
def GetOrCreateSFObject (m : sfObjectMap) (uobjPtr : Option UObjectAddr)
    (created : sfObjectAddr) : Option sfObjectAddr × sfObjectMap :=
  match uobjPtr with
  | none => (none, m)
  | some u =>
      match mapFind m.m_uToSFObjectMap u with
      | some o => (some o, m)
      | none => (some created, Add m (some created) (some u))

/-- `sfObjectMap::Remove(const UObject*)`: returned pointer and new map. -/
def RemoveUObject (m : sfObjectMap) (uobjPtr : Option UObjectAddr) :
    Option sfObjectAddr × sfObjectMap :=
  match uobjPtr with
  | none => (none, m)
  | some u =>
      match mapFind m.m_uToSFObjectMap u with
      | some o =>
          (some o, { m_uToSFObjectMap := mapErase m.m_uToSFObjectMap u
                     m_sfToUObjectMap := mapErase m.m_sfToUObjectMap o })
      | none => (none, m)

/-- `sfObjectMap::Remove(sfObject::SPtr)`: returned pointer and new map. -/
def RemoveSFObject (m : sfObjectMap) (objPtr : Option sfObjectAddr) :
    Option UObjectAddr × sfObjectMap :=
  match objPtr with
  | none => (none, m)
  | some o =>
      match mapFind m.m_sfToUObjectMap o with
      | none => (none, m)
      | some u =>
          (some u, { m_sfToUObjectMap := mapErase m.m_sfToUObjectMap o
                     m_uToSFObjectMap := mapErase m.m_uToSFObjectMap u })

/-- `sfObjectMap::Clear`. -/
def Clear (_m : sfObjectMap) : sfObjectMap := ⟨[], []⟩

/-- One call of the public interface that can change the map. -/
inductive Call where
  | add (objPtr : Option sfObjectAddr) (uobjPtr : Option UObjectAddr)
  | removeUObject (uobjPtr : Option UObjectAddr)
  | removeSFObject (objPtr : Option sfObjectAddr)
  | getOrCreate (uobjPtr : Option UObjectAddr) (created : sfObjectAddr)
  | clear
deriving DecidableEq, Repr

/-- The map after one call. -/
def step (m : sfObjectMap) : Call → sfObjectMap
  | .add o u => Add m o u
  | .removeUObject u => (RemoveUObject m u).2
  | .removeSFObject o => (RemoveSFObject m o).2
  | .getOrCreate u created => (GetOrCreateSFObject m u created).2
  | .clear => Clear m

/-- The map after a sequence of calls. -/
def run (m : sfObjectMap) : List Call → sfObjectMap
  | [] => m
  | c :: rest => run (step m c) rest

/-- A call is possible in a state: the object `sfObject::Create` returns is
newly allocated, so it is not one of the objects the map holds. -/
def allocOk (m : sfObjectMap) : Call → Bool
  | .getOrCreate _ created => !ContainsSFObject m (some created)
  | _ => true

/-- Every call of the sequence is possible in the state it is made in. -/
def allocOkAll (m : sfObjectMap) : List Call → Bool
  | [] => true
  | c :: rest => allocOk m c && allocOkAll (step m c) rest

/-- Discipline on `Add`: a non-null pair is added only when neither side is
in the map. -/
def addUnmapped (m : sfObjectMap) : Call → Bool
  | .add (some o) (some u) => !ContainsSFObject m (some o) && !ContainsUObject m (some u)
  | _ => true

/-- Every `Add` of the sequence obeys `addUnmapped` in its state. -/
def addUnmappedAll (m : sfObjectMap) : List Call → Bool
  | [] => true
  | c :: rest => addUnmapped m c && addUnmappedAll (step m c) rest

/-- The two directions agree on every pair of non-null pointers. -/
def Consistent (m : sfObjectMap) : Prop :=
  ∀ (u : UObjectAddr) (o : sfObjectAddr),
    GetSFObject m (some u) = some o ↔ GetUObject m (some o) = some u

end sfObjectMap

/-! ### Property tree (`sfProperty` of the Scene Fusion client library) -/

/-- Payload of a value property (`ksMultiType`): the type tag chosen by the
constructor and the data. Floats are their IEEE bit patterns. -/
inductive ksMultiType where
  | BOOL (b : Bool)
  | BYTE (n : Nat)
  | INT (i : Int)
  | UINT (n : Nat)
  | LONG (i : Int)
  | FLOAT (bits : Nat)
  | BYTE_ARRAY (data : List Nat)
  | STRING (s : String)
deriving DecidableEq, Repr

/-- An interned name (`sfName`, `FName`): its index in the name table. -/
abbrev sfName := Nat

/-- A node of the property tree: `sfValueProperty`, `sfReferenceProperty`,
`sfListProperty`, `sfDictionaryProperty`, `sfNullProperty`. The fields of a
dictionary are an association list kept in increasing key order by `dictSet`,
so that two dictionaries with the same keys and values are the same term. -/
inductive sfProperty where
  | value (v : ksMultiType)
  | reference (objectId : Nat)
  | list (elements : List sfProperty)
  | dictionary (fields : List (sfName × sfProperty))
  | null

/-- `sfProperty::Type()`. -/
inductive sfProperty.Types where
  | VALUE
  | REFERENCE
  | LIST
  | DICTIONARY
  | NUL
deriving DecidableEq, Repr

/-- `sfProperty::Type()`. -/
def sfProperty.Type : sfProperty → sfProperty.Types
  | .value _ => .VALUE
  | .reference _ => .REFERENCE
  | .list _ => .LIST
  | .dictionary _ => .DICTIONARY
  | .null => .NUL

mutual
/-- Structural comparison of two properties (`sfProperty::Equals`). -/
def sfProperty.beq : sfProperty → sfProperty → Bool
  | .value a, .value b => decide (a = b)
  | .reference a, .reference b => decide (a = b)
  | .list xs, .list ys => sfProperty.beqList xs ys
  | .dictionary xs, .dictionary ys => sfProperty.beqFields xs ys
  | .null, .null => true
  | _, _ => false
/-- Comparison of two element lists. -/
def sfProperty.beqList : List sfProperty → List sfProperty → Bool
  | [], [] => true
  | x :: xs, y :: ys => sfProperty.beq x y && sfProperty.beqList xs ys
  | _, _ => false
/-- Comparison of two field lists. -/
def sfProperty.beqFields : List (sfName × sfProperty) → List (sfName × sfProperty) → Bool
  | [], [] => true
  | (k, x) :: xs, (k', y) :: ys =>
      decide (k = k') && sfProperty.beq x y && sfProperty.beqFields xs ys
  | _, _ => false
end

/-! ### Dictionaries (`sfDictionaryProperty`) -/

/-- `TryGet(name, out)`: the value under a key. -/
def dictGet {α : Type} : List (sfName × α) → sfName → Option α
  | [], _ => none
  | (k', v) :: rest, k => if k' = k then some v else dictGet rest k

/-- `HasKey(name)`. -/
def dictHasKey {α : Type} (d : List (sfName × α)) (k : sfName) : Bool := (dictGet d k).isSome

/-- `Set(name, value)`: the value under the key is replaced, or the entry is
added at its place in key order. -/
def dictSet {α : Type} : List (sfName × α) → sfName → α → List (sfName × α)
  | [], k, v => [(k, v)]
  | (k', v') :: rest, k, v =>
      if k < k' then (k, v) :: (k', v') :: rest
      else if k = k' then (k, v) :: rest
      else (k', v') :: dictSet rest k v

/-- `Remove(name)`. -/
def dictRemove {α : Type} : List (sfName × α) → sfName → List (sfName × α)
  | [], _ => []
  | (k', v') :: rest, k => if k' = k then dictRemove rest k else (k', v') :: dictRemove rest k

/-- The keys are strictly increasing (each key occurs once). -/
def sortedKeys {α : Type} : List (sfName × α) → Bool
  | [] => true
  | [_] => true
  | (k1, _) :: (k2, v2) :: rest => decide (k1 < k2) && sortedKeys ((k2, v2) :: rest)

mutual
/-- Representation invariant of a property tree: the fields of every
dictionary in it are in strictly increasing key order. -/
def sfProperty.WF : sfProperty → Bool
  | .value _ => true
  | .reference _ => true
  | .list xs => sfProperty.WFList xs
  | .dictionary d => sortedKeys d && sfProperty.WFFields d
  | .null => true
/-- `WF` of every element. -/
def sfProperty.WFList : List sfProperty → Bool
  | [] => true
  | x :: xs => sfProperty.WF x && sfProperty.WFList xs
/-- `WF` of every field value. -/
def sfProperty.WFFields : List (sfName × sfProperty) → Bool
  | [] => true
  | (_, v) :: rest => sfProperty.WF v && sfProperty.WFFields rest
end

/-! ### sfPropertyUtil.cpp: Copy, CopyList, CopyDict -/

/-- The list has a first element and `x` equals it: with the elements after
position `i`, the tests `Size() > i + 1 && x->Equals(Get(i + 1))` of
`CopyList`. -/
def headEquals (l : List sfProperty) (x : sfProperty) : Bool :=
  match l with
  | y :: _ => sfProperty.beq x y
  | [] => false

mutual
/-- `sfPropertyUtil::Copy(destPtr, srcPtr)` for two non-null properties: the
returned flag and the destination afterwards. The first argument is the
source. -/
def Copy : sfProperty → sfProperty → Bool × sfProperty
  | .value v, dest =>
      match dest with
      | .value w => (true, if sfProperty.beq (.value w) (.value v) then .value w else .value v)
      | _ => (false, dest)
  | .reference v, dest =>
      match dest with
      | .reference w =>
          (true, if sfProperty.beq (.reference w) (.reference v) then .reference w
            else .reference v)
      | _ => (false, dest)
  | .list src, dest =>
      match dest with
      | .list d =>
          let r := CopyList.loop src false [] d []
          (true, .list (if r.2.length > 0 then r.1 ++ r.2
            else if r.1.length > src.length then r.1.take src.length else r.1))
      | _ => (false, dest)
  | .dictionary src, dest =>
      match dest with
      | .dictionary d =>
          (true, .dictionary (CopyDict.loop src (d.filter (fun f => dictHasKey src f.1))))
      | _ => (false, dest)
  | .null, dest =>
      match dest with
      | .null => (true, .null)
      | _ => (false, dest)
termination_by structural src => src
/-- The `for` loop of `CopyList` from source index `i` on. The arguments are the
source elements from `i` on, `skip` (the extra `i++` of the insertion case is
still to be done), the destination elements before `i` (`done`) and from `i`
on (`rest`), and `toAdd`. The result is the destination and `toAdd` after the
loop. -/
def CopyList.loop : List sfProperty → Bool → List sfProperty → List sfProperty →
    List sfProperty → List sfProperty × List sfProperty
  | [], _, done, rest, toAdd => (done ++ rest, toAdd)
  | _ :: srcRest, true, done, rest, toAdd => CopyList.loop srcRest false done rest toAdd
  | elementPtr :: srcRest, false, done, [], toAdd =>
      CopyList.loop srcRest false done [] (toAdd ++ [elementPtr])
  | elementPtr :: srcRest, false, done, d :: ds, toAdd =>
      if sfProperty.beq elementPtr d then CopyList.loop srcRest false (done ++ [d]) ds toAdd
      else if headEquals ds elementPtr then
        CopyList.loop srcRest false (done ++ ds.take 1) (ds.drop 1) toAdd
      else if headEquals srcRest d then
        CopyList.loop srcRest true (done ++ [elementPtr, d]) ds toAdd
      else
        CopyList.loop srcRest false
          (done ++ [if (Copy elementPtr d).1 then (Copy elementPtr d).2 else elementPtr]) ds
          toAdd
termination_by structural src => src
/-- The second `for` loop of `CopyDict` over the fields of the source:
a field missing in the destination, or one `Copy` refuses, is `Set`;
otherwise the destination field is what `Copy` made of it. -/
def CopyDict.loop : List (sfName × sfProperty) → List (sfName × sfProperty) →
    List (sfName × sfProperty)
  | [], dest => dest
  | (key, value) :: srcRest, dest =>
      match dictGet dest key with
      | none => CopyDict.loop srcRest (dictSet dest key value)
      | some destPropPtr =>
          CopyDict.loop srcRest
            (dictSet dest key (if (Copy value destPropPtr).1 then (Copy value destPropPtr).2
              else value))
termination_by structural src => src
end

/-- `sfPropertyUtil::CopyList(destPtr, srcPtr)`: the destination list
afterwards. -/
def CopyList (dest src : List sfProperty) : List sfProperty :=
  let r := CopyList.loop src false [] dest []
  if r.2.length > 0 then r.1 ++ r.2
  else if r.1.length > src.length then r.1.take src.length else r.1

/-- `sfPropertyUtil::CopyDict(destPtr, srcPtr)`: the destination fields
afterwards. The first loop removes the keys the source does not have. -/
def CopyDict (dest src : List (sfName × sfProperty)) : List (sfName × sfProperty) :=
  CopyDict.loop src (dest.filter (fun f => dictHasKey src f.1))

/-- `sfPropertyUtil::Copy(destPtr, srcPtr)` on nullable pointers: the returned
flag and what `destPtr` points to afterwards. -/
def CopyPtr (destPtr srcPtr : Option sfProperty) : Bool × Option sfProperty :=
  match destPtr, srcPtr with
  | some dest, some src => ((Copy src dest).1, some (Copy src dest).2)
  | _, _ => (false, destPtr)

/-! ### Type handlers (`sfPropertyUtil::TypeHandler`) -/

/-- A registered getter and setter for one native type `α`. `Get` yields
`none` for `nullptr`. `Set` yields the `changed` flag and the new native
value, or `none` when the C++ setter has undefined behaviour on its input. -/
structure TypeHandler (α : Type) where
  Get : α → Option sfProperty
  Set : α → sfProperty → Option (Bool × α)

/-- Native side of `sfPropertyUtil::SetValue` for one property instance:
`false` without a write for a null property or a type without handler,
otherwise the handler's setter. -/
def SetValue {α : Type} (handler : Option (TypeHandler α)) (data : α)
    (propPtr : Option sfProperty) : Option (Bool × α) :=
  match propPtr, handler with
  | none, _ => some (false, data)
  | some _, none => some (false, data)
  | some p, some h => h.Set data p

/-! ### Sparse native containers (`FScriptSetHelper`, `FScriptMapHelper`) -/

/-- Storage of a native set or map (`TSparseArray`): slot `i` is valid when it
holds an element. -/
abbrev SparseArray (α : Type) := List (Option α)

namespace SparseArray

/-- `GetMaxIndex()`: number of slots, valid or not. -/
def GetMaxIndex {α : Type} (s : SparseArray α) : Nat := s.length

/-- `IsValidIndex(i)`. -/
def IsValidIndex {α : Type} (s : SparseArray α) (i : Nat) : Bool :=
  match s[i]? with
  | some (some _) => true
  | _ => false

/-- The valid elements in slot order (the dense view). -/
def dense {α : Type} : SparseArray α → List α
  | [] => []
  | none :: rest => dense rest
  | some a :: rest => a :: dense rest

/-- `Num()`: number of valid slots. -/
def Num {α : Type} (s : SparseArray α) : Nat := (dense s).length

/-- `AddDefaultValue_Invalid_NeedsRehash()`: a default-constructed element is
placed in a slot chosen by the engine allocator and the slot index is
returned. `choice` is the allocator's decision: an invalid slot that is
reused, anything else appends a slot at the end. -/
def AddDefaultValue_Invalid_NeedsRehash {α : Type} (s : SparseArray α) (dflt : α)
    (choice : Nat) : Nat × SparseArray α :=
  if choice < s.length ∧ IsValidIndex s choice = false then
    (choice, s.set choice (some dflt))
  else
    (s.length, s ++ [some dflt])

/-- Loop of the engine's `RemoveAt`: `for (; Count; ++Index)` frees the slot
when it is valid and decrements `Count`; invalid slots are passed over.
Running off the storage is undefined. -/
def RemoveAt.loop {α : Type} : List (Option α) → Nat → Option (List (Option α))
  | slots, 0 => some slots
  | [], _ + 1 => none
  | none :: rest, n + 1 => (RemoveAt.loop rest (n + 1)).map (fun r => none :: r)
  | some _ :: rest, n + 1 => (RemoveAt.loop rest n).map (fun r => none :: r)

/-- Engine `FScriptSetHelper::RemoveAt(Index, Count)` (same for the map
helper): `check(IsValidIndex(Index))`, then the next `Count` valid elements
from `Index` on are freed. The number of slots does not change. -/
def RemoveAt {α : Type} (s : SparseArray α) (index : Nat) (count : Int) :
    Option (SparseArray α) :=
  if IsValidIndex s index = true ∧ 0 ≤ count then
    (RemoveAt.loop (s.drop index) count.toNat).map (fun r => s.take index ++ r)
  else none

end SparseArray

/-! ### sfPropertyUtil.cpp: element lookup in sets and maps -/

/-- The `while (index >= 0)` scan of `GetSetElement` and `GetMapElement`.
`sparseIndex` is the slot examined next (the value after `sparseIndex++`),
`slots` the storage from that slot on, `index` the number of valid slots still
to pass. `none`: `sparseIndex >= GetMaxIndex()` was reached. -/
def scanToIndex {α : Type} : List (Option α) → Nat → Nat → Option Nat
  | [], _, _ => none
  | none :: rest, sparseIndex, index => scanToIndex rest (sparseIndex + 1) index
  | some _ :: rest, sparseIndex, index =>
      match index with
      | 0 => some sparseIndex
      | n + 1 => scanToIndex rest (sparseIndex + 1) n

/-- `sfPropertyUtil::GetSetElement` on a set property: the slot whose element
pointer is returned, or `none` when `upropPtr` is set to `nullptr`. -/
def GetSetElement {α : Type} (set : SparseArray α) (index : Int) : Option Nat :=
  if index < 0 ∨ index ≥ (SparseArray.Num set : Int) then none
  else scanToIndex set 0 index.toNat

/-- What `GetMapElement` resolves to: the key or the value of a slot. -/
inductive MapElement where
  | key (sparseIndex : Nat)
  | value (sparseIndex : Nat)
deriving DecidableEq, Repr

/-- `sfPropertyUtil::GetMapElement` on a map property. `propertyStack` holds
`Index()` of the properties still on the stack, top first. The result is the
resolved element (`none` when `upropPtr` is set to `nullptr`) and the stack
that is left. -/
def GetMapElement {κ ν : Type} (map : SparseArray (κ × ν)) (index : Int)
    (propertyStack : List Int) : Option MapElement × List Int :=
  match propertyStack with
  | [] => (none, [])
  | top :: below =>
      if index < 0 ∨ index ≥ (SparseArray.Num map : Int) then (none, top :: below)
      else
        match scanToIndex map 0 index.toNat with
        | none => (none, top :: below)
        | some sparseIndex =>
            if top = 0 then (some (MapElement.key sparseIndex), below)
            else if top = 1 then (some (MapElement.value sparseIndex), below)
            else (none, below)

/-! ### sfPropertyUtil.cpp: GetSet, GetMap -/

/-- Loop of `GetSet`: invalid slots are skipped, a null element makes the
result null, other elements are appended to `listPtr`. -/
def GetSet.loop {α : Type} (Get : α → Option sfProperty) :
    List (Option α) → List sfProperty → Option (List sfProperty)
  | [], listPtr => some listPtr
  | none :: rest, listPtr => GetSet.loop Get rest listPtr
  | some a :: rest, listPtr =>
      match Get a with
      | none => none
      | some elementPtr => GetSet.loop Get rest (listPtr ++ [elementPtr])

/-- `sfPropertyUtil::GetSet` for an element type with handler `handler`
(`none`: no handler registered, the result is `nullptr`). -/
def GetSet {α : Type} (handler : Option (TypeHandler α)) (set : SparseArray α) :
    Option sfProperty :=
  match handler with
  | none => none
  | some h => (GetSet.loop h.Get set []).map sfProperty.list

/-- Loop of `GetMap`: each valid slot contributes the list `[key, value]`. -/
def GetMap.loop {κ ν : Type} (GetKey : κ → Option sfProperty) (GetValue : ν → Option sfProperty) :
    List (Option (κ × ν)) → List sfProperty → Option (List sfProperty)
  | [], listPtr => some listPtr
  | none :: rest, listPtr => GetMap.loop GetKey GetValue rest listPtr
  | some (k, v) :: rest, listPtr =>
      match GetKey k with
      | none => none
      | some keyPtr =>
          match GetValue v with
          | none => none
          | some valuePtr =>
              GetMap.loop GetKey GetValue rest (listPtr ++ [sfProperty.list [keyPtr, valuePtr]])

/-- `sfPropertyUtil::GetMap`. -/
def GetMap {κ ν : Type} (keyHandler : Option (TypeHandler κ))
    (valueHandler : Option (TypeHandler ν)) (map : SparseArray (κ × ν)) : Option sfProperty :=
  match keyHandler, valueHandler with
  | some hk, some hv => (GetMap.loop hk.Get hv.Get map []).map sfProperty.list
  | _, _ => none

/-! ### sfBaseUObjectManager.cpp: SetInsert, MapInsert, SetRemove, MapRemove -/

/-- First loop of `SetInsert` / `MapInsert`: `count` calls of
`AddDefaultValue_Invalid_NeedsRehash`, tracking the least and greatest
returned index. `choices` are the allocator's decisions, one per call. -/
def insertSlots {α : Type} (dflt : α) :
    Nat → List Nat → SparseArray α → Nat → Nat → SparseArray α × Nat × Nat
  | 0, _, s, firstInsertIndex, lastInsertIndex => (s, firstInsertIndex, lastInsertIndex)
  | n + 1, choices, s, firstInsertIndex, lastInsertIndex =>
      let r := SparseArray.AddDefaultValue_Invalid_NeedsRehash s dflt (choices.headD 0)
      insertSlots dflt n choices.tail r.2 (min firstInsertIndex r.1) (max lastInsertIndex r.1)

/-- Second loop of `SetInsert` / `MapInsert` over the slots from slot `i` on.
`listIndex` counts the valid slots seen. A valid slot is skipped when
`listIndex < index && i < firstInsertIndex`; otherwise `write` is applied to
it with `listPtr->Get(listIndex)`, and the loop ends when
`listIndex >= index + count - 1 && i >= lastInsertIndex`. -/
def insertWrite {α : Type} (write : α → Option sfProperty → Option α)
    (listPtr : List sfProperty) (index count : Int) (firstInsertIndex lastInsertIndex : Nat) :
    List (Option α) → Nat → Int → Option (List (Option α))
  | [], _, _ => some []
  | none :: rest, i, listIndex =>
      (insertWrite write listPtr index count firstInsertIndex lastInsertIndex rest (i + 1)
        listIndex).map (fun r => none :: r)
  | some a :: rest, i, listIndex =>
      let listIndex := listIndex + 1
      if listIndex < index ∧ i < firstInsertIndex then
        (insertWrite write listPtr index count firstInsertIndex lastInsertIndex rest (i + 1)
          listIndex).map (fun r => some a :: r)
      else
        match write a (if listIndex < 0 then none else listPtr[listIndex.toNat]?) with
        | none => none
        | some a' =>
            if listIndex ≥ index + count - 1 ∧ i ≥ lastInsertIndex then some (some a' :: rest)
            else
              (insertWrite write listPtr index count firstInsertIndex lastInsertIndex rest
                (i + 1) listIndex).map (fun r => some a' :: r)

/-- The two loops of `SetInsert` / `MapInsert` in sequence. -/
def sparseInsert {α : Type} (write : α → Option sfProperty → Option α) (dflt : α)
    (s : SparseArray α) (listPtr : List sfProperty) (index count : Int) (choices : List Nat) :
    Option (SparseArray α) :=
  let r := insertSlots dflt count.toNat choices s (SparseArray.GetMaxIndex s) 0
  insertWrite write listPtr index count r.2.1 r.2.2 r.1 0 (-1)

/-- `sfBaseUObjectManager::SetInsert` on a set property: the native set after
the call. `handler` is the registered handler of the element type, `dflt` a
default-constructed element, `choices` the allocator's decisions. -/
def SetInsert {α : Type} (handler : Option (TypeHandler α)) (dflt : α) (set : SparseArray α)
    (listPtr : List sfProperty) (index count : Int) (choices : List Nat) :
    Option (SparseArray α) :=
  sparseInsert (fun a p => (SetValue handler a p).map Prod.snd) dflt set listPtr index count
    choices

/-- The two `SetValue` calls of `MapInsert` on one slot:
`pairPtr = listPtr->Get(listIndex)->AsList()`, then the key is set from
`pairPtr->Get(0)` and the value from `pairPtr->Get(1)`. Undefined when the
list element is missing or not a list. -/
def MapInsert.write {κ ν : Type} (keyHandler : Option (TypeHandler κ))
    (valueHandler : Option (TypeHandler ν)) (slot : κ × ν) (element : Option sfProperty) :
    Option (κ × ν) :=
  match element with
  | some (sfProperty.list pair) =>
      match SetValue keyHandler slot.1 pair[0]?, SetValue valueHandler slot.2 pair[1]? with
      | some k, some v => some (k.2, v.2)
      | _, _ => none
  | _ => none

/-- `sfBaseUObjectManager::MapInsert` on a map property. -/
def MapInsert {κ ν : Type} (keyHandler : Option (TypeHandler κ))
    (valueHandler : Option (TypeHandler ν)) (dflt : κ × ν) (map : SparseArray (κ × ν))
    (listPtr : List sfProperty) (index count : Int) (choices : List Nat) :
    Option (SparseArray (κ × ν)) :=
  sparseInsert (MapInsert.write keyHandler valueHandler) dflt map listPtr index count choices

/-- The `for` loop of `SetRemove` / `MapRemove` from slot `i` on: at each valid
slot `index` is decremented and the loop ends when it is negative. The result
is the final `i` (`GetMaxIndex()` when the loop runs out). -/
def removeStart {α : Type} : List (Option α) → Nat → Int → Nat
  | [], i, _ => i
  | none :: rest, i, index => removeStart rest (i + 1) index
  | some _ :: rest, i, index =>
      if index - 1 < 0 then i else removeStart rest (i + 1) (index - 1)

/-- `sfBaseUObjectManager::SetRemove` on a set property. -/
def SetRemove {α : Type} (set : SparseArray α) (index count : Int) : Option (SparseArray α) :=
  SparseArray.RemoveAt set (removeStart set 0 index) count

/-- `sfBaseUObjectManager::MapRemove` on a map property. -/
def MapRemove {κ ν : Type} (map : SparseArray (κ × ν)) (index count : Int) :
    Option (SparseArray (κ × ν)) :=
  SparseArray.RemoveAt map (removeStart map 0 index) count

/-- A handler over natural numbers that stores the number carried by an `INT`
value property (used to run the container functions on concrete data). -/
def natHandler : TypeHandler Nat where
  Get := fun n => some (sfProperty.value (ksMultiType.INT n))
  Set := fun cur p =>
    match p with
    | sfProperty.value (ksMultiType.INT i) => some (decide (i.toNat ≠ cur), i.toNat)
    | _ => none

/-! ### Proof device for SetInsert / MapInsert -/

/-- `Grown F L i r0 r1`: `r1` is the storage `r0` (both from slot `i` on) after
some allocations: a slot is unchanged, or an invalid slot was reused, or a slot
was appended, and every reused or appended slot lies in `[F, L]`. -/
inductive Grown {α : Type} (F L : Nat) : Nat → List (Option α) → List (Option α) → Prop where
  | nil (i : Nat) : Grown F L i [] []
  | keep (i : Nat) (x : Option α) (r0 r1 : List (Option α)) :
      Grown F L (i + 1) r0 r1 → Grown F L i (x :: r0) (x :: r1)
  | reuse (i : Nat) (a : α) (r0 r1 : List (Option α)) :
      F ≤ i → i ≤ L → Grown F L (i + 1) r0 r1 → Grown F L i (none :: r0) (some a :: r1)
  | append (i : Nat) (a : α) (r1 : List (Option α)) :
      F ≤ i → i ≤ L → Grown F L (i + 1) [] r1 → Grown F L i [] (some a :: r1)

/-! ### Reflected types and native values -/

/-- An engine name (`FName`): its index in the name table. -/
abbrev FName := Nat

/-- The integer property classes of the engine. -/
inductive IntKind where
  | Int8
  | Int16
  | Int32
  | Int64
  | UInt8
  | UInt16
  | UInt32
  | UInt64
deriving DecidableEq, Repr

/-- Conversion to a signed type of `w` bits (two's complement wrap-around). -/
def wrapSigned (w : Nat) (x : Int) : Int := (x + 2 ^ (w - 1)) % 2 ^ w - 2 ^ (w - 1)

/-- Conversion to an unsigned type of `w` bits. -/
def wrapUnsigned (w : Nat) (x : Int) : Int := x % 2 ^ w

/-- Conversion of an integer to the C++ type of the kind. -/
def IntKind.wrap : IntKind → Int → Int
  | .Int8, x => wrapSigned 8 x
  | .Int16, x => wrapSigned 16 x
  | .Int32, x => wrapSigned 32 x
  | .Int64, x => wrapSigned 64 x
  | .UInt8, x => wrapUnsigned 8 x
  | .UInt16, x => wrapUnsigned 16 x
  | .UInt32, x => wrapUnsigned 32 x
  | .UInt64, x => wrapUnsigned 64 x

/-- The integer is a value of the C++ type of the kind. -/
def IntKind.inRange (k : IntKind) (x : Int) : Bool := decide (k.wrap x = x)

/-- The type `U` that the handler of the kind sends on the wire, as registered
in `sfPropertyUtil::Initialize`: `CreateTypeHandler<T>()` sends `T`,
`CreateTypeHandler<T, U>()` casts to `U`. -/
def IntKind.wireKind : IntKind → IntKind
  | .Int8 => .UInt8
  | .Int16 => .Int32
  | .UInt16 => .Int32
  | .UInt64 => .Int64
  | k => k

/-- The handler of the kind is `CreateTypeHandler<T, U>()` (compares and
assigns through `U`) and not `CreateTypeHandler<T>()`. -/
def IntKind.isCast : IntKind → Bool
  | .Int8 => true
  | .Int16 => true
  | .UInt16 => true
  | .UInt64 => true
  | _ => false

/-- `sfValueProperty::Create(x)` for `x` of one of the C++ types a value
property is built from (`uint8_t`, `int`, `uint32_t`, `int64_t`). -/
def IntKind.create : IntKind → Int → ksMultiType
  | .UInt8, x => .BYTE x.toNat
  | .UInt32, x => .UINT x.toNat
  | .Int64, x => .LONG x
  | _, x => .INT x

/-- The number carried by an integer payload; the library's conversions from
the other payload types are not modelled (`none`). -/
def ksMultiType.asInteger : ksMultiType → Option Int
  | .BYTE n => some n
  | .INT i => some i
  | .UINT n => some n
  | .LONG i => some i
  | _ => none

/-- The `UProperty` classes: those with a handler in
`sfPropertyUtil::Initialize` whose getter and setter work on the property's own
data, and `Other` for a class without handler. A struct lists its fields in
the order of `Struct->Children`. -/
inductive UPropType where
  | BoolProperty
  | FloatProperty
  | IntProperty (kind : IntKind)
  | DoubleProperty
  | EnumProperty (underlying : IntKind)
  | ArrayProperty (inner : UPropType)
  | SetProperty (element : UPropType)
  | MapProperty (key : UPropType) (value : UPropType)
  | StructProperty (fields : List (FName × UPropType))
  | Other

/-- Native data of a property. Floats are IEEE bit patterns, a double is its
eight bytes in memory, sets and maps are their sparse storage. -/
inductive UValue where
  | bool (b : Bool)
  | int (i : Int)
  | float (bits : Nat)
  | double (bytes : List Nat)
  | array (elements : List UValue)
  | set (slots : List (Option UValue))
  | map (slots : List (Option (UValue × UValue)))
  | struct (fields : List (FName × UValue))
  | other (data : Nat)

/-- A handler is registered for the property class
(`m_typeHandlers.find(...) != m_typeHandlers.end()`). -/
def UPropType.hasHandler : UPropType → Bool
  | .Other => false
  | _ => true

mutual
/-- Engine `InitializeValue`: the data of a newly constructed element (zero or
empty; member initialisers of native structs are not modelled). -/
def UPropType.InitializeValue : UPropType → UValue
  | .BoolProperty => .bool false
  | .FloatProperty => .float 0
  | .IntProperty _ => .int 0
  | .DoubleProperty => .double [0, 0, 0, 0, 0, 0, 0, 0]
  | .EnumProperty _ => .int 0
  | .ArrayProperty _ => .array []
  | .SetProperty _ => .set []
  | .MapProperty _ _ => .map []
  | .StructProperty fields => .struct (UPropType.InitializeFields fields)
  | .Other => .other 0
termination_by structural t => t
/-- `InitializeValue` of every field of a struct. -/
def UPropType.InitializeFields : List (FName × UPropType) → List (FName × UValue)
  | [] => []
  | f :: rest => (f.1, UPropType.InitializeValue f.2) :: UPropType.InitializeFields rest
termination_by structural fields => fields
end

/-! ### sfPropertyUtil: scalar handlers -/

/-- Getter of `CreateTypeHandler<UBoolProperty>()`. -/
def GetBool : UValue → Option sfProperty
  | .bool b => some (.value (.BOOL b))
  | _ => none

/-- Setter of `CreateTypeHandler<UBoolProperty>()`: nothing when the property
equals `Create(current)`, otherwise the converted payload is stored. -/
def SetBool (data : UValue) (propPtr : sfProperty) : Option (Bool × UValue) :=
  match data with
  | .bool cur =>
      if sfProperty.beq propPtr (.value (.BOOL cur)) then some (false, data)
      else
        match propPtr with
        | .value (.BOOL b) => some (true, .bool b)
        | _ => none
  | _ => none

/-- Getter of `CreateTypeHandler<UFloatProperty>()`. -/
def GetFloat : UValue → Option sfProperty
  | .float bits => some (.value (.FLOAT bits))
  | _ => none

/-- Setter of `CreateTypeHandler<UFloatProperty>()`. -/
def SetFloat (data : UValue) (propPtr : sfProperty) : Option (Bool × UValue) :=
  match data with
  | .float cur =>
      if sfProperty.beq propPtr (.value (.FLOAT cur)) then some (false, data)
      else
        match propPtr with
        | .value (.FLOAT bits) => some (true, .float bits)
        | _ => none
  | _ => none

/-- Getter of the integer handlers: `Create(value)` for `CreateTypeHandler<T>()`,
`Create((U)value)` for `CreateTypeHandler<T, U>()`. -/
def GetInt (k : IntKind) : UValue → Option sfProperty
  | .int v => some (.value (k.wireKind.create (k.wireKind.wrap v)))
  | _ => none

/-- Setter of the integer handlers. `CreateTypeHandler<T>()` compares the
property with `Create(current)` and stores the payload converted to `T`;
`CreateTypeHandler<T, U>()` converts the payload to `U`, compares it with
`(U)current` and stores it converted to `T`. -/
def SetInt (k : IntKind) (data : UValue) (propPtr : sfProperty) : Option (Bool × UValue) :=
  match data with
  | .int cur =>
      if k.isCast then
        match propPtr with
        | .value m =>
            match m.asInteger with
            | some x =>
                if k.wireKind.wrap cur ≠ k.wireKind.wrap x then
                  some (true, .int (k.wrap (k.wireKind.wrap x)))
                else some (false, data)
            | none => none
        | _ => none
      else if sfProperty.beq propPtr (.value (k.create cur)) then some (false, data)
      else
        match propPtr with
        | .value m =>
            match m.asInteger with
            | some x => some (true, .int (k.wrap x))
            | none => none
        | _ => none
  | _ => none

/-- `sfPropertyUtil::GetDouble`: the eight bytes as a byte array. -/
def GetDouble : UValue → Option sfProperty
  | .double bytes => some (.value (.BYTE_ARRAY bytes))
  | _ => none

/-- `sfPropertyUtil::SetDouble`: an error and `false` when the payload is not
eight bytes, otherwise `memcmp` and `memcpy`. Payloads that are not byte
arrays are not modelled. -/
def SetDouble (data : UValue) (propPtr : sfProperty) : Option (Bool × UValue) :=
  match data, propPtr with
  | .double cur, .value (.BYTE_ARRAY bytes) =>
      if bytes.length ≠ 8 then some (false, data)
      else if cur ≠ bytes then some (true, .double bytes)
      else some (false, data)
  | _, _ => none

/-- `sfPropertyUtil::GetEnum`: `GetSignedIntPropertyValue` reads the stored
integer as an `int64_t`; a byte is sent for a value in `[0, 256)`, otherwise
the `int64_t`. -/
def GetEnum : UValue → Option sfProperty
  | .int stored =>
      if 0 ≤ wrapSigned 64 stored ∧ wrapSigned 64 stored < 256 then
        some (.value (.BYTE (wrapSigned 64 stored).toNat))
      else some (.value (.LONG (wrapSigned 64 stored)))
  | _ => none

/-- `sfPropertyUtil::SetEnum` for an enum stored as the integer kind
`underlying`: the payload is converted to `int64_t`, compared with
`GetSignedIntPropertyValue` and stored with `SetIntPropertyValue`. -/
def SetEnum (underlying : IntKind) (data : UValue) (propPtr : sfProperty) :
    Option (Bool × UValue) :=
  match data, propPtr with
  | .int cur, .value m =>
      match m.asInteger with
      | some x =>
          if wrapSigned 64 cur ≠ wrapSigned 64 x then
            some (true, .int (underlying.wrap (wrapSigned 64 x)))
          else some (false, data)
      | none => none
  | _, _ => none

/-! ### sfPropertyUtil: container handlers -/

/-- Loop of `GetArray`: a null element makes the result null. -/
def GetArray.loop {α : Type} (Get : α → Option sfProperty) :
    List α → List sfProperty → Option (List sfProperty)
  | [], listPtr => some listPtr
  | a :: rest, listPtr =>
      match Get a with
      | none => none
      | some elementPtr => GetArray.loop Get rest (listPtr ++ [elementPtr])

/-- `sfPropertyUtil::GetArray` for an inner type with handler `handler`. -/
def GetArray {α : Type} (handler : Option (TypeHandler α)) (array : List α) :
    Option sfProperty :=
  match handler with
  | none => none
  | some h => (GetArray.loop h.Get array []).map sfProperty.list

/-- Engine `FScriptArrayHelper::Resize`: elements are dropped at the end or
newly constructed ones are added. -/
def arrayResize {α : Type} (dflt : α) (array : List α) (n : Nat) : List α :=
  array.take n ++ List.replicate (n - array.length) dflt

/-- Loop of `SetArray` from index `i` on: the inner setter on element `i` with
`listPtr->Get(i)`. -/
def SetArray.loop {α : Type} (Set : α → sfProperty → Option (Bool × α)) :
    List α → List sfProperty → Bool → Option (Bool × List α)
  | array, [], changed => some (changed, array)
  | [], _ :: _, _ => none
  | a :: rest, p :: ps, changed =>
      match Set a p with
      | none => none
      | some r =>
          (SetArray.loop Set rest ps (changed || r.1)).map (fun q => (q.1, r.2 :: q.2))

/-- `sfPropertyUtil::SetArray`. Undefined when the property is not a list. -/
def SetArray {α : Type} (handler : Option (TypeHandler α)) (dflt : α) (array : List α)
    (propPtr : sfProperty) : Option (Bool × List α) :=
  match handler with
  | none => some (false, array)
  | some h =>
      match propPtr with
      | .list listPtr =>
          if array.length ≠ listPtr.length then
            SetArray.loop h.Set (arrayResize dflt array listPtr.length) listPtr true
          else SetArray.loop h.Set array listPtr false
      | _ => none

/-- Loop of `SetSet` from index `i` on. A slot is added while `Num()` is less
than the size of the list (this happens only after `EmptyElements`, when the
storage has no free slot and the allocator appends). The element setter is
then applied to `GetElementPtr(i)`, slot `i` itself: undefined when that slot
is not valid. -/
def SetSet.loop {α : Type} (Set : α → sfProperty → Option (Bool × α)) (dflt : α) (size : Nat) :
    List sfProperty → Nat → SparseArray α → Bool → Option (Bool × SparseArray α)
  | [], _, set, changed => some (changed, set)
  | p :: ps, i, set, changed =>
      match (if SparseArray.Num set < size then
          (SparseArray.AddDefaultValue_Invalid_NeedsRehash set dflt set.length).2
        else set) with
      | set1 =>
          match set1[i]? with
          | some (some a) =>
              match Set a p with
              | none => none
              | some r =>
                  SetSet.loop Set dflt size ps (i + 1) (set1.set i (some r.2)) (changed || r.1)
          | _ => none

/-- `sfPropertyUtil::SetSet`: when the sizes differ the set is emptied and
refilled; when they are the same the slots `0 .. size-1` are overwritten.
`Rehash` does not change the slots. -/
def SetSet {α : Type} (handler : Option (TypeHandler α)) (dflt : α) (set : SparseArray α)
    (propPtr : sfProperty) : Option (Bool × SparseArray α) :=
  match handler with
  | none => some (false, set)
  | some h =>
      match propPtr with
      | .list listPtr =>
          if SparseArray.Num set ≠ listPtr.length then
            SetSet.loop h.Set dflt listPtr.length listPtr 0 [] true
          else SetSet.loop h.Set dflt listPtr.length listPtr 0 set false
      | _ => none

/-- Loop of `SetMap` from index `i` on: as `SetSet.loop`, with the key set from
`pairPtr->Get(0)` and the value from `pairPtr->Get(1)`. -/
def SetMap.loop {κ ν : Type} (SetKey : κ → sfProperty → Option (Bool × κ))
    (SetVal : ν → sfProperty → Option (Bool × ν)) (dflt : κ × ν) (size : Nat) :
    List sfProperty → Nat → SparseArray (κ × ν) → Bool → Option (Bool × SparseArray (κ × ν))
  | [], _, map, changed => some (changed, map)
  | p :: ps, i, map, changed =>
      match (if SparseArray.Num map < size then
          (SparseArray.AddDefaultValue_Invalid_NeedsRehash map dflt map.length).2
        else map) with
      | map1 =>
          match p, map1[i]? with
          | .list pairPtr, some (some slot) =>
              match pairPtr[0]?, pairPtr[1]? with
              | some keyPtr, some valuePtr =>
                  match SetKey slot.1 keyPtr with
                  | none => none
                  | some rk =>
                      match SetVal slot.2 valuePtr with
                      | none => none
                      | some rv =>
                          SetMap.loop SetKey SetVal dflt size ps (i + 1)
                            (map1.set i (some (rk.2, rv.2))) (changed || rk.1 || rv.1)
              | _, _ => none
          | _, _ => none

/-- `sfPropertyUtil::SetMap`. -/
def SetMap {κ ν : Type} (keyHandler : Option (TypeHandler κ))
    (valueHandler : Option (TypeHandler ν)) (dflt : κ × ν) (map : SparseArray (κ × ν))
    (propPtr : sfProperty) : Option (Bool × SparseArray (κ × ν)) :=
  match keyHandler, valueHandler with
  | some hk, some hv =>
      match propPtr with
      | .list listPtr =>
          if SparseArray.Num map ≠ listPtr.length then
            SetMap.loop hk.Set hv.Set dflt listPtr.length listPtr 0 [] true
          else SetMap.loop hk.Set hv.Set dflt listPtr.length listPtr 0 map false
      | _ => none
  | _, _ => some (false, map)

/-- The effect of the loops of `SetSet` and `SetMap` on the slots from slot `i`
on when no slot is added: slot by slot, `write` with the element of the list;
undefined at an invalid slot. -/
def overwriteSlots {α : Type} (write : α → sfProperty → Option α) :
    List (Option α) → List sfProperty → Option (List (Option α))
  | slots, [] => some slots
  | some a :: rest, p :: ps =>
      match write a p with
      | none => none
      | some a' => (overwriteSlots write rest ps).map (fun r => some a' :: r)
  | _, _ :: _ => none

/-- The two setter calls of `SetMap` on one slot, from the pair
`listPtr->Get(i)->AsList()`. -/
def SetMap.write {κ ν : Type} (SetKey : κ → sfProperty → Option (Bool × κ))
    (SetVal : ν → sfProperty → Option (Bool × ν)) (slot : κ × ν) (p : sfProperty) :
    Option (κ × ν) :=
  match p with
  | .list pairPtr =>
      match pairPtr[0]?, pairPtr[1]? with
      | some keyPtr, some valuePtr =>
          match SetKey slot.1 keyPtr with
          | none => none
          | some rk =>
              match SetVal slot.2 valuePtr with
              | none => none
              | some rv => some (rk.2, rv.2)
      | _, _ => none
  | _ => none

/-! ### sfPropertyUtil: the handler registry -/

mutual
/-- Getter registered for the property class (`TypeHandler::Get`). -/
def UPropType.Get : UPropType → UValue → Option sfProperty
  | .BoolProperty, v => GetBool v
  | .FloatProperty, v => GetFloat v
  | .IntProperty k, v => GetInt k v
  | .DoubleProperty, v => GetDouble v
  | .EnumProperty _, v => GetEnum v
  | .ArrayProperty inner, v =>
      match v with
      | .array elements =>
          GetArray (if inner.hasHandler then some ⟨UPropType.Get inner, UPropType.Set inner⟩
            else none) elements
      | _ => none
  | .SetProperty element, v =>
      match v with
      | .set slots =>
          GetSet (if element.hasHandler then
            some ⟨UPropType.Get element, UPropType.Set element⟩ else none) slots
      | _ => none
  | .MapProperty key value, v =>
      match v with
      | .map slots =>
          GetMap (if key.hasHandler then some ⟨UPropType.Get key, UPropType.Set key⟩ else none)
            (if value.hasHandler then some ⟨UPropType.Get value, UPropType.Set value⟩ else none)
            slots
      | _ => none
  | .StructProperty fields, v =>
      match v with
      | .struct values => (UPropType.GetStruct fields values []).map sfProperty.dictionary
      | _ => none
  | .Other, _ => none
termination_by structural t => t
/-- Setter registered for the property class (`TypeHandler::Set`). -/
def UPropType.Set : UPropType → UValue → sfProperty → Option (Bool × UValue)
  | .BoolProperty, v, p => SetBool v p
  | .FloatProperty, v, p => SetFloat v p
  | .IntProperty k, v, p => SetInt k v p
  | .DoubleProperty, v, p => SetDouble v p
  | .EnumProperty underlying, v, p => SetEnum underlying v p
  | .ArrayProperty inner, v, p =>
      match v with
      | .array elements =>
          (SetArray (if inner.hasHandler then some ⟨UPropType.Get inner, UPropType.Set inner⟩
            else none) inner.InitializeValue elements p).map (fun r => (r.1, UValue.array r.2))
      | _ => none
  | .SetProperty element, v, p =>
      match v with
      | .set slots =>
          (SetSet (if element.hasHandler then
            some ⟨UPropType.Get element, UPropType.Set element⟩ else none)
            element.InitializeValue slots p).map (fun r => (r.1, UValue.set r.2))
      | _ => none
  | .MapProperty key value, v, p =>
      match v with
      | .map slots =>
          (SetMap (if key.hasHandler then some ⟨UPropType.Get key, UPropType.Set key⟩ else none)
            (if value.hasHandler then some ⟨UPropType.Get value, UPropType.Set value⟩ else none)
            (key.InitializeValue, value.InitializeValue) slots p).map
              (fun r => (r.1, UValue.map r.2))
      | _ => none
  | .StructProperty fields, v, p =>
      match v, p with
      | .struct values, .dictionary dictPtr =>
          (UPropType.SetStruct fields values dictPtr false).map
            (fun r => (r.1, UValue.struct r.2))
      | _, _ => none
  | .Other, _, _ => none
termination_by structural t => t
/-- Loop of `GetStruct` over `Struct->Children`: a field whose class has a
handler and whose value is not null is written under its name. -/
def UPropType.GetStruct : List (FName × UPropType) → List (FName × UValue) →
    List (sfName × sfProperty) → Option (List (sfName × sfProperty))
  | [], _, dictPtr => some dictPtr
  | f :: rest, values, dictPtr =>
      match values with
      | [] => none
      | v :: vrest =>
          if f.2.hasHandler then
            match UPropType.Get f.2 v.2 with
            | some valuePtr => UPropType.GetStruct rest vrest (dictSet dictPtr f.1 valuePtr)
            | none => UPropType.GetStruct rest vrest dictPtr
          else UPropType.GetStruct rest vrest dictPtr
termination_by structural fields => fields
/-- Loop of `SetStruct` over `Struct->Children`: a field whose class has a
handler and whose name is in the dictionary is set from that entry. -/
def UPropType.SetStruct : List (FName × UPropType) → List (FName × UValue) →
    List (sfName × sfProperty) → Bool → Option (Bool × List (FName × UValue))
  | [], values, _, changed => some (changed, values)
  | f :: rest, values, dictPtr, changed =>
      match values with
      | [] => none
      | v :: vrest =>
          if f.2.hasHandler then
            match dictGet dictPtr f.1 with
            | some valuePtr =>
                match UPropType.Set f.2 v.2 valuePtr with
                | none => none
                | some r =>
                    (UPropType.SetStruct rest vrest dictPtr (changed || r.1)).map
                      (fun q => (q.1, (v.1, r.2) :: q.2))
            | none =>
                (UPropType.SetStruct rest vrest dictPtr changed).map
                  (fun q => (q.1, v :: q.2))
          else
            (UPropType.SetStruct rest vrest dictPtr changed).map (fun q => (q.1, v :: q.2))
termination_by structural fields => fields
end

/-- `m_typeHandlers.find(class)`: the registered handler, if any. -/
def m_typeHandlers (t : UPropType) : Option (TypeHandler UValue) :=
  if t.hasHandler then some ⟨UPropType.Get t, UPropType.Set t⟩ else none

/-! ### sfPropertyUtil: objects and their reflected properties -/

/-- A reflected property (`UProperty`): its name, flags, the name of its owner
class if it has one, and its class. -/
structure UProperty where
  name : FName
  PropertyFlags : Nat
  ownerClass : Option FName
  type : UPropType

/-- A property of an object's class together with the object's data for it
and the data of the same property in the object that `GetDefaultObject`
returns when that is another object. -/
structure UField where
  prop : UProperty
  value : UValue
  defaultValue : UValue

/-- A native entity (`UObject`): the name of its class, whether it is the
class default object of its class, and its properties in the order of
`TFieldIterator<UProperty>`. -/
structure UObject where
  className : FName
  isClassDefaultObject : Bool
  fields : List UField

/-- The static lists of `sfPropertyUtil` that `IsSyncable` reads. -/
structure SyncLists where
  m_forceSyncList : List (FName × FName)
  m_syncDefaultOnlyList : List FName

/-- Engine flag `CPF_Edit`. -/
def CPF_Edit : Nat := 0x1
/-- Engine flag `CPF_DisableEditOnInstance`. -/
def CPF_DisableEditOnInstance : Nat := 0x800
/-- Engine flag `CPF_EditConst`. -/
def CPF_EditConst : Nat := 0x20000

/-- `sfPropertyUtil::IsPropertyInForceSyncList`. -/
def IsPropertyInForceSyncList (lists : SyncLists) (upropPtr : UProperty) : Bool :=
  match upropPtr.ownerClass with
  | none => false
  | some owner => decide ((owner, upropPtr.name) ∈ lists.m_forceSyncList)

/-- `sfPropertyUtil::IsSyncable`. -/
def IsSyncable (lists : SyncLists) (uobjPtr : UObject) (upropPtr : UProperty) : Bool :=
  if IsPropertyInForceSyncList lists upropPtr then true
  else
    decide (upropPtr.PropertyFlags &&& CPF_Edit ≠ 0) &&
      (decide (upropPtr.PropertyFlags &&& CPF_DisableEditOnInstance = 0) ||
        decide (uobjPtr.className ∈ lists.m_syncDefaultOnlyList)) &&
      decide (upropPtr.PropertyFlags &&& CPF_EditConst = 0)

/-- The data of the field in `GetDefaultObject(uobjPtr)`: for the class default
object that object is the entity itself. -/
def UObject.defaultOf (uobjPtr : UObject) (f : UField) : UValue :=
  if uobjPtr.isClassDefaultObject then f.value else f.defaultValue

/-- `sfPropertyUtil::IsDefaultValue`. `Identical` is the engine's
`Identical_InContainer` for a property class. -/
def IsDefaultValue (Identical : UPropType → UValue → UValue → Bool) (uobjPtr : UObject)
    (f : UField) : Bool :=
  if uobjPtr.isClassDefaultObject then false
  else if f.prop.type.hasHandler then Identical f.prop.type f.value (uobjPtr.defaultOf f)
  else false

/-- `sfPropertyUtil::SetToDefaultValue`: the data of the field afterwards. -/
def SetToDefaultValue (Identical : UPropType → UValue → UValue → Bool) (uobjPtr : UObject)
    (f : UField) : UValue :=
  if f.prop.type.hasHandler then
    if Identical f.prop.type f.value (uobjPtr.defaultOf f) then f.value
    else uobjPtr.defaultOf f
  else f.value

/-- `sfPropertyUtil::GetValue` for a property of an object. -/
def GetValue (f : UField) : Option sfProperty :=
  match m_typeHandlers f.prop.type with
  | none => none
  | some h => h.Get f.value

/-- The name is in the blacklist (`blacklistPtr != nullptr &&
blacklistPtr->Contains(propertyName)`). -/
def blacklisted (blacklistPtr : Option (List FName)) (name : FName) : Bool :=
  match blacklistPtr with
  | none => false
  | some l => decide (name ∈ l)

/-- Loop of `CreateProperties` over the properties of the class. -/
def CreateProperties.loop (lists : SyncLists) (Identical : UPropType → UValue → UValue → Bool)
    (uobjPtr : UObject) (blacklistPtr : Option (List FName)) :
    List UField → List (sfName × sfProperty) → List (sfName × sfProperty)
  | [], dictPtr => dictPtr
  | f :: rest, dictPtr =>
      if IsSyncable lists uobjPtr f.prop && !IsDefaultValue Identical uobjPtr f then
        if blacklisted blacklistPtr f.prop.name then
          CreateProperties.loop lists Identical uobjPtr blacklistPtr rest dictPtr
        else
          match GetValue f with
          | some propPtr =>
              CreateProperties.loop lists Identical uobjPtr blacklistPtr rest
                (dictSet dictPtr f.prop.name propPtr)
          | none => CreateProperties.loop lists Identical uobjPtr blacklistPtr rest dictPtr
      else CreateProperties.loop lists Identical uobjPtr blacklistPtr rest dictPtr

/-- `sfPropertyUtil::CreateProperties`: the fields of the dictionary
afterwards (`dictPtr` itself when a pointer is null). -/
def CreateProperties (lists : SyncLists) (Identical : UPropType → UValue → UValue → Bool)
    (uobjPtr : Option UObject) (dictPtr : Option (List (sfName × sfProperty)))
    (blacklistPtr : Option (List FName)) : Option (List (sfName × sfProperty)) :=
  match uobjPtr, dictPtr with
  | some o, some d => some (CreateProperties.loop lists Identical o blacklistPtr o.fields d)
  | _, _ => dictPtr

/-- One iteration of `ApplyProperties`: the field afterwards, `none` when the
setter is undefined on the entry. -/
def ApplyProperties.step (lists : SyncLists) (Identical : UPropType → UValue → UValue → Bool)
    (uobjPtr : UObject) (dictPtr : List (sfName × sfProperty))
    (blacklistPtr : Option (List FName)) (f : UField) : Option UField :=
  if IsSyncable lists uobjPtr f.prop then
    if blacklisted blacklistPtr f.prop.name then some f
    else
      match dictGet dictPtr f.prop.name with
      | none => some { f with value := SetToDefaultValue Identical uobjPtr f }
      | some propPtr =>
          match SetValue (m_typeHandlers f.prop.type) f.value (some propPtr) with
          | none => none
          | some r => some { f with value := r.2 }
  else some f

/-- Loop of `ApplyProperties` over the properties of the class. -/
def ApplyProperties.loop (lists : SyncLists) (Identical : UPropType → UValue → UValue → Bool)
    (uobjPtr : UObject) (dictPtr : List (sfName × sfProperty))
    (blacklistPtr : Option (List FName)) : List UField → Option (List UField)
  | [] => some []
  | f :: rest =>
      match ApplyProperties.step lists Identical uobjPtr dictPtr blacklistPtr f with
      | none => none
      | some f' =>
          (ApplyProperties.loop lists Identical uobjPtr dictPtr blacklistPtr rest).map
            (fun r => f' :: r)

/-- `sfPropertyUtil::ApplyProperties`: the entity afterwards (the entity itself
when the dictionary pointer is null), `none` when a setter is undefined on its
entry. -/
def ApplyProperties (lists : SyncLists) (Identical : UPropType → UValue → UValue → Bool)
    (uobjPtr : UObject) (dictPtr : Option (List (sfName × sfProperty)))
    (blacklistPtr : Option (List FName)) : Option UObject :=
  match dictPtr with
  | none => some uobjPtr
  | some d =>
      (ApplyProperties.loop lists Identical uobjPtr d blacklistPtr uobjPtr.fields).map
        (fun fs => { uobjPtr with fields := fs })

/-- Loop of `SendPropertyChanges` over the properties of the class. -/
def SendPropertyChanges.loop (lists : SyncLists)
    (Identical : UPropType → UValue → UValue → Bool) (uobjPtr : UObject)
    (blacklistPtr : Option (List FName)) :
    List UField → List (sfName × sfProperty) → List (sfName × sfProperty)
  | [], dictPtr => dictPtr
  | f :: rest, dictPtr =>
      if IsSyncable lists uobjPtr f.prop then
        if blacklisted blacklistPtr f.prop.name then
          SendPropertyChanges.loop lists Identical uobjPtr blacklistPtr rest dictPtr
        else if IsDefaultValue Identical uobjPtr f then
          SendPropertyChanges.loop lists Identical uobjPtr blacklistPtr rest
            (dictRemove dictPtr f.prop.name)
        else
          match GetValue f with
          | none => SendPropertyChanges.loop lists Identical uobjPtr blacklistPtr rest dictPtr
          | some propPtr =>
              match dictGet dictPtr f.prop.name with
              | none =>
                  SendPropertyChanges.loop lists Identical uobjPtr blacklistPtr rest
                    (dictSet dictPtr f.prop.name propPtr)
              | some oldPropPtr =>
                  SendPropertyChanges.loop lists Identical uobjPtr blacklistPtr rest
                    (dictSet dictPtr f.prop.name
                      (if (Copy propPtr oldPropPtr).1 then (Copy propPtr oldPropPtr).2
                        else propPtr))
      else SendPropertyChanges.loop lists Identical uobjPtr blacklistPtr rest dictPtr

/-- `sfPropertyUtil::SendPropertyChanges`: the fields of the dictionary
afterwards. -/
def SendPropertyChanges (lists : SyncLists) (Identical : UPropType → UValue → UValue → Bool)
    (uobjPtr : Option UObject) (dictPtr : Option (List (sfName × sfProperty)))
    (blacklistPtr : Option (List FName)) : Option (List (sfName × sfProperty)) :=
  match uobjPtr, dictPtr with
  | some o, some d => some (SendPropertyChanges.loop lists Identical o blacklistPtr o.fields d)
  | _, _ => dictPtr

/-! ### Engine comparison of property values (`Identical_InContainer`) -/

/-- IEEE `operator==` on two floats given by their bit patterns: false when
one is a NaN, true for two zeros of either sign, otherwise equality of the
bits. -/
def floatEq (a b : Nat) : Bool :=
  let isNaN := fun (x : Nat) => decide ((x / 2 ^ 23) % 256 = 255 ∧ x % 2 ^ 23 ≠ 0)
  !isNaN a && !isNaN b && (decide (a = b) || (decide (a % 2 ^ 31 = 0) && decide (b % 2 ^ 31 = 0)))

/-- The 64-bit pattern of a double from its bytes in memory (little endian). -/
def bytesToNat : List Nat → Nat
  | [] => 0
  | b :: rest => b + 256 * bytesToNat rest

/-- IEEE `operator==` on two doubles given by their bytes. -/
def doubleEq (a b : List Nat) : Bool :=
  let isNaN := fun (x : Nat) => decide ((x / 2 ^ 52) % 2048 = 2047 ∧ x % 2 ^ 52 ≠ 0)
  !isNaN (bytesToNat a) && !isNaN (bytesToNat b) &&
    (decide (bytesToNat a = bytesToNat b) ||
      (decide (bytesToNat a % 2 ^ 63 = 0) && decide (bytesToNat b % 2 ^ 63 = 0)))

/-- Pairwise comparison of two lists of the same length. -/
def listIdentical {α : Type} (same : α → α → Bool) : List α → List α → Bool
  | [], [] => true
  | a :: as, b :: bs => same a b && listIdentical same as bs
  | _, _ => false

mutual
/-- The engine's `Identical` for each property class: `operator==` for
numbers (IEEE comparison for `float` and `double`), element by element for
arrays, as collections of the same size for sets and maps, field by field for
structs. -/
def Identical_InContainer : UPropType → UValue → UValue → Bool
  | .BoolProperty, a, b =>
      match a, b with
      | .bool x, .bool y => decide (x = y)
      | _, _ => false
  | .FloatProperty, a, b =>
      match a, b with
      | .float x, .float y => floatEq x y
      | _, _ => false
  | .IntProperty _, a, b =>
      match a, b with
      | .int x, .int y => decide (x = y)
      | _, _ => false
  | .DoubleProperty, a, b =>
      match a, b with
      | .double x, .double y => doubleEq x y
      | _, _ => false
  | .EnumProperty _, a, b =>
      match a, b with
      | .int x, .int y => decide (x = y)
      | _, _ => false
  | .ArrayProperty inner, a, b =>
      match a, b with
      | .array xs, .array ys => listIdentical (Identical_InContainer inner) xs ys
      | _, _ => false
  | .SetProperty element, a, b =>
      match a, b with
      | .set xs, .set ys =>
          decide (SparseArray.Num xs = SparseArray.Num ys) &&
            (SparseArray.dense xs).all
              (fun x => (SparseArray.dense ys).any (Identical_InContainer element x))
      | _, _ => false
  | .MapProperty key value, a, b =>
      match a, b with
      | .map xs, .map ys =>
          decide (SparseArray.Num xs = SparseArray.Num ys) &&
            (SparseArray.dense xs).all
              (fun x => (SparseArray.dense ys).any
                (fun y => Identical_InContainer key x.1 y.1 &&
                  Identical_InContainer value x.2 y.2))
      | _, _ => false
  | .StructProperty fields, a, b =>
      match a, b with
      | .struct xs, .struct ys => Identical_Fields fields xs ys
      | _, _ => false
  | .Other, a, b =>
      match a, b with
      | .other x, .other y => decide (x = y)
      | _, _ => false
termination_by structural t => t
/-- Field by field comparison of two structs. -/
def Identical_Fields : List (FName × UPropType) → List (FName × UValue) →
    List (FName × UValue) → Bool
  | [], _, _ => true
  | f :: rest, xs, ys =>
      match xs, ys with
      | x :: xrest, y :: yrest =>
          Identical_InContainer f.2 x.2 y.2 && Identical_Fields rest xrest yrest
      | _, _ => false
termination_by structural fields => fields
end

/-! ### Well-typed native data -/

mutual
/-- The native data is data of a property of the class: integers are in the
range of their kind, a double has eight bytes, the elements of containers and
the fields of structs are data of their classes. -/
def UPropType.HasValue : UPropType → UValue → Bool
  | .BoolProperty, v =>
      match v with
      | .bool _ => true
      | _ => false
  | .FloatProperty, v =>
      match v with
      | .float _ => true
      | _ => false
  | .IntProperty k, v =>
      match v with
      | .int x => k.inRange x
      | _ => false
  | .DoubleProperty, v =>
      match v with
      | .double bytes => decide (bytes.length = 8)
      | _ => false
  | .EnumProperty k, v =>
      match v with
      | .int x => k.inRange x
      | _ => false
  | .ArrayProperty inner, v =>
      match v with
      | .array xs => xs.all (UPropType.HasValue inner)
      | _ => false
  | .SetProperty element, v =>
      match v with
      | .set slots => (SparseArray.dense slots).all (UPropType.HasValue element)
      | _ => false
  | .MapProperty key value, v =>
      match v with
      | .map slots =>
          (SparseArray.dense slots).all
            (fun s => UPropType.HasValue key s.1 && UPropType.HasValue value s.2)
      | _ => false
  | .StructProperty fields, v =>
      match v with
      | .struct values => UPropType.HasValues fields values
      | _ => false
  | .Other, _ => true
termination_by structural t => t
/-- The values are the fields of a struct with these field classes. -/
def UPropType.HasValues : List (FName × UPropType) → List (FName × UValue) → Bool
  | [], values =>
      match values with
      | [] => true
      | _ :: _ => false
  | f :: rest, values =>
      match values with
      | [] => false
      | v :: vrest => UPropType.HasValue f.2 v.2 && UPropType.HasValues rest vrest
termination_by structural fields => fields
end

mutual
/-- The class is converted by the registry to any depth: it has a handler, the
element classes of containers are supported, and every field of a struct is
supported or has no handler (such a field is passed over by `GetStruct` and
`SetStruct`); the field names of a struct are distinct. -/
def UPropType.Supported : UPropType → Bool
  | .BoolProperty => true
  | .FloatProperty => true
  | .IntProperty _ => true
  | .DoubleProperty => true
  | .EnumProperty _ => true
  | .ArrayProperty inner => UPropType.Supported inner
  | .SetProperty element => UPropType.Supported element
  | .MapProperty key value => UPropType.Supported key && UPropType.Supported value
  | .StructProperty fields =>
      UPropType.SupportedFields fields && decide ((fields.map Prod.fst).Nodup)
  | .Other => false
termination_by structural t => t
/-- Every field is supported or has no handler. -/
def UPropType.SupportedFields : List (FName × UPropType) → Bool
  | [] => true
  | f :: rest =>
      (UPropType.Supported f.2 || !f.2.hasHandler) && UPropType.SupportedFields rest
termination_by structural fields => fields
end

/-- Number, boolean and enumeration classes. -/
def UPropType.isScalar : UPropType → Bool
  | .BoolProperty => true
  | .FloatProperty => true
  | .IntProperty _ => true
  | .DoubleProperty => true
  | .EnumProperty _ => true
  | _ => false

mutual
/-- No set or map in the data has an invalid slot. -/
def UPropType.Dense : UPropType → UValue → Bool
  | .ArrayProperty inner, v =>
      match v with
      | .array xs => xs.all (UPropType.Dense inner)
      | _ => true
  | .SetProperty element, v =>
      match v with
      | .set slots =>
          slots.all (fun s => s.isSome) &&
            (SparseArray.dense slots).all (UPropType.Dense element)
      | _ => true
  | .MapProperty key value, v =>
      match v with
      | .map slots =>
          slots.all (fun s => s.isSome) &&
            (SparseArray.dense slots).all
              (fun s => UPropType.Dense key s.1 && UPropType.Dense value s.2)
      | _ => true
  | .StructProperty fields, v =>
      match v with
      | .struct values => UPropType.DenseFields fields values
      | _ => true
  | _, _ => true
termination_by structural t => t
/-- `Dense` of every field of a struct. -/
def UPropType.DenseFields : List (FName × UPropType) → List (FName × UValue) → Bool
  | [], _ => true
  | f :: rest, values =>
      match values with
      | [] => true
      | v :: vrest => UPropType.Dense f.2 v.2 && UPropType.DenseFields rest vrest
termination_by structural fields => fields
end

/-! ### Replicated objects (`sfObject`) and the names of Consts.cpp -/

/-- The object types of `sfType` (Consts.cpp). -/
inductive sfType where
  | Actor
  | Avatar
  | Level
  | LevelLock
  | LevelProperties
  | Component
  | MeshBounds
  | GameMode
deriving DecidableEq, Repr

namespace sfProp

/-- Index of `sfProp::Name` ("#name") in the name table. -/
def Name : sfName := 1001
/-- Index of `sfProp::Class` ("#class") in the name table. -/
def Class : sfName := 1002
/-- Index of `sfProp::Label` ("#label") in the name table. -/
def Label : sfName := 1003
/-- Index of `sfProp::Folder` ("#folder") in the name table. -/
def Folder : sfName := 1004
/-- Index of `sfProp::IsRoot` ("#isRoot") in the name table. -/
def IsRoot : sfName := 1005

end sfProp

/-- What the managers read of an ancestor reached through `Parent()`: its
identity and its type. -/
structure sfAncestor where
  addr : sfObjectAddr
  type : sfType
deriving DecidableEq, Repr

/-- A replicated object (`sfObject`) as the managers read it: its identity,
`Type()`, `IsSyncing()`, `IsLocked()`, `Property()`, the chain of `Parent()`
calls (nearest ancestor first) and `Children()` with their subtrees. -/
inductive sfObject where
  | mk (addr : sfObjectAddr) (type : sfType) (IsSyncing IsLocked : Bool)
      (Property : sfProperty) (Ancestors : List sfAncestor) (Children : List sfObject)

namespace sfObject

/-- Identity of the object (the pointer value of its `SPtr`). -/
def addr : sfObject → sfObjectAddr
  | mk a _ _ _ _ _ _ => a

/-- `sfObject::IsSyncing()`. -/
def IsSyncing : sfObject → Bool
  | mk _ _ b _ _ _ _ => b

/-- `sfObject::IsLocked()`. -/
def IsLocked : sfObject → Bool
  | mk _ _ _ b _ _ _ => b

/-- `sfObject::Property()`. -/
def Property : sfObject → sfProperty
  | mk _ _ _ _ p _ _ => p

/-- The chain `Parent()`, `Parent()->Parent()`, ... up to the root. -/
def Ancestors : sfObject → List sfAncestor
  | mk _ _ _ _ _ as _ => as

/-- `sfObject::Children()`. -/
def Children : sfObject → List sfObject
  | mk _ _ _ _ _ _ cs => cs

/-- `sfObject::Parent()`, `none` for `nullptr`. -/
def Parent (o : sfObject) : Option sfAncestor := o.Ancestors.head?

/-- The object with another property tree. -/
def withProperty : sfObject → sfProperty → sfObject
  | mk a t s l _ as cs, p => mk a t s l p as cs

end sfObject

/-- `sfObject::Type()`. -/
def sfObject.Type : sfObject → sfType
  | .mk _ t _ _ _ _ _ => t

/-- `sfProperty::AsDict()`: the fields of a dictionary, `none` for another
property (the C++ cast yields a null pointer that the callers dereference). -/
def sfProperty.AsDict : sfProperty → Option (List (sfName × sfProperty))
  | .dictionary fields => some fields
  | _ => none

mutual
/-- The objects of a subtree, the root first. -/
def sfObject.subtree : sfObject → List sfObject
  | .mk a t s l p as cs => sfObject.mk a t s l p as cs :: sfObject.subtreeList cs
termination_by structural o => o
/-- The objects of the subtrees of a list of objects. -/
def sfObject.subtreeList : List sfObject → List sfObject
  | [] => []
  | c :: cs => sfObject.subtree c ++ sfObject.subtreeList cs
termination_by structural l => l
end

/-! ### Strings and the session's string table -/

/-- Engine string (`FString`). -/
abbrev FString := String

/-- The string table of the session (`sfSession::GetStringTableId`,
`sfSession::GetStringFromTable`), code of the client library. -/
structure StringTable where
  GetStringTableId : FString → Nat
  GetStringFromTable : Nat → FString

/-- `sfPropertyUtil::FromString`. `Session` is `SceneFusion::Service->Session()`. -/
def FromString (Session : Option StringTable) (value : FString) : sfProperty :=
  match Session with
  | none => sfProperty.value (ksMultiType.INT 0)
  | some t => sfProperty.value (ksMultiType.UINT (t.GetStringTableId value % 2 ^ 32))

/-- `sfPropertyUtil::ToString`; `none` where the conversion of the payload to
`uint32_t` is a conversion of the library that is not modelled. -/
def ToString (Session : Option StringTable) (propertyPtr : Option sfProperty) : Option FString :=
  match Session with
  | none => some ""
  | some t =>
      match propertyPtr with
      | some (sfProperty.value (ksMultiType.STRING s)) => some s
      | some (sfProperty.value v) =>
          match v.asInteger with
          | some i => some (t.GetStringFromTable (wrapUnsigned 32 i).toNat)
          | none => none
      | _ => some ""

/-! ### Native classes and actors -/

/-- Identity of a level (`ULevel*`, non-null). -/
abbrev ULevelAddr := Nat

/-- A native class (`UClass`): its identity, `GetName()`, `IsInBlueprint()`
and `GetOuter()->GetName()`. -/
structure UClass where
  addr : Nat
  Name : FString
  IsInBlueprint : Bool
  OuterName : FString
deriving DecidableEq, Repr

/-- `sfUtils::ClassToFString`. -/
def ClassToFString (classPtr : UClass) : FString :=
  if classPtr.IsInBlueprint then classPtr.OuterName else classPtr.Name

/-- `AsfMissingActor::StaticClass()`. The declaration of the class is not in
the sources; the class object is identified by its name. -/
def AsfMissingActor.StaticClass : UClass := ⟨0, "sfMissingActor", false, ""⟩

/-- A native actor (`AActor`) as the actor manager reads it. `ClassName` is the
member of `AsfMissingActor` that `MissingClass()` returns; it is kept apart
from the reflected properties in `reflected`. -/
structure AActor where
  addr : UObjectAddr
  Class : UClass
  Name : FString
  ActorLabel : FString
  FolderPath : FString
  Level : ULevelAddr
  IsPendingKill : Bool
  IsSelected : Bool
  inTransientPackage : Bool
  ClassName : FString
  reflected : UObject

/-- `Cast<AsfMissingActor>(actorPtr) != nullptr`. -/
def AActor.isMissingActor (a : AActor) : Bool :=
  decide (a.Class = AsfMissingActor.StaticClass)

/-- `AsfMissingActor::MissingClass` (sfMissingActor.cpp). -/
def AsfMissingActor.MissingClass (a : AActor) : FString := a.ClassName

/-! ### Calls to the session, the service and the engine -/

/-- A call that a manager makes to the session, the service, an object of the
session or the engine, as it is recorded in the order of the calls. -/
inductive Effect where
  | LeaveSession
  | Error (message : String)
  | Warning (message : String)
  | Delete (objPtr : sfObjectAddr)
  | Create (objects : List sfObjectAddr) (parentPtr : Option sfObjectAddr) (index : Nat)
  | RequestLock (objPtr : sfObjectAddr)
  | ReleaseLock (objPtr : sfObjectAddr)
  | AddChild (parentPtr childPtr : sfObjectAddr)
  | SpawnActor (classPtr : UClass) (levelPtr : ULevelAddr)
  | AddStandIn (actorPtr : UObjectAddr)
  | Rename (uobjPtr : UObjectAddr) (name : FString)
  | DetachFromActor (actorPtr : UObjectAddr)
  | AttachToComponent (uobjPtr parentPtr : UObjectAddr)
  | DestroyActor (actorPtr : UObjectAddr)
  | DestroyComponent (componentPtr : UObjectAddr)
  | SyncTransform (actorPtr : UObjectAddr)
  | SyncComponents (actorPtr : UObjectAddr) (objPtr : sfObjectAddr)
  | SyncComponentTransforms (actorPtr : UObjectAddr)
  | LoadAssetsFor (objPtr : sfObjectAddr)
  | InitializeComponent (actorPtr : UObjectAddr) (objPtr : sfObjectAddr)
  | Reattach (componentPtr : UObjectAddr) (objPtr : sfObjectAddr)
  | FindAndAttachChildren (objects : List sfObjectAddr)
deriving DecidableEq, Repr

/-- The static `sfObjectMap`, the members of `sfActorManager` that the modelled
functions use, and the calls made so far. `m_selectedActors` is a `std::map`
from actor to object, kept in key order by `dictSet`. -/
structure State where
  objectMap : sfObjectMap
  m_numSyncedActors : Int
  m_uploadList : List UObjectAddr
  m_recreateQueue : List sfObjectAddr
  m_selectedActors : List (UObjectAddr × sfObjectAddr)
  m_movingActors : Bool
  m_movedActors : List UObjectAddr
  effects : List Effect
deriving DecidableEq, Repr

/-- The state with one more call recorded. -/
def State.log (s : State) (e : Effect) : State := { s with effects := s.effects ++ [e] }

/-- What the modelled functions read of code and state outside the actor
manager: the session of the service, `sfUtils::LoadClass` (engine lookups),
`sfActorUtil::FindActorWithNameInLevel`, the members of `sfLevelManager` that
its lookups read (`PersistentLevel` is `m_worldPtr->PersistentLevel`), the
dynamic casts to `AActor`, `UActorComponent` and `USceneComponent`,
`IsPendingKill()` of a native (which can depend on the calls made so far), and
the actor that `SpawnActor` allocates. -/
structure Engine where
  Session : Option StringTable
  LoadClass : FString → Option UClass
  FindActorWithNameInLevel : ULevelAddr → FString → Option AActor
  m_levelToObjectMap : List (ULevelAddr × sfObjectAddr)
  m_objectToLevelMap : List (sfObjectAddr × ULevelAddr)
  m_levelsWaitingForChildren : List sfObjectAddr
  PersistentLevel : Option ULevelAddr
  isActor : UObjectAddr → Bool
  isComponent : UObjectAddr → Bool
  isSceneComponent : UObjectAddr → Bool
  IsPendingKill : List Effect → UObjectAddr → Bool
  spawnAddr : UObjectAddr
  spawnName : FString
  spawnReflected : UClass → UObject

/-! ### sfLevelManager.cpp: lookups -/

namespace sfLevelManager

/-- `sfLevelManager::GetLevelObject` for a level that is not null. -/
def GetLevelObject (E : Engine) (levelPtr : ULevelAddr) : Option sfObjectAddr :=
  mapFind E.m_levelToObjectMap levelPtr

/-- `sfLevelManager::FindLevelByObject`; the warning for a level object that
is not in the map is not recorded. -/
def FindLevelByObject (E : Engine) (levelObjPtr : sfAncestor) : Option ULevelAddr :=
  if levelObjPtr.type ≠ sfType.Level then none
  else
    match mapFind E.m_objectToLevelMap levelObjPtr.addr with
    | some l => some l
    | none => E.PersistentLevel

/-- `sfLevelManager::IsLevelObjectInitialized`. -/
def IsLevelObjectInitialized (E : Engine) (levelPtr : ULevelAddr) : Bool :=
  match GetLevelObject E levelPtr with
  | some levelObjPtr => !E.m_levelsWaitingForChildren.contains levelObjPtr
  | none => false

end sfLevelManager

/-- `sfObjectMap::Get<AActor>`: the native of the object when it is an actor. -/
def GetActor (E : Engine) (m : sfObjectMap) (objPtr : Option sfObjectAddr) : Option UObjectAddr :=
  match m.GetUObject objPtr with
  | some u => if E.isActor u then some u else none
  | none => none

/-- `sfObjectMap::Get<USceneComponent>`: the native of the object when it is
a scene component. -/
def GetSceneComponent (E : Engine) (m : sfObjectMap) (objPtr : Option sfObjectAddr) :
    Option UObjectAddr :=
  match m.GetUObject objPtr with
  | some u => if E.isSceneComponent u then some u else none
  | none => none

/-! ### sfActorManager.cpp: OnCreate, InitializeActor, OnParentChange -/

namespace sfActorManager

/-- `sfActorManager::LogNoParentErrorAndDisconnect`. The message is built
from `objPtr->Property()->AsDict()->Get(sfProp::Name)->ToString()` before
`LeaveSession` is called: `none` when the property of the object is not a
dictionary or the dictionary has no `#name` entry, where the C++ dereferences
null. The string form of the entry, which the library makes, is left out of the
recorded message. -/
def LogNoParentErrorAndDisconnect (s : State) (objPtr : sfObject) : Option State :=
  match objPtr.Property.AsDict with
  | none => none
  | some propertiesPtr =>
      match dictGet propertiesPtr sfProp.Name with
      | none => none
      | some _ =>
          some ((s.log
            (Effect.Error "Disconnecting because no parent object was found for actor")).log
            Effect.LeaveSession)

/-- `sfActorManager::DetachIfParentIsLevel`; the caller has checked that the
parent is not null. -/
def DetachIfParentIsLevel (s : State) (parent : sfAncestor) (actorPtr : UObjectAddr) :
    Bool × State :=
  if parent.type = sfType.Level then (true, s.log (Effect.DetachFromActor actorPtr))
  else (false, s)

/-- The actor found by name that `InitializeActor` reuses: none when it is
pending kill, is in the map already, or the class was loaded and is not the
class of the actor. -/
def reusedActor (s : State) (classPtr : Option UClass) (found : Option AActor) : Option AActor :=
  match found with
  | none => none
  | some a =>
      if a.IsPendingKill then none
      else if s.objectMap.ContainsUObject (some a.addr) ||
          (match classPtr with
            | some c => decide (a.Class ≠ c)
            | none => false) then none
      else some a

/-- `sfActorManager::InitializeActor`: the state afterwards and the returned
actor; `none` when the property of the object is not a dictionary or `ToString`
is not modelled on the class or name entry. After `sfObjectMap::Add` the C++
sets folder, label and name of the actor, applies the properties, sets the
references, initialises the components (which adds their entries to the map)
and the lock indication; of these the model keeps the increment of
`m_numSyncedActors` only. Brush and landscape handling are left out. -/
def InitializeActor (E : Engine) (s : State) (objPtr : sfObject) (levelPtr : ULevelAddr) :
    Option (State × AActor) :=
  match objPtr.Property.AsDict with
  | none => none
  | some propertiesPtr =>
      match ToString E.Session (dictGet propertiesPtr sfProp.Class),
          ToString E.Session (dictGet propertiesPtr sfProp.Name) with
      | some className, some name =>
          let classPtr := E.LoadClass className
          let found := E.FindActorWithNameInLevel levelPtr name
          let s1 : State :=
            match found with
            | some a =>
                if a.IsPendingKill then s.log (Effect.Rename a.addr (name ++ " (deleted)")) else s
            | none => s
          match reusedActor s classPtr found with
          | none =>
              let spawned : AActor :=
                { addr := E.spawnAddr
                  Class := classPtr.getD AsfMissingActor.StaticClass
                  Name := E.spawnName
                  ActorLabel := E.spawnName
                  FolderPath := ""
                  Level := levelPtr
                  IsPendingKill := false
                  IsSelected := false
                  inTransientPackage := false
                  ClassName := ""
                  reflected := E.spawnReflected (classPtr.getD AsfMissingActor.StaticClass) }
              let s2 := s1.log
                (Effect.SpawnActor (classPtr.getD AsfMissingActor.StaticClass) levelPtr)
              let actorPtr : AActor :=
                if classPtr.isNone then { spawned with ClassName := className } else spawned
              let s3 := if classPtr.isNone then s2.log (Effect.AddStandIn actorPtr.addr) else s2
              some ({ s3 with
                        objectMap := s3.objectMap.Add (some objPtr.addr) (some actorPtr.addr)
                        m_numSyncedActors := s3.m_numSyncedActors + 1 }, actorPtr)
          | some actorPtr =>
              let s2 := s1.log (Effect.DetachFromActor actorPtr.addr)
              let s3 : State :=
                if actorPtr.IsSelected then
                  { s2.log (Effect.RequestLock objPtr.addr) with
                    m_selectedActors := dictSet s2.m_selectedActors actorPtr.addr objPtr.addr }
                else s2
              some ({ s3 with
                        objectMap := s3.objectMap.Add (some objPtr.addr) (some actorPtr.addr)
                        m_numSyncedActors := s3.m_numSyncedActors + 1 }, actorPtr)
      | _, _ => none

/-- `sfActorManager::OnCreate`: the state afterwards, `none` when
`LogNoParentErrorAndDisconnect` or `InitializeActor` is undefined. -/
def OnCreate (E : Engine) (s : State) (objPtr : sfObject) (_childIndex : Int) : Option State :=
  match objPtr.Parent with
  | none => LogNoParentErrorAndDisconnect s objPtr
  | some parent =>
      match sfLevelManager.FindLevelByObject E ((objPtr.Ancestors.getLast?).getD parent) with
      | none => some s
      | some levelPtr =>
          match InitializeActor E s objPtr levelPtr with
          | none => none
          | some (s1, actorPtr) =>
              match DetachIfParentIsLevel s1 parent actorPtr.addr with
              | (true, s2) => some s2
              | (false, s2) =>
                  match GetSceneComponent E s2.objectMap (some parent.addr) with
                  | some parentPtr => some (s2.log (Effect.AttachToComponent actorPtr.addr parentPtr))
                  | none => some s2

/-- `sfActorManager::OnParentChange`: the state afterwards, `none` when
`LogNoParentErrorAndDisconnect` is undefined. -/
def OnParentChange (E : Engine) (s : State) (objPtr : sfObject) (_childIndex : Int) :
    Option State :=
  match GetActor E s.objectMap (some objPtr.addr) with
  | none => some s
  | some actorPtr =>
      match objPtr.Parent with
      | none => LogNoParentErrorAndDisconnect s objPtr
      | some parent =>
          match DetachIfParentIsLevel s parent actorPtr with
          | (true, s1) => some s1
          | (false, s1) =>
              match GetSceneComponent E s1.objectMap (some parent.addr) with
              | some parentPtr => some (s1.log (Effect.AttachToComponent actorPtr parentPtr))
              | none => some s1

end sfActorManager

/-! ### sfComponentManager.cpp: OnCreate, OnParentChange -/

namespace sfComponentManager

/-- The loop at the head of `sfComponentManager::OnCreate`: the nearest
ancestor of type `Actor`. -/
def actorAncestor : List sfAncestor → Option sfAncestor
  | [] => none
  | a :: rest => if a.type ≠ sfType.Actor then actorAncestor rest else some a

/-- `sfComponentManager::OnCreate`. What follows the lookup of the actor
(`InitializeComponent`, the choice of the root component, attaching) is
recorded as one call of `InitializeComponent`. -/
def OnCreate (E : Engine) (s : State) (objPtr : sfObject) (_childIndex : Int) : State :=
  match actorAncestor objPtr.Ancestors with
  | none => s.log (Effect.Warning "Component object cannot be created without an actor ancestor.")
  | some actorObjPtr =>
      match GetActor E s.objectMap (some actorObjPtr.addr) with
      | none => s
      | some actorPtr => s.log (Effect.InitializeComponent actorPtr objPtr.addr)

/-- `sfComponentManager::OnParentChange`. What follows the lookup of the
component (the choice of the native parent and of the root component, a nested
`OnCreate` of the parent object when its component is pending kill, attaching
or detaching) is recorded as the one call `Reattach`. -/
def OnParentChange (E : Engine) (s : State) (objPtr : sfObject) (_childIndex : Int) : State :=
  match objPtr.Parent with
  | none =>
      s.log (Effect.Warning
        "Component became a root object. Components should always have a component or actor parent.")
  | some _ =>
      match GetSceneComponent E s.objectMap (some objPtr.addr) with
      | none => s
      | some componentPtr => s.log (Effect.Reattach componentPtr objPtr.addr)

end sfComponentManager

namespace sfActorManager

/-! ### sfActorManager.cpp: CreateObject -/

/-- The object that `sfObjectMap::GetOrCreateSFObject(uobjPtr, sfType::Actor)`
returns: the object that the map holds for the native, read by `deref`, or a
new object at the address `created`, not syncing and with an empty
dictionary. -/
def actorObject (deref : sfObjectAddr → sfObject) (created : sfObjectAddr) (m : sfObjectMap)
    (uobjPtr : UObjectAddr) : sfObject :=
  match m.GetSFObject (some uobjPtr) with
  | some o => deref o
  | none => sfObject.mk created sfType.Actor false false (sfProperty.dictionary []) [] []

/-- `sfActorManager::CreateObject`: the state afterwards and the returned
object (`none` for `nullptr`); the outer `none` when the property of the object
is not a dictionary. `deref` reads the object that the map holds for the
actor, `created` is the address of the object that `sfObject::Create` returns
when the map holds none. The objects of the components, which the C++ creates
and adds as children after `CreateProperties`, and the lock indication are
left out. -/
def CreateObject (E : Engine) (lists : SyncLists)
    (Identical : UPropType → UValue → UValue → Bool) (deref : sfObjectAddr → sfObject)
    (created : sfObjectAddr) (s : State) (actorPtr : AActor) :
    Option (State × Option sfObject) :=
  if !sfLevelManager.IsLevelObjectInitialized E actorPtr.Level then some (s, none)
  else
    let r := s.objectMap.GetOrCreateSFObject (some actorPtr.addr) created
    let objPtr : sfObject := actorObject deref created s.objectMap actorPtr.addr
    let s0 : State := { s with objectMap := r.2 }
    if objPtr.IsSyncing then some (s0, none)
    else
      match objPtr.Property.AsDict with
      | none => none
      | some propertiesPtr =>
          let s1 : State :=
            if actorPtr.IsSelected then
              { s0.log (Effect.RequestLock objPtr.addr) with
                m_selectedActors := dictSet s0.m_selectedActors actorPtr.addr objPtr.addr }
            else s0
          let s2 : State :=
            if actorPtr.isMissingActor then s1.log (Effect.AddStandIn actorPtr.addr) else s1
          let className : FString :=
            if actorPtr.isMissingActor then AsfMissingActor.MissingClass actorPtr
            else ClassToFString actorPtr.Class
          let d1 := dictSet propertiesPtr sfProp.Name (FromString E.Session actorPtr.Name)
          let d2 := dictSet d1 sfProp.Class (FromString E.Session className)
          let d3 := dictSet d2 sfProp.Label (FromString E.Session actorPtr.ActorLabel)
          let d4 := dictSet d3 sfProp.Folder (FromString E.Session actorPtr.FolderPath)
          match CreateProperties lists Identical (some actorPtr.reflected) (some d4) none with
          | none => none
          | some d5 =>
              some ({ s2 with m_numSyncedActors := s2.m_numSyncedActors + 1 },
                some (objPtr.withProperty (sfProperty.dictionary d5)))

/-! ### sfActorManager.cpp: OnActorDeleted, CleanUpChildrenOfDeletedObject, OnDelete -/

/-- `sfObjectMap::Get<UActorComponent>`: the native of the object when it is a
component. -/
def GetComponent (E : Engine) (m : sfObjectMap) (objPtr : Option sfObjectAddr) :
    Option UObjectAddr :=
  match m.GetUObject objPtr with
  | some u => if E.isComponent u then some u else none
  | none => none

/-- The state after `sfObjectMap::Remove(childPtr)`; the counter of synced
actors is decremented when `countActor` is set and the object was in the
map. -/
def removeChild (s : State) (childPtr : sfObjectAddr) (countActor : Bool) : State :=
  { s with
    objectMap := (s.objectMap.RemoveSFObject (some childPtr)).2
    m_numSyncedActors :=
      if countActor && (s.objectMap.RemoveSFObject (some childPtr)).1.isSome then
        s.m_numSyncedActors - 1
      else s.m_numSyncedActors }

mutual
/-- `sfActorManager::CleanUpChildrenOfDeletedObject`. -/
def CleanUpChildrenOfDeletedObject (E : Engine) (levelObjPtr : Option sfObjectAddr)
    (recurseChildActors : Bool) : sfObject → State → State
  | .mk _ _ _ _ _ _ cs, s => CleanUpChildrenOfDeletedObject.loop E levelObjPtr recurseChildActors cs s
termination_by structural o => o
/-- The loop of `CleanUpChildrenOfDeletedObject` over the children, which runs
from the last child to the first: the children after the head are handled
before it. -/
def CleanUpChildrenOfDeletedObject.loop (E : Engine) (levelObjPtr : Option sfObjectAddr)
    (recurseChildActors : Bool) : List sfObject → State → State
  | [], s => s
  | childPtr :: rest, s =>
      let s0 := CleanUpChildrenOfDeletedObject.loop E levelObjPtr recurseChildActors rest s
      if childPtr.Type = sfType.Actor then
        let childActorPtr := GetActor E s0.objectMap (some childPtr.addr)
        if recurseChildActors ||
            (match childActorPtr with
              | some u => E.IsPendingKill s0.effects u
              | none => false) then
          let s1 : State :=
            match childActorPtr with
            | some u => if !E.IsPendingKill s0.effects u then s0.log (Effect.DestroyActor u) else s0
            | none => s0
          CleanUpChildrenOfDeletedObject E levelObjPtr recurseChildActors childPtr
            (removeChild s1 childPtr.addr true)
        else
          match levelObjPtr with
          | some l =>
              let s1 := s0.log (Effect.AddChild l childPtr.addr)
              match childActorPtr with
              | some u => s1.log (Effect.SyncTransform u)
              | none => s1
          | none => s0
      else
        let componentPtr := GetComponent E s0.objectMap (some childPtr.addr)
        let s1 : State :=
          match componentPtr with
          | some u =>
              if !E.IsPendingKill s0.effects u then s0.log (Effect.DestroyComponent u) else s0
          | none => s0
        CleanUpChildrenOfDeletedObject E levelObjPtr recurseChildActors childPtr
          (removeChild s1 childPtr.addr false)
termination_by structural l => l
end

/-- `sfActorManager::OnDelete`. -/
def OnDelete (E : Engine) (s : State) (objPtr : sfObject) : State :=
  let r := s.objectMap.RemoveSFObject (some objPtr.addr)
  let s0 : State := { s with objectMap := r.2 }
  match r.1 with
  | none => s0
  | some u =>
      if E.isActor u then
        (CleanUpChildrenOfDeletedObject E none true objPtr
          { s0 with m_numSyncedActors := s0.m_numSyncedActors - 1 }).log (Effect.DestroyActor u)
      else s0

/-- `sfActorManager::OnActorDeleted`. `deref` reads the object that the map
holds for the actor. -/
def OnActorDeleted (E : Engine) (deref : sfObjectAddr → sfObject) (s : State)
    (actorPtr : AActor) : State :=
  if actorPtr.inTransientPackage then s
  else
    let r := s.objectMap.RemoveUObject (some actorPtr.addr)
    let s0 : State := { s with objectMap := r.2 }
    let s1 : State :=
      match r.1 with
      | none => s0
      | some o =>
          if (deref o).IsSyncing then
            let s' : State := { s0 with m_numSyncedActors := s0.m_numSyncedActors - 1 }
            if (deref o).IsLocked then
              let s'' := CleanUpChildrenOfDeletedObject E none false (deref o)
                (s'.log (Effect.ReleaseLock o))
              { s'' with m_recreateQueue := s''.m_recreateQueue ++ [o] }
            else
              (CleanUpChildrenOfDeletedObject E (sfLevelManager.GetLevelObject E actorPtr.Level) false
                (deref o) s').log (Effect.Delete o)
          else s0
    { s1 with
      m_uploadList := s1.m_uploadList.filter (fun a => a != actorPtr.addr)
      m_selectedActors := dictRemove s1.m_selectedActors actorPtr.addr
      m_movingActors :=
        if (dictRemove s1.m_selectedActors actorPtr.addr).length = 0 then false
        else s1.m_movingActors
      m_movedActors := s1.m_movedActors.filter (fun a => a != actorPtr.addr) }

/-- The loop of `sfActorManager::RecreateLockedActors` over the queue. -/
def RecreateLockedActors.loop (E : Engine) (deref : sfObjectAddr → sfObject) :
    List sfObjectAddr → State → Option State
  | [], s => some s
  | o :: rest, s =>
      if ({ s with m_recreateQueue := rest } : State).objectMap.ContainsSFObject (some o) then
        RecreateLockedActors.loop E deref rest { s with m_recreateQueue := rest }
      else
        match OnCreate E { s with m_recreateQueue := rest } (deref o) 0 with
        | none => none
        | some s1 => RecreateLockedActors.loop E deref rest s1

/-- `sfActorManager::RecreateLockedActors`; `none` when an `OnCreate` is
undefined. -/
def RecreateLockedActors (E : Engine) (deref : sfObjectAddr → sfObject) (s : State) :
    Option State :=
  RecreateLockedActors.loop E deref s.m_recreateQueue s

/-! ### sfActorManager.cpp: UpdateSelection -/

/-- The calls of the first loop of `UpdateSelection` for one tracked actor,
before the selection is tested. `SyncComponentTransforms` is recorded as a
call. `sfComponentManager::SyncComponents` is recorded and then run as the
parameter `SyncComponents`, a function on the whole state, because it comes
back into the actor manager: `Upload` of a new component reaches
`sfActorManager::CreateObject` (sfComponentManager.cpp 87, 288, 422) and
`RestoreDeletedComponents` reaches `InitializeActor` (63, 129, 639), and both
request a lock for a selected actor and enter it in `m_selectedActors`. -/
def UpdateSelection.sync (SyncComponents : State → UObjectAddr → sfObjectAddr → State)
    (s : State) (actorPtr : UObjectAddr) (objPtr : sfObjectAddr) : State :=
  SyncComponents
    ((if s.m_movingActors then
      { s.log (Effect.SyncComponentTransforms actorPtr) with
        m_movedActors := s.m_movedActors.filter (fun a => a != actorPtr) }
    else s).log (Effect.SyncComponents actorPtr objPtr))
    actorPtr objPtr

/-- The entry at which the iterator of the first loop stands: the first entry
of the map when no entry was handled yet, and otherwise the first entry, in key
order, after the key `last` of the entry handled before; `none` at the end of
the map. -/
def UpdateSelection.next (tracked : List (UObjectAddr × sfObjectAddr)) :
    Option UObjectAddr → Option (UObjectAddr × sfObjectAddr)
  | none => tracked.head?
  | some last => tracked.find? (fun p => decide (last < p.1))

/-- The first loop of `UpdateSelection`. It walks `m_selectedActors` with an
iterator while `SyncComponents` can add entries, so each step reads the map as
it is then. `iter->second->ReleaseLock()` and `erase(iter++)` follow the call
of `SyncComponents`. `fuel` bounds the number of entries handled; the result is
`none` when it runs out, and when the entry of the iterator is no longer in the
map after `SyncComponents`. -/
def UpdateSelection.release (SyncComponents : State → UObjectAddr → sfObjectAddr → State)
    (selectedActors : List UObjectAddr) : Nat → Option UObjectAddr → State → Option State
  | 0, _, _ => none
  | fuel + 1, last, s =>
      match UpdateSelection.next s.m_selectedActors last with
      | none => some s
      | some (actorPtr, objPtr) =>
          match dictGet (UpdateSelection.sync SyncComponents s actorPtr objPtr).m_selectedActors
              actorPtr with
          | none => none
          | some objPtr1 =>
              if !selectedActors.contains actorPtr then
                UpdateSelection.release SyncComponents selectedActors fuel (some actorPtr)
                  { (UpdateSelection.sync SyncComponents s actorPtr objPtr).log
                      (Effect.ReleaseLock objPtr1) with
                    m_selectedActors :=
                      dictRemove
                        (UpdateSelection.sync SyncComponents s actorPtr objPtr).m_selectedActors
                        actorPtr }
              else
                UpdateSelection.release SyncComponents selectedActors fuel (some actorPtr)
                  (UpdateSelection.sync SyncComponents s actorPtr objPtr)

/-- The second loop of `UpdateSelection`, over the selected actors. The work
of `sfLoader::LoadAssetsFor` is recorded as one call. -/
def UpdateSelection.request (deref : sfObjectAddr → sfObject) :
    List UObjectAddr → State → State
  | [], s => s
  | actorPtr :: rest, s =>
      if (dictGet s.m_selectedActors actorPtr).isSome then
        UpdateSelection.request deref rest s
      else
        match s.objectMap.GetSFObject (some actorPtr) with
        | some objPtr =>
            if (deref objPtr).IsSyncing then
              let s1 : State :=
                { s.log (Effect.RequestLock objPtr) with
                  m_selectedActors := dictSet s.m_selectedActors actorPtr objPtr }
              UpdateSelection.request deref rest
                (if s1.m_movingActors then s1.log (Effect.LoadAssetsFor objPtr) else s1)
            else UpdateSelection.request deref rest s
        | none => UpdateSelection.request deref rest s

/-- `sfActorManager::UpdateSelection`. `selectedActors` is the set that
`sfDetailsPanelManager::GetSelectedActors` returns, in its iteration order;
`deref` reads the objects when the second loop runs. `none` when the first loop
is undefined or `fuel` is less than the number of entries it handles. -/
def UpdateSelection (SyncComponents : State → UObjectAddr → sfObjectAddr → State)
    (deref : sfObjectAddr → sfObject) (selectedActors : List UObjectAddr) (fuel : Nat)
    (s : State) : Option State :=
  match UpdateSelection.release SyncComponents selectedActors fuel none s with
  | none => none
  | some s1 => some (UpdateSelection.request deref selectedActors s1)

end sfActorManager

/-! ### Sample data for the concrete instances -/

/-- A string table with two strings, "PluginActor" under id 7 and "Cube"
under id 3; every other string has id 0. -/
def sampleTable : StringTable where
  GetStringTableId := fun s => if s = "PluginActor" then 7 else if s = "Cube" then 3 else 0
  GetStringFromTable := fun id => if id = 7 then "PluginActor" else if id = 3 then "Cube" else ""

/-- A native object without properties. -/
def sampleUObject : UObject := ⟨500, false, []⟩

/-- An engine in which no class can be loaded, `found` is the actor that the
level holds under every name, level 1 has the level object 10, the natives 20
to 29 are actors and the natives from 30 are scene components, and nothing is
pending kill. -/
def sampleEngine (found : Option AActor) : Engine where
  Session := some sampleTable
  LoadClass := fun _ => none
  FindActorWithNameInLevel := fun _ _ => found
  m_levelToObjectMap := [(1, 10)]
  m_objectToLevelMap := [(10, 1)]
  m_levelsWaitingForChildren := []
  PersistentLevel := some 1
  isActor := fun u => decide (20 ≤ u ∧ u < 30)
  isComponent := fun u => decide (30 ≤ u)
  isSceneComponent := fun u => decide (30 ≤ u)
  IsPendingKill := fun _ _ => false
  spawnAddr := 29
  spawnName := "Actor_0"
  spawnReflected := fun _ => sampleUObject

/-- The state before anything is synced. -/
def emptyState : State := ⟨⟨[], []⟩, 0, [], [], [], false, [], []⟩

/-- A live actor of class `StaticMeshActor` named "Cube" in level 1. -/
def sampleActor : AActor where
  addr := 21
  Class := ⟨5, "StaticMeshActor", false, ""⟩
  Name := "Cube"
  ActorLabel := "Cube"
  FolderPath := ""
  Level := 1
  IsPendingKill := false
  IsSelected := false
  inTransientPackage := false
  ClassName := ""
  reflected := sampleUObject

/-- An actor object of the server with name "Cube" and class "PluginActor",
child of the level object 10. -/
def sampleActorObject : sfObject :=
  sfObject.mk 11 sfType.Actor true false
    (sfProperty.dictionary
      [(sfProp.Name, sfProperty.value (ksMultiType.UINT 3)),
        (sfProp.Class, sfProperty.value (ksMultiType.UINT 7))])
    [⟨10, sfType.Level⟩] []

/-- A stand-in actor in level 1 that records the class name "PluginActor". -/
def sampleStandIn : AActor where
  addr := 22
  Class := AsfMissingActor.StaticClass
  Name := "Cube"
  ActorLabel := "Cube"
  FolderPath := ""
  Level := 1
  IsPendingKill := false
  IsSelected := false
  inTransientPackage := false
  ClassName := "PluginActor"
  reflected := sampleUObject

/-- The call is a `Delete` request to the session. -/
def Effect.isDelete : Effect → Bool
  | .Delete _ => true
  | _ => false

/-- The call is `RequestLock` or `ReleaseLock` on an object. -/
def Effect.isLock : Effect → Bool
  | .RequestLock _ => true
  | .ReleaseLock _ => true
  | _ => false

/-- An actor object 11 with a component 12, which has the child actor object
14 with its component 15, and a second component 13. -/
def sampleTree (IsLocked : Bool) : sfObject :=
  sfObject.mk 11 sfType.Actor true IsLocked (sfProperty.dictionary [])
    [⟨10, sfType.Level⟩]
    [sfObject.mk 12 sfType.Component true false (sfProperty.dictionary [])
        [⟨11, sfType.Actor⟩, ⟨10, sfType.Level⟩]
        [sfObject.mk 14 sfType.Actor true false (sfProperty.dictionary [])
          [⟨12, sfType.Component⟩, ⟨11, sfType.Actor⟩, ⟨10, sfType.Level⟩]
          [sfObject.mk 15 sfType.Component true false (sfProperty.dictionary [])
            [⟨14, sfType.Actor⟩, ⟨12, sfType.Component⟩, ⟨11, sfType.Actor⟩,
              ⟨10, sfType.Level⟩] []]],
      sfObject.mk 13 sfType.Component true false (sfProperty.dictionary [])
        [⟨11, sfType.Actor⟩, ⟨10, sfType.Level⟩] []]

/-- Every address reads as the root of `sampleTree`. -/
def sampleObjects (IsLocked : Bool) : sfObjectAddr → sfObject := fun _ => sampleTree IsLocked

/-- A state in which the objects of `sampleTree` are mapped: the actor objects
11 and 14 to the actors 21 and 22, the component objects 12, 13 and 15 to the
components 31, 33 and 32. -/
def sampleMappedState : State :=
  { emptyState with
    objectMap :=
      ⟨[(21, 11), (31, 12), (22, 14), (32, 15), (33, 13)],
        [(11, 21), (12, 31), (14, 22), (15, 32), (13, 33)]⟩
    m_numSyncedActors := 2 }

/-- The actor 21 of `sampleMappedState`, in level 1; `transient` says whether
it is in the transient package. -/
def sampleMappedActor (transient : Bool) : AActor :=
  { sampleActor with inTransientPackage := transient }

/-- The entry that a selected actor gets when it is newly tracked: the actor
is not tracked, the map holds an object for it and the object is syncing. -/
def newlyTracked (deref : sfObjectAddr → sfObject) (m : sfObjectMap)
    (tracked : List (UObjectAddr × sfObjectAddr)) (actorPtr : UObjectAddr) :
    Option (UObjectAddr × sfObjectAddr) :=
  if (dictGet tracked actorPtr).isSome then none
  else
    match m.GetSFObject (some actorPtr) with
    | some objPtr => if (deref objPtr).IsSyncing then some (actorPtr, objPtr) else none
    | none => none

/-- A state in which the actors 21 and 23 are tracked with the objects 11 and
16, and the actors 21, 22 and 23 are mapped to the objects 11, 14 and 16. -/
def sampleSelectionState : State :=
  { emptyState with
    objectMap := ⟨[(21, 11), (22, 14), (23, 16)], [(11, 21), (14, 22), (16, 23)]⟩
    m_selectedActors := [(21, 11), (23, 16)]
    m_movingActors := true
    m_movedActors := [21] }

/-! ### SceneFusion.cpp and sfActorManager.cpp: Tick -/

/-- A call made by `SceneFusion::Tick` or by `sfActorManager::Tick`, named
after the function that is called. `ServiceUpdate` is `Service->Update`, in
which the client library delivers the events of the server. -/
inductive Phase where
  | ServiceUpdate
  | ActivateMode
  | RehashProperties
  | BroadcastChangeEvents
  | SyncProperties
  | LevelManagerTick
  | UploadActors
  | UpdateSelection
  | SyncComponentTransforms (actorPtr : UObjectAddr)
  | RevertLockedFolders
  | RecreateLockedActors
  | SyncParent (actorPtr : UObjectAddr)
  | DeleteEmptyFolders
  | CollectGarbage
  | RebuildBSPIfNeeded
  | AvatarManagerTick
  | DrawViewport
deriving DecidableEq, Repr

/-- What a tick tests: whether the session is there and connected, which
managers are valid, and the members of `sfActorManager` and `SceneFusion` that
guard a call. `syncParents` are the actors of `m_syncParentList` that have a
syncing object. -/
structure TickInput where
  connected : Bool
  LevelManagerValid : Bool
  ActorManagerValid : Bool
  AvatarManagerValid : Bool
  m_uploadList : List UObjectAddr
  m_movedActors : List UObjectAddr
  revertFolderQueueEmpty : Bool
  syncParents : List UObjectAddr
  m_foldersToCheck : Nat
  m_collectGarbage : Bool
  m_redrawActiveViewport : Bool

/-- `sfActorManager::Tick`: the calls in their order. -/
def sfActorManager.Tick (i : TickInput) : List Phase :=
  (if i.m_uploadList.length > 0 then [Phase.UploadActors] else []) ++
    [Phase.UpdateSelection] ++
    i.m_movedActors.map Phase.SyncComponentTransforms ++
    (if !i.revertFolderQueueEmpty then [Phase.RevertLockedFolders] else []) ++
    [Phase.RecreateLockedActors] ++
    i.syncParents.map Phase.SyncParent ++
    (if i.m_foldersToCheck > 0 then [Phase.DeleteEmptyFolders] else []) ++
    (if i.m_collectGarbage then [Phase.CollectGarbage] else []) ++
    [Phase.RebuildBSPIfNeeded]

/-- `SceneFusion::Tick`: the calls in their order. -/
def Tick (i : TickInput) : List Phase :=
  [Phase.ServiceUpdate] ++
    (if i.connected then
      [Phase.ActivateMode, Phase.RehashProperties, Phase.BroadcastChangeEvents,
        Phase.SyncProperties, Phase.RehashProperties] ++
        (if i.LevelManagerValid then [Phase.LevelManagerTick] else []) ++
        (if i.ActorManagerValid then sfActorManager.Tick i else []) ++
        (if i.AvatarManagerValid then [Phase.AvatarManagerTick] else [])
    else []) ++
    (if i.m_redrawActiveViewport then [Phase.DrawViewport] else [])

/-- The place of a call in the order that the specification gives: uploads
flushed (0), selection reconciled (1), property and transform diffs sent (2),
server events applied (3), stale containers rehashed (4), change notifications
broadcast (5); `none` for a call that the specification does not name. -/
def specPhaseRank : Phase → Option Nat
  | .UploadActors => some 0
  | .UpdateSelection => some 1
  | .SyncProperties => some 2
  | .SyncComponentTransforms _ => some 2
  | .ServiceUpdate => some 3
  | .RehashProperties => some 4
  | .BroadcastChangeEvents => some 5
  | _ => none

/-- The numbers never decrease along the list. -/
def nondecreasing : List Nat → Bool
  | [] => true
  | [_] => true
  | a :: b :: rest => decide (a ≤ b) && nondecreasing (b :: rest)

/-- A tick of a connected session with all managers valid, one actor to upload
and one moved actor. -/
def sampleTick : TickInput :=
  ⟨true, true, true, true, [21], [22], true, [], 0, false, false⟩

/-! ### sfPropertyUtil.cpp: SyncProperty -/

/-- `UClass::FindPropertyByName` on the class of the entity: the first
property of the name, with the data that the entity holds for it. For a
property at depth 1 this is also what `sfPropertyUtil::FindUProperty` finds. -/
def FindPropertyByName (uobjPtr : UObject) (name : FName) : Option UField :=
  uobjPtr.fields.find? (fun f => f.prop.name == name)

/-- The fields with the data of the first property of the name replaced. -/
def writeField : List UField → FName → UValue → List UField
  | [], _, _ => []
  | f :: rest, name, v =>
      if f.prop.name == name then { f with value := v } :: rest
      else f :: writeField rest name v

/-- The entity with the data of the first property of the name replaced. -/
def UObject.write (uobjPtr : UObject) (name : FName) (v : UValue) : UObject :=
  { uobjPtr with fields := writeField uobjPtr.fields name v }

/-- `sfPropertyUtil::SyncProperty(objPtr, uobjPtr, upropPtr, applyServerValue)`:
the object and the entity afterwards, `none` when the setter is undefined on
the entry. `upropPtr` is the property with the data that the entity holds for
it. `OnUPropertyChange` is the answer of
`SceneFusion::ObjectEventDispatcher->OnUPropertyChange`, which calls the
manager registered for the type of the object; what that manager does besides
is not part of the model. The warning for a property without handler is not
recorded. -/
def SyncProperty (Identical : UPropType → UValue → UValue → Bool)
    (OnUPropertyChange : sfObject → UObject → UProperty → Bool)
    (objPtr : Option sfObject) (uobjPtr : UObject) (upropPtr : Option UField)
    (applyServerValue : Bool) : Option (Option sfObject × UObject) :=
  match upropPtr, objPtr with
  | some f, some obj =>
      match obj.Property with
      | .dictionary propertiesPtr =>
          if OnUPropertyChange obj uobjPtr f.prop then some (objPtr, uobjPtr)
          else if obj.IsLocked || applyServerValue then
            match dictGet propertiesPtr f.prop.name with
            | some propPtr =>
                match FindPropertyByName uobjPtr f.prop.name with
                | none => some (objPtr, uobjPtr)
                | some g =>
                    match SetValue (m_typeHandlers g.prop.type) g.value (some propPtr) with
                    | none => none
                    | some r => some (objPtr, uobjPtr.write f.prop.name r.2)
            | none =>
                some (objPtr, uobjPtr.write f.prop.name (SetToDefaultValue Identical uobjPtr f))
          else if IsDefaultValue Identical uobjPtr f then
            some (some (obj.withProperty
              (sfProperty.dictionary (dictRemove propertiesPtr f.prop.name))), uobjPtr)
          else
            match GetValue f with
            | none => some (objPtr, uobjPtr)
            | some propPtr =>
                match dictGet propertiesPtr f.prop.name with
                | none =>
                    some (some (obj.withProperty
                      (sfProperty.dictionary (dictSet propertiesPtr f.prop.name propPtr))),
                      uobjPtr)
                | some oldPropPtr =>
                    some (some (obj.withProperty
                      (sfProperty.dictionary (dictSet propertiesPtr f.prop.name
                        (if (Copy propPtr oldPropPtr).1 then (Copy propPtr oldPropPtr).2
                          else propPtr)))), uobjPtr)
      | _ => some (objPtr, uobjPtr)
  | _, _ => some (objPtr, uobjPtr)

/-- `sfPropertyUtil::SyncProperty(objPtr, uobjPtr, name, applyServerValue)` for
an entity that is not null; the warning for a name without property is not
recorded. -/
def SyncPropertyByName (Identical : UPropType → UValue → UValue → Bool)
    (OnUPropertyChange : sfObject → UObject → UProperty → Bool)
    (objPtr : Option sfObject) (uobjPtr : UObject) (name : FName)
    (applyServerValue : Bool) : Option (Option sfObject × UObject) :=
  match FindPropertyByName uobjPtr name with
  | none => some (objPtr, uobjPtr)
  | some f => SyncProperty Identical OnUPropertyChange objPtr uobjPtr (some f) applyServerValue

/-! ### sfLevelManager: OnUPropertyChange -/

/-- Index of the property name "LevelTransform" in the name table. -/
def FName.LevelTransform : FName := 2001

/-- `sfLevelManager::PROPERTY_BLACKLIST` (sfLevelManager.h). -/
def sfLevelManager.PROPERTY_BLACKLIST : List FName := [FName.LevelTransform]

/-- `sfLevelManager::OnUPropertyChange`: the returned flag. The ticker that it
registers for `DefaultGameMode` runs after the call and is not modelled. -/
def sfLevelManager.OnUPropertyChange (_objPtr : sfObject) (_uobjPtr : UObject)
    (upropPtr : UProperty) : Bool :=
  decide (upropPtr.name ∈ sfLevelManager.PROPERTY_BLACKLIST)

/-- A vector of three floats (`FVector`), with field names 1 to 3. -/
def FVector : UPropType :=
  UPropType.StructProperty
    [(1, UPropType.FloatProperty), (2, UPropType.FloatProperty), (3, UPropType.FloatProperty)]

/-- A vector value from three IEEE bit patterns. -/
def FVector.mk (x y z : Nat) : UValue :=
  UValue.struct [(1, UValue.float x), (2, UValue.float y), (3, UValue.float z)]

/-- A streaming level entity whose only property is `LevelTransform`, here with
the translation of an `FTransform` as its data: value `(1.0, 0, 0)`, default
`(0, 0, 0)`. The property is editable. -/
def sampleStreamingLevel : UObject :=
  ⟨600, false,
    [⟨⟨FName.LevelTransform, CPF_Edit, some 600, FVector⟩,
      FVector.mk 0x3F800000 0 0, FVector.mk 0 0 0⟩]⟩

/-- A locked level object of the server with an empty dictionary. -/
def sampleLevelObject : sfObject :=
  sfObject.mk 10 sfType.Level true true (sfProperty.dictionary []) [] []

/-- An entity with a float property 3 (value 0, default 7.0 as bits `7`) and a
boolean property 4. -/
def sampleEntity : UObject :=
  ⟨100, false,
    [⟨⟨3, CPF_Edit, some 100, UPropType.FloatProperty⟩, UValue.float 0, UValue.float 7⟩,
      ⟨⟨4, CPF_Edit, some 100, UPropType.BoolProperty⟩, UValue.bool false, UValue.bool false⟩]⟩

/-- A locked actor object whose dictionary has the entry `true` for the
property 4 and none for the property 3. -/
def sampleLockedObject : sfObject :=
  sfObject.mk 11 sfType.Actor true true
    (sfProperty.dictionary [(4, sfProperty.value (ksMultiType.BOOL true))]) [⟨10, sfType.Level⟩] []

/-! ### sfComponentManager.cpp: SyncParent -/

/-- What `sfComponentManager::SyncParent` reads and does not change: the map,
the dynamic casts, the root component of an actor, the attach parent of a
scene component, and `IsSyncing()`, `IsLocked()` and `Type()` of an object. -/
structure Natives where
  objectMap : sfObjectMap
  isComponent : UObjectAddr → Bool
  isSceneComponent : UObjectAddr → Bool
  GetRootComponent : UObjectAddr → Option UObjectAddr
  GetAttachParent : UObjectAddr → Option UObjectAddr
  IsSyncing : sfObjectAddr → Bool
  IsLocked : sfObjectAddr → Bool
  typeOf : sfObjectAddr → sfType

/-- The object tree as `SyncParent` changes it: `Parent()` of each object that
has one, the objects whose dictionary holds `#isRoot` with value true, and the
calls made so far. -/
structure ComponentState where
  parents : List (sfObjectAddr × sfObjectAddr)
  isRoot : List sfObjectAddr
  effects : List Effect
deriving DecidableEq, Repr

/-- The state with one more call recorded. -/
def ComponentState.log (s : ComponentState) (e : Effect) : ComponentState :=
  { s with effects := s.effects ++ [e] }

/-- The walk of `sfObject::IsDescendantOf` up the parents, bounded by the
number of entries of the parent map. -/
def IsDescendantOf.walk (parents : List (sfObjectAddr × sfObjectAddr)) :
    Nat → Option sfObjectAddr → sfObjectAddr → Bool
  | 0, _, _ => false
  | _ + 1, none, _ => false
  | n + 1, some p, ancestor =>
      if p = ancestor then true else IsDescendantOf.walk parents n (mapFind parents p) ancestor

/-- `objPtr->IsDescendantOf(ancestor)` of the client library: `ancestor` is
reached from `objPtr` by one or more `Parent()` steps. -/
def IsDescendantOf (parents : List (sfObjectAddr × sfObjectAddr)) (objPtr ancestor : sfObjectAddr) :
    Bool :=
  IsDescendantOf.walk parents (parents.length + 1) (mapFind parents objPtr) ancestor

/-- `parentPtr->AddChild(objPtr)` of the client library: the object gets the
new parent, whatever its old parent was. The library makes no check of its
own: by the comment in the loop of `SyncParent`, adding the child while the
parent is its descendant "creates a cyclic loop". -/
def AddChild (s : ComponentState) (parentPtr objPtr : sfObjectAddr) : ComponentState :=
  { s with parents := mapSet s.parents objPtr parentPtr }

/-- `sfObjectMap::Get<UActorComponent>` on the map of `Natives`. -/
def GetComponentOf (N : Natives) (objPtr : Option sfObjectAddr) : Option UObjectAddr :=
  match N.objectMap.GetUObject objPtr with
  | some u => if N.isComponent u then some u else none
  | none => none

/-- `sfObjectMap::Get<USceneComponent>` on the map of `Natives`. -/
def GetSceneComponentOf (N : Natives) (objPtr : Option sfObjectAddr) : Option UObjectAddr :=
  match N.objectMap.GetUObject objPtr with
  | some u => if N.isSceneComponent u then some u else none
  | none => none

/-- The native parent that `SyncParent` looks up: the actor for its root
component, otherwise the attach parent, or the actor when there is none. -/
def SyncParent.uparent (N : Natives) (actorPtr componentPtr : UObjectAddr) : UObjectAddr :=
  if N.GetRootComponent actorPtr = some componentPtr then actorPtr
  else (N.GetAttachParent componentPtr).getD actorPtr

mutual
/-- `sfComponentManager::SyncParent` for an actor and an object that are not
null: the state afterwards; `none` when the fuel is used up or a null parent
is dereferenced. The lock case calls `OnParentChange`, which changes natives
only and is recorded as the call `Reattach`. -/
def sfComponentManager.SyncParent (N : Natives) :
    Nat → UObjectAddr → UObjectAddr → sfObjectAddr → ComponentState → Option ComponentState
  | 0, _, _, _, _ => none
  | fuel + 1, actorPtr, componentPtr, objPtr, s =>
      if !N.isSceneComponent componentPtr then some s
      else
        match N.objectMap.GetSFObject (some (SyncParent.uparent N actorPtr componentPtr)) with
        | none => some s
        | some parentPtr =>
            if !N.IsSyncing parentPtr then some s
            else if mapFind s.parents objPtr ≠ some parentPtr then
              if N.IsLocked objPtr then
                some ((s.log (Effect.Reattach componentPtr objPtr)).log
                  (Effect.SyncTransform componentPtr))
              else
                let s1 : Option ComponentState :=
                  if N.GetRootComponent actorPtr = some componentPtr then
                    let s0 : ComponentState :=
                      { s with isRoot := objPtr :: s.isRoot.filter (fun o => o != objPtr) }
                    match GetSceneComponentOf N (mapFind s.parents parentPtr) with
                    | some parentCompPtr =>
                        some (s0.log (Effect.AttachToComponent componentPtr parentCompPtr))
                    | none => some s0
                  else
                    match mapFind s.parents objPtr with
                    | none => none
                    | some p =>
                        if N.typeOf p = sfType.Actor then
                          some { s with isRoot := s.isRoot.filter (fun o => o != objPtr) }
                        else some s
                match s1 with
                | none => none
                | some s1 =>
                    match sfComponentManager.SyncParent.loop N fuel actorPtr objPtr parentPtr
                        (some parentPtr) s1 with
                    | none => none
                    | some s2 =>
                        some ((AddChild s2 parentPtr objPtr).log
                          (Effect.SyncTransform componentPtr))
            else
              let wasRoot := decide (N.typeOf parentPtr = sfType.Actor) && s.isRoot.contains objPtr
              if wasRoot != decide (N.GetRootComponent actorPtr = some componentPtr) then
                if wasRoot then
                  some { s with isRoot := s.isRoot.filter (fun o => o != objPtr) }
                else some { s with isRoot := objPtr :: s.isRoot }
              else some s
termination_by structural fuel => fuel
/-- The `while` loop of `SyncParent`, from `currentPtr` on. -/
def sfComponentManager.SyncParent.loop (N : Natives) :
    Nat → UObjectAddr → sfObjectAddr → sfObjectAddr → Option sfObjectAddr → ComponentState →
      Option ComponentState
  | 0, _, _, _, _, _ => none
  | fuel + 1, actorPtr, objPtr, parentPtr, currentPtr, s =>
      if IsDescendantOf s.parents parentPtr objPtr && currentPtr != some objPtr then
        match currentPtr with
        | none => none
        | some current =>
            let r : Option ComponentState :=
              match GetComponentOf N (some current) with
              | some childPtr => sfComponentManager.SyncParent N fuel actorPtr childPtr current s
              | none => some s
            match r with
            | none => none
            | some s1 =>
                sfComponentManager.SyncParent.loop N fuel actorPtr objPtr parentPtr
                  (mapFind s1.parents current) s1
      else some s
termination_by structural fuel => fuel
end

/-- The natives of an actor 20 with the scene components 31, 32 and 33: the
root component is 33, 32 is attached to 33 and 31 is attached to 32. The actor
has the object 11, the components 31 and 32 have the objects 12 and 13, and
the component 33 has no object. All objects are syncing and unlocked. -/
def sampleNatives : Natives where
  objectMap := ⟨[(20, 11), (31, 12), (32, 13)], [(11, 20), (12, 31), (13, 32)]⟩
  isComponent := fun u => decide (30 ≤ u)
  isSceneComponent := fun u => decide (30 ≤ u)
  GetRootComponent := fun a => if a = 20 then some 33 else none
  GetAttachParent := fun c => if c = 31 then some 32 else if c = 32 then some 33 else none
  IsSyncing := fun _ => true
  IsLocked := fun _ => false
  typeOf := fun o => if o = 11 then sfType.Actor else sfType.Component

/-- The object tree before the natives of `sampleNatives` were rearranged: the
object 12 is the child of the actor object 11 and marked as root, the object
13 is the child of 12. -/
def sampleComponentState : ComponentState := ⟨[(12, 11), (13, 12)], [12], []⟩

/-! ### sfActorManager.cpp: IsSyncable, UploadActors -/

/-- What `sfActorManager::IsSyncable` reads of the engine for an actor, besides
`IsPendingKill()`: the actor is in the world of the editor, `bHiddenEdLayer`,
`IsEditable()`, `IsListedInSceneOutliner()`, the flag `RF_Transient`,
`FActorEditorUtils::IsABuilderBrush` and `IsA(AWorldSettings::StaticClass())`. -/
structure ActorFlags where
  inEditorWorld : Bool
  bHiddenEdLayer : Bool
  IsEditable : Bool
  IsListedInSceneOutliner : Bool
  RF_Transient : Bool
  IsABuilderBrush : Bool
  IsWorldSettings : Bool

/-- `sfActorManager::IsSyncable` for an actor that is not null. -/
def sfActorManager.IsSyncable (flags : ActorFlags) (actorPtr : AActor) : Bool :=
  flags.inEditorWorld && !flags.bHiddenEdLayer && flags.IsEditable &&
    flags.IsListedInSceneOutliner && !actorPtr.IsPendingKill && !flags.RF_Transient &&
    !flags.IsABuilderBrush && !flags.IsWorldSettings

/-- What `UploadActors` reads besides the state: the engine flags of an actor,
the attach parent of its root component (`none` without root component or
without attach parent), the objects and `IsFullyLocked()` as they are in a
state of the loop, and the address that `sfObject::Create` returns next in
that state. -/
structure UploadEnv where
  flags : AActor → ActorFlags
  attachParent : AActor → Option UObjectAddr
  deref : State → sfObjectAddr → sfObject
  IsFullyLocked : State → sfObjectAddr → Bool
  created : State → sfObjectAddr

/-- What one iteration of the loop of `UploadActors` does with its actor: it
is skipped before the parent is compared (not syncable, or no syncing parent
object), or its parent object is resolved to `parent` and `CreateObject`
returns `object`. -/
inductive Outcome where
  | skipped
  | resolved (parent : Option sfObjectAddr) (object : Option sfObjectAddr)
deriving DecidableEq, Repr

/-- The request that `UploadActors` sends for the collected objects, when
there are any: `m_sessionPtr->Create(objects, parentPtr, 0)` and
`FindAndAttachChildren(objects)`. -/
def UploadActors.flush (s : State) (objects : List sfObjectAddr)
    (parentPtr : Option sfObjectAddr) : State :=
  if objects.length > 0 then
    (s.log (Effect.Create objects parentPtr 0)).log (Effect.FindAndAttachChildren objects)
  else s

/-- The parent object that the loop of `UploadActors` resolves for an actor,
with the state after the calls made for it: `none` when the actor is skipped
(no parent object, or one that is not syncing), otherwise `currentParentPtr`
as it is compared with `parentPtr`, which is the level object after a detach
from a fully locked parent. -/
def UploadActors.resolve (E : Engine) (U : UploadEnv) (s : State) (actorPtr : AActor) :
    Option (State × Option sfObjectAddr) :=
  let currentParentPtr : Option sfObjectAddr :=
    match U.attachParent actorPtr with
    | none => sfLevelManager.GetLevelObject E actorPtr.Level
    | some parentComponentPtr => s.objectMap.GetSFObject (some parentComponentPtr)
  match currentParentPtr with
  | none => none
  | some current =>
      if !(U.deref s current).IsSyncing then none
      else if U.IsFullyLocked s current then
        some ((s.log (Effect.Warning "Failed to attach because it is fully locked")).log
          (Effect.DetachFromActor actorPtr.addr), sfLevelManager.GetLevelObject E actorPtr.Level)
      else some (s, some current)

/-- The warning for a fully locked parent reads
`parentComponentPtr->GetOwner()`, and `parentComponentPtr` is null when the
actor has no attach parent: the level object of such an actor is syncing and
fully locked. -/
def UploadActors.nullOwner (E : Engine) (U : UploadEnv) (s : State) (actorPtr : AActor) : Bool :=
  match U.attachParent actorPtr with
  | some _ => false
  | none =>
      match sfLevelManager.GetLevelObject E actorPtr.Level with
      | none => false
      | some current => (U.deref s current).IsSyncing && U.IsFullyLocked s current

/-- The loop of `sfActorManager::UploadActors`, with the final request: the
state afterwards and the outcome of each actor in input order; `none` when a
`CreateObject` is undefined or the warning dereferences a null
`parentComponentPtr`. -/
def UploadActors.loop (E : Engine) (lists : SyncLists)
    (Identical : UPropType → UValue → UValue → Bool) (U : UploadEnv) :
    List AActor → State → List sfObjectAddr → Option sfObjectAddr →
      Option (State × List Outcome)
  | [], s, objects, parentPtr => some (UploadActors.flush s objects parentPtr, [])
  | actorPtr :: rest, s, objects, parentPtr =>
      if !sfActorManager.IsSyncable (U.flags actorPtr) actorPtr then
        (UploadActors.loop E lists Identical U rest s objects parentPtr).map
          (fun r => (r.1, Outcome.skipped :: r.2))
      else if UploadActors.nullOwner E U s actorPtr then none
      else
        match UploadActors.resolve E U s actorPtr with
        | none =>
            (UploadActors.loop E lists Identical U rest s objects parentPtr).map
              (fun r => (r.1, Outcome.skipped :: r.2))
        | some (s1, currentParentPtr) =>
            let parentPtr1 := if parentPtr.isNone then currentParentPtr else parentPtr
            let s2 :=
              if currentParentPtr ≠ parentPtr1 then UploadActors.flush s1 objects parentPtr1
              else s1
            let objects2 := if currentParentPtr ≠ parentPtr1 then [] else objects
            match sfActorManager.CreateObject E lists Identical (U.deref s2) (U.created s2) s2
                actorPtr with
            | none => none
            | some (s3, objPtr) =>
                (UploadActors.loop E lists Identical U rest s3
                  (match objPtr with
                    | some o => objects2 ++ [o.addr]
                    | none => objects2)
                  (if currentParentPtr ≠ parentPtr1 then currentParentPtr else parentPtr1)).map
                  (fun r => (r.1, Outcome.resolved currentParentPtr (objPtr.map sfObject.addr)
                    :: r.2))

/-- `sfActorManager::UploadActors`. -/
def sfActorManager.UploadActors (E : Engine) (lists : SyncLists)
    (Identical : UPropType → UValue → UValue → Bool) (U : UploadEnv) (s : State)
    (actors : List AActor) : Option (State × List Outcome) :=
  UploadActors.loop E lists Identical U actors s [] none

/-- The `Create` requests among the calls: the objects and the parent of
each. -/
def createRequests : List Effect → List (List sfObjectAddr × Option sfObjectAddr)
  | [] => []
  | Effect.Create objects parentPtr _ :: rest => (objects, parentPtr) :: createRequests rest
  | _ :: rest => createRequests rest

/-- The created objects with their resolved parents, in the order of the
outcomes. -/
def uploadedOf : List Outcome → List (sfObjectAddr × Option sfObjectAddr)
  | [] => []
  | Outcome.resolved parent (some o) :: rest => (o, parent) :: uploadedOf rest
  | _ :: rest => uploadedOf rest

/-- The requests that the outcomes determine, from the objects collected so
far and the parent they are collected for. -/
def batches : List Outcome → List sfObjectAddr → Option sfObjectAddr →
    List (List sfObjectAddr × Option sfObjectAddr)
  | [], objects, parentPtr => if objects.length > 0 then [(objects, parentPtr)] else []
  | Outcome.skipped :: rest, objects, parentPtr => batches rest objects parentPtr
  | Outcome.resolved current obj :: rest, objects, parentPtr =>
      if current ≠ (if parentPtr.isNone then current else parentPtr) then
        (if objects.length > 0 then
            [(objects, if parentPtr.isNone then current else parentPtr)] else []) ++
          batches rest (obj.toList) current
      else batches rest (objects ++ obj.toList) (if parentPtr.isNone then current else parentPtr)

/-- An outcome with an object has a parent. -/
def Outcome.valid : Outcome → Prop
  | .resolved parent (some _) => parent.isSome = true
  | _ => True

/-- The created objects, in the order of the outcomes. -/
def createdOf (outs : List Outcome) : List sfObjectAddr := (uploadedOf outs).map Prod.fst

/-- The objects of the requests, each with the parent of its request, in the
order in which they are sent. -/
def sentObjects : List (List sfObjectAddr × Option sfObjectAddr) →
    List (sfObjectAddr × Option sfObjectAddr)
  | [] => []
  | (objects, parentPtr) :: rest => objects.map (fun o => (o, parentPtr)) ++ sentObjects rest

/-- An environment in which every actor is syncable, the actor 26 is attached
to the component 31 and the other actors to nothing, the objects below 50 are
syncing actor objects with an empty dictionary and the others are not syncing,
nothing is fully locked, and the objects are created at the addresses from 50
on, counted by the synced actors. -/
def sampleUploadEnv : UploadEnv where
  flags := fun _ => ⟨true, false, true, true, false, false, false⟩
  attachParent := fun a => if a.addr = 26 then some 31 else none
  deref := fun _ o =>
    sfObject.mk o sfType.Actor (decide (o < 50)) false (sfProperty.dictionary []) [] []
  IsFullyLocked := fun _ _ => false
  created := fun s => 50 + s.m_numSyncedActors.toNat

/-- A state in which the component 31 has the object 12 and no actor is
synced. -/
def sampleUploadState : State :=
  { emptyState with objectMap := ⟨[(31, 12)], [(12, 31)]⟩ }

/-- Four unmapped actors of level 1; the third is the actor 26. -/
def sampleUploadList : List AActor :=
  [{ sampleActor with addr := 24 }, { sampleActor with addr := 25 },
    { sampleActor with addr := 26 }, { sampleActor with addr := 27 }]

/-- The engine of `sampleEngine none` with a second level: level 2 has the
level object 17 and is waiting for its children. -/
def sampleUploadEngine : Engine :=
  { sampleEngine none with
    m_levelToObjectMap := [(1, 10), (2, 17)]
    m_objectToLevelMap := [(10, 1), (17, 2)]
    m_levelsWaitingForChildren := [17] }

/-- Three unmapped actors attached to nothing: the first and the third in
level 1, the second in level 2. -/
def sampleSplitList : List AActor :=
  [{ sampleActor with addr := 24 }, { sampleActor with addr := 25, Level := 2 },
    { sampleActor with addr := 27 }]

/-! ### sfObjectMap.cpp: the object of GetOrCreateSFObject -/

/-- `sfObject::Create(type, property)` of the client library as
`GetOrCreateSFObject` calls it: a new object at the address `created` with the
given type and property, not syncing, not locked, without parent and
children. -/
def sfObject.Create (created : sfObjectAddr) (type : sfType) (property : sfProperty) : sfObject :=
  sfObject.mk created type false false property [] []

/-- `sfDictionaryProperty::Create()`: an empty dictionary. -/
def sfDictionaryProperty.Create : sfProperty := sfProperty.dictionary []

/-- The object behind the pointer that `sfObjectMap::GetOrCreateSFObject(uobjPtr,
type)` returns: the object that the map holds for the native, read by `deref`,
or the object that `sfObject::Create(type, sfDictionaryProperty::Create())`
makes at the address `created`. -/
def sfObjectMap.GetOrCreateSFObject.object (deref : sfObjectAddr → sfObject) (m : sfObjectMap)
    (uobjPtr : Option UObjectAddr) (type : sfType) (created : sfObjectAddr) : Option sfObject :=
  match uobjPtr with
  | none => none
  | some u =>
      match mapFind m.m_uToSFObjectMap u with
      | some o => some (deref o)
      | none => some (sfObject.Create created type sfDictionaryProperty.Create)

/-! ### sfPropertyUtil.cpp: soft class and soft object references -/

/-- `sfPropertyUtil::GetSoftClass`. The data of the property, a
`TSoftClassPtr`, is given by its path; the empty path is the null pointer. -/
def GetSoftClass (Session : Option StringTable) (softClassPtr : FString) : sfProperty :=
  if softClassPtr = "" then sfProperty.null else FromString Session softClassPtr

/-- `sfPropertyUtil::SetSoftClass`: the returned flag and the path afterwards.
A null property clears the pointer, any other property stores the path
`ToString(propPtr)`; the function ends with `return true` on both branches. -/
def SetSoftClass (Session : Option StringTable) (_softClassPtr : FString) (propPtr : sfProperty) :
    Option (Bool × FString) :=
  if propPtr.Type = sfProperty.Types.NUL then some (true, "")
  else (ToString Session (some propPtr)).map (fun path => (true, path))

/-- What `SetSoftObject` reads of the engine and the session: the loaded
object of a path (`FSoftObjectPtr::Get`), the path of an object
(`FSoftObjectPath(UObject*)`, empty for null), the object of an id
(`Session()->GetObject`), the map, whether the asset registry has a valid
asset for a path, and what `sfLoader::Load` returns. -/
structure SoftObjectEnv where
  Get : FString → Option UObjectAddr
  PathOf : Option UObjectAddr → FString
  GetObject : Nat → Option sfObjectAddr
  objectMap : sfObjectMap
  IsValidAsset : FString → Bool
  Load : FString → FString → Option UObjectAddr

/-- `FString::Split(";", &className, &path)`: the parts before and after the
first `;`, `none` when there is none. -/
def splitAsset (str : FString) : Option (FString × FString) :=
  match str.toList.span (fun c => c != ';') with
  | (className, _ :: path) => some (String.mk className, String.mk path)
  | (_, []) => none

/-- `sfPropertyUtil::SetSoftObject`: the returned flag and the path of the
soft pointer afterwards. The warning for a string without `;` is not
recorded. -/
def SetSoftObject (Session : Option StringTable) (env : SoftObjectEnv) (softObjectPtr : FString)
    (propPtr : sfProperty) : Option (Bool × FString) :=
  match propPtr with
  | .null => some (true, "")
  | .reference objId =>
      let referencePtr := env.objectMap.GetUObject (env.GetObject objId)
      if referencePtr ≠ env.Get softObjectPtr then some (true, env.PathOf referencePtr)
      else some (false, softObjectPtr)
  | _ =>
      match ToString Session (some propPtr) with
      | none => none
      | some str =>
          if str = "" then some (false, softObjectPtr)
          else
            match splitAsset str with
            | none => some (false, softObjectPtr)
            | some (className, path) =>
                if softObjectPtr = path then some (false, softObjectPtr)
                else if !env.IsValidAsset path then
                  if env.Load path className ≠ env.Get softObjectPtr then
                    some (true, env.PathOf (env.Load path className))
                  else some (false, softObjectPtr)
                else some (true, path)

/-- An environment in which nothing is loaded, no object has a path, the
session has no object and the registry no asset. -/
def sampleSoftObjectEnv : SoftObjectEnv where
  Get := fun _ => none
  PathOf := fun _ => ""
  GetObject := fun _ => none
  objectMap := ⟨[], []⟩
  IsValidAsset := fun _ => false
  Load := fun _ _ => none

/-! ### sfActorManager.cpp: DeleteEmptyFolders -/

/-- The inner loop of `DeleteEmptyFolders` for the folder of one actor, on the
queue in reverse order: `i` runs from the last queued folder down, and the
first folder that is the folder of the actor or a parent of it is removed;
the `break` ends the loop there. -/
def DeleteEmptyFolders.removeAt (PathIsChildOf : FString → FString → Bool) (folder : FString) :
    List FString → List FString
  | [] => []
  | queued :: below =>
      if folder = queued ∨ PathIsChildOf folder queued = true then below
      else queued :: DeleteEmptyFolders.removeAt PathIsChildOf folder below

/-- The loop of `DeleteEmptyFolders` over the actors of the world, given by
their folder paths in iteration order; it ends when the queue is empty. -/
def DeleteEmptyFolders.scan (PathIsChildOf : FString → FString → Bool) :
    List FString → List FString → List FString
  | [], m_foldersToCheck => m_foldersToCheck
  | folder :: rest, m_foldersToCheck =>
      if m_foldersToCheck.length > 0 then
        DeleteEmptyFolders.scan PathIsChildOf rest
          (DeleteEmptyFolders.removeAt PathIsChildOf folder m_foldersToCheck.reverse).reverse
      else m_foldersToCheck

/-- `sfActorManager::DeleteEmptyFolders`: the folders that
`FActorFolders::DeleteFolder` is called with, in order, and `m_foldersToCheck`
afterwards. `IsAvailable` is `FActorFolders::IsAvailable()`, `PathIsChildOf`
the test of the engine, `actorFolders` the folder path of every actor of the
world. -/
def sfActorManager.DeleteEmptyFolders (IsAvailable : Bool)
    (PathIsChildOf : FString → FString → Bool) (actorFolders : List FString)
    (m_foldersToCheck : List FString) : List FString × List FString :=
  if m_foldersToCheck.length > 0 ∧ IsAvailable = true then
    (DeleteEmptyFolders.scan PathIsChildOf actorFolders m_foldersToCheck, [])
  else ([], m_foldersToCheck)

/-- Engine `FActorFolders::PathIsChildOf(child, parent)`: the child is longer
than the parent and starts with the parent followed by `/`. -/
def PathIsChildOf (child parent : FString) : Bool :=
  (parent.toList ++ ['/']).isPrefixOf child.toList

/-- A folder is empty: no actor has the folder or a child of it as its folder
path. -/
def folderIsEmpty (PathIsChildOf : FString → FString → Bool) (actorFolders : List FString)
    (folder : FString) : Bool :=
  actorFolders.all (fun f => !(decide (f = folder) || PathIsChildOf f folder))

/-! ### sfPropertyUtil.cpp: BroadcastChangeEvents -/

/-- A call of `PostEditChangeProperty` on a native with the event of a
property (`none` for the null property), and whether the property change
handler was registered when the call was made. -/
structure ChangeEvent where
  uobjPtr : UObjectAddr
  upropPtr : Option FName
  listening : Bool
deriving DecidableEq, Repr

/-- The static members of `sfPropertyUtil` that `BroadcastChangeEvents` uses:
whether `m_onPropertyChangeHandle` is valid (`ListeningForPropertyChanges()`),
the pairs of `m_serverChangedProperties` in iteration order, and the calls of
`PostEditChangeProperty` made so far. -/
structure BroadcastState where
  m_onPropertyChangeHandle : Bool
  m_serverChangedProperties : List (UObjectAddr × Option FName)
  events : List ChangeEvent
deriving DecidableEq, Repr

/-- `sfPropertyUtil::EnablePropertyChangeHandler`. -/
def EnablePropertyChangeHandler (s : BroadcastState) : BroadcastState :=
  { s with m_onPropertyChangeHandle := true }

/-- `sfPropertyUtil::DisablePropertyChangeHandler`. -/
def DisablePropertyChangeHandler (s : BroadcastState) : BroadcastState :=
  { s with m_onPropertyChangeHandle := false }

/-- `sfPropertyUtil::ListeningForPropertyChanges`. -/
def ListeningForPropertyChanges (s : BroadcastState) : Bool := s.m_onPropertyChangeHandle

/-- The loop of `BroadcastChangeEvents` over the pairs: `PostEditChangeProperty`
is called for a pair whose native is in the map. What the engine runs inside
the call is not followed. -/
def BroadcastChangeEvents.loop (m : sfObjectMap) :
    List (UObjectAddr × Option FName) → BroadcastState → BroadcastState
  | [], s => s
  | pair :: rest, s =>
      if m.ContainsUObject (some pair.1) then
        BroadcastChangeEvents.loop m rest
          { s with events := s.events ++ [⟨pair.1, pair.2, ListeningForPropertyChanges s⟩] }
      else BroadcastChangeEvents.loop m rest s

/-- `sfPropertyUtil::BroadcastChangeEvents`. -/
def BroadcastChangeEvents (m : sfObjectMap) (s : BroadcastState) : BroadcastState :=
  if s.m_serverChangedProperties.length ≤ 0 then s
  else
    EnablePropertyChangeHandler
      { BroadcastChangeEvents.loop m s.m_serverChangedProperties
          (DisablePropertyChangeHandler s) with m_serverChangedProperties := [] }

/-- A state with the handler registered and two pending pairs: the native 21,
which is in the map of `sampleMappedState`, and the native 99, which is
not. -/
def sampleBroadcastState : BroadcastState := ⟨true, [(21, some 3), (99, none)], []⟩

/-! ### sfPropertyUtil.cpp: the calls of CopyList on the destination -/

/-- A call that `CopyList` makes on the destination list: `Remove(i)`,
`Insert(i, element)`, `Copy(Get(i), element)` (the copy into the element in
place, whatever it returns), `Set(i, element)`, `AddRange(toAdd)` and
`Resize(size)`. -/
inductive ListCall where
  | Remove (i : Nat)
  | Insert (i : Nat) (elementPtr : sfProperty)
  | Copy (i : Nat) (elementPtr : sfProperty)
  | Set (i : Nat) (elementPtr : sfProperty)
  | AddRange (toAdd : List sfProperty)
  | Resize (size : Nat)

/-- The `for` loop of `CopyList` as `CopyList.loop` runs it, with the calls on
the destination recorded: the destination, `toAdd` and the calls after the
loop. The index `i` of a call is the number of destination elements before the
current one. -/
def CopyList.calls.loop : List sfProperty → Bool → List sfProperty → List sfProperty →
    List sfProperty → List ListCall → List sfProperty × List sfProperty × List ListCall
  | [], _, done, rest, toAdd, calls => (done ++ rest, toAdd, calls)
  | _ :: srcRest, true, done, rest, toAdd, calls =>
      CopyList.calls.loop srcRest false done rest toAdd calls
  | elementPtr :: srcRest, false, done, [], toAdd, calls =>
      CopyList.calls.loop srcRest false done [] (toAdd ++ [elementPtr]) calls
  | elementPtr :: srcRest, false, done, d :: ds, toAdd, calls =>
      if sfProperty.beq elementPtr d then
        CopyList.calls.loop srcRest false (done ++ [d]) ds toAdd calls
      else if headEquals ds elementPtr then
        CopyList.calls.loop srcRest false (done ++ ds.take 1) (ds.drop 1) toAdd
          (calls ++ [ListCall.Remove done.length])
      else if headEquals srcRest d then
        CopyList.calls.loop srcRest true (done ++ [elementPtr, d]) ds toAdd
          (calls ++ [ListCall.Insert done.length elementPtr])
      else if (Copy elementPtr d).1 then
        CopyList.calls.loop srcRest false (done ++ [(Copy elementPtr d).2]) ds toAdd
          (calls ++ [ListCall.Copy done.length elementPtr])
      else
        CopyList.calls.loop srcRest false (done ++ [elementPtr]) ds toAdd
          (calls ++ [ListCall.Copy done.length elementPtr, ListCall.Set done.length elementPtr])

/-- `sfPropertyUtil::CopyList(destPtr, srcPtr)` with its calls on the
destination: the destination list afterwards and the calls in order. -/
def CopyList.calls (dest src : List sfProperty) : List sfProperty × List ListCall :=
  let r := CopyList.calls.loop src false [] dest [] []
  if r.2.1.length > 0 then (r.1 ++ r.2.1, r.2.2 ++ [ListCall.AddRange r.2.1])
  else if r.1.length > src.length then
    (r.1.take src.length, r.2.2 ++ [ListCall.Resize src.length])
  else (r.1, r.2.2)

/-! ### sfBaseUObjectManager.cpp: OnListAdd, OnListRemove -/

/-- The loop of `ArrayInsert` from element `i` on, `count` elements to go:
`sfPropertyUtil::SetValue` on element `i` with `listPtr->Get(i)`. The flag
says whether a `SetValue` returned true, which is when it calls
`MarkPropertyChanged`. -/
def ArrayInsert.loop {α : Type} (handler : Option (TypeHandler α)) (listPtr : List sfProperty) :
    Nat → Nat → List α → Bool → Option (Bool × List α)
  | _, 0, array, marked => some (marked, array)
  | i, count + 1, array, marked =>
      match array[i]? with
      | none => none
      | some a =>
          match SetValue handler a listPtr[i]? with
          | none => none
          | some r => ArrayInsert.loop handler listPtr (i + 1) count (array.set i r.2) (marked || r.1)

/-- `sfBaseUObjectManager::ArrayInsert` on an array property: whether
`MarkPropertyChanged` was called, and the array afterwards. Engine
`InsertValues(index, count)` puts `count` default-constructed elements at
`index`; it is undefined outside `0 <= index <= Num()`. -/
def ArrayInsert {α : Type} (handler : Option (TypeHandler α)) (dflt : α) (array : List α)
    (listPtr : List sfProperty) (index count : Int) : Option (Bool × List α) :=
  if 0 ≤ index ∧ index ≤ (array.length : Int) ∧ 0 ≤ count then
    ArrayInsert.loop handler listPtr index.toNat count.toNat
      (array.take index.toNat ++ List.replicate count.toNat dflt ++ array.drop index.toNat) false
  else none

/-- `sfBaseUObjectManager::ArrayRemove` on an array property. Engine
`RemoveValues(index, count)` is undefined unless the removed range lies in the
array. -/
def ArrayRemove {α : Type} (array : List α) (index count : Int) : Option (List α) :=
  if 0 ≤ index ∧ 0 ≤ count ∧ index + count ≤ (array.length : Int) then
    some (array.take index.toNat ++ array.drop (index.toNat + count.toNat))
  else none

/-- Whether a slot carries the flag. -/
def slotMarked {α : Type} : Option (Bool × α) → Bool
  | some (b, _) => b
  | none => false

/-- `SetInsert` with the flag of its `SetValue` calls: every slot carries the
flag of the calls made on it, and the result says whether one of them returned
true. -/
def SetInsert.marked {α : Type} (handler : Option (TypeHandler α)) (dflt : α)
    (set : SparseArray α) (listPtr : List sfProperty) (index count : Int) (choices : List Nat) :
    Option (Bool × SparseArray α) :=
  (sparseInsert
    (fun (a : Bool × α) p => (SetValue handler a.2 p).map (fun r => (a.1 || r.1, r.2)))
    (false, dflt) (set.map (Option.map (fun a => (false, a)))) listPtr index count choices).map
    (fun r => (r.any slotMarked, r.map (Option.map Prod.snd)))

/-- `MapInsert` with the flag of its `SetValue` calls. -/
def MapInsert.marked {κ ν : Type} (keyHandler : Option (TypeHandler κ))
    (valueHandler : Option (TypeHandler ν)) (dflt : κ × ν) (map : SparseArray (κ × ν))
    (listPtr : List sfProperty) (index count : Int) (choices : List Nat) :
    Option (Bool × SparseArray (κ × ν)) :=
  (sparseInsert
    (fun (a : Bool × κ × ν) element =>
      match element with
      | some (sfProperty.list pair) =>
          match SetValue keyHandler a.2.1 pair[0]?, SetValue valueHandler a.2.2 pair[1]? with
          | some k, some v => some (a.1 || k.1 || v.1, k.2, v.2)
          | _, _ => none
      | _ => none)
    (false, dflt) (map.map (Option.map (fun a => (false, a)))) listPtr index count choices).map
    (fun r => (r.any slotMarked, r.map (Option.map Prod.snd)))

/-- `sfBaseUObjectManager::OnListAdd` for a list whose container object has a
native and whose property resolves to data of class `t`: whether
`MarkPropertyChanged` was called for the native, and the data afterwards.
Nothing happens for a class that is not an array, a set or a map. -/
def OnListAdd (t : UPropType) (data : UValue) (listPtr : List sfProperty) (index count : Int)
    (choices : List Nat) : Option (Bool × UValue) :=
  match t, data with
  | .ArrayProperty inner, .array elements =>
      (ArrayInsert (m_typeHandlers inner) inner.InitializeValue elements listPtr index count).map
        (fun r => (r.1, UValue.array r.2))
  | .ArrayProperty _, _ => none
  | .SetProperty element, .set slots =>
      (SetInsert.marked (m_typeHandlers element) element.InitializeValue slots listPtr index count
        choices).map (fun r => (r.1, UValue.set r.2))
  | .SetProperty _, _ => none
  | .MapProperty key value, .map slots =>
      (MapInsert.marked (m_typeHandlers key) (m_typeHandlers value)
        (key.InitializeValue, value.InitializeValue) slots listPtr index count choices).map
        (fun r => (r.1, UValue.map r.2))
  | .MapProperty _ _, _ => none
  | _, _ => some (false, data)

/-- `sfBaseUObjectManager::OnListRemove` under the same conditions:
`MarkPropertyChanged` is called whatever was removed. -/
def OnListRemove (t : UPropType) (data : UValue) (index count : Int) : Option (Bool × UValue) :=
  match t, data with
  | .ArrayProperty _, .array elements =>
      (ArrayRemove elements index count).map (fun r => (true, UValue.array r))
  | .ArrayProperty _, _ => none
  | .SetProperty _, .set slots => (SetRemove slots index count).map (fun r => (true, UValue.set r))
  | .SetProperty _, _ => none
  | .MapProperty _ _, .map slots =>
      (MapRemove slots index count).map (fun r => (true, UValue.map r))
  | .MapProperty _ _, _ => none
  | _, _ => some (true, data)

/-! ### sfUndoManager.cpp: FixTransactedComponentChildren -/

/-- What `FixTransactedComponentChildren` reads of a component: its attach
parent, its child list (which can hold null pointers), its owner, its name,
`IsPendingKill()`, whether it is a `UsfLockComponent` and whether it is a
scene component. -/
structure UComponent where
  GetAttachParent : Option UObjectAddr
  GetAttachChildren : List (Option UObjectAddr)
  GetOwner : Option UObjectAddr
  GetFName : FName
  IsPendingKill : Bool
  IsLockComponent : Bool
  IsSceneComponent : Bool

/-- What it reads of an actor: the root component and the components. -/
structure UActor where
  GetRootComponent : Option UObjectAddr
  GetComponents : List (Option UObjectAddr)

/-- The components and actors of the editor world. -/
structure ComponentWorld where
  component : UObjectAddr → UComponent
  actor : UObjectAddr → UActor

/-- The world with other data for one component. -/
def ComponentWorld.setComponent (w : ComponentWorld) (c : UObjectAddr) (v : UComponent) :
    ComponentWorld :=
  { w with component := fun x => if x = c then v else w.component x }

/-- The world with another child list for one component: what the code does
through the reference it takes with `const_cast`. -/
def ComponentWorld.setChildren (w : ComponentWorld) (c : UObjectAddr)
    (children : List (Option UObjectAddr)) : ComponentWorld :=
  w.setComponent c { w.component c with GetAttachChildren := children }

/-- The calls into the engine that change the world: `AttachToComponent(child,
parent)`, `DetachFromComponent(child)`, `DestroyComponent(component)`,
`SetRootComponent(actor, component)`, and the renaming of a component by
`sfUtils::Rename`. -/
structure EngineOps where
  AttachToComponent : ComponentWorld → UObjectAddr → UObjectAddr → ComponentWorld
  DetachFromComponent : ComponentWorld → UObjectAddr → ComponentWorld
  DestroyComponent : ComponentWorld → UObjectAddr → ComponentWorld
  SetRootComponent : ComponentWorld → UObjectAddr → UObjectAddr → ComponentWorld
  Rename : ComponentWorld → UObjectAddr → ComponentWorld

/-- The first component of the owner that is not null, is another component
and has the name of `componentPtr`: where the loop over `GetComponents()`
reaches its `break`. -/
def findDuplicate (w : ComponentWorld) (componentPtr : UObjectAddr) :
    List (Option UObjectAddr) → Option UObjectAddr
  | [] => none
  | none :: rest => findDuplicate w componentPtr rest
  | some otherPtr :: rest =>
      if otherPtr ≠ componentPtr ∧
          (w.component otherPtr).GetFName = (w.component componentPtr).GetFName then
        some otherPtr
      else findDuplicate w componentPtr rest

/-- The loop that attaches the children of the duplicate to the original, for
the indices below `i`: `GetChildComponent(i)` reads the list as it is then and
is null for an index outside it, and `childPtr->IsA` on null is undefined. -/
def attachChildrenToOriginal (ops : EngineOps) (componentPtr otherSceneCompPtr : UObjectAddr) :
    Nat → ComponentWorld → Option ComponentWorld
  | 0, w => some w
  | i + 1, w =>
      match (w.component componentPtr).GetAttachChildren[i]? with
      | some (some childPtr) =>
          if (w.component childPtr).IsLockComponent then
            attachChildrenToOriginal ops componentPtr otherSceneCompPtr i w
          else
            attachChildrenToOriginal ops componentPtr otherSceneCompPtr i
              (ops.AttachToComponent
                (if (w.component otherSceneCompPtr).GetAttachChildren.contains (some childPtr) then
                  w.setChildren otherSceneCompPtr
                    ((w.component otherSceneCompPtr).GetAttachChildren.filter
                      (fun c => c != some childPtr))
                else w)
                childPtr otherSceneCompPtr)
      | _ => none

/-- The component has an owner and is its root component. -/
def isRootOfOwner (w : ComponentWorld) (componentPtr : UObjectAddr) : Bool :=
  match (w.component componentPtr).GetOwner with
  | none => false
  | some actorPtr => decide ((w.actor actorPtr).GetRootComponent = some componentPtr)

/-- The loop that removes the children that should not be in the child list
of `componentPtr`, for the indices below `i`; `children[i]` outside the list
is undefined. -/
def removeBadChildren (ops : EngineOps) (componentPtr : UObjectAddr) :
    Nat → ComponentWorld → Option ComponentWorld
  | 0, w => some w
  | i + 1, w =>
      match (w.component componentPtr).GetAttachChildren[i]? with
      | none => none
      | some none =>
          removeBadChildren ops componentPtr i
            (w.setChildren componentPtr ((w.component componentPtr).GetAttachChildren.eraseIdx i))
      | some (some childPtr) =>
          if (w.component childPtr).GetAttachParent ≠ some componentPtr then
            let w1 := w.setChildren componentPtr
              ((w.component componentPtr).GetAttachChildren.eraseIdx i)
            if (w1.component childPtr).GetOwner = (w1.component componentPtr).GetOwner ∧
                (w1.component childPtr).GetAttachParent = none ∧
                isRootOfOwner w1 childPtr = false then
              removeBadChildren ops componentPtr i (ops.DestroyComponent w1 childPtr)
            else removeBadChildren ops componentPtr i w1
          else removeBadChildren ops componentPtr i w

/-- The body of the first loop for one component of `m_parentsToCheck`. -/
def fixParent (ops : EngineOps) (m : sfObjectMap) (w : ComponentWorld)
    (componentPtr : UObjectAddr) : Option ComponentWorld :=
  match (if m.ContainsUObject (some componentPtr) then none
      else (w.component componentPtr).GetOwner) with
  | some actorPtr =>
      let w2 : Option ComponentWorld :=
        match findDuplicate w componentPtr (w.actor actorPtr).GetComponents with
        | none => some w
        | some otherPtr =>
            let w1 : Option ComponentWorld :=
              if (w.component otherPtr).IsSceneComponent then
                (attachChildrenToOriginal ops componentPtr otherPtr
                  (w.component componentPtr).GetAttachChildren.length w).map
                  (fun w0 =>
                    if (w0.actor actorPtr).GetRootComponent = some componentPtr then
                      ops.SetRootComponent w0 actorPtr otherPtr
                    else w0)
              else some w
            w1.map (fun w0 => ops.DestroyComponent (ops.Rename w0 componentPtr) componentPtr)
      match w2 with
      | none => none
      | some w2 =>
          if (w2.component componentPtr).IsPendingKill then some w2
          else
            removeBadChildren ops componentPtr
              (w2.component componentPtr).GetAttachChildren.length w2
  | none =>
      removeBadChildren ops componentPtr (w.component componentPtr).GetAttachChildren.length w

/-- The body of the second loop for one component of `m_childrenToCheck`;
undefined when the parent is pending kill and the component has no owner. -/
def fixChild (ops : EngineOps) (w : ComponentWorld) (componentPtr : UObjectAddr) :
    Option ComponentWorld :=
  match (w.component componentPtr).GetAttachParent with
  | none => some w
  | some parentPtr =>
      if (w.component parentPtr).IsPendingKill then
        match (w.component componentPtr).GetOwner with
        | none => none
        | some actorPtr =>
            match (w.actor actorPtr).GetRootComponent with
            | none =>
                some (ops.SetRootComponent (ops.DetachFromComponent w componentPtr) actorPtr
                  componentPtr)
            | some rootPtr => some (ops.AttachToComponent w componentPtr rootPtr)
      else if !(w.component parentPtr).GetAttachChildren.contains (some componentPtr) then
        some (w.setChildren parentPtr
          ((w.component parentPtr).GetAttachChildren ++ [some componentPtr]))
      else some w

/-- The first loop of `FixTransactedComponentChildren`. -/
def fixParents (ops : EngineOps) (m : sfObjectMap) :
    List UObjectAddr → ComponentWorld → Option ComponentWorld
  | [], w => some w
  | componentPtr :: rest, w =>
      match fixParent ops m w componentPtr with
      | none => none
      | some w1 => fixParents ops m rest w1

/-- The second loop of `FixTransactedComponentChildren`. -/
def fixChildren (ops : EngineOps) : List UObjectAddr → ComponentWorld → Option ComponentWorld
  | [], w => some w
  | componentPtr :: rest, w =>
      match fixChild ops w componentPtr with
      | none => none
      | some w1 => fixChildren ops rest w1

/-- The members of `sfUndoManager` that the function uses, in iteration
order, with the world. -/
structure UndoState where
  world : ComponentWorld
  m_parentsToCheck : List UObjectAddr
  m_childrenToCheck : List UObjectAddr

/-- `sfUndoManager::FixTransactedComponentChildren`; `none` where the C++
dereferences null or indexes outside a list. -/
def FixTransactedComponentChildren (ops : EngineOps) (m : sfObjectMap) (s : UndoState) :
    Option UndoState :=
  match fixParents ops m s.m_parentsToCheck s.world with
  | none => none
  | some w1 =>
      match fixChildren ops s.m_childrenToCheck w1 with
      | none => none
      | some w2 => some ⟨w2, [], []⟩

/-- Every child in the child list of the component names it as its attach
parent. -/
def childrenAgree (w : ComponentWorld) (parentPtr : UObjectAddr) : Prop :=
  ∀ c ∈ (w.component parentPtr).GetAttachChildren,
    ∃ childPtr, c = some childPtr ∧ (w.component childPtr).GetAttachParent = some parentPtr

/-- The component is in the child list of its attach parent when that parent
is not pending kill. -/
def inParentList (w : ComponentWorld) (componentPtr : UObjectAddr) : Prop :=
  ∀ parentPtr, (w.component componentPtr).GetAttachParent = some parentPtr →
    (w.component parentPtr).IsPendingKill = false →
    some componentPtr ∈ (w.component parentPtr).GetAttachChildren

/-- What the proof uses of the engine. Every call keeps a child list that
agrees with the attach parents in agreement and brings no component back from
pending kill. `AttachToComponent` and `DetachFromComponent` change the
attachment of the one component only; an attached component whose old parent
was pending kill is in the list of its parent afterwards, a detached one has
no parent. `SetRootComponent` and the renaming change no attachment.
`DestroyComponent` makes the component pending kill and, for a component
without attach parent, changes no other child list and no attach parent that
names another component. -/
structure EngineOps.Lawful (ops : EngineOps) : Prop where
  attach_agree : ∀ w x p P, childrenAgree w P → childrenAgree (ops.AttachToComponent w x p) P
  attach_kill : ∀ w x p c, (w.component c).IsPendingKill = true →
    ((ops.AttachToComponent w x p).component c).IsPendingKill = true
  attach_self : ∀ w x p q, (w.component x).GetAttachParent = some q →
    (w.component q).IsPendingKill = true → inParentList (ops.AttachToComponent w x p) x
  attach_other : ∀ w x p c, c ≠ x → inParentList w c → inParentList (ops.AttachToComponent w x p) c
  detach_agree : ∀ w x P, childrenAgree w P → childrenAgree (ops.DetachFromComponent w x) P
  detach_kill : ∀ w x c, (w.component c).IsPendingKill = true →
    ((ops.DetachFromComponent w x).component c).IsPendingKill = true
  detach_self : ∀ w x, ((ops.DetachFromComponent w x).component x).GetAttachParent = none
  detach_other : ∀ w x c, c ≠ x → inParentList w c → inParentList (ops.DetachFromComponent w x) c
  root_component : ∀ w a c, (ops.SetRootComponent w a c).component = w.component
  rename_agree : ∀ w x P, childrenAgree w P → childrenAgree (ops.Rename w x) P
  rename_kill : ∀ w x c, (w.component c).IsPendingKill = true →
    ((ops.Rename w x).component c).IsPendingKill = true
  destroy_agree : ∀ w x P, childrenAgree w P → childrenAgree (ops.DestroyComponent w x) P
  destroy_kill : ∀ w x c, (w.component c).IsPendingKill = true →
    ((ops.DestroyComponent w x).component c).IsPendingKill = true
  destroy_self : ∀ w x, ((ops.DestroyComponent w x).component x).IsPendingKill = true
  destroy_children : ∀ w x P, (w.component x).GetAttachParent = none → P ≠ x →
    ((ops.DestroyComponent w x).component P).GetAttachChildren =
      (w.component P).GetAttachChildren
  destroy_parent : ∀ w x c P, (w.component x).GetAttachParent = none → P ≠ x →
    (w.component c).GetAttachParent = some P →
    ((ops.DestroyComponent w x).component c).GetAttachParent = some P

/-- A small engine, used to run the function: detaching removes the component
from the child list of its attach parent and clears the attach parent. -/
def sampleDetach (w : ComponentWorld) (x : UObjectAddr) : ComponentWorld :=
  match (w.component x).GetAttachParent with
  | none => w
  | some q =>
      { w with component := fun y =>
          { w.component y with
            GetAttachParent := if y = x then none else (w.component y).GetAttachParent
            GetAttachChildren :=
              if y = q then (w.component y).GetAttachChildren.filter (fun e => e != some x)
              else (w.component y).GetAttachChildren } }

/-- Attaching in the small engine: nothing when the component is attached to
itself or is attached already; otherwise it is detached, gets the new attach
parent and is added at the end of the child list of that parent. -/
def sampleAttach (w : ComponentWorld) (x p : UObjectAddr) : ComponentWorld :=
  if x = p ∨ ((w.component x).GetAttachParent = some p ∧
      (w.component p).GetAttachChildren.contains (some x) = true) then w
  else
    { w with component := fun y =>
        { (sampleDetach w x).component y with
          GetAttachParent :=
            if y = x then some p else ((sampleDetach w x).component y).GetAttachParent
          GetAttachChildren :=
            if y = p then ((sampleDetach w x).component y).GetAttachChildren ++ [some x]
            else ((sampleDetach w x).component y).GetAttachChildren } }

/-- Destroying in the small engine: the component is detached and becomes
pending kill. -/
def sampleDestroy (w : ComponentWorld) (x : UObjectAddr) : ComponentWorld :=
  { w with component := fun y =>
      { (sampleDetach w x).component y with
        IsPendingKill :=
          if y = x then true else ((sampleDetach w x).component y).IsPendingKill } }

/-- The small engine. -/
def sampleEngineOps : EngineOps where
  AttachToComponent := sampleAttach
  DetachFromComponent := sampleDetach
  DestroyComponent := sampleDestroy
  SetRootComponent := fun w a c =>
    { w with actor := fun b =>
        if b = a then { w.actor b with GetRootComponent := some c } else w.actor b }
  Rename := fun w x =>
    { w with component := fun y =>
        { w.component y with
          GetFName := if y = x then (w.component y).GetFName + 1000 else (w.component y).GetFName } }

/-- A world after an undo: component 31 of actor 20 lists component 33, whose
attach parent is 32, and a null pointer; component 32 names 31 as its attach
parent and is not in its list. -/
def sampleComponentWorld : ComponentWorld where
  component := fun x =>
    if x = 31 then ⟨none, [some 33, none], some 20, 1, false, false, true⟩
    else if x = 32 then ⟨some 31, [], some 20, 2, false, false, true⟩
    else if x = 33 then ⟨some 32, [], some 20, 3, false, false, true⟩
    else ⟨none, [], none, 0, false, false, true⟩
  actor := fun _ => ⟨some 31, [some 31, some 32, some 33]⟩

/-- The recorded sets for that world: 31 as component of the transaction, 32
as one of its children before it. -/
def sampleUndoState : UndoState := ⟨sampleComponentWorld, [31], [32]⟩

/-- The object map in which component 31 is registered. -/
def sampleUndoMap : sfObjectMap := ⟨[(31, 12)], [(12, 31)]⟩

/-- An actor object without parent: the object 11 with the name entry of
"Cube" in its dictionary. -/
def sampleOrphanObject : sfObject :=
  sfObject.mk 11 sfType.Actor true false
    (sfProperty.dictionary [(sfProp.Name, sfProperty.value (ksMultiType.UINT 3))]) [] []

/-- The actor 22 of level 1, selected in the editor. -/
def sampleSelectedActor : AActor := { sampleActor with addr := 22, IsSelected := true }

/-- A call of `SyncComponents` in which the actor `owner` has a new component
to which the root component of actor 22 is attached, and no other actor has a
new component: `Upload` of the component calls
`sfComponentManager::CreateObject`, which calls `sfActorManager::CreateObject`
for actor 22 (sfComponentManager.cpp 87, 288, 422); 50 is the address of
the object that is created for it. The objects of the components are left
out. -/
def sampleSyncComponents (owner : UObjectAddr) (s : State) (actorPtr : UObjectAddr)
    (_objPtr : sfObjectAddr) : State :=
  if actorPtr = owner then
    match sfActorManager.CreateObject (sampleEngine none) ⟨[], []⟩ Identical_InContainer
        (sampleObjects false) 50 s sampleSelectedActor with
    | some (s1, _) => s1
    | none => s
  else s

/-- A state in which the actors 21 and 23 are mapped to the objects 11 and 16,
actor 22 has no object, and the actors in `tracked` are tracked. -/
def sampleAttachedState (tracked : List (UObjectAddr × sfObjectAddr)) : State :=
  { emptyState with
    objectMap := ⟨[(21, 11), (23, 16)], [(11, 21), (16, 23)]⟩
    m_selectedActors := tracked }

/-- A call of `SyncComponents` that uploads one new component, 35, without
attached actor: the object 17 is created for it in the map and sent to the
session as a child of the actor object. -/
def sampleSyncUpload (s : State) (_actorPtr : UObjectAddr) (objPtr : sfObjectAddr) : State :=
  { s.log (Effect.Create [17] (some objPtr) 0) with
    objectMap := (s.objectMap.GetOrCreateSFObject (some 35) 17).2 }

/-- What `SyncComponents` leaves as it is when it does not come back into
`CreateObject` or `InitializeActor` for an actor: the tracked selection, the
lock calls, and the objects of the selected actors in the map. -/
def SyncFrame (SyncComponents : State → UObjectAddr → sfObjectAddr → State)
    (selectedActors : List UObjectAddr) : Prop :=
  ∀ (s0 : State) (a : UObjectAddr) (o : sfObjectAddr),
    (SyncComponents s0 a o).m_selectedActors = s0.m_selectedActors ∧
    (SyncComponents s0 a o).effects.filter Effect.isLock = s0.effects.filter Effect.isLock ∧
    ∀ b ∈ selectedActors,
      (SyncComponents s0 a o).objectMap.GetSFObject (some b) = s0.objectMap.GetSFObject (some b)

/-! ## Theorems -/

/-! ### Association lists -/

theorem eq_none_of_isSome_false {α : Type} {x : Option α} (h : x.isSome = false) : x = none := by
  cases x with
  | none => rfl
  | some a => simp at h

theorem mapFind_mapErase (m : List (Nat × Nat)) (k k' : Nat) :
    mapFind (mapErase m k) k' = if k' = k then none else mapFind m k' := by
  induction m with
  | nil => simp [mapErase, mapFind]
  | cons p rest ih =>
    obtain ⟨a, b⟩ := p
    by_cases hak : a = k
    · subst hak
      simp only [mapErase, if_true, ih, mapFind]
      by_cases h : k' = a
      · simp [h]
      · have h2 : ¬ a = k' := fun e => h e.symm
        simp [h, h2]
    · simp only [mapErase, hak, if_false, mapFind, ih]
      by_cases h : k' = k
      · subst h
        simp [hak]
      · simp [h]

theorem mapFind_mapSet (m : List (Nat × Nat)) (k v k' : Nat) :
    mapFind (mapSet m k v) k' = if k' = k then some v else mapFind m k' := by
  unfold mapSet
  simp only [mapFind, mapFind_mapErase]
  by_cases h : k' = k
  · subst h; simp
  · have h2 : ¬ k = k' := fun e => h e.symm
    simp [h, h2]

namespace sfObjectMap

/-! ### sfObjectMap -/

theorem consistent_empty : Consistent empty := by
  intro u o
  simp [GetSFObject, GetUObject, empty, mapFind]

theorem consistent_add_unmapped (m : sfObjectMap) (o : sfObjectAddr) (u : UObjectAddr)
    (hm : Consistent m) (ho : mapFind m.m_sfToUObjectMap o = none)
    (hu : mapFind m.m_uToSFObjectMap u = none) :
    Consistent (Add m (some o) (some u)) := by
  intro u' o'
  have hm' := hm u' o'
  simp only [GetSFObject, GetUObject] at hm' ⊢
  simp only [Add, mapFind_mapSet]
  by_cases h1 : u' = u <;> by_cases h2 : o' = o
  · subst h1; subst h2; simp
  · subst h1
    simp only [if_true, h2, if_false]
    constructor
    · intro h; exact absurd (Option.some.inj h).symm h2
    · intro h; rw [← hm', hu] at h; exact absurd h (by simp)
  · subst h2
    simp only [if_true, h1, if_false]
    constructor
    · intro h; rw [hm', ho] at h; exact absurd h (by simp)
    · intro h; exact absurd (Option.some.inj h).symm h1
  · simp only [h1, h2, if_false]
    exact hm'

theorem consistent_erase_pair (m : sfObjectMap) (o : sfObjectAddr) (u : UObjectAddr)
    (hm : Consistent m) (hu : mapFind m.m_uToSFObjectMap u = some o) :
    Consistent { m_uToSFObjectMap := mapErase m.m_uToSFObjectMap u
                 m_sfToUObjectMap := mapErase m.m_sfToUObjectMap o } := by
  have ho : mapFind m.m_sfToUObjectMap o = some u := (hm u o).1 hu
  intro u' o'
  have hm' := hm u' o'
  simp only [GetSFObject, GetUObject] at hm' ⊢
  simp only [mapFind_mapErase]
  by_cases h1 : u' = u <;> by_cases h2 : o' = o
  · simp [h1, h2]
  · subst h1
    simp only [if_true, h2, if_false]
    constructor
    · intro h; exact absurd h (by simp)
    · intro h
      rw [← hm', hu] at h
      exact absurd (Option.some.inj h).symm h2
  · subst h2
    simp only [if_true, h1, if_false]
    constructor
    · intro h
      rw [hm', ho] at h
      exact absurd (Option.some.inj h).symm h1
    · intro h; exact absurd h (by simp)
  · simp only [h1, h2, if_false]
    exact hm'

theorem consistent_step (m : sfObjectMap) (c : Call) (hm : Consistent m)
    (hadd : addUnmapped m c = true) (halloc : allocOk m c = true) :
    Consistent (step m c) := by
  cases c with
  | add o u =>
    cases o with
    | none => simpa [step, Add] using hm
    | some o =>
      cases u with
      | none => simpa [step, Add] using hm
      | some u =>
        simp only [addUnmapped, ContainsSFObject, ContainsUObject, Bool.and_eq_true,
          Bool.not_eq_true'] at hadd
        exact consistent_add_unmapped m o u hm (eq_none_of_isSome_false hadd.1)
          (eq_none_of_isSome_false hadd.2)
  | removeUObject u =>
    cases u with
    | none => simpa [step, RemoveUObject] using hm
    | some u =>
      simp only [step, RemoveUObject]
      cases hf : mapFind m.m_uToSFObjectMap u with
      | none => simpa using hm
      | some o => exact consistent_erase_pair m o u hm hf
  | removeSFObject o =>
    cases o with
    | none => simpa [step, RemoveSFObject] using hm
    | some o =>
      simp only [step, RemoveSFObject]
      cases hf : mapFind m.m_sfToUObjectMap o with
      | none => simpa using hm
      | some u =>
        have hu : mapFind m.m_uToSFObjectMap u = some o := (hm u o).2 hf
        exact consistent_erase_pair m o u hm hu
  | getOrCreate u created =>
    cases u with
    | none => simpa [step, GetOrCreateSFObject] using hm
    | some u =>
      simp only [step, GetOrCreateSFObject]
      cases hf : mapFind m.m_uToSFObjectMap u with
      | some o => simpa using hm
      | none =>
        simp only [allocOk, ContainsSFObject, Bool.not_eq_true'] at halloc
        exact consistent_add_unmapped m created u hm (eq_none_of_isSome_false halloc) hf
  | clear =>
    intro u o
    simp [step, Clear, GetSFObject, GetUObject, mapFind]

theorem consistent_run (calls : List Call) (m : sfObjectMap) (hm : Consistent m)
    (hadd : addUnmappedAll m calls = true) (halloc : allocOkAll m calls = true) :
    Consistent (run m calls) := by
  induction calls generalizing m with
  | nil => simpa [run] using hm
  | cons c rest ih =>
    simp only [addUnmappedAll, allocOkAll, Bool.and_eq_true] at hadd halloc
    exact ih (step m c) (consistent_step m c hm hadd.1 halloc.1) hadd.2 halloc.2

/-- C1 (as stated, refuted): two `Add` calls that give one native entity to two
objects reach a state where `GetUObject(o) = u` while `GetSFObject(u)` is a
different object, so the two directions do not agree in every reachable
state. -/
theorem C1_two_way_counterexample :
    ¬ (∀ (calls : List Call), allocOkAll empty calls = true →
        ∀ (u : UObjectAddr) (o : sfObjectAddr),
          GetSFObject (run empty calls) (some u) = some o ↔
            GetUObject (run empty calls) (some o) = some u) := by
  intro h
  have h1 := h [Call.add (some 1) (some 7), Call.add (some 2) (some 7)] (by decide) 7 1
  revert h1
  decide

/-- C1 (amended): in every state reachable from the empty map by `Add` calls
whose non-null arguments are both unmapped at the call, `Remove` (either
overload), `GetOrCreateSFObject` and `Clear`, `GetSFObject(u) = o` holds if
and only if `GetUObject(o) = u`, for every native entity `u` and object
`o`. -/
theorem C1_two_way_of_unmapped_adds (calls : List Call)
    (hadd : addUnmappedAll empty calls = true) (halloc : allocOkAll empty calls = true)
    (u : UObjectAddr) (o : sfObjectAddr) :
    GetSFObject (run empty calls) (some u) = some o ↔
      GetUObject (run empty calls) (some o) = some u :=
  consistent_run calls empty consistent_empty hadd halloc u o

/-- C1 witness: a run with an insertion, a creation, a removal and a second
insertion of the removed entity. -/
theorem C1_two_way_of_unmapped_adds_witness :
    addUnmappedAll empty
        [Call.add (some 1) (some 7), Call.getOrCreate (some 8) 2,
          Call.removeUObject (some 7), Call.add (some 3) (some 7)] = true ∧
      allocOkAll empty
        [Call.add (some 1) (some 7), Call.getOrCreate (some 8) 2,
          Call.removeUObject (some 7), Call.add (some 3) (some 7)] = true ∧
      (GetSFObject (run empty
        [Call.add (some 1) (some 7), Call.getOrCreate (some 8) 2,
          Call.removeUObject (some 7), Call.add (some 3) (some 7)]) (some 7) = some 3 ↔
        GetUObject (run empty
        [Call.add (some 1) (some 7), Call.getOrCreate (some 8) 2,
          Call.removeUObject (some 7), Call.add (some 3) (some 7)]) (some 3) = some 7) :=
  ⟨by decide, by decide,
    C1_two_way_of_unmapped_adds
      [Call.add (some 1) (some 7), Call.getOrCreate (some 8) 2,
        Call.removeUObject (some 7), Call.add (some 3) (some 7)]
      (by decide) (by decide) 7 3⟩

end sfObjectMap

/-! ### Sparse containers: lookup -/

theorem scanToIndex_spec {α : Type} (slots : List (Option α)) (base n : Nat)
    (hn : n < (SparseArray.dense slots).length) :
    ∃ q a, scanToIndex slots base n = some (base + q) ∧ slots[q]? = some (some a) ∧
      (SparseArray.dense slots)[n]? = some a ∧ (SparseArray.dense (slots.take q)).length = n := by
  induction slots generalizing base n with
  | nil => simp [SparseArray.dense] at hn
  | cons x rest ih =>
    cases x with
    | none =>
      simp only [SparseArray.dense] at hn
      obtain ⟨q, a, h1, h2, h3, h4⟩ := ih (base + 1) n hn
      refine ⟨q + 1, a, ?_, ?_, ?_, ?_⟩
      · simp only [scanToIndex, h1]; congr 1; omega
      · simpa using h2
      · simpa [SparseArray.dense] using h3
      · simpa [SparseArray.dense] using h4
    | some b =>
      cases n with
      | zero =>
        exact ⟨0, b, by simp [scanToIndex], by simp, by simp [SparseArray.dense],
          by simp [SparseArray.dense]⟩
      | succ m =>
        simp only [SparseArray.dense, List.length_cons] at hn
        obtain ⟨q, a, h1, h2, h3, h4⟩ := ih (base + 1) m (by omega)
        refine ⟨q + 1, a, ?_, ?_, ?_, ?_⟩
        · simp only [scanToIndex, h1]; congr 1; omega
        · simpa using h2
        · simpa [SparseArray.dense] using h3
        · simpa [SparseArray.dense] using h4

theorem GetSet_loop_forall₂ {α : Type} (Get : α → Option sfProperty) (slots : List (Option α))
    (acc L : List sfProperty) (h : GetSet.loop Get slots acc = some L) :
    ∃ L', L = acc ++ L' ∧
      List.Forall₂ (fun a e => Get a = some e) (SparseArray.dense slots) L' := by
  induction slots generalizing acc with
  | nil =>
    simp only [GetSet.loop, Option.some.injEq] at h
    exact ⟨[], by simp [h], by simp [SparseArray.dense]⟩
  | cons x rest ih =>
    cases x with
    | none => simpa [GetSet.loop, SparseArray.dense] using ih acc h
    | some a =>
      simp only [GetSet.loop] at h
      cases hg : Get a with
      | none => simp [hg] at h
      | some e =>
        simp only [hg] at h
        obtain ⟨L', h1, h2⟩ := ih (acc ++ [e]) h
        exact ⟨e :: L', by simp [h1], by simpa [SparseArray.dense] using ⟨hg, h2⟩⟩

theorem forall₂_getElem? {α β : Type} {R : α → β → Prop} {l₁ : List α} {l₂ : List β}
    (h : List.Forall₂ R l₁ l₂) (n : Nat) (a : α) (ha : l₁[n]? = some a) :
    ∃ b, l₂[n]? = some b ∧ R a b := by
  induction h generalizing n with
  | nil => simp at ha
  | cons hab _ ih =>
    cases n with
    | zero =>
      simp only [List.getElem?_cons_zero, Option.some.injEq] at ha
      subst ha
      exact ⟨_, by simp, hab⟩
    | succ m =>
      simp only [List.getElem?_cons_succ] at ha
      simpa using ih m ha

theorem GetMap_loop_forall₂ {κ ν : Type} (GetKey : κ → Option sfProperty)
    (GetValue : ν → Option sfProperty) (slots : List (Option (κ × ν)))
    (acc L : List sfProperty) (h : GetMap.loop GetKey GetValue slots acc = some L) :
    ∃ L', L = acc ++ L' ∧
      List.Forall₂
        (fun (a : κ × ν) e => ∃ keyPtr valuePtr, GetKey a.1 = some keyPtr ∧
          GetValue a.2 = some valuePtr ∧ e = sfProperty.list [keyPtr, valuePtr])
        (SparseArray.dense slots) L' := by
  induction slots generalizing acc with
  | nil =>
    simp only [GetMap.loop, Option.some.injEq] at h
    exact ⟨[], by simp [h], by simp [SparseArray.dense]⟩
  | cons x rest ih =>
    cases x with
    | none => simpa [GetMap.loop, SparseArray.dense] using ih acc h
    | some a =>
      obtain ⟨k, v⟩ := a
      simp only [GetMap.loop] at h
      cases hk : GetKey k with
      | none => simp [hk] at h
      | some keyPtr =>
        cases hv : GetValue v with
        | none => simp [hk, hv] at h
        | some valuePtr =>
          simp only [hk, hv] at h
          obtain ⟨L', h1, h2⟩ := ih _ h
          refine ⟨sfProperty.list [keyPtr, valuePtr] :: L', by simp [h1], ?_⟩
          simp only [SparseArray.dense]
          exact List.Forall₂.cons ⟨keyPtr, valuePtr, hk, hv, rfl⟩ h2

theorem GetSetElement_found {α : Type} (set : SparseArray α) (index : Int)
    (h0 : 0 ≤ index) (h1 : index < (SparseArray.Num set : Int)) :
    ∃ slot a, GetSetElement set index = some slot ∧ set[slot]? = some (some a) ∧
      (SparseArray.dense (set.take slot)).length = index.toNat ∧
      (SparseArray.dense set)[index.toNat]? = some a := by
  have hn : index.toNat < (SparseArray.dense set).length := by
    unfold SparseArray.Num at h1; omega
  obtain ⟨q, a, e1, e2, e3, e4⟩ := scanToIndex_spec set 0 index.toNat hn
  refine ⟨q, a, ?_, e2, e4, e3⟩
  unfold GetSetElement
  rw [if_neg (by omega), e1]
  simp

theorem GetSetElement_out_of_range {α : Type} (set : SparseArray α) (index : Int)
    (h : index < 0 ∨ index ≥ (SparseArray.Num set : Int)) : GetSetElement set index = none := by
  unfold GetSetElement
  rw [if_pos h]

/-- C10 (as stated, refuted): with a valid wire index, `GetMapElement` does not
resolve to a slot when no further property is left on the stack. -/
theorem C10_map_lookup_counterexample :
    ¬ (∀ (map : SparseArray (Nat × Nat)) (index : Int) (propertyStack : List Int),
        0 ≤ index → index < (SparseArray.Num map : Int) →
        ∃ e, (GetMapElement map index propertyStack).1 = some e) := by
  intro h
  obtain ⟨e, he⟩ := h [none, some (5, 6)] 0 [] (by decide) (by decide)
  have hnone : (GetMapElement [none, some (5, 6)] 0 []).1 = none := rfl
  rw [hnone] at he
  exact Option.noConfusion he

/-- C10 (amended): for a wire index `0 <= index < Num`, `GetSetElement`
resolves to the slot of the `index`-th valid element in slot order, the element
`GetSet` emits at list position `index`; `GetMapElement` resolves to the key
(next stack index 0) or the value (next stack index 1) of the slot of the
`index`-th valid pair, the pair `GetMap` emits at position `index`, and
reports not found when the stack is empty or the next stack index is neither
0 nor 1. For `index < 0` or `index >= Num` both report not found. -/
theorem C10_element_lookup {α κ ν : Type} (set : SparseArray α) (map : SparseArray (κ × ν))
    (index sub : Int) (below : List Int) :
    (0 ≤ index ∧ index < (SparseArray.Num set : Int) →
      ∃ slot a, GetSetElement set index = some slot ∧ set[slot]? = some (some a) ∧
        (SparseArray.dense (set.take slot)).length = index.toNat ∧
        (SparseArray.dense set)[index.toNat]? = some a ∧
        ∀ (h : TypeHandler α) (L : List sfProperty),
          GetSet (some h) set = some (sfProperty.list L) →
          ∃ e, h.Get a = some e ∧ L[index.toNat]? = some e) ∧
    (0 ≤ index ∧ index < (SparseArray.Num map : Int) →
      ∃ slot k v, map[slot]? = some (some (k, v)) ∧
        (SparseArray.dense (map.take slot)).length = index.toNat ∧
        (SparseArray.dense map)[index.toNat]? = some (k, v) ∧
        GetMapElement map index (0 :: below) = (some (MapElement.key slot), below) ∧
        GetMapElement map index (1 :: below) = (some (MapElement.value slot), below) ∧
        (sub ≠ 0 → sub ≠ 1 → GetMapElement map index (sub :: below) = (none, below)) ∧
        ∀ (hk : TypeHandler κ) (hv : TypeHandler ν) (L : List sfProperty),
          GetMap (some hk) (some hv) map = some (sfProperty.list L) →
          ∃ keyPtr valuePtr, hk.Get k = some keyPtr ∧ hv.Get v = some valuePtr ∧
            L[index.toNat]? = some (sfProperty.list [keyPtr, valuePtr])) ∧
    (GetMapElement map index []).1 = none ∧
    (index < 0 ∨ index ≥ (SparseArray.Num set : Int) → GetSetElement set index = none) ∧
    (index < 0 ∨ index ≥ (SparseArray.Num map : Int) →
      (GetMapElement map index (sub :: below)).1 = none) := by
  refine ⟨?_, ?_, rfl, GetSetElement_out_of_range set index, ?_⟩
  · rintro ⟨h0, h1⟩
    obtain ⟨slot, a, e1, e2, e3, e4⟩ := GetSetElement_found set index h0 h1
    refine ⟨slot, a, e1, e2, e3, e4, ?_⟩
    intro h L hL
    simp only [GetSet, Option.map_eq_some', sfProperty.list.injEq] at hL
    obtain ⟨L0, hL0, rfl⟩ := hL
    obtain ⟨L', hL', hall⟩ := GetSet_loop_forall₂ h.Get set [] L0 hL0
    simp only [List.nil_append] at hL'
    subst hL'
    obtain ⟨e, he1, he2⟩ := forall₂_getElem? hall index.toNat a e4
    exact ⟨e, he2, he1⟩
  · rintro ⟨h0, h1⟩
    have hn : index.toNat < (SparseArray.dense map).length := by
      unfold SparseArray.Num at h1; omega
    obtain ⟨q, a, e1, e2, e3, e4⟩ := scanToIndex_spec map 0 index.toNat hn
    obtain ⟨k, v⟩ := a
    have hguard : ¬ (index < 0 ∨ index ≥ (SparseArray.Num map : Int)) := by omega
    simp only [Nat.zero_add] at e1
    refine ⟨q, k, v, e2, e4, e3, ?_, ?_, ?_, ?_⟩
    · simp [GetMapElement, hguard, e1]
    · simp [GetMapElement, hguard, e1]
    · intro hs0 hs1
      simp [GetMapElement, hguard, e1, hs0, hs1]
    · intro hk hv L hL
      simp only [GetMap, Option.map_eq_some', sfProperty.list.injEq] at hL
      obtain ⟨L0, hL0, rfl⟩ := hL
      obtain ⟨L', hL', hall⟩ := GetMap_loop_forall₂ hk.Get hv.Get map [] L0 hL0
      simp only [List.nil_append] at hL'
      subst hL'
      obtain ⟨e, he1, keyPtr, valuePtr, hk1, hv1, rfl⟩ :=
        forall₂_getElem? hall index.toNat (k, v) e3
      exact ⟨keyPtr, valuePtr, hk1, hv1, he1⟩
  · intro h
    simp [GetMapElement, h]

/-- C10 witness: wire index 1 in a set and a map with gaps resolves to slot 2,
and a map lookup whose stack is empty finds nothing. -/
theorem C10_element_lookup_witness :
    (∃ slot a, GetSetElement [some 10, none, some 20, none, some 30] 1 = some slot ∧
        [some 10, none, some 20, none, some 30][slot]? = some (some a) ∧
        (SparseArray.dense ([some 10, none, some 20, none, some 30].take slot)).length =
          (1 : Int).toNat ∧
        (SparseArray.dense [some 10, none, some 20, none, some 30])[(1 : Int).toNat]? = some a ∧
        ∀ (h : TypeHandler Nat) (L : List sfProperty),
          GetSet (some h) [some 10, none, some 20, none, some 30] = some (sfProperty.list L) →
          ∃ e, h.Get a = some e ∧ L[(1 : Int).toNat]? = some e) ∧
      (GetMapElement [none, some (1, 2), some (3, 4)] 1 []).1 = none :=
  ⟨(C10_element_lookup [some 10, none, some 20, none, some 30]
      [none, some (1, 2), some (3, 4)] 1 5 []).1 ⟨by decide, by decide⟩,
    (C10_element_lookup [some 10, none, some 20, none, some 30]
      [none, some (1, 2), some (3, 4)] 1 5 []).2.2.1⟩

/-! ### Sparse containers: removal -/

theorem dense_append {α : Type} (a b : List (Option α)) :
    SparseArray.dense (a ++ b) = SparseArray.dense a ++ SparseArray.dense b := by
  induction a with
  | nil => simp [SparseArray.dense]
  | cons x rest ih =>
    cases x with
    | none => simpa [SparseArray.dense] using ih
    | some v => simpa [SparseArray.dense] using ih

theorem dense_take_drop {α : Type} (s : List (Option α)) (q : Nat) :
    SparseArray.dense (s.take q) ++ SparseArray.dense (s.drop q) = SparseArray.dense s := by
  rw [← dense_append, List.take_append_drop]

theorem removeStart_spec {α : Type} (slots : List (Option α)) (base n : Nat)
    (hn : n < (SparseArray.dense slots).length) :
    ∃ q a, removeStart slots base (n : Int) = base + q ∧ slots[q]? = some (some a) ∧
      (SparseArray.dense (slots.take q)).length = n := by
  induction slots generalizing base n with
  | nil => simp [SparseArray.dense] at hn
  | cons x rest ih =>
    cases x with
    | none =>
      simp only [SparseArray.dense] at hn
      obtain ⟨q, a, h1, h2, h3⟩ := ih (base + 1) n hn
      refine ⟨q + 1, a, ?_, ?_, ?_⟩
      · simp only [removeStart, h1]; omega
      · simpa using h2
      · simpa [SparseArray.dense] using h3
    | some b =>
      cases n with
      | zero =>
        exact ⟨0, b, by simp [removeStart], by simp, by simp [SparseArray.dense]⟩
      | succ m =>
        simp only [SparseArray.dense, List.length_cons] at hn
        obtain ⟨q, a, h1, h2, h3⟩ := ih (base + 1) m (by omega)
        refine ⟨q + 1, a, ?_, ?_, ?_⟩
        · have hneg : ¬ ((m : Int) < 0) := by omega
          have hcast : (((m + 1 : Nat) : Int)) - 1 = (m : Int) := by omega
          simp only [removeStart, hcast, if_neg hneg, h1]
          omega
        · simpa using h2
        · simpa [SparseArray.dense] using h3

theorem RemoveAt_loop_spec {α : Type} (slots : List (Option α)) (c : Nat)
    (hc : c ≤ (SparseArray.dense slots).length) :
    ∃ r, SparseArray.RemoveAt.loop slots c = some r ∧
      SparseArray.dense r = (SparseArray.dense slots).drop c ∧ r.length = slots.length := by
  induction slots generalizing c with
  | nil =>
    simp only [SparseArray.dense, List.length_nil, Nat.le_zero_eq] at hc
    subst hc
    exact ⟨[], by simp [SparseArray.RemoveAt.loop], by simp [SparseArray.dense], rfl⟩
  | cons x rest ih =>
    cases c with
    | zero => exact ⟨x :: rest, by simp [SparseArray.RemoveAt.loop], by simp, rfl⟩
    | succ m =>
      cases x with
      | none =>
        simp only [SparseArray.dense] at hc
        obtain ⟨r, h1, h2, h3⟩ := ih (m + 1) hc
        exact ⟨none :: r, by simp [SparseArray.RemoveAt.loop, h1],
          by simpa [SparseArray.dense] using h2, by simp [h3]⟩
      | some b =>
        simp only [SparseArray.dense, List.length_cons] at hc
        obtain ⟨r, h1, h2, h3⟩ := ih m (by omega)
        exact ⟨none :: r, by simp [SparseArray.RemoveAt.loop, h1],
          by simpa [SparseArray.dense] using h2, by simp [h3]⟩

theorem sparseRemove_spec {α : Type} (s : SparseArray α) (i count : Nat)
    (h : i + count ≤ SparseArray.Num s) (hc : 1 ≤ count) :
    ∃ start a s', removeStart s 0 (i : Int) = start ∧ s[start]? = some (some a) ∧
      (SparseArray.dense (s.take start)).length = i ∧
      SparseArray.RemoveAt s start (count : Int) = some s' ∧
      SparseArray.dense s' =
        (SparseArray.dense s).take i ++ (SparseArray.dense s).drop (i + count) ∧
      s'.length = s.length := by
  unfold SparseArray.Num at h
  obtain ⟨q, a, h1, h2, h3⟩ := removeStart_spec s 0 i (by omega)
  simp only [Nat.zero_add] at h1
  have hsplit := dense_take_drop s q
  have hlen : (SparseArray.dense (s.drop q)).length = (SparseArray.dense s).length - i := by
    have := congrArg List.length hsplit
    simp only [List.length_append] at this
    omega
  obtain ⟨r, r1, r2, r3⟩ := RemoveAt_loop_spec (s.drop q) count (by omega)
  have hvalid : SparseArray.IsValidIndex s q = true := by
    simp [SparseArray.IsValidIndex, h2]
  have hq : q < s.length := by
    by_contra hcon
    have : s[q]? = none := List.getElem?_eq_none (by omega)
    rw [this] at h2
    exact Option.noConfusion h2
  refine ⟨q, a, s.take q ++ r, h1, h2, h3, ?_, ?_, ?_⟩
  · unfold SparseArray.RemoveAt
    rw [if_pos ⟨hvalid, by omega⟩]
    simp [r1]
  · rw [dense_append, r2, ← hsplit]
    rw [List.take_append_of_le_length (by omega), List.drop_append_eq_append_drop]
    have e1 : List.take i (SparseArray.dense (List.take q s)) = SparseArray.dense (List.take q s) :=
      List.take_of_length_le (by omega)
    have e2 : List.drop (i + count) (SparseArray.dense (List.take q s)) = [] :=
      List.drop_of_length_le (by omega)
    rw [e1, e2, h3]
    simp
  · simp only [List.length_append, r3, List.length_take, List.length_drop]
    omega

/-- C9: for wire index `i` and `count >= 1` with `i + count <= Num`, the loop
of `SetRemove` / `MapRemove` stops at the slot of the `i`-th valid element
(exactly `i` valid slots precede it), and after the call the dense view is the
old dense view without the elements at wire positions `i .. i+count-1`. -/
theorem C9_sparse_remove {α κ ν : Type} (set : SparseArray α) (map : SparseArray (κ × ν))
    (i count : Nat) (hc : 1 ≤ count) (hset : i + count ≤ SparseArray.Num set)
    (hmap : i + count ≤ SparseArray.Num map) :
    (∃ start a set', removeStart set 0 (i : Int) = start ∧ set[start]? = some (some a) ∧
      (SparseArray.dense (set.take start)).length = i ∧
      SetRemove set (i : Int) (count : Int) = some set' ∧
      SparseArray.dense set' =
        (SparseArray.dense set).take i ++ (SparseArray.dense set).drop (i + count)) ∧
    (∃ start p map', removeStart map 0 (i : Int) = start ∧ map[start]? = some (some p) ∧
      (SparseArray.dense (map.take start)).length = i ∧
      MapRemove map (i : Int) (count : Int) = some map' ∧
      SparseArray.dense map' =
        (SparseArray.dense map).take i ++ (SparseArray.dense map).drop (i + count)) := by
  constructor
  · obtain ⟨start, a, s', h1, h2, h3, h4, h5, _⟩ := sparseRemove_spec set i count hset hc
    refine ⟨start, a, s', h1, h2, h3, ?_, h5⟩
    unfold SetRemove
    rw [h1, h4]
  · obtain ⟨start, a, s', h1, h2, h3, h4, h5, _⟩ := sparseRemove_spec map i count hmap hc
    refine ⟨start, a, s', h1, h2, h3, ?_, h5⟩
    unfold MapRemove
    rw [h1, h4]

/-- C9 witness: two elements removed at wire index 1 from a set and a map with
gaps. -/
theorem C9_sparse_remove_witness :
    (∃ start a set', removeStart [some 10, none, some 20, none, some 30] 0 ((1 : Nat) : Int) = start ∧
      [some 10, none, some 20, none, some 30][start]? = some (some a) ∧
      (SparseArray.dense ([some 10, none, some 20, none, some 30].take start)).length = 1 ∧
      SetRemove [some 10, none, some 20, none, some 30] ((1 : Nat) : Int) ((2 : Nat) : Int) = some set' ∧
      SparseArray.dense set' =
        (SparseArray.dense [some 10, none, some 20, none, some 30]).take 1 ++
          (SparseArray.dense [some 10, none, some 20, none, some 30]).drop (1 + 2)) ∧
    (∃ start p map', removeStart [none, some (1, 2), some (3, 4), none, some (5, 6)] 0 ((1 : Nat) : Int) = start ∧
      [none, some (1, 2), some (3, 4), none, some (5, 6)][start]? = some (some p) ∧
      (SparseArray.dense ([none, some (1, 2), some (3, 4), none, some (5, 6)].take start)).length = 1 ∧
      MapRemove [none, some (1, 2), some (3, 4), none, some (5, 6)] ((1 : Nat) : Int) ((2 : Nat) : Int) = some map' ∧
      SparseArray.dense map' =
        (SparseArray.dense [none, some (1, 2), some (3, 4), none, some (5, 6)]).take 1 ++
          (SparseArray.dense [none, some (1, 2), some (3, 4), none, some (5, 6)]).drop (1 + 2)) :=
  C9_sparse_remove [some 10, none, some 20, none, some 30]
    [none, some (1, 2), some (3, 4), none, some (5, 6)] 1 2 (by decide) (by decide) (by decide)

/-! ### Sparse containers: insertion -/

theorem Grown.refl {α : Type} (F L : Nat) (s : List (Option α)) (i : Nat) : Grown F L i s s := by
  induction s generalizing i with
  | nil => exact Grown.nil i
  | cons x rest ih => exact Grown.keep i x rest rest (ih (i + 1))

theorem Grown.mono {α : Type} {F L F' L' i : Nat} {r0 r1 : List (Option α)}
    (h : Grown F L i r0 r1) (hF : F' ≤ F) (hL : L ≤ L') : Grown F' L' i r0 r1 := by
  induction h with
  | nil i => exact Grown.nil i
  | keep i x r0 r1 _ ih => exact Grown.keep i x r0 r1 ih
  | reuse i a r0 r1 h1 h2 _ ih => exact Grown.reuse i a r0 r1 (by omega) (by omega) ih
  | append i a r1 h1 h2 _ ih => exact Grown.append i a r1 (by omega) (by omega) ih

theorem Grown.set {α : Type} {F L i : Nat} {r0 r1 : List (Option α)} (h : Grown F L i r0 r1)
    (c : Nat) (d : α) (hc : r1[c]? = some none) (hF : F ≤ i + c) (hL : i + c ≤ L) :
    Grown F L i r0 (r1.set c (some d)) := by
  induction h generalizing c with
  | nil i => simp at hc
  | keep i x r0 r1 h ih =>
    cases c with
    | zero =>
      simp only [List.getElem?_cons_zero, Option.some.injEq] at hc
      subst hc
      exact Grown.reuse i d r0 r1 (by omega) (by omega) h
    | succ c =>
      simp only [List.getElem?_cons_succ] at hc
      exact Grown.keep i x r0 _ (ih c hc (by omega) (by omega))
  | reuse i a r0 r1 h1 h2 h ih =>
    cases c with
    | zero => simp at hc
    | succ c =>
      simp only [List.getElem?_cons_succ] at hc
      exact Grown.reuse i a r0 _ h1 h2 (ih c hc (by omega) (by omega))
  | append i a r1 h1 h2 h ih =>
    cases c with
    | zero => simp at hc
    | succ c =>
      simp only [List.getElem?_cons_succ] at hc
      exact Grown.append i a _ h1 h2 (ih c hc (by omega) (by omega))

theorem Grown.snoc {α : Type} {F L i : Nat} {r0 r1 : List (Option α)} (h : Grown F L i r0 r1)
    (d : α) (hF : F ≤ i + r1.length) (hL : i + r1.length ≤ L) :
    Grown F L i r0 (r1 ++ [some d]) := by
  induction h with
  | nil i => exact Grown.append i d [] (by simpa using hF) (by simpa using hL) (Grown.nil _)
  | keep i x r0 r1 h ih =>
    simp only [List.length_cons] at hF hL
    exact Grown.keep i x r0 _ (ih (by omega) (by omega))
  | reuse i a r0 r1 h1 h2 h ih =>
    simp only [List.length_cons] at hF hL
    exact Grown.reuse i a r0 _ h1 h2 (ih (by omega) (by omega))
  | append i a r1 h1 h2 h ih =>
    simp only [List.length_cons] at hF hL
    exact Grown.append i a _ h1 h2 (ih (by omega) (by omega))

theorem Grown.dense_length_le {α : Type} {F L i : Nat} {r0 r1 : List (Option α)}
    (h : Grown F L i r0 r1) : (SparseArray.dense r0).length ≤ (SparseArray.dense r1).length := by
  induction h with
  | nil i => simp
  | keep i x r0 r1 _ ih => cases x <;> simp [SparseArray.dense] <;> omega
  | reuse i a r0 r1 _ _ _ ih => simp [SparseArray.dense]; omega
  | append i a r1 _ _ _ ih => simp [SparseArray.dense]

theorem Grown.eq_of_lt {α : Type} {F L i : Nat} {r0 r1 : List (Option α)}
    (h : Grown F L i r0 r1) (hL : L < i) : r0 = r1 := by
  induction h with
  | nil i => rfl
  | keep i x r0 r1 _ ih => rw [ih (by omega)]
  | reuse i a r0 r1 _ h2 _ _ => omega
  | append i a r1 _ h2 _ _ => omega

theorem dense_set_none {α : Type} (s : List (Option α)) (c : Nat) (d : α)
    (hc : s[c]? = some none) :
    (SparseArray.dense (s.set c (some d))).length = (SparseArray.dense s).length + 1 := by
  induction s generalizing c with
  | nil => simp at hc
  | cons x rest ih =>
    cases c with
    | zero =>
      simp only [List.getElem?_cons_zero, Option.some.injEq] at hc
      subst hc
      simp [SparseArray.dense]
    | succ c =>
      simp only [List.getElem?_cons_succ] at hc
      cases x with
      | none => simpa [SparseArray.dense] using ih c hc
      | some v => simpa [SparseArray.dense] using ih c hc

theorem Grown.add {α : Type} {F L : Nat} {s0 s : List (Option α)} (h : Grown F L 0 s0 s)
    (d : α) (choice : Nat) :
    Grown (min F (SparseArray.AddDefaultValue_Invalid_NeedsRehash s d choice).1)
        (max L (SparseArray.AddDefaultValue_Invalid_NeedsRehash s d choice).1) 0 s0
        (SparseArray.AddDefaultValue_Invalid_NeedsRehash s d choice).2 ∧
      (SparseArray.dense (SparseArray.AddDefaultValue_Invalid_NeedsRehash s d choice).2).length =
        (SparseArray.dense s).length + 1 := by
  unfold SparseArray.AddDefaultValue_Invalid_NeedsRehash
  by_cases hch : choice < s.length ∧ SparseArray.IsValidIndex s choice = false
  · rw [if_pos hch]
    have hnone : s[choice]? = some none := by
      obtain ⟨h1, h2⟩ := hch
      unfold SparseArray.IsValidIndex at h2
      rw [List.getElem?_eq_getElem h1] at h2 ⊢
      cases hx : s[choice] with
      | none => rfl
      | some v => simp [hx] at h2
    refine ⟨?_, dense_set_none s choice d hnone⟩
    exact Grown.set (h.mono (Nat.min_le_left _ _) (Nat.le_max_left _ _)) choice d hnone
      (by simp) (by simp)
  · rw [if_neg hch]
    refine ⟨?_, by simp [dense_append, SparseArray.dense]⟩
    exact Grown.snoc (h.mono (Nat.min_le_left _ _) (Nat.le_max_left _ _)) d (by simp) (by simp)

theorem insertSlots_grown {α : Type} (d : α) (n : Nat) (choices : List Nat)
    (s0 s : List (Option α)) (F L : Nat) (h : Grown F L 0 s0 s) :
    Grown (insertSlots d n choices s F L).2.1 (insertSlots d n choices s F L).2.2 0 s0
        (insertSlots d n choices s F L).1 ∧
      (SparseArray.dense (insertSlots d n choices s F L).1).length =
        (SparseArray.dense s).length + n := by
  induction n generalizing choices s F L with
  | zero => exact ⟨by simpa [insertSlots] using h, by simp [insertSlots]⟩
  | succ n ih =>
    simp only [insertSlots]
    obtain ⟨g1, g2⟩ := Grown.add h d (choices.headD 0)
    obtain ⟨i1, i2⟩ := ih choices.tail _ _ _ g1
    exact ⟨i1, by rw [i2, g2]; omega⟩

theorem drop_eq_cons_of_forall₂ {α β : Type} {R : α → β → Prop} {a : α} {as : List α}
    {l : List β} {n : Nat} (h : List.Forall₂ R (a :: as) (l.drop n)) :
    ∃ e, l[n]? = some e ∧ R a e ∧ List.Forall₂ R as (l.drop (n + 1)) ∧ n < l.length := by
  cases hd : l.drop n with
  | nil => rw [hd] at h; cases h
  | cons e rest =>
    rw [hd] at h
    cases h with
    | cons h1 h2 =>
      have hn : n < l.length := by
        by_contra hcon
        rw [List.drop_of_length_le (by omega)] at hd
        exact List.noConfusion hd
      have he : l[n]? = some e := by
        rw [List.getElem?_eq_getElem hn]
        have := List.drop_eq_getElem_cons hn
        rw [hd] at this
        simp only [List.cons.injEq] at this
        rw [this.1]
      have hr : l.drop (n + 1) = rest := by
        have := List.drop_eq_getElem_cons hn
        rw [hd] at this
        simp only [List.cons.injEq] at this
        exact this.2.symm
      exact ⟨e, he, h1, by rw [hr]; exact h2, hn⟩

theorem drop_eq_getElem?_cons {β : Type} (l : List β) (n : Nat) (e : β) (h : l[n]? = some e) :
    l.drop n = e :: l.drop (n + 1) := by
  have hn : n < l.length := by
    by_contra hcon
    rw [List.getElem?_eq_none (by omega)] at h
    exact Option.noConfusion h
  rw [List.drop_eq_getElem_cons hn]
  rw [List.getElem?_eq_getElem hn] at h
  simp only [Option.some.injEq] at h
  rw [h]

/-- Invariant of the second loop of `SetInsert` / `MapInsert`. `j` valid slots
lie before slot `i`, `k` of them newly allocated. `W` is the wire list, `oldW`
the dense view before the insertion. -/
theorem insertWrite_spec {α : Type} (write : α → Option sfProperty → Option α)
    (R : α → sfProperty → Prop) (W oldW : List sfProperty) (index count F L : Nat)
    (hWlen : W.length = oldW.length + count)
    (hpre : ∀ j, j < index → W[j]? = oldW[j]?)
    (hpost : ∀ j, index + count ≤ j → W.drop j = oldW.drop (j - count))
    (hput : ∀ (a : α) (p : sfProperty), p ∈ W → ∃ a', write a (some p) = some a' ∧ R a' p)
    {i : Nat} {r0 r1 : List (Option α)} (hG : Grown F L i r0 r1) (j k : Nat)
    (hkj : k ≤ j) (hkc : k ≤ count) (hjk : j ≤ oldW.length + k)
    (hold : List.Forall₂ R (SparseArray.dense r0) (oldW.drop (j - k)))
    (hlen : (SparseArray.dense r1).length = (SparseArray.dense r0).length + (count - k))
    (hF : k = 0 ∨ F < i) :
    ∃ r, insertWrite write W (index : Int) (count : Int) F L r1 i ((j : Int) - 1) = some r ∧
      List.Forall₂ R (SparseArray.dense r) (W.drop j) := by
  induction hG generalizing j k with
  | nil i =>
    refine ⟨[], by simp [insertWrite], ?_⟩
    simp only [SparseArray.dense, List.length_nil, Nat.zero_add] at hlen
    simp only [SparseArray.dense] at hold
    have hk : k = count := by omega
    have h0 : (oldW.drop (j - k)).length = 0 := by
      cases hd : oldW.drop (j - k) with
      | nil => rfl
      | cons e rest => rw [hd] at hold; cases hold
    have hj : W.length ≤ j := by
      simp only [List.length_drop] at h0
      omega
    rw [List.drop_of_length_le hj]
    exact List.Forall₂.nil
  | keep i x r0 r1 hG ih =>
    cases x with
    | none =>
      simp only [SparseArray.dense] at hold hlen
      obtain ⟨r, hr1, hr2⟩ := ih j k hkj hkc hjk hold hlen (by omega)
      exact ⟨none :: r, by simp [insertWrite, hr1], by simpa [SparseArray.dense] using hr2⟩
    | some a =>
      simp only [SparseArray.dense, List.length_cons] at hold hlen
      obtain ⟨e, he, hRa, hrest, hlt⟩ := drop_eq_cons_of_forall₂ hold
      have hjlt : j < W.length := by omega
      have hj1 : (j : Int) - 1 + 1 = (j : Int) := by omega
      have hj2 : (((j + 1 : Nat) : Int)) - 1 = (j : Int) := by omega
      simp only [insertWrite, hj1]
      by_cases hskip : (j : Int) < (index : Int) ∧ i < F
      · rw [if_pos hskip]
        have hk0 : k = 0 := by omega
        subst hk0
        simp only [Nat.sub_zero] at hrest he
        obtain ⟨r, hr1, hr2⟩ := ih (j + 1) 0 (by omega) (by omega) (by omega) hrest
          (by omega) (Or.inl rfl)
        rw [hj2] at hr1
        refine ⟨some a :: r, by simp [hr1], ?_⟩
        have hp : W[j]? = some e := by
          rw [hpre j (by omega)]; exact he
        rw [drop_eq_getElem?_cons _ _ _ hp]
        simp only [SparseArray.dense]
        exact List.Forall₂.cons hRa hr2
      · rw [if_neg hskip]
        have hnn : ¬ ((j : Int) < 0) := by omega
        obtain ⟨p, hp⟩ : ∃ p, W[j]? = some p := ⟨_, List.getElem?_eq_getElem hjlt⟩
        obtain ⟨a', hw, hRa'⟩ := hput a p (List.getElem?_mem hp)
        simp only [if_neg hnn, Int.toNat_ofNat, hp, hw]
        by_cases hbreak : (j : Int) ≥ (index : Int) + (count : Int) - 1 ∧ i ≥ L
        · rw [if_pos hbreak]
          have heq : r0 = r1 := hG.eq_of_lt (by omega)
          subst heq
          have hk : k = count := by omega
          refine ⟨some a' :: r0, rfl, ?_⟩
          rw [drop_eq_getElem?_cons _ _ _ hp]
          simp only [SparseArray.dense]
          refine List.Forall₂.cons hRa' ?_
          rw [hpost (j + 1) (by omega)]
          have e2 : j + 1 - count = j - k + 1 := by omega
          rw [e2]
          exact hrest
        · rw [if_neg hbreak]
          have hsub : j + 1 - k = j - k + 1 := by omega
          obtain ⟨r, hr1, hr2⟩ := ih (j + 1) k (by omega) hkc (by omega)
            (by rw [hsub]; exact hrest) (by omega) (by omega)
          rw [hj2] at hr1
          refine ⟨some a' :: r, by simp [hr1], ?_⟩
          rw [drop_eq_getElem?_cons _ _ _ hp]
          simp only [SparseArray.dense]
          exact List.Forall₂.cons hRa' hr2
  | reuse i a r0 r1 h1 h2 hG ih =>
    simp only [SparseArray.dense, List.length_cons] at hold hlen
    have hmono := hG.dense_length_le
    have hklt : k < count := by omega
    have hjlt : j < W.length := by omega
    have hj1 : (j : Int) - 1 + 1 = (j : Int) := by omega
    have hj2 : (((j + 1 : Nat) : Int)) - 1 = (j : Int) := by omega
    simp only [insertWrite, hj1]
    have hskip : ¬ ((j : Int) < (index : Int) ∧ i < F) := by omega
    rw [if_neg hskip]
    have hnn : ¬ ((j : Int) < 0) := by omega
    obtain ⟨p, hp⟩ : ∃ p, W[j]? = some p := ⟨_, List.getElem?_eq_getElem hjlt⟩
    obtain ⟨a', hw, hRa'⟩ := hput a p (List.getElem?_mem hp)
    simp only [if_neg hnn, Int.toNat_ofNat, hp, hw]
    by_cases hbreak : (j : Int) ≥ (index : Int) + (count : Int) - 1 ∧ i ≥ L
    · rw [if_pos hbreak]
      have heq : r0 = r1 := hG.eq_of_lt (by omega)
      subst heq
      have hk : k + 1 = count := by omega
      refine ⟨some a' :: r0, rfl, ?_⟩
      rw [drop_eq_getElem?_cons _ _ _ hp]
      simp only [SparseArray.dense]
      refine List.Forall₂.cons hRa' ?_
      rw [hpost (j + 1) (by omega)]
      have e2 : j + 1 - count = j - k := by omega
      rw [e2]
      exact hold
    · rw [if_neg hbreak]
      have hsub : j + 1 - (k + 1) = j - k := by omega
      obtain ⟨r, hr1, hr2⟩ := ih (j + 1) (k + 1) (by omega) (by omega) (by omega)
        (by rw [hsub]; exact hold) (by omega) (by omega)
      rw [hj2] at hr1
      refine ⟨some a' :: r, by simp [hr1], ?_⟩
      rw [drop_eq_getElem?_cons _ _ _ hp]
      simp only [SparseArray.dense]
      exact List.Forall₂.cons hRa' hr2
  | append i a r1 h1 h2 hG ih =>
    simp only [SparseArray.dense, List.length_cons, List.length_nil, Nat.zero_add] at hold hlen
    have hklt : k < count := by omega
    have hjlt : j < W.length := by omega
    have hj1 : (j : Int) - 1 + 1 = (j : Int) := by omega
    have hj2 : (((j + 1 : Nat) : Int)) - 1 = (j : Int) := by omega
    simp only [insertWrite, hj1]
    have hskip : ¬ ((j : Int) < (index : Int) ∧ i < F) := by omega
    rw [if_neg hskip]
    have hnn : ¬ ((j : Int) < 0) := by omega
    obtain ⟨p, hp⟩ : ∃ p, W[j]? = some p := ⟨_, List.getElem?_eq_getElem hjlt⟩
    obtain ⟨a', hw, hRa'⟩ := hput a p (List.getElem?_mem hp)
    simp only [if_neg hnn, Int.toNat_ofNat, hp, hw]
    by_cases hbreak : (j : Int) ≥ (index : Int) + (count : Int) - 1 ∧ i ≥ L
    · rw [if_pos hbreak]
      have heq : [] = r1 := hG.eq_of_lt (by omega)
      subst heq
      simp only [SparseArray.dense, List.length_nil] at hlen
      have hk : k + 1 = count := by omega
      refine ⟨[some a'], rfl, ?_⟩
      rw [drop_eq_getElem?_cons _ _ _ hp]
      simp only [SparseArray.dense]
      refine List.Forall₂.cons hRa' ?_
      rw [hpost (j + 1) (by omega)]
      have e2 : j + 1 - count = j - k := by omega
      rw [e2]
      exact hold
    · rw [if_neg hbreak]
      have hsub : j + 1 - (k + 1) = j - k := by omega
      obtain ⟨r, hr1, hr2⟩ := ih (j + 1) (k + 1) (by omega) (by omega) (by omega)
        (by simp only [SparseArray.dense]; rw [hsub]; exact hold)
        (by simp only [SparseArray.dense, List.length_nil, Nat.zero_add]; omega)
        (by omega)
      rw [hj2] at hr1
      refine ⟨some a' :: r, by simp [hr1], ?_⟩
      rw [drop_eq_getElem?_cons _ _ _ hp]
      simp only [SparseArray.dense]
      exact List.Forall₂.cons hRa' hr2

theorem GetSet_loop_of_forall₂ {α : Type} (Get : α → Option sfProperty) (slots : List (Option α))
    (acc W : List sfProperty)
    (h : List.Forall₂ (fun a e => Get a = some e) (SparseArray.dense slots) W) :
    GetSet.loop Get slots acc = some (acc ++ W) := by
  induction slots generalizing acc W with
  | nil =>
    simp only [SparseArray.dense] at h
    cases h
    simp [GetSet.loop]
  | cons x rest ih =>
    cases x with
    | none => exact ih acc W h
    | some a =>
      simp only [SparseArray.dense] at h
      cases h with
      | cons h1 h2 =>
        simp only [GetSet.loop, h1]
        rw [ih _ _ h2]
        simp

theorem GetMap_loop_of_forall₂ {κ ν : Type} (GetKey : κ → Option sfProperty)
    (GetValue : ν → Option sfProperty) (slots : List (Option (κ × ν)))
    (acc W : List sfProperty)
    (h : List.Forall₂
        (fun (a : κ × ν) e => ∃ keyPtr valuePtr, GetKey a.1 = some keyPtr ∧
          GetValue a.2 = some valuePtr ∧ e = sfProperty.list [keyPtr, valuePtr])
        (SparseArray.dense slots) W) :
    GetMap.loop GetKey GetValue slots acc = some (acc ++ W) := by
  induction slots generalizing acc W with
  | nil =>
    simp only [SparseArray.dense] at h
    cases h
    simp [GetMap.loop]
  | cons x rest ih =>
    cases x with
    | none => exact ih acc W h
    | some a =>
      obtain ⟨k, v⟩ := a
      simp only [SparseArray.dense] at h
      cases h with
      | cons h1 h2 =>
        obtain ⟨keyPtr, valuePtr, e1, e2, e3⟩ := h1
        simp only [GetMap.loop, e1, e2]
        rw [ih _ _ h2, e3]
        simp

/-- The wire list `take i oldW ++ ins ++ drop i oldW` against the old dense
view `oldW`. -/
theorem inserted_list_facts (oldW ins : List sfProperty) (i : Nat) (hi : i ≤ oldW.length) :
    (oldW.take i ++ ins ++ oldW.drop i).length = oldW.length + ins.length ∧
    (∀ j, j < i → (oldW.take i ++ ins ++ oldW.drop i)[j]? = oldW[j]?) ∧
    (∀ j, i + ins.length ≤ j →
      (oldW.take i ++ ins ++ oldW.drop i).drop j = oldW.drop (j - ins.length)) := by
  have hlt : (oldW.take i).length = i := by simp [hi]
  refine ⟨?_, ?_, ?_⟩
  · simp only [List.length_append, List.length_take, List.length_drop]
    omega
  · intro j hj
    rw [List.append_assoc, List.getElem?_append_left (by omega), List.getElem?_take_of_lt hj]
  · intro j hj
    rw [List.drop_append_eq_append_drop, List.drop_of_length_le (by simp; omega)]
    simp only [List.nil_append, List.length_append, hlt, List.drop_drop]
    congr 1
    omega

/-- Correctness of the two loops shared by `SetInsert` and `MapInsert`. -/
theorem sparseInsert_spec {α : Type} (write : α → Option sfProperty → Option α)
    (R : α → sfProperty → Prop) (dflt : α) (s : SparseArray α) (oldW ins : List sfProperty)
    (i : Nat) (choices : List Nat) (hi : i ≤ oldW.length)
    (hold : List.Forall₂ R (SparseArray.dense s) oldW)
    (hput : ∀ (a : α) (p : sfProperty), p ∈ oldW.take i ++ ins ++ oldW.drop i →
      ∃ a', write a (some p) = some a' ∧ R a' p) :
    ∃ s', sparseInsert write dflt s (oldW.take i ++ ins ++ oldW.drop i) (i : Int)
        (ins.length : Int) choices = some s' ∧
      List.Forall₂ R (SparseArray.dense s') (oldW.take i ++ ins ++ oldW.drop i) := by
  obtain ⟨f1, f2, f3⟩ := inserted_list_facts oldW ins i hi
  obtain ⟨g1, g2⟩ := insertSlots_grown dflt ins.length choices s s (SparseArray.GetMaxIndex s) 0
    (Grown.refl _ _ s 0)
  have hmain := insertWrite_spec write R (oldW.take i ++ ins ++ oldW.drop i) oldW i ins.length
    _ _ f1 f2 f3 hput g1 0 0 (Nat.le_refl 0) (Nat.zero_le _) (by omega)
    (by simpa using hold) (by simpa using g2) (Or.inl rfl)
  obtain ⟨r, hr1, hr2⟩ := hmain
  refine ⟨r, ?_, by simpa using hr2⟩
  unfold sparseInsert
  simpa using hr1

/-- C8: let the wire list be the old dense view (what `GetSet` / `GetMap`
yields before the call) with the elements `ins` inserted at wire index `i`,
`0 <= i <= size`, and let the element handlers accept every element of the wire
list (setting it makes the getter return it). Then wherever the allocator
places the new slots (`choices`), `SetInsert` leaves a native set whose dense
view is the wire list, and `MapInsert` does the same for lists of
`[key, value]` pairs. -/
theorem C8_sparse_insert {α κ ν : Type} (h : TypeHandler α) (dflt : α) (set : SparseArray α)
    (oldSet insSet : List sfProperty) (hk : TypeHandler κ) (hv : TypeHandler ν)
    (dfltPair : κ × ν) (map : SparseArray (κ × ν)) (oldMap insMap : List sfProperty)
    (i : Nat) (choices : List Nat)
    (hset : GetSet (some h) set = some (sfProperty.list oldSet))
    (hiset : i ≤ oldSet.length)
    (hputSet : ∀ p ∈ oldSet.take i ++ insSet ++ oldSet.drop i, ∀ a : α,
      ∃ c a', h.Set a p = some (c, a') ∧ h.Get a' = some p)
    (hmap : GetMap (some hk) (some hv) map = some (sfProperty.list oldMap))
    (himap : i ≤ oldMap.length)
    (hputMap : ∀ p ∈ oldMap.take i ++ insMap ++ oldMap.drop i,
      ∃ keyPtr valuePtr, p = sfProperty.list [keyPtr, valuePtr] ∧
        (∀ k : κ, ∃ c k', hk.Set k keyPtr = some (c, k') ∧ hk.Get k' = some keyPtr) ∧
        (∀ v : ν, ∃ c v', hv.Set v valuePtr = some (c, v') ∧ hv.Get v' = some valuePtr)) :
    (∃ set', SetInsert (some h) dflt set (oldSet.take i ++ insSet ++ oldSet.drop i) (i : Int)
        (insSet.length : Int) choices = some set' ∧
      GetSet (some h) set' = some (sfProperty.list (oldSet.take i ++ insSet ++ oldSet.drop i))) ∧
    (∃ map', MapInsert (some hk) (some hv) dfltPair map
        (oldMap.take i ++ insMap ++ oldMap.drop i) (i : Int) (insMap.length : Int) choices =
          some map' ∧
      GetMap (some hk) (some hv) map' =
        some (sfProperty.list (oldMap.take i ++ insMap ++ oldMap.drop i))) := by
  constructor
  · simp only [GetSet, Option.map_eq_some', sfProperty.list.injEq] at hset
    obtain ⟨L0, hL0, rfl⟩ := hset
    obtain ⟨L', hL', hall⟩ := GetSet_loop_forall₂ h.Get set [] L0 hL0
    simp only [List.nil_append] at hL'
    subst hL'
    obtain ⟨s', hs1, hs2⟩ := sparseInsert_spec
      (fun a p => (SetValue (some h) a p).map Prod.snd) (fun a e => h.Get a = some e) dflt set
      L0 insSet i choices hiset hall (by
        intro a p hp
        obtain ⟨c, a', e1, e2⟩ := hputSet p hp a
        exact ⟨a', by simp [SetValue, e1], e2⟩)
    refine ⟨s', hs1, ?_⟩
    simp only [GetSet]
    rw [GetSet_loop_of_forall₂ h.Get s' [] _ hs2]
    simp
  · simp only [GetMap, Option.map_eq_some', sfProperty.list.injEq] at hmap
    obtain ⟨L0, hL0, rfl⟩ := hmap
    obtain ⟨L', hL', hall⟩ := GetMap_loop_forall₂ hk.Get hv.Get map [] L0 hL0
    simp only [List.nil_append] at hL'
    subst hL'
    obtain ⟨s', hs1, hs2⟩ := sparseInsert_spec (MapInsert.write (some hk) (some hv))
      (fun (a : κ × ν) e => ∃ keyPtr valuePtr, hk.Get a.1 = some keyPtr ∧
          hv.Get a.2 = some valuePtr ∧ e = sfProperty.list [keyPtr, valuePtr])
      dfltPair map L0 insMap i choices himap hall (by
        intro a p hp
        obtain ⟨keyPtr, valuePtr, rfl, e1, e2⟩ := hputMap p hp
        obtain ⟨c1, k', ek1, ek2⟩ := e1 a.1
        obtain ⟨c2, v', ev1, ev2⟩ := e2 a.2
        exact ⟨(k', v'), by simp [MapInsert.write, SetValue, ek1, ev1],
          keyPtr, valuePtr, ek2, ev2, rfl⟩)
    refine ⟨s', hs1, ?_⟩
    simp only [GetMap]
    rw [GetMap_loop_of_forall₂ hk.Get hv.Get s' [] _ hs2]
    simp

theorem natHandler_put (n : Nat) (a : Nat) :
    ∃ c a', natHandler.Set a (sfProperty.value (ksMultiType.INT (n : Int))) = some (c, a') ∧
      natHandler.Get a' = some (sfProperty.value (ksMultiType.INT (n : Int))) :=
  ⟨decide (n ≠ a), n, by simp [natHandler], by simp [natHandler]⟩

/-- C8 witness: two elements inserted at wire index 1 into a set and a map with
gaps, the allocator reusing slot 3 and then slot 1. -/
theorem C8_sparse_insert_witness :
    (∃ set', SetInsert (some natHandler) 0 [some 10, none, some 20, none, some 30]
        ([sfProperty.value (ksMultiType.INT 10), sfProperty.value (ksMultiType.INT 20),
            sfProperty.value (ksMultiType.INT 30)].take 1 ++
          [sfProperty.value (ksMultiType.INT 77), sfProperty.value (ksMultiType.INT 88)] ++
          [sfProperty.value (ksMultiType.INT 10), sfProperty.value (ksMultiType.INT 20),
            sfProperty.value (ksMultiType.INT 30)].drop 1) ((1 : Nat) : Int)
        (([sfProperty.value (ksMultiType.INT 77),
          sfProperty.value (ksMultiType.INT 88)].length : Nat) : Int) [3, 1] = some set' ∧
      GetSet (some natHandler) set' = some (sfProperty.list
        ([sfProperty.value (ksMultiType.INT 10), sfProperty.value (ksMultiType.INT 20),
            sfProperty.value (ksMultiType.INT 30)].take 1 ++
          [sfProperty.value (ksMultiType.INT 77), sfProperty.value (ksMultiType.INT 88)] ++
          [sfProperty.value (ksMultiType.INT 10), sfProperty.value (ksMultiType.INT 20),
            sfProperty.value (ksMultiType.INT 30)].drop 1))) ∧
    (∃ map', MapInsert (some natHandler) (some natHandler) (0, 0)
        [none, some (1, 2), none, some (3, 4)]
        ([sfProperty.list [sfProperty.value (ksMultiType.INT 1),
              sfProperty.value (ksMultiType.INT 2)],
            sfProperty.list [sfProperty.value (ksMultiType.INT 3),
              sfProperty.value (ksMultiType.INT 4)]].take 1 ++
          [sfProperty.list [sfProperty.value (ksMultiType.INT 5),
            sfProperty.value (ksMultiType.INT 6)]] ++
          [sfProperty.list [sfProperty.value (ksMultiType.INT 1),
              sfProperty.value (ksMultiType.INT 2)],
            sfProperty.list [sfProperty.value (ksMultiType.INT 3),
              sfProperty.value (ksMultiType.INT 4)]].drop 1) ((1 : Nat) : Int)
        (([sfProperty.list [sfProperty.value (ksMultiType.INT 5),
            sfProperty.value (ksMultiType.INT 6)]].length : Nat) : Int) [3, 1] = some map' ∧
      GetMap (some natHandler) (some natHandler) map' = some (sfProperty.list
        ([sfProperty.list [sfProperty.value (ksMultiType.INT 1),
              sfProperty.value (ksMultiType.INT 2)],
            sfProperty.list [sfProperty.value (ksMultiType.INT 3),
              sfProperty.value (ksMultiType.INT 4)]].take 1 ++
          [sfProperty.list [sfProperty.value (ksMultiType.INT 5),
            sfProperty.value (ksMultiType.INT 6)]] ++
          [sfProperty.list [sfProperty.value (ksMultiType.INT 1),
              sfProperty.value (ksMultiType.INT 2)],
            sfProperty.list [sfProperty.value (ksMultiType.INT 3),
              sfProperty.value (ksMultiType.INT 4)]].drop 1))) :=
  C8_sparse_insert natHandler 0 [some 10, none, some 20, none, some 30]
    [sfProperty.value (ksMultiType.INT 10), sfProperty.value (ksMultiType.INT 20),
      sfProperty.value (ksMultiType.INT 30)]
    [sfProperty.value (ksMultiType.INT 77), sfProperty.value (ksMultiType.INT 88)]
    natHandler natHandler (0, 0) [none, some (1, 2), none, some (3, 4)]
    [sfProperty.list [sfProperty.value (ksMultiType.INT 1), sfProperty.value (ksMultiType.INT 2)],
      sfProperty.list [sfProperty.value (ksMultiType.INT 3), sfProperty.value (ksMultiType.INT 4)]]
    [sfProperty.list [sfProperty.value (ksMultiType.INT 5), sfProperty.value (ksMultiType.INT 6)]]
    1 [3, 1] rfl (by decide)
    (by
      intro p hp a
      simp only [List.take, List.drop, List.cons_append, List.nil_append, List.mem_cons,
        List.mem_singleton, List.not_mem_nil, or_false] at hp
      rcases hp with rfl | rfl | rfl | rfl | rfl
      · exact natHandler_put 10 a
      · exact natHandler_put 77 a
      · exact natHandler_put 88 a
      · exact natHandler_put 20 a
      · exact natHandler_put 30 a)
    rfl (by decide)
    (by
      intro p hp
      simp only [List.take, List.drop, List.cons_append, List.nil_append, List.mem_cons,
        List.mem_singleton, List.not_mem_nil, or_false] at hp
      rcases hp with rfl | rfl | rfl
      · exact ⟨_, _, rfl, natHandler_put 1, natHandler_put 2⟩
      · exact ⟨_, _, rfl, natHandler_put 5, natHandler_put 6⟩
      · exact ⟨_, _, rfl, natHandler_put 3, natHandler_put 4⟩)

/-! ### Property tree: comparison and dictionaries -/

mutual
theorem sfProperty.eq_of_beq : ∀ (a b : sfProperty), sfProperty.beq a b = true → a = b
  | .value a, .value b, h => by simp [sfProperty.beq] at h; rw [h]
  | .reference a, .reference b, h => by simp [sfProperty.beq] at h; rw [h]
  | .list xs, .list ys, h => by
      simp only [sfProperty.beq] at h
      rw [sfProperty.eq_of_beqList xs ys h]
  | .dictionary xs, .dictionary ys, h => by
      simp only [sfProperty.beq] at h
      rw [sfProperty.eq_of_beqFields xs ys h]
  | .null, .null, _ => rfl
  | .value _, .reference _, h => by simp [sfProperty.beq] at h
  | .value _, .list _, h => by simp [sfProperty.beq] at h
  | .value _, .dictionary _, h => by simp [sfProperty.beq] at h
  | .value _, .null, h => by simp [sfProperty.beq] at h
  | .reference _, .value _, h => by simp [sfProperty.beq] at h
  | .reference _, .list _, h => by simp [sfProperty.beq] at h
  | .reference _, .dictionary _, h => by simp [sfProperty.beq] at h
  | .reference _, .null, h => by simp [sfProperty.beq] at h
  | .list _, .value _, h => by simp [sfProperty.beq] at h
  | .list _, .reference _, h => by simp [sfProperty.beq] at h
  | .list _, .dictionary _, h => by simp [sfProperty.beq] at h
  | .list _, .null, h => by simp [sfProperty.beq] at h
  | .dictionary _, .value _, h => by simp [sfProperty.beq] at h
  | .dictionary _, .reference _, h => by simp [sfProperty.beq] at h
  | .dictionary _, .list _, h => by simp [sfProperty.beq] at h
  | .dictionary _, .null, h => by simp [sfProperty.beq] at h
  | .null, .value _, h => by simp [sfProperty.beq] at h
  | .null, .reference _, h => by simp [sfProperty.beq] at h
  | .null, .list _, h => by simp [sfProperty.beq] at h
  | .null, .dictionary _, h => by simp [sfProperty.beq] at h
theorem sfProperty.eq_of_beqList :
    ∀ (a b : List sfProperty), sfProperty.beqList a b = true → a = b
  | [], [], _ => rfl
  | x :: xs, y :: ys, h => by
      simp only [sfProperty.beqList, Bool.and_eq_true] at h
      rw [sfProperty.eq_of_beq x y h.1, sfProperty.eq_of_beqList xs ys h.2]
  | [], _ :: _, h => by simp [sfProperty.beqList] at h
  | _ :: _, [], h => by simp [sfProperty.beqList] at h
theorem sfProperty.eq_of_beqFields :
    ∀ (a b : List (sfName × sfProperty)), sfProperty.beqFields a b = true → a = b
  | [], [], _ => rfl
  | (k, x) :: xs, (k', y) :: ys, h => by
      simp only [sfProperty.beqFields, Bool.and_eq_true, decide_eq_true_eq] at h
      rw [h.1.1, sfProperty.eq_of_beq x y h.1.2, sfProperty.eq_of_beqFields xs ys h.2]
  | [], _ :: _, h => by simp [sfProperty.beqFields] at h
  | _ :: _, [], h => by simp [sfProperty.beqFields] at h
end

mutual
theorem sfProperty.beq_refl : ∀ (a : sfProperty), sfProperty.beq a a = true
  | .value a => by simp [sfProperty.beq]
  | .reference a => by simp [sfProperty.beq]
  | .list xs => by simp only [sfProperty.beq]; exact sfProperty.beqList_refl xs
  | .dictionary xs => by simp only [sfProperty.beq]; exact sfProperty.beqFields_refl xs
  | .null => rfl
theorem sfProperty.beqList_refl : ∀ (a : List sfProperty), sfProperty.beqList a a = true
  | [] => rfl
  | x :: xs => by
      simp only [sfProperty.beqList, Bool.and_eq_true]
      exact ⟨sfProperty.beq_refl x, sfProperty.beqList_refl xs⟩
theorem sfProperty.beqFields_refl :
    ∀ (a : List (sfName × sfProperty)), sfProperty.beqFields a a = true
  | [] => rfl
  | (k, x) :: xs => by
      simp only [sfProperty.beqFields, Bool.and_eq_true, decide_eq_true_eq]
      exact ⟨⟨trivial, sfProperty.beq_refl x⟩, sfProperty.beqFields_refl xs⟩
end

theorem sfProperty.beq_iff (a b : sfProperty) : sfProperty.beq a b = true ↔ a = b :=
  ⟨sfProperty.eq_of_beq a b, fun h => h ▸ sfProperty.beq_refl a⟩

theorem dictGet_dictSet {α : Type} (d : List (sfName × α)) (k q : sfName) (v : α) :
    dictGet (dictSet d k v) q = if q = k then some v else dictGet d q := by
  induction d with
  | nil =>
    by_cases h : q = k
    · simp [dictSet, dictGet, h]
    · have h' : ¬ k = q := fun e => h e.symm
      simp [dictSet, dictGet, h, h']
  | cons p rest ih =>
    obtain ⟨k', v'⟩ := p
    simp only [dictSet]
    by_cases h1 : k < k'
    · rw [if_pos h1]
      by_cases h : q = k
      · simp [dictGet, h]
      · have h' : ¬ k = q := fun e => h e.symm
        simp [dictGet, h, h']
    · rw [if_neg h1]
      by_cases h2 : k = k'
      · rw [if_pos h2]
        subst h2
        by_cases h : q = k
        · simp [dictGet, h]
        · have h' : ¬ k = q := fun e => h e.symm
          simp [dictGet, h, h']
      · rw [if_neg h2]
        simp only [dictGet, ih]
        by_cases h : q = k
        · subst h
          have h' : ¬ k' = q := fun e => h2 e.symm
          simp [h']
        · simp [h]

theorem dictGet_dictRemove {α : Type} (d : List (sfName × α)) (k q : sfName) :
    dictGet (dictRemove d k) q = if q = k then none else dictGet d q := by
  induction d with
  | nil => simp [dictRemove, dictGet]
  | cons p rest ih =>
    obtain ⟨k', v'⟩ := p
    by_cases h1 : k' = k
    · subst h1
      simp only [dictRemove, if_true, ih, dictGet]
      by_cases h : q = k'
      · simp [h]
      · have h' : ¬ k' = q := fun e => h e.symm
        simp [h, h']
    · simp only [dictRemove, if_neg h1, dictGet, ih]
      by_cases h : q = k
      · subst h
        simp [h1]
      · simp [h]

/-- Strictly increasing keys, unfolded one step. -/
theorem sortedKeys_cons {α : Type} (k : sfName) (v : α) (rest : List (sfName × α)) :
    sortedKeys ((k, v) :: rest) = true ↔
      (∀ p ∈ rest, k < p.1) ∧ sortedKeys rest = true := by
  induction rest generalizing k v with
  | nil => simp [sortedKeys]
  | cons p rest ih =>
    obtain ⟨k2, v2⟩ := p
    simp only [sortedKeys, Bool.and_eq_true, decide_eq_true_eq, List.mem_cons, forall_eq_or_imp]
    constructor
    · rintro ⟨h1, h2⟩
      refine ⟨⟨h1, ?_⟩, h2⟩
      intro p hp
      exact lt_trans h1 (((ih k2 v2).1 h2).1 p hp)
    · rintro ⟨⟨h1, _⟩, h2⟩
      exact ⟨h1, h2⟩

theorem dictGet_eq_none_of_lt {α : Type} (d : List (sfName × α)) (q : sfName)
    (h : ∀ p ∈ d, q < p.1) : dictGet d q = none := by
  induction d with
  | nil => rfl
  | cons p rest ih =>
    obtain ⟨k, v⟩ := p
    have hk : q < k := h (k, v) (List.mem_cons_self _ _)
    have hne : ¬ k = q := Nat.ne_of_gt hk
    simp only [dictGet, if_neg hne]
    exact ih (fun p hp => h p (List.mem_cons_of_mem _ hp))

theorem mem_of_dictGet {α : Type} (d : List (sfName × α)) (q : sfName) (v : α)
    (h : dictGet d q = some v) : (q, v) ∈ d := by
  induction d with
  | nil => simp [dictGet] at h
  | cons p rest ih =>
    obtain ⟨k, w⟩ := p
    by_cases hk : k = q
    · simp only [dictGet, if_pos hk, Option.some.injEq] at h
      subst hk; subst h
      exact List.mem_cons_self _ _
    · simp only [dictGet, if_neg hk] at h
      exact List.mem_cons_of_mem _ (ih h)

theorem dictGet_of_mem_sorted {α : Type} (d : List (sfName × α)) (hs : sortedKeys d = true)
    (q : sfName) (v : α) (h : (q, v) ∈ d) : dictGet d q = some v := by
  induction d with
  | nil => simp at h
  | cons p rest ih =>
    obtain ⟨k, w⟩ := p
    obtain ⟨h1, h2⟩ := (sortedKeys_cons k w rest).1 hs
    rcases List.mem_cons.1 h with heq | hmem
    · simp only [Prod.mk.injEq] at heq
      obtain ⟨rfl, rfl⟩ := heq
      simp [dictGet]
    · have hlt : k < q := h1 (q, v) hmem
      have hne : ¬ k = q := Nat.ne_of_lt hlt
      simp only [dictGet, if_neg hne]
      exact ih h2 hmem

/-- Two dictionaries in key order with the same lookups are the same list. -/
theorem dict_ext {α : Type} (d e : List (sfName × α)) (hd : sortedKeys d = true)
    (he : sortedKeys e = true) (h : ∀ q, dictGet d q = dictGet e q) : d = e := by
  induction d generalizing e with
  | nil =>
    cases e with
    | nil => rfl
    | cons p rest =>
      obtain ⟨k, v⟩ := p
      have := h k
      simp [dictGet] at this
  | cons p rest ih =>
    obtain ⟨k, v⟩ := p
    cases e with
    | nil =>
      have := h k
      simp [dictGet] at this
    | cons p' rest' =>
      obtain ⟨k', v'⟩ := p'
      obtain ⟨d1, d2⟩ := (sortedKeys_cons k v rest).1 hd
      obtain ⟨e1, e2⟩ := (sortedKeys_cons k' v' rest').1 he
      have hkk : k = k' := by
        rcases Nat.lt_trichotomy k k' with hlt | heq | hgt
        · have h1 := h k
          have hne : ¬ k' = k := Nat.ne_of_gt hlt
          simp only [dictGet, if_true, if_neg hne] at h1
          rw [dictGet_eq_none_of_lt rest' k (fun p hp => lt_trans hlt (e1 p hp))] at h1
          exact Option.noConfusion h1
        · exact heq
        · have h1 := h k'
          have hne : ¬ k = k' := Nat.ne_of_gt hgt
          simp only [dictGet, if_true, if_neg hne] at h1
          rw [dictGet_eq_none_of_lt rest k' (fun p hp => lt_trans hgt (d1 p hp))] at h1
          exact Option.noConfusion h1
      subst hkk
      have hvv : v = v' := by
        have h1 := h k
        simpa [dictGet] using h1
      subst hvv
      have hrest : rest = rest' := by
        apply ih rest' d2 e2
        intro q
        have h1 := h q
        by_cases hq : k = q
        · subst hq
          rw [dictGet_eq_none_of_lt rest k d1, dictGet_eq_none_of_lt rest' k e1]
        · simpa [dictGet, hq] using h1
      rw [hrest]

theorem sortedKeys_dictSet {α : Type} (d : List (sfName × α)) (k : sfName) (v : α)
    (hd : sortedKeys d = true) : sortedKeys (dictSet d k v) = true := by
  induction d with
  | nil => simp [dictSet, sortedKeys]
  | cons p rest ih =>
    obtain ⟨k', v'⟩ := p
    obtain ⟨d1, d2⟩ := (sortedKeys_cons k' v' rest).1 hd
    simp only [dictSet]
    by_cases h1 : k < k'
    · rw [if_pos h1]
      rw [sortedKeys_cons]
      refine ⟨?_, hd⟩
      intro p hp
      rcases List.mem_cons.1 hp with rfl | hmem
      · exact h1
      · exact lt_trans h1 (d1 p hmem)
    · rw [if_neg h1]
      by_cases h2 : k = k'
      · rw [if_pos h2]
        subst h2
        rw [sortedKeys_cons]
        exact ⟨d1, d2⟩
      · rw [if_neg h2]
        rw [sortedKeys_cons]
        refine ⟨?_, ih d2⟩
        intro p hp
        obtain ⟨q, w⟩ := p
        have hget : dictGet (dictSet rest k v) q = some w :=
          dictGet_of_mem_sorted _ (ih d2) q w hp
        rw [dictGet_dictSet] at hget
        by_cases hq : q = k
        · subst hq
          show k' < q
          exact Nat.lt_of_le_of_ne (Nat.le_of_not_lt h1) (fun e => h2 e.symm)
        · rw [if_neg hq] at hget
          exact d1 (q, w) (mem_of_dictGet rest q w hget)

theorem sortedKeys_filter {α : Type} (d : List (sfName × α)) (f : sfName × α → Bool)
    (hd : sortedKeys d = true) : sortedKeys (d.filter f) = true := by
  induction d with
  | nil => simp [sortedKeys]
  | cons p rest ih =>
    obtain ⟨k, v⟩ := p
    obtain ⟨d1, d2⟩ := (sortedKeys_cons k v rest).1 hd
    by_cases hf : f (k, v) = true
    · rw [List.filter_cons_of_pos hf, sortedKeys_cons]
      exact ⟨fun p hp => d1 p (List.mem_of_mem_filter hp), ih d2⟩
    · rw [List.filter_cons_of_neg hf]
      exact ih d2

theorem dictGet_filter_key {α : Type} (d : List (sfName × α)) (g : sfName → Bool) (q : sfName) :
    dictGet (d.filter (fun f => g f.1)) q = if g q = true then dictGet d q else none := by
  induction d with
  | nil => simp [dictGet]
  | cons p rest ih =>
    obtain ⟨k, v⟩ := p
    by_cases hf : g k = true
    · rw [List.filter_cons_of_pos (by simpa using hf)]
      simp only [dictGet, ih]
      by_cases hk : k = q
      · subst hk; simp [hf]
      · simp [hk]
    · rw [List.filter_cons_of_neg (by simpa using hf)]
      rw [ih]
      by_cases hk : k = q
      · subst hk; simp [hf]
      · simp [dictGet, hk]

/-! ### Copy, CopyList, CopyDict -/

theorem WF_of_dictGet (d : List (sfName × sfProperty)) (hd : sfProperty.WFFields d = true)
    (q : sfName) (p : sfProperty) (h : dictGet d q = some p) : p.WF = true := by
  induction d with
  | nil => simp [dictGet] at h
  | cons f rest ih =>
    obtain ⟨k, v⟩ := f
    simp only [sfProperty.WFFields, Bool.and_eq_true] at hd
    by_cases hk : k = q
    · simp only [dictGet, if_pos hk, Option.some.injEq] at h
      rw [← h]; exact hd.1
    · simp only [dictGet, if_neg hk] at h
      exact ih hd.2 h

theorem WFFields_dictSet (d : List (sfName × sfProperty)) (k : sfName) (v : sfProperty)
    (hd : sfProperty.WFFields d = true) (hv : v.WF = true) :
    sfProperty.WFFields (dictSet d k v) = true := by
  induction d with
  | nil => simp [dictSet, sfProperty.WFFields, hv]
  | cons f rest ih =>
    obtain ⟨k', v'⟩ := f
    simp only [sfProperty.WFFields, Bool.and_eq_true] at hd
    simp only [dictSet]
    by_cases h1 : k < k'
    · rw [if_pos h1]
      simp [sfProperty.WFFields, hv, hd.1, hd.2]
    · rw [if_neg h1]
      by_cases h2 : k = k'
      · rw [if_pos h2]
        simp [sfProperty.WFFields, hv, hd.2]
      · rw [if_neg h2]
        simp [sfProperty.WFFields, hd.1, ih hd.2]

theorem WFFields_filter (d : List (sfName × sfProperty)) (f : sfName × sfProperty → Bool)
    (hd : sfProperty.WFFields d = true) : sfProperty.WFFields (d.filter f) = true := by
  induction d with
  | nil => simp [sfProperty.WFFields]
  | cons p rest ih =>
    obtain ⟨k, v⟩ := p
    simp only [sfProperty.WFFields, Bool.and_eq_true] at hd
    by_cases hf : f (k, v) = true
    · rw [List.filter_cons_of_pos hf]
      simp [sfProperty.WFFields, hd.1, ih hd.2]
    · rw [List.filter_cons_of_neg hf]
      exact ih hd.2

theorem Copy_of_type_ne (src dest : sfProperty) (h : dest.Type ≠ src.Type) :
    Copy src dest = (false, dest) := by
  cases src <;> cases dest <;> simp [sfProperty.Type] at h <;> simp [Copy]

theorem Copy_fst (src dest : sfProperty) :
    (Copy src dest).1 = decide (dest.Type = src.Type) := by
  cases src <;> cases dest <;> simp [Copy, sfProperty.Type]

theorem copyList_finish (D T src extra : List sfProperty) (h : D ++ T = src ++ extra)
    (hT : T ≠ [] → extra = []) :
    (if T.length > 0 then D ++ T
      else if D.length > src.length then D.take src.length else D) = src := by
  by_cases hlen : T.length > 0
  · rw [if_pos hlen]
    have hne : T ≠ [] := by
      intro e; rw [e] at hlen; exact Nat.lt_irrefl _ hlen
    rw [h, hT hne, List.append_nil]
  · rw [if_neg hlen]
    have hnil : T = [] := by
      cases T with
      | nil => rfl
      | cons t ts => simp at hlen
    subst hnil
    rw [List.append_nil] at h
    subst h
    by_cases hl : (src ++ extra).length > src.length
    · rw [if_pos hl]
      simp
    · rw [if_neg hl]
      have : extra = [] := by
        cases extra with
        | nil => rfl
        | cons e es => simp at hl
      rw [this, List.append_nil]

mutual
theorem Copy_of_same_type : ∀ (src dest : sfProperty), src.WF = true → dest.WF = true →
    dest.Type = src.Type → Copy src dest = (true, src)
  | .value v, dest, _, _, ht => by
      cases dest <;> simp [sfProperty.Type] at ht
      simp only [Copy]
      split
      · rename_i heq
        rw [sfProperty.eq_of_beq _ _ heq]
      · rfl
  | .reference v, dest, _, _, ht => by
      cases dest <;> simp [sfProperty.Type] at ht
      simp only [Copy]
      split
      · rename_i heq
        rw [sfProperty.eq_of_beq _ _ heq]
      · rfl
  | .list src, dest, hs, hd, ht => by
      cases dest <;> simp [sfProperty.Type] at ht
      rename_i d
      simp only [sfProperty.WF] at hs hd
      obtain ⟨extra, h1, h2⟩ := CopyList_loop_spec src false [] d [] hs hd (fun h => absurd rfl h)
      simp only [Copy]
      rw [copyList_finish _ _ src extra (by simpa using h1) h2]
  | .dictionary src, dest, hs, hd, ht => by
      cases dest <;> simp [sfProperty.Type] at ht
      rename_i d
      simp only [sfProperty.WF, Bool.and_eq_true] at hs hd
      obtain ⟨h1, h2⟩ := CopyDict_loop_spec src (d.filter (fun f => dictHasKey src f.1)) hs.2 hs.1
        (WFFields_filter d _ hd.2) (sortedKeys_filter d _ hd.1)
      simp only [Copy]
      have : CopyDict.loop src (d.filter (fun f => dictHasKey src f.1)) = src := by
        apply dict_ext _ _ h1 hs.1
        intro q
        rw [h2 q]
        cases hq : dictGet src q with
        | some v => rfl
        | none =>
          simp only
          rw [dictGet_filter_key d (fun k => dictHasKey src k) q]
          simp [dictHasKey, hq]
      rw [this]
  | .null, dest, _, _, ht => by
      cases dest <;> simp [sfProperty.Type] at ht
      simp [Copy]
theorem CopyList_loop_spec : ∀ (srcRest : List sfProperty) (skip : Bool)
    (done rest toAdd : List sfProperty), sfProperty.WFList srcRest = true →
    sfProperty.WFList rest = true → (toAdd ≠ [] → rest = []) →
    ∃ extra, (CopyList.loop srcRest skip done rest toAdd).1 ++
        (CopyList.loop srcRest skip done rest toAdd).2 =
          done ++ toAdd ++ (if skip = true then srcRest.drop 1 else srcRest) ++ extra ∧
      ((CopyList.loop srcRest skip done rest toAdd).2 ≠ [] → extra = [])
  | [], skip, done, rest, toAdd, _, _, hadd => by
      by_cases ht : toAdd = []
      · subst ht
        refine ⟨rest, ?_, fun h => absurd ?_ h⟩
        · cases skip <;> simp [CopyList.loop]
        · simp [CopyList.loop]
      · refine ⟨[], ?_, fun _ => rfl⟩
        rw [hadd ht]
        cases skip <;> simp [CopyList.loop]
  | e :: srcRest, true, done, rest, toAdd, hs, hr, hadd => by
      simp only [sfProperty.WFList, Bool.and_eq_true] at hs
      obtain ⟨extra, h1, h2⟩ := CopyList_loop_spec srcRest false done rest toAdd hs.2 hr hadd
      refine ⟨extra, ?_, ?_⟩
      · simp only [CopyList.loop]
        rw [h1]
        simp
      · simp only [CopyList.loop]
        exact h2
  | e :: srcRest, false, done, [], toAdd, hs, _, _ => by
      simp only [sfProperty.WFList, Bool.and_eq_true] at hs
      obtain ⟨extra, h1, h2⟩ := CopyList_loop_spec srcRest false done [] (toAdd ++ [e]) hs.2 rfl
        (fun _ => rfl)
      refine ⟨extra, ?_, ?_⟩
      · simp only [CopyList.loop]
        rw [h1]
        simp
      · simp only [CopyList.loop]
        exact h2
  | e :: srcRest, false, done, d :: ds, toAdd, hs, hr, hadd => by
      have ht : toAdd = [] := by
        by_contra hne
        exact List.noConfusion (hadd hne)
      subst ht
      simp only [sfProperty.WFList, Bool.and_eq_true] at hs hr
      simp only [CopyList.loop]
      by_cases hb : sfProperty.beq e d = true
      · rw [if_pos hb]
        have hed := sfProperty.eq_of_beq _ _ hb
        obtain ⟨extra, h1, h2⟩ := CopyList_loop_spec srcRest false (done ++ [d]) ds [] hs.2 hr.2
          (fun h => absurd rfl h)
        exact ⟨extra, by rw [h1, hed]; simp, h2⟩
      · rw [if_neg hb]
        by_cases hrem : headEquals ds e = true
        · rw [if_pos hrem]
          cases ds with
          | nil => simp [headEquals] at hrem
          | cons d2 ds' =>
            simp only [headEquals] at hrem
            have hed := sfProperty.eq_of_beq _ _ hrem
            simp only [sfProperty.WFList, Bool.and_eq_true] at hr
            obtain ⟨extra, h1, h2⟩ := CopyList_loop_spec srcRest false (done ++ [d2]) ds' []
              hs.2 hr.2.2 (fun h => absurd rfl h)
            refine ⟨extra, ?_, ?_⟩
            · simp only [List.take_succ_cons, List.take_zero, List.drop_succ_cons, List.drop_zero]
              rw [h1, hed]; simp
            · simpa using h2
        · rw [if_neg hrem]
          by_cases hins : headEquals srcRest d = true
          · rw [if_pos hins]
            cases srcRest with
            | nil => simp [headEquals] at hins
            | cons s2 srcRest' =>
              simp only [headEquals] at hins
              have hed := sfProperty.eq_of_beq _ _ hins
              obtain ⟨extra, h1, h2⟩ := CopyList_loop_spec (s2 :: srcRest') true
                (done ++ [e, d]) ds [] hs.2 hr.2 (fun h => absurd rfl h)
              refine ⟨extra, ?_, h2⟩
              rw [h1, hed]; simp
          · rw [if_neg hins]
            have hx : (if (Copy e d).1 = true then (Copy e d).2 else e) = e := by
              by_cases hty : d.Type = e.Type
              · rw [Copy_of_same_type e d hs.1 hr.1 hty]
                simp
              · rw [Copy_of_type_ne e d hty]
                simp
            rw [hx]
            obtain ⟨extra, h1, h2⟩ := CopyList_loop_spec srcRest false (done ++ [e]) ds [] hs.2
              hr.2 (fun h => absurd rfl h)
            exact ⟨extra, by rw [h1]; simp, h2⟩
theorem CopyDict_loop_spec : ∀ (srcFields dest : List (sfName × sfProperty)),
    sfProperty.WFFields srcFields = true → sortedKeys srcFields = true →
    sfProperty.WFFields dest = true → sortedKeys dest = true →
    sortedKeys (CopyDict.loop srcFields dest) = true ∧
      ∀ q, dictGet (CopyDict.loop srcFields dest) q =
        (match dictGet srcFields q with
          | some v => some v
          | none => dictGet dest q)
  | [], dest, _, _, _, hd => by
      simp [CopyDict.loop, dictGet, hd]
  | (key, value) :: srcRest, dest, hw, hs, hwd, hd => by
      simp only [sfProperty.WFFields, Bool.and_eq_true] at hw
      obtain ⟨s1, s2⟩ := (sortedKeys_cons key value srcRest).1 hs
      have hstep : CopyDict.loop ((key, value) :: srcRest) dest =
          CopyDict.loop srcRest (dictSet dest key value) := by
        simp only [CopyDict.loop]
        cases hg : dictGet dest key with
        | none => rfl
        | some destPropPtr =>
          simp only
          have hx : (if (Copy value destPropPtr).1 = true then (Copy value destPropPtr).2
              else value) = value := by
            by_cases hty : destPropPtr.Type = value.Type
            · rw [Copy_of_same_type value destPropPtr hw.1 (WF_of_dictGet dest hwd key _ hg) hty]
              simp
            · rw [Copy_of_type_ne value destPropPtr hty]
              simp
          rw [hx]
      rw [hstep]
      obtain ⟨h1, h2⟩ := CopyDict_loop_spec srcRest (dictSet dest key value) hw.2 s2
        (WFFields_dictSet dest key value hwd hw.1) (sortedKeys_dictSet dest key value hd)
      refine ⟨h1, ?_⟩
      intro q
      rw [h2 q, dictGet_dictSet]
      by_cases hq : key = q
      · subst hq
        rw [dictGet_eq_none_of_lt srcRest key s1]
        simp [dictGet]
      · have hq' : ¬ q = key := fun e => hq e.symm
        simp [dictGet, hq, hq']
end

theorem CopyList_eq (dest src : List sfProperty) (hd : sfProperty.WFList dest = true)
    (hs : sfProperty.WFList src = true) : CopyList dest src = src := by
  obtain ⟨extra, h1, h2⟩ := CopyList_loop_spec src false [] dest [] hs hd (fun h => absurd rfl h)
  unfold CopyList
  exact copyList_finish _ _ src extra (by simpa using h1) h2

theorem CopyDict_eq (dest src : List (sfName × sfProperty))
    (hd : (sfProperty.dictionary dest).WF = true) (hs : (sfProperty.dictionary src).WF = true) :
    CopyDict dest src = src := by
  have h := Copy_of_same_type (.dictionary src) (.dictionary dest) hs hd rfl
  simp only [Copy, Prod.mk.injEq, sfProperty.dictionary.injEq, true_and] at h
  exact h

/-- C7: `Copy(dest, src)` returns false exactly when an argument is null or the
two properties have different kinds, and then `dest` is unchanged; when it
returns true, `dest` is afterwards equal to `src` as a tree, to any depth.
`CopyList` makes the destination list the source list and `CopyDict` makes the
destination dictionary the source dictionary (the same keys with the same
values). Dictionaries are in their canonical key order (`WF`). -/
theorem C7_copy (destPtr srcPtr : Option sfProperty)
    (destList srcList : List sfProperty) (destDict srcDict : List (sfName × sfProperty))
    (hd : ∀ d, destPtr = some d → d.WF = true) (hs : ∀ s, srcPtr = some s → s.WF = true)
    (hdl : (sfProperty.list destList).WF = true) (hsl : (sfProperty.list srcList).WF = true)
    (hdd : (sfProperty.dictionary destDict).WF = true)
    (hsd : (sfProperty.dictionary srcDict).WF = true) :
    ((CopyPtr destPtr srcPtr).1 = false ↔
      (destPtr = none ∨ srcPtr = none ∨
        ∃ d s, destPtr = some d ∧ srcPtr = some s ∧ d.Type ≠ s.Type)) ∧
    ((CopyPtr destPtr srcPtr).1 = false → (CopyPtr destPtr srcPtr).2 = destPtr) ∧
    ((CopyPtr destPtr srcPtr).1 = true → (CopyPtr destPtr srcPtr).2 = srcPtr) ∧
    CopyList destList srcList = srcList ∧
    CopyDict destDict srcDict = srcDict ∧
    (∀ k, dictGet (CopyDict destDict srcDict) k = dictGet srcDict k) := by
  have hdict := CopyDict_eq destDict srcDict hdd hsd
  refine ⟨?_, ?_, ?_, CopyList_eq destList srcList hdl hsl, hdict, fun k => by rw [hdict]⟩
  · cases destPtr with
    | none => simp [CopyPtr]
    | some d =>
      cases srcPtr with
      | none => simp [CopyPtr]
      | some s => simp [CopyPtr, Copy_fst]
  · cases destPtr with
    | none => simp [CopyPtr]
    | some d =>
      cases srcPtr with
      | none => simp [CopyPtr]
      | some s =>
        intro h
        simp only [CopyPtr, Copy_fst, decide_eq_false_iff_not] at h
        simp [CopyPtr, Copy_of_type_ne s d h]
  · cases destPtr with
    | none => simp [CopyPtr]
    | some d =>
      cases srcPtr with
      | none => simp [CopyPtr]
      | some s =>
        intro h
        simp only [CopyPtr, Copy_fst, decide_eq_true_eq] at h
        simp [CopyPtr, Copy_of_same_type s d (hs s rfl) (hd d rfl) h]

/-- C7 witness: a dictionary with a nested list and a nested dictionary copied
over one with other keys and values. -/
theorem C7_copy_witness :
    ((CopyPtr
        (some (sfProperty.dictionary
          [(1, sfProperty.value (ksMultiType.INT 1)),
            (3, sfProperty.list [sfProperty.value (ksMultiType.INT 3),
              sfProperty.value (ksMultiType.INT 4)]),
            (4, sfProperty.dictionary [(7, sfProperty.null)])]))
        (some (sfProperty.dictionary
          [(2, sfProperty.reference 9),
            (3, sfProperty.list [sfProperty.value (ksMultiType.INT 4)]),
            (4, sfProperty.dictionary [(8, sfProperty.null)])]))).2 =
        some (sfProperty.dictionary
          [(2, sfProperty.reference 9),
            (3, sfProperty.list [sfProperty.value (ksMultiType.INT 4)]),
            (4, sfProperty.dictionary [(8, sfProperty.null)])])) ∧
    CopyList [sfProperty.value (ksMultiType.INT 1), sfProperty.value (ksMultiType.INT 2),
        sfProperty.value (ksMultiType.INT 3)]
      [sfProperty.value (ksMultiType.INT 1), sfProperty.value (ksMultiType.INT 3)] =
      [sfProperty.value (ksMultiType.INT 1), sfProperty.value (ksMultiType.INT 3)] :=
  ⟨(C7_copy
      (some (sfProperty.dictionary
        [(1, sfProperty.value (ksMultiType.INT 1)),
          (3, sfProperty.list [sfProperty.value (ksMultiType.INT 3),
            sfProperty.value (ksMultiType.INT 4)]),
          (4, sfProperty.dictionary [(7, sfProperty.null)])]))
      (some (sfProperty.dictionary
        [(2, sfProperty.reference 9),
          (3, sfProperty.list [sfProperty.value (ksMultiType.INT 4)]),
          (4, sfProperty.dictionary [(8, sfProperty.null)])]))
      [sfProperty.value (ksMultiType.INT 1), sfProperty.value (ksMultiType.INT 2),
        sfProperty.value (ksMultiType.INT 3)]
      [sfProperty.value (ksMultiType.INT 1), sfProperty.value (ksMultiType.INT 3)]
      [(1, sfProperty.null)] [(2, sfProperty.null)]
      (by intro d h; cases h; rfl) (by intro s h; cases h; rfl) rfl rfl rfl rfl).2.2.1 rfl,
    (C7_copy none none
      [sfProperty.value (ksMultiType.INT 1), sfProperty.value (ksMultiType.INT 2),
        sfProperty.value (ksMultiType.INT 3)]
      [sfProperty.value (ksMultiType.INT 1), sfProperty.value (ksMultiType.INT 3)]
      [(1, sfProperty.null)] [(2, sfProperty.null)]
      (by intro d h; cases h) (by intro s h; cases h) rfl rfl rfl rfl).2.2.2.1⟩

/-! ### CreateProperties -/

/-- `CreateProperties` writes the field: it is syncable, `IsDefaultValue` is
false, it is not blacklisted and its converted value is not null. -/
theorem CreateProperties_loop_untouched (lists : SyncLists)
    (Identical : UPropType → UValue → UValue → Bool) (o : UObject)
    (bl : Option (List FName)) (fields : List UField) (dict : List (sfName × sfProperty))
    (n : sfName)
    (h : ∀ f ∈ fields, f.prop.name = n →
      ¬ (IsSyncable lists o f.prop = true ∧ IsDefaultValue Identical o f = false ∧
        blacklisted bl f.prop.name = false ∧ (GetValue f).isSome = true)) :
    dictGet (CreateProperties.loop lists Identical o bl fields dict) n = dictGet dict n := by
  induction fields generalizing dict with
  | nil => rfl
  | cons f rest ih =>
    have hrest := fun d => ih d (fun g hg => h g (List.mem_cons_of_mem _ hg))
    have hf := h f (List.mem_cons_self _ _)
    simp only [CreateProperties.loop]
    split
    · rename_i hc
      simp only [Bool.and_eq_true, Bool.not_eq_true'] at hc
      split
      · exact hrest dict
      · rename_i hb
        simp only [Bool.not_eq_true] at hb
        split
        · rename_i p hp
          rw [hrest, dictGet_dictSet]
          by_cases hn : n = f.prop.name
          · exact absurd ⟨hc.1, hc.2, hb, by simp [hp]⟩ (hf hn.symm)
          · rw [if_neg hn]
        · exact hrest dict
    · exact hrest dict

theorem CreateProperties_loop_written (lists : SyncLists)
    (Identical : UPropType → UValue → UValue → Bool) (o : UObject)
    (bl : Option (List FName)) (fields : List UField) (dict : List (sfName × sfProperty))
    (hnodup : (fields.map (fun f => f.prop.name)).Nodup) (f : UField) (hf : f ∈ fields)
    (h1 : IsSyncable lists o f.prop = true) (h2 : IsDefaultValue Identical o f = false)
    (h3 : blacklisted bl f.prop.name = false) (p : sfProperty) (h4 : GetValue f = some p) :
    dictGet (CreateProperties.loop lists Identical o bl fields dict) f.prop.name = some p := by
  induction fields generalizing dict with
  | nil => simp at hf
  | cons g rest ih =>
    simp only [List.map_cons, List.nodup_cons, List.mem_map, not_exists, not_and] at hnodup
    rcases List.mem_cons.1 hf with heq | hmem
    · subst heq
      simp only [CreateProperties.loop, h1, h2, h3, h4, Bool.not_false, Bool.and_self, if_true,
        Bool.false_eq_true, if_false]
      rw [CreateProperties_loop_untouched]
      · rw [dictGet_dictSet, if_pos rfl]
      · intro g hg hname
        exact absurd hname (hnodup.1 g hg)
    · have hrest := fun d => ih d hnodup.2 hmem
      simp only [CreateProperties.loop]
      split
      · split
        · exact hrest dict
        · split
          · exact hrest _
          · exact hrest dict
      · exact hrest dict

/-- C2 (as stated, refuted): for the class default object `IsDefaultValue` is
false whatever the values are, so a field whose value does not differ from the
default is written. -/
theorem C2_create_counterexample :
    ¬ (∀ (lists : SyncLists) (o : UObject) (bl : Option (List FName)) (n : sfName)
        (p : sfProperty), (o.fields.map (fun f => f.prop.name)).Nodup →
        (((CreateProperties lists Identical_InContainer (some o) (some []) bl).bind
            (fun d => dictGet d n)) = some p ↔
          ∃ f ∈ o.fields, f.prop.name = n ∧ IsSyncable lists o f.prop = true ∧
            blacklisted bl n = false ∧ GetValue f = some p ∧
            Identical_InContainer f.prop.type f.value (o.defaultOf f) = false)) := by
  intro h
  have h1 := (h ⟨[], []⟩ ⟨100, true, [⟨⟨1, CPF_Edit, some 100, UPropType.IntProperty IntKind.Int32⟩, UValue.int 5, UValue.int 5⟩]⟩ none 1 (sfProperty.value (ksMultiType.INT 5))
    (by decide)).1 rfl
  obtain ⟨f, hf, _, _, _, _, hid⟩ := h1
  simp only [List.mem_singleton] at hf
  subst hf
  exact absurd hid (by decide)

/-- C2 (amended): starting from an empty dictionary, after
`CreateProperties(entity, dict)` the dictionary has the entry `p` under the
name `n` exactly when the entity has a field named `n` that is syncable, not
blacklisted, for which `IsDefaultValue` is false, and whose converted value
(`GetValue`) is `p`. `IsDefaultValue` is the comparison of the field with the
default object for properties with a handler, and is false for every field of
a class default object. Field names are distinct. -/
theorem C2_create (lists : SyncLists) (Identical : UPropType → UValue → UValue → Bool)
    (o : UObject) (bl : Option (List FName)) (n : sfName) (p : sfProperty)
    (hnodup : (o.fields.map (fun f => f.prop.name)).Nodup) :
    (∃ d, CreateProperties lists Identical (some o) (some []) bl = some d ∧
      (dictGet d n = some p ↔
        ∃ f ∈ o.fields, f.prop.name = n ∧ IsSyncable lists o f.prop = true ∧
          blacklisted bl n = false ∧ IsDefaultValue Identical o f = false ∧
          GetValue f = some p)) ∧
    (∀ f ∈ o.fields, IsDefaultValue Identical o f =
      (!o.isClassDefaultObject && f.prop.type.hasHandler &&
        Identical f.prop.type f.value f.defaultValue)) := by
  constructor
  · refine ⟨_, rfl, ?_⟩
    constructor
    · intro hget
      by_contra hcon
      rw [CreateProperties_loop_untouched] at hget
      · simp [dictGet] at hget
      · intro f hf hname hw
        have hsome := hw.2.2.2
        cases hg : GetValue f with
        | none => simp [hg] at hsome
        | some q =>
          have := CreateProperties_loop_written lists Identical o bl o.fields [] hnodup f hf
            hw.1 hw.2.1 hw.2.2.1 q hg
          rw [hname, hget] at this
          apply hcon
          refine ⟨f, hf, hname, hw.1, ?_, hw.2.1, ?_⟩
          · rw [← hname]; exact hw.2.2.1
          · rw [hg, this]
    · rintro ⟨f, hf, hname, h1, h2, h3, h4⟩
      rw [← hname]
      exact CreateProperties_loop_written lists Identical o bl o.fields [] hnodup f hf h1 h3
        (by rw [hname]; exact h2) p h4
  · intro f _
    unfold IsDefaultValue UObject.defaultOf
    cases o.isClassDefaultObject <;> cases f.prop.type.hasHandler <;> simp

/-- C2 witness: an entity with a changed integer, an unchanged boolean and a
property without handler. -/
theorem C2_create_witness :
    ∃ d, CreateProperties ⟨[], []⟩ Identical_InContainer
        (some ⟨100, false,
          [⟨⟨1, CPF_Edit, some 100, UPropType.IntProperty IntKind.Int32⟩, UValue.int 7,
              UValue.int 5⟩,
            ⟨⟨2, CPF_Edit, some 100, UPropType.BoolProperty⟩, UValue.bool true,
              UValue.bool true⟩,
            ⟨⟨3, CPF_Edit, some 100, UPropType.Other⟩, UValue.other 1, UValue.other 2⟩]⟩)
        (some []) none = some d ∧
      (dictGet d 1 = some (sfProperty.value (ksMultiType.INT 7)) ↔
        ∃ f ∈ [(⟨⟨1, CPF_Edit, some 100, UPropType.IntProperty IntKind.Int32⟩, UValue.int 7,
              UValue.int 5⟩ : UField),
            ⟨⟨2, CPF_Edit, some 100, UPropType.BoolProperty⟩, UValue.bool true,
              UValue.bool true⟩,
            ⟨⟨3, CPF_Edit, some 100, UPropType.Other⟩, UValue.other 1, UValue.other 2⟩],
          f.prop.name = 1 ∧
          IsSyncable ⟨[], []⟩ ⟨100, false,
            [⟨⟨1, CPF_Edit, some 100, UPropType.IntProperty IntKind.Int32⟩, UValue.int 7,
                UValue.int 5⟩,
              ⟨⟨2, CPF_Edit, some 100, UPropType.BoolProperty⟩, UValue.bool true,
                UValue.bool true⟩,
              ⟨⟨3, CPF_Edit, some 100, UPropType.Other⟩, UValue.other 1, UValue.other 2⟩]⟩
            f.prop = true ∧
          blacklisted none 1 = false ∧
          IsDefaultValue Identical_InContainer ⟨100, false,
            [⟨⟨1, CPF_Edit, some 100, UPropType.IntProperty IntKind.Int32⟩, UValue.int 7,
                UValue.int 5⟩,
              ⟨⟨2, CPF_Edit, some 100, UPropType.BoolProperty⟩, UValue.bool true,
                UValue.bool true⟩,
              ⟨⟨3, CPF_Edit, some 100, UPropType.Other⟩, UValue.other 1, UValue.other 2⟩]⟩
            f = false ∧
          GetValue f = some (sfProperty.value (ksMultiType.INT 7))) :=
  (C2_create ⟨[], []⟩ Identical_InContainer
    ⟨100, false,
      [⟨⟨1, CPF_Edit, some 100, UPropType.IntProperty IntKind.Int32⟩, UValue.int 7,
          UValue.int 5⟩,
        ⟨⟨2, CPF_Edit, some 100, UPropType.BoolProperty⟩, UValue.bool true, UValue.bool true⟩,
        ⟨⟨3, CPF_Edit, some 100, UPropType.Other⟩, UValue.other 1, UValue.other 2⟩]⟩
    none 1 (sfProperty.value (ksMultiType.INT 7)) (by decide)).1

/-! ### Converted values are in canonical form -/

theorem WFList_append (a b : List sfProperty) :
    sfProperty.WFList (a ++ b) = (sfProperty.WFList a && sfProperty.WFList b) := by
  induction a with
  | nil => simp [sfProperty.WFList]
  | cons x rest ih => simp [sfProperty.WFList, ih, Bool.and_assoc]

theorem GetArray_loop_WF {α : Type} (Get : α → Option sfProperty)
    (hGet : ∀ a p, Get a = some p → p.WF = true) (xs : List α) (acc L : List sfProperty)
    (hacc : sfProperty.WFList acc = true) (h : GetArray.loop Get xs acc = some L) :
    sfProperty.WFList L = true := by
  induction xs generalizing acc with
  | nil =>
    simp only [GetArray.loop, Option.some.injEq] at h
    rw [← h]; exact hacc
  | cons a rest ih =>
    simp only [GetArray.loop] at h
    cases hg : Get a with
    | none => simp [hg] at h
    | some e =>
      simp only [hg] at h
      exact ih _ (by simp [WFList_append, hacc, sfProperty.WFList, hGet a e hg]) h

theorem GetSet_loop_WF {α : Type} (Get : α → Option sfProperty)
    (hGet : ∀ a p, Get a = some p → p.WF = true) (slots : List (Option α))
    (acc L : List sfProperty) (hacc : sfProperty.WFList acc = true)
    (h : GetSet.loop Get slots acc = some L) : sfProperty.WFList L = true := by
  induction slots generalizing acc with
  | nil =>
    simp only [GetSet.loop, Option.some.injEq] at h
    rw [← h]; exact hacc
  | cons x rest ih =>
    cases x with
    | none => exact ih acc hacc (by simpa [GetSet.loop] using h)
    | some a =>
      simp only [GetSet.loop] at h
      cases hg : Get a with
      | none => simp [hg] at h
      | some e =>
        simp only [hg] at h
        exact ih _ (by simp [WFList_append, hacc, sfProperty.WFList, hGet a e hg]) h

theorem GetMap_loop_WF {κ ν : Type} (GetKey : κ → Option sfProperty)
    (GetVal : ν → Option sfProperty) (hk : ∀ a p, GetKey a = some p → p.WF = true)
    (hv : ∀ a p, GetVal a = some p → p.WF = true) (slots : List (Option (κ × ν)))
    (acc L : List sfProperty) (hacc : sfProperty.WFList acc = true)
    (h : GetMap.loop GetKey GetVal slots acc = some L) : sfProperty.WFList L = true := by
  induction slots generalizing acc with
  | nil =>
    simp only [GetMap.loop, Option.some.injEq] at h
    rw [← h]; exact hacc
  | cons x rest ih =>
    cases x with
    | none => exact ih acc hacc (by simpa [GetMap.loop] using h)
    | some a =>
      obtain ⟨k, v⟩ := a
      simp only [GetMap.loop] at h
      cases hgk : GetKey k with
      | none => simp [hgk] at h
      | some kp =>
        cases hgv : GetVal v with
        | none => simp [hgk, hgv] at h
        | some vp =>
          simp only [hgk, hgv] at h
          exact ih _ (by simp [WFList_append, hacc, sfProperty.WFList, sfProperty.WF,
            hk k kp hgk, hv v vp hgv]) h

mutual
theorem Get_WF : ∀ (t : UPropType) (v : UValue) (p : sfProperty),
    UPropType.Get t v = some p → p.WF = true
  | .BoolProperty, v, p, h => by
      cases v <;> simp [UPropType.Get, GetBool] at h
      rw [← h]; rfl
  | .FloatProperty, v, p, h => by
      cases v <;> simp [UPropType.Get, GetFloat] at h
      rw [← h]; rfl
  | .IntProperty k, v, p, h => by
      cases v <;> simp [UPropType.Get, GetInt] at h
      rw [← h]; rfl
  | .DoubleProperty, v, p, h => by
      cases v <;> simp [UPropType.Get, GetDouble] at h
      rw [← h]; rfl
  | .EnumProperty k, v, p, h => by
      cases v <;> simp [UPropType.Get, GetEnum] at h
      split at h <;> (simp only [Option.some.injEq] at h; rw [← h]; rfl)
  | .ArrayProperty inner, v, p, h => by
      cases v <;> simp only [UPropType.Get] at h <;> try exact Option.noConfusion h
      rename_i xs
      cases hh : inner.hasHandler
      · simp [hh, GetArray] at h
      · simp only [hh, if_true, GetArray, Option.map_eq_some'] at h
        obtain ⟨L, hL, rfl⟩ := h
        simp only [sfProperty.WF]
        exact GetArray_loop_WF _ (Get_WF inner) xs [] L rfl hL
  | .SetProperty element, v, p, h => by
      cases v <;> simp only [UPropType.Get] at h <;> try exact Option.noConfusion h
      rename_i slots
      cases hh : element.hasHandler
      · simp [hh, GetSet] at h
      · simp only [hh, if_true, GetSet, Option.map_eq_some'] at h
        obtain ⟨L, hL, rfl⟩ := h
        simp only [sfProperty.WF]
        exact GetSet_loop_WF _ (Get_WF element) slots [] L rfl hL
  | .MapProperty key value, v, p, h => by
      cases v <;> simp only [UPropType.Get] at h <;> try exact Option.noConfusion h
      rename_i slots
      cases hk : key.hasHandler
      · simp [hk, GetMap] at h
      · cases hv : value.hasHandler
        · simp [hk, hv, GetMap] at h
        · simp only [hk, hv, if_true, GetMap, Option.map_eq_some'] at h
          obtain ⟨L, hL, rfl⟩ := h
          simp only [sfProperty.WF]
          exact GetMap_loop_WF _ _ (Get_WF key) (Get_WF value) slots [] L rfl hL
  | .StructProperty fields, v, p, h => by
      cases v <;> simp only [UPropType.Get] at h <;> try exact Option.noConfusion h
      rename_i values
      simp only [Option.map_eq_some'] at h
      obtain ⟨d, hd, rfl⟩ := h
      obtain ⟨h1, h2⟩ := GetStruct_WF fields values [] d hd rfl rfl
      simp [sfProperty.WF, h1, h2]
  | .Other, v, p, h => by simp [UPropType.Get] at h
theorem GetStruct_WF : ∀ (fields : List (FName × UPropType)) (values : List (FName × UValue))
    (dict d : List (sfName × sfProperty)), UPropType.GetStruct fields values dict = some d →
    sfProperty.WFFields dict = true → sortedKeys dict = true →
    sfProperty.WFFields d = true ∧ sortedKeys d = true
  | [], values, dict, d, h, h1, h2 => by
      simp only [UPropType.GetStruct, Option.some.injEq] at h
      rw [← h]; exact ⟨h1, h2⟩
  | f :: rest, values, dict, d, h, h1, h2 => by
      cases values with
      | nil => simp [UPropType.GetStruct] at h
      | cons v vrest =>
        simp only [UPropType.GetStruct] at h
        split at h
        · split at h
          · rename_i p hp
            exact GetStruct_WF rest vrest _ d h
              (WFFields_dictSet dict f.1 p h1 (Get_WF f.2 v.2 p hp))
              (sortedKeys_dictSet dict f.1 p h2)
          · exact GetStruct_WF rest vrest dict d h h1 h2
        · exact GetStruct_WF rest vrest dict d h h1 h2
end

theorem GetValue_WF (f : UField) (p : sfProperty) (h : GetValue f = some p) : p.WF = true := by
  unfold GetValue m_typeHandlers at h
  cases hh : f.prop.type.hasHandler
  · simp [hh] at h
  · simp only [hh, if_true] at h
    exact Get_WF _ _ _ h

theorem copyOrSet_eq (p old : sfProperty) (hp : p.WF = true) (hold : old.WF = true) :
    (if (Copy p old).1 = true then (Copy p old).2 else p) = p := by
  by_cases hty : old.Type = p.Type
  · rw [Copy_of_same_type p old hp hold hty]
    simp
  · rw [Copy_of_type_ne p old hty]
    simp

/-! ### SendPropertyChanges -/

theorem WFFields_dictRemove (d : List (sfName × sfProperty)) (k : sfName)
    (hd : sfProperty.WFFields d = true) : sfProperty.WFFields (dictRemove d k) = true := by
  induction d with
  | nil => simp [dictRemove, sfProperty.WFFields]
  | cons f rest ih =>
    obtain ⟨k', v'⟩ := f
    simp only [sfProperty.WFFields, Bool.and_eq_true] at hd
    simp only [dictRemove]
    split
    · exact ih hd.2
    · simp [sfProperty.WFFields, hd.1, ih hd.2]

theorem SendPropertyChanges_loop_other (lists : SyncLists)
    (Identical : UPropType → UValue → UValue → Bool) (o : UObject)
    (bl : Option (List FName)) (fields : List UField) (dict : List (sfName × sfProperty))
    (n : sfName)
    (h : ∀ f ∈ fields, f.prop.name = n →
      ¬ (IsSyncable lists o f.prop = true ∧ blacklisted bl f.prop.name = false ∧
        (IsDefaultValue Identical o f = true ∨ (GetValue f).isSome = true))) :
    dictGet (SendPropertyChanges.loop lists Identical o bl fields dict) n = dictGet dict n := by
  induction fields generalizing dict with
  | nil => rfl
  | cons f rest ih =>
    have hrest := fun d => ih d (fun g hg => h g (List.mem_cons_of_mem _ hg))
    have hf := h f (List.mem_cons_self _ _)
    simp only [SendPropertyChanges.loop]
    split
    · rename_i hs
      split
      · exact hrest dict
      · rename_i hb
        simp only [Bool.not_eq_true] at hb
        split
        · rename_i hdef
          rw [hrest, dictGet_dictRemove]
          by_cases hn : n = f.prop.name
          · exact absurd ⟨hs, hb, Or.inl hdef⟩ (hf hn.symm)
          · rw [if_neg hn]
        · split
          · exact hrest dict
          · rename_i p hp
            have hne : ¬ n = f.prop.name := by
              intro hn
              exact absurd ⟨hs, hb, Or.inr (by simp [hp])⟩ (hf hn.symm)
            split
            · rw [hrest, dictGet_dictSet, if_neg hne]
            · rw [hrest, dictGet_dictSet, if_neg hne]
    · exact hrest dict

theorem SendPropertyChanges_loop_field (lists : SyncLists)
    (Identical : UPropType → UValue → UValue → Bool) (o : UObject)
    (bl : Option (List FName)) (fields : List UField) (dict : List (sfName × sfProperty))
    (hnodup : (fields.map (fun f => f.prop.name)).Nodup)
    (hwf : sfProperty.WFFields dict = true) (f : UField) (hf : f ∈ fields)
    (h1 : IsSyncable lists o f.prop = true) (h3 : blacklisted bl f.prop.name = false) :
    (IsDefaultValue Identical o f = true →
      dictGet (SendPropertyChanges.loop lists Identical o bl fields dict) f.prop.name = none) ∧
    (IsDefaultValue Identical o f = false → ∀ p, GetValue f = some p →
      dictGet (SendPropertyChanges.loop lists Identical o bl fields dict) f.prop.name =
        some p) := by
  induction fields generalizing dict with
  | nil => simp at hf
  | cons g rest ih =>
    simp only [List.map_cons, List.nodup_cons, List.mem_map, not_exists, not_and] at hnodup
    rcases List.mem_cons.1 hf with heq | hmem
    · subst heq
      have hother : ∀ d, dictGet (SendPropertyChanges.loop lists Identical o bl rest d)
          f.prop.name = dictGet d f.prop.name := by
        intro d
        apply SendPropertyChanges_loop_other
        intro g hg hname
        exact absurd hname (hnodup.1 g hg)
      constructor
      · intro hdef
        simp only [SendPropertyChanges.loop, h1, h3, hdef, if_true, Bool.false_eq_true,
          if_false]
        rw [hother, dictGet_dictRemove, if_pos rfl]
      · intro hdef p hp
        simp only [SendPropertyChanges.loop, h1, h3, hdef, hp, if_true, Bool.false_eq_true,
          if_false]
        split
        · rw [hother, dictGet_dictSet, if_pos rfl]
        · rename_i old hold
          rw [hother, dictGet_dictSet, if_pos rfl,
            copyOrSet_eq p old (GetValue_WF f p hp) (WF_of_dictGet dict hwf _ old hold)]
    · have hrest := fun d hd => ih d hnodup.2 hd hmem
      simp only [SendPropertyChanges.loop]
      split
      · split
        · exact hrest dict hwf
        · split
          · exact hrest _ (WFFields_dictRemove dict _ hwf)
          · split
            · exact hrest dict hwf
            · rename_i p hp
              split
              · exact hrest _ (WFFields_dictSet dict _ p hwf (GetValue_WF g p hp))
              · rename_i old hold
                rw [copyOrSet_eq p old (GetValue_WF g p hp) (WF_of_dictGet dict hwf _ old hold)]
                exact hrest _ (WFFields_dictSet dict _ p hwf (GetValue_WF g p hp))
      · exact hrest dict hwf

/-- C6 (as stated, refuted): for the class default object `IsDefaultValue` is
false, so the entry of a field that holds its default value is written, not
removed. -/
theorem C6_send_counterexample :
    ¬ (∀ (lists : SyncLists) (o : UObject) (bl : Option (List FName))
        (dict : List (sfName × sfProperty)) (f : UField),
        (o.fields.map (fun f => f.prop.name)).Nodup →
        (sfProperty.dictionary dict).WF = true → f ∈ o.fields →
        IsSyncable lists o f.prop = true → blacklisted bl f.prop.name = false →
        (GetValue f).isSome = true →
        Identical_InContainer f.prop.type f.value (o.defaultOf f) = true →
        (SendPropertyChanges lists Identical_InContainer (some o) (some dict) bl).bind
          (fun d => dictGet d f.prop.name) = none) := by
  intro h
  have h1 := h ⟨[], []⟩
    ⟨100, true,
      [⟨⟨1, CPF_Edit, some 100, UPropType.IntProperty IntKind.Int32⟩, UValue.int 5,
        UValue.int 5⟩]⟩
    none []
    ⟨⟨1, CPF_Edit, some 100, UPropType.IntProperty IntKind.Int32⟩, UValue.int 5, UValue.int 5⟩
    (by decide) rfl (by simp) (by decide) rfl rfl (by decide)
  have h2 : (SendPropertyChanges ⟨[], []⟩ Identical_InContainer
      (some ⟨100, true,
        [⟨⟨1, CPF_Edit, some 100, UPropType.IntProperty IntKind.Int32⟩, UValue.int 5,
          UValue.int 5⟩]⟩)
      (some []) none).bind (fun d => dictGet d 1) =
        some (sfProperty.value (ksMultiType.INT 5)) := rfl
  rw [h2] at h1
  exact Option.noConfusion h1

/-- C6 (amended): after `SendPropertyChanges(entity, dict)`, for every syncable,
non-blacklisted field `f`: the dictionary has no entry for `f` when
`IsDefaultValue` is true for it (the entry is removed), and when
`IsDefaultValue` is false and the converted value of `f` is not null the entry
for `f` is that converted value. `IsDefaultValue` is the comparison of the
field with the default object for properties with a handler, and is false for
every field of a class default object. Entries under the other keys are
unchanged. Field names are distinct and the dictionary is in canonical
form. -/
theorem C6_send (lists : SyncLists) (Identical : UPropType → UValue → UValue → Bool)
    (o : UObject) (bl : Option (List FName)) (dict : List (sfName × sfProperty))
    (hnodup : (o.fields.map (fun f => f.prop.name)).Nodup)
    (hwf : (sfProperty.dictionary dict).WF = true) :
    ∃ d, SendPropertyChanges lists Identical (some o) (some dict) bl = some d ∧
      (∀ f ∈ o.fields, IsSyncable lists o f.prop = true → blacklisted bl f.prop.name = false →
        (IsDefaultValue Identical o f = true → dictGet d f.prop.name = none) ∧
        (IsDefaultValue Identical o f = false → ∀ p, GetValue f = some p →
          dictGet d f.prop.name = some p)) ∧
      (∀ n, (∀ f ∈ o.fields, f.prop.name = n →
          ¬ (IsSyncable lists o f.prop = true ∧ blacklisted bl f.prop.name = false ∧
            (IsDefaultValue Identical o f = true ∨ (GetValue f).isSome = true))) →
        dictGet d n = dictGet dict n) ∧
      (∀ f ∈ o.fields, IsDefaultValue Identical o f =
        (!o.isClassDefaultObject && f.prop.type.hasHandler &&
          Identical f.prop.type f.value f.defaultValue)) := by
  simp only [sfProperty.WF, Bool.and_eq_true] at hwf
  refine ⟨_, rfl, ?_, ?_, ?_⟩
  · intro f hf h1 h3
    exact SendPropertyChanges_loop_field lists Identical o bl o.fields dict hnodup hwf.2 f hf h1 h3
  · intro n hn
    exact SendPropertyChanges_loop_other lists Identical o bl o.fields dict n hn
  · intro f _
    unfold IsDefaultValue UObject.defaultOf
    cases o.isClassDefaultObject <;> cases f.prop.type.hasHandler <;> simp

/-- C6 witness: one field back at its default and one changed field, with a
dictionary that holds entries for both and an entry of another key. -/
theorem C6_send_witness :
    ∃ d, SendPropertyChanges ⟨[], []⟩ Identical_InContainer
        (some ⟨100, false,
          [⟨⟨1, CPF_Edit, some 100, UPropType.IntProperty IntKind.Int32⟩, UValue.int 5,
              UValue.int 5⟩,
            ⟨⟨2, CPF_Edit, some 100, UPropType.ArrayProperty UPropType.BoolProperty⟩,
              UValue.array [UValue.bool true], UValue.array []⟩]⟩)
        (some [(1, sfProperty.value (ksMultiType.INT 9)),
          (2, sfProperty.list [sfProperty.value (ksMultiType.BOOL false),
            sfProperty.value (ksMultiType.BOOL true)]),
          (3, sfProperty.null)]) none = some d ∧
      dictGet d 1 = none ∧
      dictGet d 2 = some (sfProperty.list [sfProperty.value (ksMultiType.BOOL true)]) ∧
      dictGet d 3 = some sfProperty.null := by
  obtain ⟨d, h1, h2, h3, _⟩ := C6_send ⟨[], []⟩ Identical_InContainer
    ⟨100, false,
      [⟨⟨1, CPF_Edit, some 100, UPropType.IntProperty IntKind.Int32⟩, UValue.int 5,
          UValue.int 5⟩,
        ⟨⟨2, CPF_Edit, some 100, UPropType.ArrayProperty UPropType.BoolProperty⟩,
          UValue.array [UValue.bool true], UValue.array []⟩]⟩
    none
    [(1, sfProperty.value (ksMultiType.INT 9)),
      (2, sfProperty.list [sfProperty.value (ksMultiType.BOOL false),
        sfProperty.value (ksMultiType.BOOL true)]),
      (3, sfProperty.null)]
    (by decide) rfl
  refine ⟨d, h1, ?_, ?_, ?_⟩
  · exact (h2 _ (List.mem_cons_self _ _) (by decide) rfl).1 (by decide)
  · exact (h2 ⟨⟨2, CPF_Edit, some 100, UPropType.ArrayProperty UPropType.BoolProperty⟩,
      UValue.array [UValue.bool true], UValue.array []⟩
      (List.mem_cons_of_mem _ (List.mem_cons_self _ _)) (by decide) rfl).2 (by decide) _ rfl
  · rw [h3 3]
    · rfl
    · intro f hf hname
      simp only [List.mem_cons, List.mem_singleton, List.not_mem_nil, or_false] at hf
      rcases hf with rfl | rfl <;> simp at hname

/-! ### SetSet and SetMap as slot-by-slot overwriting -/

theorem map_snd_eq_some {α β : Type} {x : Option (α × β)} {b : β}
    (h : x.map Prod.snd = some b) : ∃ a, x = some (a, b) := by
  cases x with
  | none => simp at h
  | some r =>
    obtain ⟨a, b'⟩ := r
    simp only [Option.map_some', Option.some.injEq] at h
    subst h
    exact ⟨a, rfl⟩

theorem dense_set_valid {α : Type} (s : List (Option α)) (i : Nat) (a b : α)
    (h : s[i]? = some (some a)) :
    (SparseArray.dense (s.set i (some b))).length = (SparseArray.dense s).length := by
  induction s generalizing i with
  | nil => simp at h
  | cons x rest ih =>
    cases i with
    | zero =>
      simp only [List.getElem?_cons_zero, Option.some.injEq] at h
      subst h
      simp [SparseArray.dense]
    | succ i =>
      simp only [List.getElem?_cons_succ] at h
      cases x with
      | none => simpa [SparseArray.dense] using ih i h
      | some v => simpa [SparseArray.dense] using ih i h

theorem drop_eq_cons_of_getElem? {α : Type} (s : List α) (i : Nat) (x : α)
    (h : s[i]? = some x) : s.drop i = x :: s.drop (i + 1) := by
  have hi : i < s.length := by
    by_contra hcon
    rw [List.getElem?_eq_none (by omega)] at h
    exact Option.noConfusion h
  rw [List.drop_eq_getElem_cons hi]
  rw [List.getElem?_eq_getElem hi] at h
  simp only [Option.some.injEq] at h
  rw [h]

theorem take_succ_set {α : Type} (s : List α) (i : Nat) (x y : α) (h : s[i]? = some x) :
    (s.set i y).take (i + 1) = s.take i ++ [y] ∧ (s.set i y).drop (i + 1) = s.drop (i + 1) := by
  have hi : i < s.length := by
    by_contra hcon
    rw [List.getElem?_eq_none (by omega)] at h
    exact Option.noConfusion h
  induction s generalizing i with
  | nil => simp at hi
  | cons a rest ih =>
    cases i with
    | zero => simp
    | succ i =>
      simp only [List.getElem?_cons_succ] at h
      simp only [List.length_cons] at hi
      obtain ⟨h1, h2⟩ := ih i h (by omega)
      simp [h1, h2]

/-- Without additions the loop of `SetSet` overwrites the slots from `i` on. -/
theorem SetSet_loop_overwrite {α : Type} (Set : α → sfProperty → Option (Bool × α)) (dflt : α)
    (size : Nat) (ps : List sfProperty) (i : Nat) (set : SparseArray α) (ch : Bool)
    (hnum : size ≤ SparseArray.Num set) :
    (SetSet.loop Set dflt size ps i set ch).map Prod.snd =
      (overwriteSlots (fun a p => (Set a p).map Prod.snd) (set.drop i) ps).map
        (fun r => set.take i ++ r) := by
  induction ps generalizing i set ch with
  | nil => simp [SetSet.loop, overwriteSlots]
  | cons p ps ih =>
    have hno : ¬ SparseArray.Num set < size := by omega
    simp only [SetSet.loop, if_neg hno]
    cases hx : set[i]? with
    | none =>
      have hd : set.drop i = [] := by
        apply List.drop_of_length_le
        by_contra hcon
        rw [List.getElem?_eq_getElem (by omega)] at hx
        exact Option.noConfusion hx
      simp [hd, overwriteSlots]
    | some x =>
      rw [drop_eq_cons_of_getElem? set i x hx]
      cases x with
      | none => simp [overwriteSlots]
      | some a =>
        simp only [overwriteSlots]
        cases hs : Set a p with
        | none => simp
        | some r =>
          simp only [Option.map_some']
          obtain ⟨t1, t2⟩ := take_succ_set set i (some a) (some r.2) hx
          have hnum' : size ≤ SparseArray.Num (set.set i (some r.2)) := by
            unfold SparseArray.Num at hnum ⊢
            rw [dense_set_valid set i a r.2 hx]
            exact hnum
          rw [ih (i + 1) _ _ hnum', t1, t2]
          cases overwriteSlots (fun a p => (Set a p).map Prod.snd) (set.drop (i + 1)) ps <;> simp

theorem dense_all_some {α : Type} (s : List (Option α)) (h : s.all (fun x => x.isSome) = true) :
    (SparseArray.dense s).length = s.length := by
  induction s with
  | nil => rfl
  | cons x rest ih =>
    simp only [List.all_cons, Bool.and_eq_true] at h
    cases x with
    | none => simp at h
    | some v => simp [SparseArray.dense, ih h.2]

/-- After `EmptyElements` the loop of `SetSet` builds the slots one by one from
default elements. -/
theorem SetSet_loop_refill {α : Type} (Set : α → sfProperty → Option (Bool × α)) (dflt : α)
    (size : Nat) (ps : List sfProperty) (done : SparseArray α) (ch : Bool)
    (hdone : done.all (fun x => x.isSome) = true) (hsize : done.length + ps.length = size) :
    (SetSet.loop Set dflt size ps done.length done ch).map Prod.snd =
      (overwriteSlots (fun a p => (Set a p).map Prod.snd)
        (List.replicate ps.length (some dflt)) ps).map (fun r => done ++ r) := by
  induction ps generalizing done ch with
  | nil => simp [SetSet.loop, overwriteSlots]
  | cons p ps ih =>
    have hlt : SparseArray.Num done < size := by
      unfold SparseArray.Num
      rw [dense_all_some done hdone]
      simp only [List.length_cons] at hsize
      omega
    have hadd : (SparseArray.AddDefaultValue_Invalid_NeedsRehash done dflt done.length).2 =
        done ++ [some dflt] := by
      simp [SparseArray.AddDefaultValue_Invalid_NeedsRehash]
    simp only [SetSet.loop, if_pos hlt, hadd, List.length_cons, List.replicate_succ,
      overwriteSlots]
    have hget : (done ++ [some dflt])[done.length]? = some (some dflt) := by simp
    simp only [hget]
    cases hs : Set dflt p with
    | none => simp
    | some r =>
      simp only [Option.map_some']
      have hset : (done ++ [some dflt]).set done.length (some r.2) = done ++ [some r.2] := by
        simp
      rw [hset]
      have hlen : (done ++ [some r.2]).length = done.length + 1 := by simp
      have := ih (done ++ [some r.2]) (ch || r.1) (by simp [hdone])
        (by simp only [List.length_cons] at hsize; rw [hlen]; omega)
      rw [hlen] at this
      rw [this]
      cases overwriteSlots (fun a p => (Set a p).map Prod.snd)
        (List.replicate ps.length (some dflt)) ps <;> simp

/-- Without additions the loop of `SetMap` overwrites the slots from `i` on. -/
theorem SetMap_loop_overwrite {κ ν : Type} (SetKey : κ → sfProperty → Option (Bool × κ))
    (SetVal : ν → sfProperty → Option (Bool × ν)) (dflt : κ × ν)
    (size : Nat) (ps : List sfProperty) (i : Nat) (map : SparseArray (κ × ν)) (ch : Bool)
    (hnum : size ≤ SparseArray.Num map) :
    (SetMap.loop SetKey SetVal dflt size ps i map ch).map Prod.snd =
      (overwriteSlots (SetMap.write SetKey SetVal) (map.drop i) ps).map
        (fun r => map.take i ++ r) := by
  induction ps generalizing i map ch with
  | nil => simp [SetMap.loop, overwriteSlots]
  | cons p ps ih =>
    have hno : ¬ SparseArray.Num map < size := by omega
    simp only [SetMap.loop, if_neg hno]
    cases hx : map[i]? with
    | none =>
      have hd : map.drop i = [] := by
        apply List.drop_of_length_le
        by_contra hcon
        rw [List.getElem?_eq_getElem (by omega)] at hx
        exact Option.noConfusion hx
      simp only [hd, overwriteSlots, Option.map_none']
    | some x =>
      rw [drop_eq_cons_of_getElem? map i x hx]
      cases x with
      | none =>
        simp only [overwriteSlots, Option.map_none']
      | some slot =>
        simp only [overwriteSlots, SetMap.write]
        cases p with
        | list pairPtr =>
          simp only
          cases h0 : pairPtr[0]? with
          | none => simp
          | some keyPtr =>
            cases h1 : pairPtr[1]? with
            | none => simp
            | some valuePtr =>
              simp only
              cases hk : SetKey slot.1 keyPtr with
              | none => simp
              | some rk =>
                simp only
                cases hv : SetVal slot.2 valuePtr with
                | none => simp
                | some rv =>
                  simp only [Option.map_some']
                  obtain ⟨t1, t2⟩ := take_succ_set map i (some slot) (some (rk.2, rv.2)) hx
                  have hnum' : size ≤ SparseArray.Num (map.set i (some (rk.2, rv.2))) := by
                    unfold SparseArray.Num at hnum ⊢
                    rw [dense_set_valid map i slot _ hx]
                    exact hnum
                  rw [ih (i + 1) _ _ hnum', t1, t2]
                  cases overwriteSlots (SetMap.write SetKey SetVal) (map.drop (i + 1)) ps <;>
                    simp
        | value v => simp
        | reference r => simp
        | dictionary d => simp
        | null => simp

/-- After `EmptyValues` the loop of `SetMap` builds the slots one by one from
default pairs. -/
theorem SetMap_loop_refill {κ ν : Type} (SetKey : κ → sfProperty → Option (Bool × κ))
    (SetVal : ν → sfProperty → Option (Bool × ν)) (dflt : κ × ν)
    (size : Nat) (ps : List sfProperty) (done : SparseArray (κ × ν)) (ch : Bool)
    (hdone : done.all (fun x => x.isSome) = true) (hsize : done.length + ps.length = size) :
    (SetMap.loop SetKey SetVal dflt size ps done.length done ch).map Prod.snd =
      (overwriteSlots (SetMap.write SetKey SetVal)
        (List.replicate ps.length (some dflt)) ps).map (fun r => done ++ r) := by
  induction ps generalizing done ch with
  | nil => simp [SetMap.loop, overwriteSlots]
  | cons p ps ih =>
    have hlt : SparseArray.Num done < size := by
      unfold SparseArray.Num
      rw [dense_all_some done hdone]
      simp only [List.length_cons] at hsize
      omega
    have hadd : (SparseArray.AddDefaultValue_Invalid_NeedsRehash done dflt done.length).2 =
        done ++ [some dflt] := by
      simp [SparseArray.AddDefaultValue_Invalid_NeedsRehash]
    simp only [SetMap.loop, if_pos hlt, hadd, List.length_cons, List.replicate_succ,
      overwriteSlots, SetMap.write]
    have hget : (done ++ [some dflt])[done.length]? = some (some dflt) := by simp
    simp only [hget]
    cases p with
    | list pairPtr =>
      simp only
      cases h0 : pairPtr[0]? with
      | none => simp
      | some keyPtr =>
        cases h1 : pairPtr[1]? with
        | none => simp
        | some valuePtr =>
          simp only
          cases hk : SetKey dflt.1 keyPtr with
          | none => simp
          | some rk =>
            simp only
            cases hv : SetVal dflt.2 valuePtr with
            | none => simp
            | some rv =>
              simp only [Option.map_some']
              have hset : (done ++ [some dflt]).set done.length (some (rk.2, rv.2)) =
                  done ++ [some (rk.2, rv.2)] := by simp
              rw [hset]
              have hlen : (done ++ [some (rk.2, rv.2)]).length = done.length + 1 := by simp
              have := ih (done ++ [some (rk.2, rv.2)]) (ch || rk.1 || rv.1) (by simp [hdone])
                (by simp only [List.length_cons] at hsize; rw [hlen]; omega)
              rw [hlen] at this
              rw [this]
              cases overwriteSlots (SetMap.write SetKey SetVal)
                (List.replicate ps.length (some dflt)) ps <;> simp
    | value v => simp
    | reference r => simp
    | dictionary d => simp
    | null => simp

/-! ### A setter applied twice -/

theorem overwriteSlots_length {α : Type} (write : α → sfProperty → Option α) :
    ∀ (slots : List (Option α)) (ps : List sfProperty) (r : List (Option α)),
      overwriteSlots write slots ps = some r →
      r.length = slots.length ∧
        (SparseArray.dense r).length = (SparseArray.dense slots).length ∧
        (slots.all (fun x => x.isSome) = true → r.all (fun x => x.isSome) = true) := by
  intro slots ps
  induction ps generalizing slots with
  | nil =>
    intro r h
    cases slots <;> simp only [overwriteSlots, Option.some.injEq] at h <;> subst h <;> simp
  | cons p ps ih =>
    intro r h
    cases slots with
    | nil => simp [overwriteSlots] at h
    | cons x rest =>
      cases x with
      | none => simp [overwriteSlots] at h
      | some a =>
        simp only [overwriteSlots] at h
        cases hw : write a p with
        | none => simp [hw] at h
        | some a' =>
          simp only [hw, Option.map_eq_some'] at h
          obtain ⟨r', hr', rfl⟩ := h
          obtain ⟨h1, h2, h3⟩ := ih rest r' hr'
          refine ⟨by simp [h1], by simp [SparseArray.dense, h2], ?_⟩
          intro hall
          simp only [List.all_cons, Bool.and_eq_true] at hall ⊢
          exact ⟨rfl, h3 hall.2⟩

theorem overwriteSlots_idem {α : Type} (write : α → sfProperty → Option α)
    (hw : ∀ a p a', write a p = some a' → write a' p = some a') :
    ∀ (slots : List (Option α)) (ps : List sfProperty) (r : List (Option α)),
      overwriteSlots write slots ps = some r → overwriteSlots write r ps = some r := by
  intro slots ps
  induction ps generalizing slots with
  | nil =>
    intro r _
    cases r <;> simp [overwriteSlots]
  | cons p ps ih =>
    intro r h
    cases slots with
    | nil => simp [overwriteSlots] at h
    | cons x rest =>
      cases x with
      | none => simp [overwriteSlots] at h
      | some a =>
        simp only [overwriteSlots] at h
        cases hwa : write a p with
        | none => simp [hwa] at h
        | some a' =>
          simp only [hwa, Option.map_eq_some'] at h
          obtain ⟨r', hr', rfl⟩ := h
          simp only [overwriteSlots, hw a p a' hwa, ih rest r' hr', Option.map_some']

theorem SetArray_loop_idem {α : Type} (Set : α → sfProperty → Option (Bool × α))
    (hS : ∀ a p c a', Set a p = some (c, a') → ∃ c', Set a' p = some (c', a')) :
    ∀ (ps : List sfProperty) (arr : List α) (ch c : Bool) (arr1 : List α),
      SetArray.loop Set arr ps ch = some (c, arr1) →
      arr1.length = arr.length ∧ ∀ ch', ∃ c', SetArray.loop Set arr1 ps ch' = some (c', arr1) := by
  intro ps
  induction ps with
  | nil =>
    intro arr ch c arr1 h
    cases arr <;> simp only [SetArray.loop, Option.some.injEq, Prod.mk.injEq] at h <;>
      obtain ⟨_, rfl⟩ := h
    · exact ⟨rfl, fun ch' => ⟨ch', by simp [SetArray.loop]⟩⟩
    · exact ⟨rfl, fun ch' => ⟨ch', by simp [SetArray.loop]⟩⟩
  | cons p ps ih =>
    intro arr ch c arr1 h
    cases arr with
    | nil => simp [SetArray.loop] at h
    | cons a rest =>
      simp only [SetArray.loop] at h
      cases hs : Set a p with
      | none => simp [hs] at h
      | some r =>
        obtain ⟨rc, ra⟩ := r
        simp only [hs, Option.map_eq_some', Prod.mk.injEq] at h
        obtain ⟨q, hq, _, rfl⟩ := h
        obtain ⟨qc, qa⟩ := q
        obtain ⟨hlen, hidem⟩ := ih rest _ qc qa hq
        refine ⟨by simp [hlen], ?_⟩
        intro ch'
        obtain ⟨c2, hc2⟩ := hS a p rc ra hs
        obtain ⟨c3, hc3⟩ := hidem (ch' || c2)
        exact ⟨c3, by simp [SetArray.loop, hc2, hc3]⟩

theorem SetArray_idem {α : Type} (handler : Option (TypeHandler α)) (dflt : α)
    (hS : ∀ h, handler = some h →
      ∀ a p c a', h.Set a p = some (c, a') → ∃ c', h.Set a' p = some (c', a'))
    (arr : List α) (p : sfProperty) (c : Bool) (arr1 : List α)
    (h : SetArray handler dflt arr p = some (c, arr1)) :
    ∃ c', SetArray handler dflt arr1 p = some (c', arr1) := by
  cases handler with
  | none =>
    simp only [SetArray, Option.some.injEq, Prod.mk.injEq] at h
    obtain ⟨_, rfl⟩ := h
    exact ⟨false, rfl⟩
  | some hd =>
    cases p with
    | list listPtr =>
      simp only [SetArray] at h ⊢
      have key : ∀ arr0 ch, SetArray.loop hd.Set arr0 listPtr ch = some (c, arr1) →
          arr0.length = listPtr.length →
          ∃ c', (if arr1.length ≠ listPtr.length then
              SetArray.loop hd.Set (arrayResize dflt arr1 listPtr.length) listPtr true
            else SetArray.loop hd.Set arr1 listPtr false) = some (c', arr1) := by
        intro arr0 ch h0 hl0
        obtain ⟨hlen, hidem⟩ := SetArray_loop_idem hd.Set (hS hd rfl) listPtr arr0 ch c arr1 h0
        have : ¬ arr1.length ≠ listPtr.length := by omega
        rw [if_neg this]
        exact hidem false
      split at h
      · rename_i hne
        apply key _ _ h
        simp only [arrayResize, List.length_append, List.length_take, List.length_replicate]
        omega
      · rename_i heq
        apply key _ _ h
        omega
    | value v => simp [SetArray] at h
    | reference r => simp [SetArray] at h
    | dictionary d => simp [SetArray] at h
    | null => simp [SetArray] at h

theorem dense_replicate_some {α : Type} (n : Nat) (d : α) :
    (SparseArray.dense (List.replicate n (some d))).length = n := by
  induction n with
  | zero => rfl
  | succ n ih => simp [List.replicate_succ, SparseArray.dense, ih]

/-- The slots that `SetSet` leaves, through `overwriteSlots`. -/
theorem SetSet_slots {α : Type} (h : TypeHandler α) (dflt : α) (set : SparseArray α)
    (listPtr : List sfProperty) :
    (SetSet (some h) dflt set (.list listPtr)).map Prod.snd =
      overwriteSlots (fun a p => (h.Set a p).map Prod.snd)
        (if SparseArray.Num set ≠ listPtr.length then
          List.replicate listPtr.length (some dflt) else set) listPtr := by
  simp only [SetSet]
  split
  · have := SetSet_loop_refill h.Set dflt listPtr.length listPtr [] true rfl (by simp)
    simp only [List.length_nil, List.nil_append] at this
    rw [this]
    cases overwriteSlots (fun a p => (h.Set a p).map Prod.snd)
      (List.replicate listPtr.length (some dflt)) listPtr <;> simp
  · rename_i heq
    have := SetSet_loop_overwrite h.Set dflt listPtr.length listPtr 0 set false (by omega)
    simp only [List.drop_zero, List.take_zero, List.nil_append] at this
    rw [this]
    cases overwriteSlots (fun a p => (h.Set a p).map Prod.snd) set listPtr <;> simp

/-- The slots that `SetMap` leaves, through `overwriteSlots`. -/
theorem SetMap_slots {κ ν : Type} (hk : TypeHandler κ) (hv : TypeHandler ν) (dflt : κ × ν)
    (map : SparseArray (κ × ν)) (listPtr : List sfProperty) :
    (SetMap (some hk) (some hv) dflt map (.list listPtr)).map Prod.snd =
      overwriteSlots (SetMap.write hk.Set hv.Set)
        (if SparseArray.Num map ≠ listPtr.length then
          List.replicate listPtr.length (some dflt) else map) listPtr := by
  simp only [SetMap]
  split
  · have := SetMap_loop_refill hk.Set hv.Set dflt listPtr.length listPtr [] true rfl (by simp)
    simp only [List.length_nil, List.nil_append] at this
    rw [this]
    cases overwriteSlots (SetMap.write hk.Set hv.Set)
      (List.replicate listPtr.length (some dflt)) listPtr <;> simp
  · rename_i heq
    have := SetMap_loop_overwrite hk.Set hv.Set dflt listPtr.length listPtr 0 map false
      (by omega)
    simp only [List.drop_zero, List.take_zero, List.nil_append] at this
    rw [this]
    cases overwriteSlots (SetMap.write hk.Set hv.Set) map listPtr <;> simp

theorem overwrite_twice {α : Type} (write : α → sfProperty → Option α)
    (hw : ∀ a p a', write a p = some a' → write a' p = some a') (dflt : α)
    (set : SparseArray α) (listPtr : List sfProperty) (r : SparseArray α)
    (h : overwriteSlots write (if SparseArray.Num set ≠ listPtr.length then
          List.replicate listPtr.length (some dflt) else set) listPtr = some r) :
    overwriteSlots write (if SparseArray.Num r ≠ listPtr.length then
          List.replicate listPtr.length (some dflt) else r) listPtr = some r := by
  have hnum : SparseArray.Num r = listPtr.length := by
    obtain ⟨_, h2, _⟩ := overwriteSlots_length write _ listPtr r h
    unfold SparseArray.Num at *
    rw [h2]
    split
    · exact dense_replicate_some _ _
    · rename_i hh
      omega
  have : ¬ SparseArray.Num r ≠ listPtr.length := by omega
  rw [if_neg this]
  exact overwriteSlots_idem write hw _ listPtr r h

theorem SetSet_idem {α : Type} (handler : Option (TypeHandler α)) (dflt : α)
    (hS : ∀ h, handler = some h →
      ∀ a p c a', h.Set a p = some (c, a') → ∃ c', h.Set a' p = some (c', a'))
    (set : SparseArray α) (p : sfProperty) (c : Bool) (set1 : SparseArray α)
    (h : SetSet handler dflt set p = some (c, set1)) :
    ∃ c', SetSet handler dflt set1 p = some (c', set1) := by
  cases handler with
  | none =>
    simp only [SetSet, Option.some.injEq, Prod.mk.injEq] at h
    obtain ⟨_, rfl⟩ := h
    exact ⟨false, rfl⟩
  | some hd =>
    cases p with
    | list listPtr =>
      have h1 := SetSet_slots hd dflt set listPtr
      rw [h] at h1
      simp only [Option.map_some'] at h1
      have hw : ∀ a p a', (hd.Set a p).map Prod.snd = some a' →
          (hd.Set a' p).map Prod.snd = some a' := by
        intro a p a' ha
        obtain ⟨c0, hc0⟩ := map_snd_eq_some ha
        obtain ⟨c1, hc1⟩ := hS hd rfl a p c0 a' hc0
        simp [hc1]
      have h2 := overwrite_twice _ hw dflt set listPtr set1 h1.symm
      rw [← SetSet_slots hd dflt set1 listPtr] at h2
      exact map_snd_eq_some h2
    | value v => simp [SetSet] at h
    | reference r => simp [SetSet] at h
    | dictionary d => simp [SetSet] at h
    | null => simp [SetSet] at h

theorem SetMap_write_idem {κ ν : Type} (hk : TypeHandler κ) (hv : TypeHandler ν)
    (hK : ∀ a p c a', hk.Set a p = some (c, a') → ∃ c', hk.Set a' p = some (c', a'))
    (hV : ∀ a p c a', hv.Set a p = some (c, a') → ∃ c', hv.Set a' p = some (c', a'))
    (slot : κ × ν) (p : sfProperty) (slot1 : κ × ν)
    (h : SetMap.write hk.Set hv.Set slot p = some slot1) :
    SetMap.write hk.Set hv.Set slot1 p = some slot1 := by
  cases p with
  | list pairPtr =>
    simp only [SetMap.write] at h ⊢
    cases h0 : pairPtr[0]? with
    | none => simp [h0] at h
    | some keyPtr =>
      cases h1 : pairPtr[1]? with
      | none => simp [h0, h1] at h
      | some valuePtr =>
        simp only [h0, h1] at h ⊢
        cases hsk : hk.Set slot.1 keyPtr with
        | none => simp [hsk] at h
        | some rk =>
          cases hsv : hv.Set slot.2 valuePtr with
          | none => simp [hsk, hsv] at h
          | some rv =>
            simp only [hsk, hsv, Option.some.injEq] at h
            subst h
            obtain ⟨c1, hc1⟩ := hK slot.1 keyPtr rk.1 rk.2 hsk
            obtain ⟨c2, hc2⟩ := hV slot.2 valuePtr rv.1 rv.2 hsv
            simp only [hc1, hc2]
  | value v => simp [SetMap.write] at h
  | reference r => simp [SetMap.write] at h
  | dictionary d => simp [SetMap.write] at h
  | null => simp [SetMap.write] at h

theorem SetMap_idem {κ ν : Type} (keyHandler : Option (TypeHandler κ))
    (valueHandler : Option (TypeHandler ν)) (dflt : κ × ν)
    (hK : ∀ h, keyHandler = some h →
      ∀ a p c a', h.Set a p = some (c, a') → ∃ c', h.Set a' p = some (c', a'))
    (hV : ∀ h, valueHandler = some h →
      ∀ a p c a', h.Set a p = some (c, a') → ∃ c', h.Set a' p = some (c', a'))
    (map : SparseArray (κ × ν)) (p : sfProperty) (c : Bool) (map1 : SparseArray (κ × ν))
    (h : SetMap keyHandler valueHandler dflt map p = some (c, map1)) :
    ∃ c', SetMap keyHandler valueHandler dflt map1 p = some (c', map1) := by
  cases keyHandler with
  | none =>
    simp only [SetMap, Option.some.injEq, Prod.mk.injEq] at h
    obtain ⟨_, rfl⟩ := h
    exact ⟨false, by simp [SetMap]⟩
  | some hk =>
    cases valueHandler with
    | none =>
      simp only [SetMap, Option.some.injEq, Prod.mk.injEq] at h
      obtain ⟨_, rfl⟩ := h
      exact ⟨false, by simp [SetMap]⟩
    | some hv =>
      cases p with
      | list listPtr =>
        have h1 := SetMap_slots hk hv dflt map listPtr
        rw [h] at h1
        simp only [Option.map_some'] at h1
        have h2 := overwrite_twice _
          (SetMap_write_idem hk hv (hK hk rfl) (hV hv rfl)) dflt map listPtr map1 h1.symm
        rw [← SetMap_slots hk hv dflt map1 listPtr] at h2
        exact map_snd_eq_some h2
      | value v => simp [SetMap] at h
      | reference r => simp [SetMap] at h
      | dictionary d => simp [SetMap] at h
      | null => simp [SetMap] at h

theorem SetBool_idem (v : UValue) (p : sfProperty) (c : Bool) (v1 : UValue)
    (h : SetBool v p = some (c, v1)) : ∃ c', SetBool v1 p = some (c', v1) := by
  cases v <;> simp only [SetBool] at h <;> try exact Option.noConfusion h
  rename_i cur
  split at h
  · rename_i hb
    simp only [Option.some.injEq, Prod.mk.injEq] at h
    obtain ⟨_, rfl⟩ := h
    exact ⟨false, by simp [SetBool, hb]⟩
  · split at h
    · rename_i b
      simp only [Option.some.injEq, Prod.mk.injEq] at h
      obtain ⟨_, rfl⟩ := h
      exact ⟨false, by simp [SetBool, sfProperty.beq_refl]⟩
    · exact Option.noConfusion h

theorem SetFloat_idem (v : UValue) (p : sfProperty) (c : Bool) (v1 : UValue)
    (h : SetFloat v p = some (c, v1)) : ∃ c', SetFloat v1 p = some (c', v1) := by
  cases v <;> simp only [SetFloat] at h <;> try exact Option.noConfusion h
  rename_i cur
  split at h
  · rename_i hb
    simp only [Option.some.injEq, Prod.mk.injEq] at h
    obtain ⟨_, rfl⟩ := h
    exact ⟨false, by simp [SetFloat, hb]⟩
  · split at h
    · rename_i b
      simp only [Option.some.injEq, Prod.mk.injEq] at h
      obtain ⟨_, rfl⟩ := h
      exact ⟨false, by simp [SetFloat, sfProperty.beq_refl]⟩
    · exact Option.noConfusion h

theorem SetInt_idem (k : IntKind) (v : UValue) (p : sfProperty) (c : Bool) (v1 : UValue)
    (h : SetInt k v p = some (c, v1)) : ∃ c', SetInt k v1 p = some (c', v1) := by
  cases v <;> simp only [SetInt] at h <;> try exact Option.noConfusion h
  rename_i cur
  cases hcast : k.isCast
  · simp only [hcast, Bool.false_eq_true, if_false] at h
    by_cases hb : sfProperty.beq p (.value (k.create cur)) = true
    · simp only [hb, if_true, Option.some.injEq, Prod.mk.injEq] at h
      obtain ⟨_, rfl⟩ := h
      exact ⟨false, by simp [SetInt, hcast, hb]⟩
    · simp only [hb, if_false] at h
      cases p <;> try exact Option.noConfusion h
      rename_i m
      simp only at h
      cases hm : m.asInteger with
      | none => simp [hm] at h
      | some x =>
        simp only [hm, Option.some.injEq, Prod.mk.injEq] at h
        obtain ⟨_, rfl⟩ := h
        simp only [SetInt, hcast, Bool.false_eq_true, if_false, hm]
        split
        · exact ⟨false, rfl⟩
        · exact ⟨true, rfl⟩
  · simp only [hcast, if_true] at h
    cases p <;> try exact Option.noConfusion h
    rename_i m
    simp only at h
    cases hm : m.asInteger with
    | none => simp [hm] at h
    | some x =>
      simp only [hm] at h
      by_cases hne : k.wireKind.wrap cur = k.wireKind.wrap x
      · simp only [hne, ne_eq, not_true_eq_false, if_false, Option.some.injEq,
          Prod.mk.injEq] at h
        obtain ⟨_, rfl⟩ := h
        exact ⟨false, by simp [SetInt, hcast, hm, hne]⟩
      · simp only [ne_eq, hne, not_false_eq_true, if_true, Option.some.injEq,
          Prod.mk.injEq] at h
        obtain ⟨_, rfl⟩ := h
        simp only [SetInt, hcast, if_true, hm]
        split
        · exact ⟨true, rfl⟩
        · exact ⟨false, rfl⟩

theorem SetDouble_idem (v : UValue) (p : sfProperty) (c : Bool) (v1 : UValue)
    (h : SetDouble v p = some (c, v1)) : ∃ c', SetDouble v1 p = some (c', v1) := by
  unfold SetDouble at h
  split at h
  · rename_i cur bytes
    split at h
    · rename_i hlen
      simp only [Option.some.injEq, Prod.mk.injEq] at h
      obtain ⟨_, rfl⟩ := h
      exact ⟨false, by simp only [SetDouble, if_pos hlen]⟩
    · rename_i hlen
      split at h
      · simp only [Option.some.injEq, Prod.mk.injEq] at h
        obtain ⟨_, rfl⟩ := h
        exact ⟨false, by simp [SetDouble]⟩
      · rename_i heq
        simp only [Option.some.injEq, Prod.mk.injEq] at h
        obtain ⟨_, rfl⟩ := h
        exact ⟨false, by simp only [SetDouble, if_neg hlen, if_neg heq]⟩
  · exact Option.noConfusion h

theorem SetEnum_idem (k : IntKind) (v : UValue) (p : sfProperty) (c : Bool) (v1 : UValue)
    (h : SetEnum k v p = some (c, v1)) : ∃ c', SetEnum k v1 p = some (c', v1) := by
  unfold SetEnum at h
  split at h
  · rename_i cur m
    cases hm : m.asInteger with
    | none => simp [hm] at h
    | some x =>
      simp only [hm] at h
      split at h
      · simp only [Option.some.injEq, Prod.mk.injEq] at h
        obtain ⟨_, rfl⟩ := h
        simp only [SetEnum, hm]
        split
        · exact ⟨true, rfl⟩
        · exact ⟨false, rfl⟩
      · rename_i heq
        simp only [Option.some.injEq, Prod.mk.injEq] at h
        obtain ⟨_, rfl⟩ := h
        simp only [SetEnum, hm]
        rw [if_neg heq]
        exact ⟨false, rfl⟩
  · exact Option.noConfusion h

theorem handler_idem_of (t : UPropType)
    (ih : ∀ (v : UValue) (p : sfProperty) (c : Bool) (v1 : UValue),
      UPropType.Set t v p = some (c, v1) → ∃ c', UPropType.Set t v1 p = some (c', v1)) :
    ∀ h, (if t.hasHandler then some (⟨UPropType.Get t, UPropType.Set t⟩ : TypeHandler UValue)
        else none) = some h →
      ∀ a p c a', h.Set a p = some (c, a') → ∃ c', h.Set a' p = some (c', a') := by
  intro h hh
  split at hh
  · simp only [Option.some.injEq] at hh
    subst hh
    exact ih
  · exact Option.noConfusion hh

mutual
/-- A setter applied again with the same property leaves the value it has
produced. -/
theorem Set_idem : ∀ (t : UPropType) (v : UValue) (p : sfProperty) (c : Bool) (v1 : UValue),
    UPropType.Set t v p = some (c, v1) → ∃ c', UPropType.Set t v1 p = some (c', v1)
  | .BoolProperty, v, p, c, v1, h => by
      simp only [UPropType.Set] at h ⊢
      exact SetBool_idem v p c v1 h
  | .FloatProperty, v, p, c, v1, h => by
      simp only [UPropType.Set] at h ⊢
      exact SetFloat_idem v p c v1 h
  | .IntProperty k, v, p, c, v1, h => by
      simp only [UPropType.Set] at h ⊢
      exact SetInt_idem k v p c v1 h
  | .DoubleProperty, v, p, c, v1, h => by
      simp only [UPropType.Set] at h ⊢
      exact SetDouble_idem v p c v1 h
  | .EnumProperty k, v, p, c, v1, h => by
      simp only [UPropType.Set] at h ⊢
      exact SetEnum_idem k v p c v1 h
  | .ArrayProperty inner, v, p, c, v1, h => by
      cases v <;> simp only [UPropType.Set] at h <;> try exact Option.noConfusion h
      rename_i xs
      simp only [Option.map_eq_some', Prod.mk.injEq] at h
      obtain ⟨r, hr, _, rfl⟩ := h
      obtain ⟨c', hc'⟩ := SetArray_idem _ inner.InitializeValue
        (handler_idem_of inner (Set_idem inner)) xs p r.1 r.2 hr
      exact ⟨c', by simp only [UPropType.Set, hc', Option.map_some']⟩
  | .SetProperty element, v, p, c, v1, h => by
      cases v <;> simp only [UPropType.Set] at h <;> try exact Option.noConfusion h
      rename_i slots
      simp only [Option.map_eq_some', Prod.mk.injEq] at h
      obtain ⟨r, hr, _, rfl⟩ := h
      obtain ⟨c', hc'⟩ := SetSet_idem _ element.InitializeValue
        (handler_idem_of element (Set_idem element)) slots p r.1 r.2 hr
      exact ⟨c', by simp only [UPropType.Set, hc', Option.map_some']⟩
  | .MapProperty key value, v, p, c, v1, h => by
      cases v <;> simp only [UPropType.Set] at h <;> try exact Option.noConfusion h
      rename_i slots
      simp only [Option.map_eq_some', Prod.mk.injEq] at h
      obtain ⟨r, hr, _, rfl⟩ := h
      obtain ⟨c', hc'⟩ := SetMap_idem _ _ (key.InitializeValue, value.InitializeValue)
        (handler_idem_of key (Set_idem key)) (handler_idem_of value (Set_idem value))
        slots p r.1 r.2 hr
      exact ⟨c', by simp only [UPropType.Set, hc', Option.map_some']⟩
  | .StructProperty fields, v, p, c, v1, h => by
      cases v <;> cases p <;> simp only [UPropType.Set] at h <;>
        try exact Option.noConfusion h
      rename_i values dictPtr
      simp only [Option.map_eq_some', Prod.mk.injEq] at h
      obtain ⟨r, hr, _, rfl⟩ := h
      obtain ⟨c', hc'⟩ := SetStruct_idem fields values dictPtr false r.1 r.2 hr false
      exact ⟨c', by simp only [UPropType.Set, hc', Option.map_some']⟩
  | .Other, v, p, c, v1, h => by simp [UPropType.Set] at h
/-- The loop of `SetStruct` applied again leaves the fields it has produced. -/
theorem SetStruct_idem : ∀ (fields : List (FName × UPropType)) (values : List (FName × UValue))
    (dictPtr : List (sfName × sfProperty)) (ch c : Bool) (vs1 : List (FName × UValue)),
    UPropType.SetStruct fields values dictPtr ch = some (c, vs1) →
    ∀ ch', ∃ c', UPropType.SetStruct fields vs1 dictPtr ch' = some (c', vs1)
  | [], values, dictPtr, ch, c, vs1, h, ch' => by
      exact ⟨ch', by simp [UPropType.SetStruct]⟩
  | f :: rest, values, dictPtr, ch, c, vs1, h, ch' => by
      cases values with
      | nil => simp [UPropType.SetStruct] at h
      | cons v vrest =>
        simp only [UPropType.SetStruct] at h
        split at h
        · rename_i hh
          split at h
          · rename_i valuePtr hget
            split at h
            · exact Option.noConfusion h
            · rename_i r hr
              simp only [Option.map_eq_some', Prod.mk.injEq] at h
              obtain ⟨q, hq, _, rfl⟩ := h
              obtain ⟨c1, hc1⟩ := Set_idem f.2 v.2 valuePtr r.1 r.2 hr
              obtain ⟨c2, hc2⟩ := SetStruct_idem rest vrest dictPtr _ q.1 q.2 hq (ch' || c1)
              exact ⟨c2, by simp only [UPropType.SetStruct, hh, if_true, hget, hc1, hc2,
                Option.map_some']⟩
          · rename_i hget
            simp only [Option.map_eq_some', Prod.mk.injEq] at h
            obtain ⟨q, hq, _, rfl⟩ := h
            obtain ⟨c2, hc2⟩ := SetStruct_idem rest vrest dictPtr _ q.1 q.2 hq ch'
            exact ⟨c2, by simp only [UPropType.SetStruct, hh, if_true, hget, hc2,
              Option.map_some']⟩
        · rename_i hh
          simp only [Option.map_eq_some', Prod.mk.injEq] at h
          obtain ⟨q, hq, _, rfl⟩ := h
          obtain ⟨c2, hc2⟩ := SetStruct_idem rest vrest dictPtr _ q.1 q.2 hq ch'
          exact ⟨c2, by simp only [UPropType.SetStruct, hh, Bool.false_eq_true, if_false, hc2,
            Option.map_some']⟩
end

/-! ### C5: ApplyProperties twice -/

theorem SetValue_idem (t : UPropType) (v : UValue) (p : sfProperty) (r : Bool × UValue)
    (h : SetValue (m_typeHandlers t) v (some p) = some r) :
    ∃ c', SetValue (m_typeHandlers t) r.2 (some p) = some (c', r.2) := by
  unfold m_typeHandlers at h ⊢
  split at h
  · rename_i hh
    simp only [SetValue] at h
    obtain ⟨c', hc'⟩ := Set_idem t v p r.1 r.2 h
    exact ⟨c', by simp only [hh, if_true, SetValue, hc']⟩
  · rename_i hh
    simp only [SetValue, Option.some.injEq] at h
    subst h
    exact ⟨false, by simp [hh, SetValue]⟩

theorem SetToDefaultValue_idem (Identical : UPropType → UValue → UValue → Bool)
    (o o1 : UObject) (hcdo : o1.isClassDefaultObject = o.isClassDefaultObject) (f : UField) :
    SetToDefaultValue Identical o1 { f with value := SetToDefaultValue Identical o f } =
      SetToDefaultValue Identical o f := by
  unfold SetToDefaultValue UObject.defaultOf
  rw [hcdo]
  cases f.prop.type.hasHandler
  · simp
  · cases o.isClassDefaultObject
    · simp only [if_true, Bool.false_eq_true, if_false]
      cases h : Identical f.prop.type f.value f.defaultValue
      · simp
      · simp [h]
    · simp only [if_true]
      cases h : Identical f.prop.type f.value f.value
      · simp [h]
      · simp [h]

theorem ApplyProperties_step_idem (lists : SyncLists)
    (Identical : UPropType → UValue → UValue → Bool) (o o1 : UObject)
    (hcn : o1.className = o.className)
    (hcdo : o1.isClassDefaultObject = o.isClassDefaultObject)
    (dictPtr : List (sfName × sfProperty)) (bl : Option (List FName)) (f f1 : UField)
    (h : ApplyProperties.step lists Identical o dictPtr bl f = some f1) :
    ApplyProperties.step lists Identical o1 dictPtr bl f1 = some f1 := by
  have hsync : ∀ (p : UProperty), IsSyncable lists o1 p = IsSyncable lists o p := by
    intro p
    simp only [IsSyncable, hcn]
  unfold ApplyProperties.step at h
  cases hs : IsSyncable lists o f.prop
  · simp only [hs, Bool.false_eq_true, if_false, Option.some.injEq] at h
    subst h
    simp only [ApplyProperties.step, hsync, hs, Bool.false_eq_true, if_false]
  · simp only [hs, if_true] at h
    cases hb : blacklisted bl f.prop.name
    · simp only [hb, Bool.false_eq_true, if_false] at h
      cases hget : dictGet dictPtr f.prop.name with
      | none =>
        simp only [hget, Option.some.injEq] at h
        subst h
        simp only [ApplyProperties.step, hsync, hs, hb, if_true, Bool.false_eq_true, if_false,
          hget, SetToDefaultValue_idem Identical o o1 hcdo f]
      | some p =>
        simp only [hget] at h
        cases hset : SetValue (m_typeHandlers f.prop.type) f.value (some p) with
        | none => simp [hset] at h
        | some r =>
          simp only [hset, Option.some.injEq] at h
          subst h
          obtain ⟨c', hc'⟩ := SetValue_idem f.prop.type f.value p r hset
          simp only [ApplyProperties.step, hsync, hs, hb, if_true, Bool.false_eq_true,
            if_false, hget, hc']
    · simp only [hb, if_true, Option.some.injEq] at h
      subst h
      simp only [ApplyProperties.step, hsync, hs, hb, if_true]

theorem ApplyProperties_loop_idem (lists : SyncLists)
    (Identical : UPropType → UValue → UValue → Bool) (o o1 : UObject)
    (hcn : o1.className = o.className)
    (hcdo : o1.isClassDefaultObject = o.isClassDefaultObject)
    (dictPtr : List (sfName × sfProperty)) (bl : Option (List FName)) :
    ∀ (fs fs1 : List UField),
      ApplyProperties.loop lists Identical o dictPtr bl fs = some fs1 →
      ApplyProperties.loop lists Identical o1 dictPtr bl fs1 = some fs1 := by
  intro fs
  induction fs with
  | nil =>
    intro fs1 h
    simp only [ApplyProperties.loop, Option.some.injEq] at h
    subst h
    rfl
  | cons f rest ih =>
    intro fs1 h
    simp only [ApplyProperties.loop] at h
    cases hstep : ApplyProperties.step lists Identical o dictPtr bl f with
    | none => simp [hstep] at h
    | some f1 =>
      simp only [hstep, Option.map_eq_some'] at h
      obtain ⟨r, hr, rfl⟩ := h
      simp only [ApplyProperties.loop,
        ApplyProperties_step_idem lists Identical o o1 hcn hcdo dictPtr bl f f1 hstep,
        ih r hr, Option.map_some']

/-- C5: for every entity state and every dictionary on which `ApplyProperties`
is defined, applying `ApplyProperties` a second time with the same dictionary
to the entity it has produced is defined and leaves that entity as it is: twice
gives the same field state as once. -/
theorem C5_apply_twice (lists : SyncLists) (Identical : UPropType → UValue → UValue → Bool)
    (o o1 : UObject) (dictPtr : Option (List (sfName × sfProperty)))
    (bl : Option (List FName))
    (h : ApplyProperties lists Identical o dictPtr bl = some o1) :
    ApplyProperties lists Identical o1 dictPtr bl = some o1 := by
  cases dictPtr with
  | none =>
    simp only [ApplyProperties, Option.some.injEq] at h
    subst h
    rfl
  | some d =>
    simp only [ApplyProperties, Option.map_eq_some'] at h
    obtain ⟨fs, hfs, rfl⟩ := h
    simp only [ApplyProperties,
      ApplyProperties_loop_idem lists Identical o { o with fields := fs } rfl rfl d bl
        o.fields fs hfs, Option.map_some']

/-- C5 witness: an entity with an integer set from its entry, a set of
booleans refilled from a list of another size, a float reset to its default
and a property that is not syncable. -/
theorem C5_apply_twice_witness :
    ApplyProperties ⟨[], []⟩ Identical_InContainer
      ⟨100, false,
        [⟨⟨1, CPF_Edit, some 100, UPropType.IntProperty IntKind.Int16⟩, UValue.int 9,
            UValue.int 5⟩,
          ⟨⟨2, CPF_Edit, some 100, UPropType.SetProperty UPropType.BoolProperty⟩,
            UValue.set [some (UValue.bool true)], UValue.set []⟩,
          ⟨⟨3, CPF_Edit, some 100, UPropType.FloatProperty⟩, UValue.float 0, UValue.float 7⟩,
          ⟨⟨4, 0, some 100, UPropType.BoolProperty⟩, UValue.bool false, UValue.bool true⟩]⟩
      (some [(1, sfProperty.value (ksMultiType.INT 7)),
        (2, sfProperty.list [sfProperty.value (ksMultiType.BOOL false),
          sfProperty.value (ksMultiType.BOOL true)])]) none =
    some ⟨100, false,
        [⟨⟨1, CPF_Edit, some 100, UPropType.IntProperty IntKind.Int16⟩, UValue.int 7,
            UValue.int 5⟩,
          ⟨⟨2, CPF_Edit, some 100, UPropType.SetProperty UPropType.BoolProperty⟩,
            UValue.set [some (UValue.bool false), some (UValue.bool true)], UValue.set []⟩,
          ⟨⟨3, CPF_Edit, some 100, UPropType.FloatProperty⟩, UValue.float 7, UValue.float 7⟩,
          ⟨⟨4, 0, some 100, UPropType.BoolProperty⟩, UValue.bool false, UValue.bool true⟩]⟩ ∧
    ApplyProperties ⟨[], []⟩ Identical_InContainer
      ⟨100, false,
        [⟨⟨1, CPF_Edit, some 100, UPropType.IntProperty IntKind.Int16⟩, UValue.int 7,
            UValue.int 5⟩,
          ⟨⟨2, CPF_Edit, some 100, UPropType.SetProperty UPropType.BoolProperty⟩,
            UValue.set [some (UValue.bool false), some (UValue.bool true)], UValue.set []⟩,
          ⟨⟨3, CPF_Edit, some 100, UPropType.FloatProperty⟩, UValue.float 7, UValue.float 7⟩,
          ⟨⟨4, 0, some 100, UPropType.BoolProperty⟩, UValue.bool false, UValue.bool true⟩]⟩
      (some [(1, sfProperty.value (ksMultiType.INT 7)),
        (2, sfProperty.list [sfProperty.value (ksMultiType.BOOL false),
          sfProperty.value (ksMultiType.BOOL true)])]) none =
    some ⟨100, false,
        [⟨⟨1, CPF_Edit, some 100, UPropType.IntProperty IntKind.Int16⟩, UValue.int 7,
            UValue.int 5⟩,
          ⟨⟨2, CPF_Edit, some 100, UPropType.SetProperty UPropType.BoolProperty⟩,
            UValue.set [some (UValue.bool false), some (UValue.bool true)], UValue.set []⟩,
          ⟨⟨3, CPF_Edit, some 100, UPropType.FloatProperty⟩, UValue.float 7, UValue.float 7⟩,
          ⟨⟨4, 0, some 100, UPropType.BoolProperty⟩, UValue.bool false, UValue.bool true⟩]⟩ :=
  ⟨rfl, C5_apply_twice ⟨[], []⟩ Identical_InContainer
    ⟨100, false,
      [⟨⟨1, CPF_Edit, some 100, UPropType.IntProperty IntKind.Int16⟩, UValue.int 9,
          UValue.int 5⟩,
        ⟨⟨2, CPF_Edit, some 100, UPropType.SetProperty UPropType.BoolProperty⟩,
          UValue.set [some (UValue.bool true)], UValue.set []⟩,
        ⟨⟨3, CPF_Edit, some 100, UPropType.FloatProperty⟩, UValue.float 0, UValue.float 7⟩,
        ⟨⟨4, 0, some 100, UPropType.BoolProperty⟩, UValue.bool false, UValue.bool true⟩]⟩
    _ _ none rfl⟩

/-! ### Integer conversions of the handlers -/

theorem IntKind.wire_roundtrip (k : IntKind) (x : Int) (h : k.inRange x = true) :
    k.wrap (k.wireKind.wrap x) = x ∧ k.wireKind.wrap (k.wireKind.wrap x) = k.wireKind.wrap x := by
  simp only [IntKind.inRange, decide_eq_true_eq] at h
  cases k <;>
    simp only [IntKind.wrap, IntKind.wireKind, wrapSigned, wrapUnsigned] at h ⊢ <;>
    norm_num at h ⊢ <;> omega

theorem IntKind.wire_inj (k : IntKind) (x y : Int) (hx : k.inRange x = true)
    (hy : k.inRange y = true) (h : k.wireKind.wrap x = k.wireKind.wrap y) : x = y := by
  simp only [IntKind.inRange, decide_eq_true_eq] at hx hy
  cases k <;>
    simp only [IntKind.wrap, IntKind.wireKind, wrapSigned, wrapUnsigned] at hx hy h <;>
    norm_num at hx hy h <;> omega

theorem IntKind.asInteger_create (k : IntKind) (x : Int) :
    (k.create (k.wrap x)).asInteger = some (k.wrap x) := by
  cases k <;> simp only [IntKind.create, ksMultiType.asInteger, IntKind.wrap, wrapUnsigned,
    Option.some.injEq] <;>
    (apply Int.toNat_of_nonneg; apply Int.emod_nonneg; norm_num)

theorem IntKind.create_inj (k : IntKind) (x y : Int) (hx : k.inRange x = true)
    (hy : k.inRange y = true) (h : k.create x = k.create y) : x = y := by
  simp only [IntKind.inRange, decide_eq_true_eq] at hx hy
  cases k <;>
    simp only [IntKind.create, ksMultiType.INT.injEq, ksMultiType.LONG.injEq,
      ksMultiType.BYTE.injEq, ksMultiType.UINT.injEq] at h <;>
    first
      | exact h
      | (simp only [IntKind.wrap, wrapUnsigned] at hx hy
         norm_num at hx hy
         omega)

theorem IntKind.enum_roundtrip (k : IntKind) (x : Int) (h : k.inRange x = true) :
    k.wrap (wrapSigned 64 x) = x ∧ wrapSigned 64 (wrapSigned 64 x) = wrapSigned 64 x := by
  simp only [IntKind.inRange, decide_eq_true_eq] at h
  cases k <;>
    simp only [IntKind.wrap, wrapSigned, wrapUnsigned] at h ⊢ <;>
    norm_num at h ⊢ <;> omega

theorem IntKind.enum_inj (k : IntKind) (x y : Int) (hx : k.inRange x = true)
    (hy : k.inRange y = true) (h : wrapSigned 64 x = wrapSigned 64 y) : x = y := by
  simp only [IntKind.inRange, decide_eq_true_eq] at hx hy
  cases k <;>
    simp only [IntKind.wrap, wrapSigned, wrapUnsigned] at hx hy h <;>
    norm_num at hx hy h <;> omega

/-! ### A scalar setter applied to a converted value -/

theorem SetBool_Get (old w : UValue) (p : sfProperty)
    (ho : UPropType.HasValue .BoolProperty old = true)
    (hw : UPropType.HasValue .BoolProperty w = true) (hg : GetBool w = some p) :
    ∃ c, SetBool old p = some (c, w) := by
  cases old <;> simp only [UPropType.HasValue] at ho <;> try exact Bool.noConfusion ho
  cases w <;> simp only [UPropType.HasValue] at hw <;> try exact Bool.noConfusion hw
  rename_i cur b
  simp only [GetBool, Option.some.injEq] at hg
  subst hg
  simp only [SetBool]
  by_cases hb : sfProperty.beq (.value (.BOOL b)) (.value (.BOOL cur)) = true
  · have := (sfProperty.beq_iff _ _).1 hb
    simp only [sfProperty.value.injEq, ksMultiType.BOOL.injEq] at this
    subst this
    exact ⟨false, by rw [if_pos hb]⟩
  · exact ⟨true, by rw [if_neg hb]⟩

theorem SetFloat_Get (old w : UValue) (p : sfProperty)
    (ho : UPropType.HasValue .FloatProperty old = true)
    (hw : UPropType.HasValue .FloatProperty w = true) (hg : GetFloat w = some p) :
    ∃ c, SetFloat old p = some (c, w) := by
  cases old <;> simp only [UPropType.HasValue] at ho <;> try exact Bool.noConfusion ho
  cases w <;> simp only [UPropType.HasValue] at hw <;> try exact Bool.noConfusion hw
  rename_i cur b
  simp only [GetFloat, Option.some.injEq] at hg
  subst hg
  simp only [SetFloat]
  by_cases hb : sfProperty.beq (.value (.FLOAT b)) (.value (.FLOAT cur)) = true
  · have := (sfProperty.beq_iff _ _).1 hb
    simp only [sfProperty.value.injEq, ksMultiType.FLOAT.injEq] at this
    subst this
    exact ⟨false, by rw [if_pos hb]⟩
  · exact ⟨true, by rw [if_neg hb]⟩

theorem IntKind.wireKind_of_not_cast (k : IntKind) (h : k.isCast = false) : k.wireKind = k := by
  cases k <;> first | rfl | exact Bool.noConfusion h

theorem SetInt_Get (k : IntKind) (old w : UValue) (p : sfProperty)
    (ho : UPropType.HasValue (.IntProperty k) old = true)
    (hw : UPropType.HasValue (.IntProperty k) w = true) (hg : GetInt k w = some p) :
    ∃ c, SetInt k old p = some (c, w) := by
  cases old <;> simp only [UPropType.HasValue] at ho <;> try exact Bool.noConfusion ho
  cases w <;> simp only [UPropType.HasValue] at hw <;> try exact Bool.noConfusion hw
  rename_i cur x
  simp only [GetInt, Option.some.injEq] at hg
  subst hg
  obtain ⟨r1, r2⟩ := IntKind.wire_roundtrip k x hw
  simp only [SetInt]
  cases hcast : k.isCast
  · have hwk := IntKind.wireKind_of_not_cast k hcast
    have hx : k.wrap x = x := by simpa [IntKind.inRange] using hw
    simp only [Bool.false_eq_true, if_false, hwk, hx]
    by_cases hb : sfProperty.beq (.value (k.create x)) (.value (k.create cur)) = true
    · have := (sfProperty.beq_iff _ _).1 hb
      simp only [sfProperty.value.injEq] at this
      have hxc := IntKind.create_inj k x cur hw ho this
      subst hxc
      exact ⟨false, by rw [if_pos hb]⟩
    · rw [if_neg hb]
      have ha := IntKind.asInteger_create k x
      rw [hx] at ha
      simp only [ha, hx]
      exact ⟨true, rfl⟩
  · simp only [if_true, IntKind.asInteger_create]
    by_cases hne : k.wireKind.wrap cur = k.wireKind.wrap (k.wireKind.wrap x)
    · rw [r2] at hne
      have := IntKind.wire_inj k cur x ho hw hne
      subst this
      exact ⟨false, by simp [r2]⟩
    · refine ⟨true, ?_⟩
      rw [if_pos hne, r2, r1]

theorem SetDouble_Get (old w : UValue) (p : sfProperty)
    (ho : UPropType.HasValue .DoubleProperty old = true)
    (hw : UPropType.HasValue .DoubleProperty w = true) (hg : GetDouble w = some p) :
    ∃ c, SetDouble old p = some (c, w) := by
  cases old <;> simp only [UPropType.HasValue] at ho <;> try exact Bool.noConfusion ho
  cases w <;> simp only [UPropType.HasValue, decide_eq_true_eq] at hw <;>
    try exact Bool.noConfusion hw
  rename_i cur bytes
  simp only [GetDouble, Option.some.injEq] at hg
  subst hg
  have hlen : ¬ bytes.length ≠ 8 := by omega
  simp only [SetDouble, if_neg hlen]
  by_cases hne : cur = bytes
  · subst hne
    exact ⟨false, by simp⟩
  · exact ⟨true, by rw [if_pos hne]⟩

theorem GetEnum_asInteger (x : Int) :
    ∃ m, GetEnum (.int x) = some (.value m) ∧ m.asInteger = some (wrapSigned 64 x) := by
  simp only [GetEnum]
  split
  · rename_i h
    exact ⟨_, rfl, by simp [ksMultiType.asInteger, Int.toNat_of_nonneg h.1]⟩
  · exact ⟨_, rfl, rfl⟩

theorem SetEnum_Get (k : IntKind) (old w : UValue) (p : sfProperty)
    (ho : UPropType.HasValue (.EnumProperty k) old = true)
    (hw : UPropType.HasValue (.EnumProperty k) w = true) (hg : GetEnum w = some p) :
    ∃ c, SetEnum k old p = some (c, w) := by
  cases old <;> simp only [UPropType.HasValue] at ho <;> try exact Bool.noConfusion ho
  cases w <;> simp only [UPropType.HasValue] at hw <;> try exact Bool.noConfusion hw
  rename_i cur x
  obtain ⟨m, hm1, hm2⟩ := GetEnum_asInteger x
  rw [hm1] at hg
  simp only [Option.some.injEq] at hg
  subst hg
  obtain ⟨r1, r2⟩ := IntKind.enum_roundtrip k x hw
  simp only [SetEnum, hm2]
  by_cases hne : wrapSigned 64 cur = wrapSigned 64 (wrapSigned 64 x)
  · rw [r2] at hne
    have := IntKind.enum_inj k cur x ho hw hne
    subst this
    exact ⟨false, by simp [r2]⟩
  · refine ⟨true, ?_⟩
    rw [if_pos hne, r2, r1]

/-! ### Converted values of well-typed data -/

theorem hasHandler_of_Supported (t : UPropType) (h : t.Supported = true) :
    t.hasHandler = true := by
  cases t <;> first | rfl | simp [UPropType.Supported] at h

theorem GetArray_loop_forall₂ {α : Type} (Get : α → Option sfProperty) (xs : List α)
    (acc L : List sfProperty) (h : GetArray.loop Get xs acc = some L) :
    ∃ L', L = acc ++ L' ∧ List.Forall₂ (fun a e => Get a = some e) xs L' := by
  induction xs generalizing acc with
  | nil =>
    simp only [GetArray.loop, Option.some.injEq] at h
    exact ⟨[], by simp [h], List.Forall₂.nil⟩
  | cons a rest ih =>
    simp only [GetArray.loop] at h
    cases hg : Get a with
    | none => simp [hg] at h
    | some e =>
      simp only [hg] at h
      obtain ⟨L', hL', hF⟩ := ih _ h
      exact ⟨e :: L', by simp [hL'], List.Forall₂.cons hg hF⟩

theorem GetArray_loop_of_forall₂ {α : Type} (Get : α → Option sfProperty) (xs : List α)
    (acc W : List sfProperty) (h : List.Forall₂ (fun a e => Get a = some e) xs W) :
    GetArray.loop Get xs acc = some (acc ++ W) := by
  induction h generalizing acc with
  | nil => simp [GetArray.loop]
  | cons hab _ ih =>
    simp only [GetArray.loop, hab, ih]
    simp

theorem forall₂_of_forall_some {α : Type} (Get : α → Option sfProperty) (xs : List α)
    (h : ∀ x ∈ xs, ∃ p, Get x = some p) :
    ∃ L, List.Forall₂ (fun a e => Get a = some e) xs L := by
  induction xs with
  | nil => exact ⟨[], List.Forall₂.nil⟩
  | cons a rest ih =>
    obtain ⟨p, hp⟩ := h a (List.mem_cons_self _ _)
    obtain ⟨L, hL⟩ := ih (fun x hx => h x (List.mem_cons_of_mem _ hx))
    exact ⟨p :: L, List.Forall₂.cons hp hL⟩

theorem forall₂_map_of_forall_some {κ ν : Type} (GetKey : κ → Option sfProperty)
    (GetValue : ν → Option sfProperty) (xs : List (κ × ν))
    (h : ∀ x ∈ xs, (∃ p, GetKey x.1 = some p) ∧ ∃ q, GetValue x.2 = some q) :
    ∃ L, List.Forall₂ (fun (a : κ × ν) e => ∃ keyPtr valuePtr, GetKey a.1 = some keyPtr ∧
      GetValue a.2 = some valuePtr ∧ e = sfProperty.list [keyPtr, valuePtr]) xs L := by
  induction xs with
  | nil => exact ⟨[], List.Forall₂.nil⟩
  | cons a rest ih =>
    obtain ⟨⟨p, hp⟩, q, hq⟩ := h a (List.mem_cons_self _ _)
    obtain ⟨L, hL⟩ := ih (fun x hx => h x (List.mem_cons_of_mem _ hx))
    exact ⟨_ :: L, List.Forall₂.cons ⟨p, q, hp, hq, rfl⟩ hL⟩

theorem forall₂_mem_right {α β : Type} {R : α → β → Prop} {l₁ : List α} {l₂ : List β}
    (h : List.Forall₂ R l₁ l₂) (b : β) (hb : b ∈ l₂) : ∃ a ∈ l₁, R a b := by
  induction h with
  | nil => simp at hb
  | cons hab _ ih =>
    rcases List.mem_cons.1 hb with rfl | hmem
    · exact ⟨_, List.mem_cons_self _ _, hab⟩
    · obtain ⟨a, ha, hr⟩ := ih hmem
      exact ⟨a, List.mem_cons_of_mem _ ha, hr⟩

theorem GetStruct_some : ∀ (fields : List (FName × UPropType)) (ws : List (FName × UValue))
    (acc : List (sfName × sfProperty)), UPropType.HasValues fields ws = true →
    ∃ d, UPropType.GetStruct fields ws acc = some d
  | [], ws, acc, _ => ⟨acc, by simp [UPropType.GetStruct]⟩
  | f :: rest, ws, acc, h => by
      cases ws with
      | nil => simp [UPropType.HasValues] at h
      | cons w wrest =>
        simp only [UPropType.HasValues, Bool.and_eq_true] at h
        simp only [UPropType.GetStruct]
        split
        · split
          · exact GetStruct_some rest wrest _ h.2
          · exact GetStruct_some rest wrest _ h.2
        · exact GetStruct_some rest wrest _ h.2

/-- The getter of a supported class is not null on data of the class. -/
theorem Get_some : ∀ (t : UPropType) (w : UValue), t.Supported = true →
    t.HasValue w = true → ∃ p, UPropType.Get t w = some p
  | .BoolProperty, w, _, hw => by
      cases w <;> simp only [UPropType.HasValue] at hw <;> try exact Bool.noConfusion hw
      simp only [UPropType.Get, GetBool]
      exact ⟨_, rfl⟩
  | .FloatProperty, w, _, hw => by
      cases w <;> simp only [UPropType.HasValue] at hw <;> try exact Bool.noConfusion hw
      simp only [UPropType.Get, GetFloat]
      exact ⟨_, rfl⟩
  | .IntProperty k, w, _, hw => by
      cases w <;> simp only [UPropType.HasValue] at hw <;> try exact Bool.noConfusion hw
      simp only [UPropType.Get, GetInt]
      exact ⟨_, rfl⟩
  | .DoubleProperty, w, _, hw => by
      cases w <;> simp only [UPropType.HasValue] at hw <;> try exact Bool.noConfusion hw
      simp only [UPropType.Get, GetDouble]
      exact ⟨_, rfl⟩
  | .EnumProperty k, w, _, hw => by
      cases w <;> simp only [UPropType.HasValue] at hw <;> try exact Bool.noConfusion hw
      simp only [UPropType.Get, GetEnum]
      split
      · exact ⟨_, rfl⟩
      · exact ⟨_, rfl⟩
  | .ArrayProperty inner, w, hs, hw => by
      cases w <;> simp only [UPropType.HasValue] at hw <;> try exact Bool.noConfusion hw
      rename_i xs
      simp only [UPropType.Supported] at hs
      simp only [List.all_eq_true] at hw
      obtain ⟨L, hL⟩ := forall₂_of_forall_some (UPropType.Get inner) xs
        (fun x hx => Get_some inner x hs (hw x hx))
      exact ⟨.list L, by
        simp only [UPropType.Get, hasHandler_of_Supported inner hs, if_true, GetArray,
          GetArray_loop_of_forall₂ _ xs [] L hL, List.nil_append, Option.map_some']⟩
  | .SetProperty element, w, hs, hw => by
      cases w <;> simp only [UPropType.HasValue] at hw <;> try exact Bool.noConfusion hw
      rename_i slots
      simp only [UPropType.Supported] at hs
      simp only [List.all_eq_true] at hw
      obtain ⟨L, hL⟩ := forall₂_of_forall_some (UPropType.Get element) (SparseArray.dense slots)
        (fun x hx => Get_some element x hs (hw x hx))
      exact ⟨.list L, by
        simp only [UPropType.Get, hasHandler_of_Supported element hs, if_true, GetSet,
          GetSet_loop_of_forall₂ _ slots [] L hL, List.nil_append, Option.map_some']⟩
  | .MapProperty key value, w, hs, hw => by
      cases w <;> simp only [UPropType.HasValue] at hw <;> try exact Bool.noConfusion hw
      rename_i slots
      simp only [UPropType.Supported, Bool.and_eq_true] at hs
      simp only [List.all_eq_true, Bool.and_eq_true] at hw
      obtain ⟨L, hL⟩ := forall₂_map_of_forall_some (UPropType.Get key) (UPropType.Get value)
        (SparseArray.dense slots)
        (fun x hx => ⟨Get_some key x.1 hs.1 (hw x hx).1, Get_some value x.2 hs.2 (hw x hx).2⟩)
      exact ⟨.list L, by
        simp only [UPropType.Get, hasHandler_of_Supported key hs.1,
          hasHandler_of_Supported value hs.2, if_true, GetMap,
          GetMap_loop_of_forall₂ _ _ slots [] L hL, List.nil_append, Option.map_some']⟩
  | .StructProperty fields, w, _, hw => by
      cases w <;> simp only [UPropType.HasValue] at hw <;> try exact Bool.noConfusion hw
      rename_i ws
      obtain ⟨d, hd⟩ := GetStruct_some fields ws [] hw
      exact ⟨.dictionary d, by simp only [UPropType.Get, hd, Option.map_some']⟩
  | .Other, _, hs, _ => by simp [UPropType.Supported] at hs

/-! ### Newly constructed values -/

mutual
theorem InitializeValue_HasValue : ∀ (t : UPropType),
    t.HasValue t.InitializeValue = true
  | .BoolProperty => rfl
  | .FloatProperty => rfl
  | .IntProperty k => by cases k <;> decide
  | .DoubleProperty => rfl
  | .EnumProperty k => by cases k <;> decide
  | .ArrayProperty _ => rfl
  | .SetProperty _ => rfl
  | .MapProperty _ _ => rfl
  | .StructProperty fields => by
      simp only [UPropType.InitializeValue, UPropType.HasValue]
      exact InitializeFields_HasValues fields
  | .Other => rfl
theorem InitializeFields_HasValues : ∀ (fields : List (FName × UPropType)),
    UPropType.HasValues fields (UPropType.InitializeFields fields) = true
  | [] => rfl
  | f :: rest => by
      simp only [UPropType.InitializeFields, UPropType.HasValues, Bool.and_eq_true]
      exact ⟨InitializeValue_HasValue f.2, InitializeFields_HasValues rest⟩
end

mutual
theorem InitializeValue_Dense : ∀ (t : UPropType), t.Dense t.InitializeValue = true
  | .BoolProperty => rfl
  | .FloatProperty => rfl
  | .IntProperty _ => rfl
  | .DoubleProperty => rfl
  | .EnumProperty _ => rfl
  | .ArrayProperty _ => rfl
  | .SetProperty _ => rfl
  | .MapProperty _ _ => rfl
  | .StructProperty fields => by
      simp only [UPropType.InitializeValue, UPropType.Dense]
      exact InitializeFields_Dense fields
  | .Other => rfl
theorem InitializeFields_Dense : ∀ (fields : List (FName × UPropType)),
    UPropType.DenseFields fields (UPropType.InitializeFields fields) = true
  | [] => rfl
  | f :: rest => by
      simp only [UPropType.InitializeFields, UPropType.DenseFields, Bool.and_eq_true]
      exact ⟨InitializeValue_Dense f.2, InitializeFields_Dense rest⟩
end

/-! ### A container setter applied to a converted value -/

theorem SetArray_loop_Get {α : Type} (Set : α → sfProperty → Option (Bool × α))
    (Get : α → Option sfProperty) (good : α → Prop) (ok : sfProperty → Prop)
    (hS : ∀ a p, good a → ok p → ∃ c a', Set a p = some (c, a') ∧ Get a' = some p) :
    ∀ (L : List sfProperty) (arr : List α) (ch : Bool), arr.length = L.length →
      (∀ a ∈ arr, good a) → (∀ p ∈ L, ok p) →
      ∃ c arr', SetArray.loop Set arr L ch = some (c, arr') ∧
        List.Forall₂ (fun a p => Get a = some p) arr' L := by
  intro L
  induction L with
  | nil =>
    intro arr ch hlen _ _
    cases arr with
    | nil => exact ⟨ch, [], by simp [SetArray.loop], List.Forall₂.nil⟩
    | cons a rest => simp at hlen
  | cons p ps ih =>
    intro arr ch hlen hgood hok
    cases arr with
    | nil => simp at hlen
    | cons a rest =>
      obtain ⟨c1, a', hs, hg⟩ := hS a p (hgood a (List.mem_cons_self _ _))
        (hok p (List.mem_cons_self _ _))
      obtain ⟨c2, arr', hl, hF⟩ := ih rest (ch || c1) (by simpa using hlen)
        (fun x hx => hgood x (List.mem_cons_of_mem _ hx))
        (fun x hx => hok x (List.mem_cons_of_mem _ hx))
      exact ⟨c2, a' :: arr', by simp [SetArray.loop, hs, hl], List.Forall₂.cons hg hF⟩

theorem dense_map_some {α : Type} (xs : List α) : SparseArray.dense (xs.map some) = xs := by
  induction xs with
  | nil => rfl
  | cons a rest ih => simp [SparseArray.dense, ih]

theorem eq_map_some_of_all {α : Type} (s : List (Option α))
    (h : s.all (fun x => x.isSome) = true) : s = (SparseArray.dense s).map some := by
  induction s with
  | nil => rfl
  | cons x rest ih =>
    simp only [List.all_cons, Bool.and_eq_true] at h
    cases x with
    | none => simp at h
    | some v =>
      simp only [SparseArray.dense, List.map_cons]
      rw [← ih h.2]

theorem overwriteSlots_Get {α : Type} (write : α → sfProperty → Option α)
    (R : α → sfProperty → Prop) (good : α → Prop) (ok : sfProperty → Prop)
    (hS : ∀ a p, good a → ok p → ∃ a', write a p = some a' ∧ R a' p) :
    ∀ (L : List sfProperty) (xs : List α), xs.length = L.length →
      (∀ a ∈ xs, good a) → (∀ p ∈ L, ok p) →
      ∃ ys, overwriteSlots write (xs.map some) L = some (ys.map some) ∧
        List.Forall₂ R ys L := by
  intro L
  induction L with
  | nil =>
    intro xs hlen _ _
    cases xs with
    | nil => exact ⟨[], by simp [overwriteSlots], List.Forall₂.nil⟩
    | cons a rest => simp at hlen
  | cons p ps ih =>
    intro xs hlen hgood hok
    cases xs with
    | nil => simp at hlen
    | cons a rest =>
      obtain ⟨a', hw, hr⟩ := hS a p (hgood a (List.mem_cons_self _ _))
        (hok p (List.mem_cons_self _ _))
      obtain ⟨ys, hl, hF⟩ := ih rest (by simpa using hlen)
        (fun x hx => hgood x (List.mem_cons_of_mem _ hx))
        (fun x hx => hok x (List.mem_cons_of_mem _ hx))
      exact ⟨a' :: ys, by simp [overwriteSlots, hw, hl], List.Forall₂.cons hr hF⟩

/-- The slots that `SetSet` and `SetMap` start from when the old container has
no invalid slot: as many valid slots as the list has elements, each holding an
old element or a newly constructed one. -/
theorem start_slots {α : Type} (dflt : α) (slots : SparseArray α) (n : Nat)
    (hall : slots.all (fun x => x.isSome) = true) :
    ∃ xs : List α, (if SparseArray.Num slots ≠ n then List.replicate n (some dflt) else slots) =
        xs.map some ∧ xs.length = n ∧ ∀ a ∈ xs, a = dflt ∨ a ∈ SparseArray.dense slots := by
  by_cases h : SparseArray.Num slots ≠ n
  · refine ⟨List.replicate n dflt, by rw [if_pos h, List.map_replicate], by simp, ?_⟩
    intro a ha
    exact Or.inl (List.eq_of_mem_replicate ha)
  · refine ⟨SparseArray.dense slots, ?_, ?_, fun a ha => Or.inr ha⟩
    · rw [if_neg h]
      exact eq_map_some_of_all slots hall
    · unfold SparseArray.Num at h
      omega

theorem SetArray_start {α : Type} (dflt : α) (olds : List α) (n : Nat) :
    (arrayResize dflt olds n).length = n ∧
      ∀ a ∈ arrayResize dflt olds n, a = dflt ∨ a ∈ olds := by
  constructor
  · simp only [arrayResize, List.length_append, List.length_take, List.length_replicate]
    omega
  · intro a ha
    simp only [arrayResize, List.mem_append] at ha
    rcases ha with h | h
    · exact Or.inr (List.mem_of_mem_take h)
    · exact Or.inl (List.eq_of_mem_replicate h)

/-! ### Struct fields -/

theorem GetStruct_lookup : ∀ (fields : List (FName × UPropType)) (ws : List (FName × UValue))
    (acc d : List (sfName × sfProperty)), UPropType.HasValues fields ws = true →
    (fields.map Prod.fst).Nodup → UPropType.GetStruct fields ws acc = some d →
    (∀ n, n ∉ fields.map Prod.fst → dictGet d n = dictGet acc n) ∧
      List.Forall₂ (fun (f : FName × UPropType) (w : FName × UValue) =>
        f.2.hasHandler = true → ∀ p, UPropType.Get f.2 w.2 = some p → dictGet d f.1 = some p)
        fields ws
  | [], ws, acc, d, hv, _, h => by
      cases ws with
      | nil =>
        simp only [UPropType.GetStruct, Option.some.injEq] at h
        subst h
        exact ⟨fun _ _ => rfl, List.Forall₂.nil⟩
      | cons w wrest => simp [UPropType.HasValues] at hv
  | f :: rest, ws, acc, d, hv, hnd, h => by
      cases ws with
      | nil => simp [UPropType.HasValues] at hv
      | cons w wrest =>
        simp only [UPropType.HasValues, Bool.and_eq_true] at hv
        simp only [List.map_cons, List.nodup_cons] at hnd
        simp only [UPropType.GetStruct] at h
        cases hh : f.2.hasHandler
        · simp only [hh, Bool.false_eq_true, if_false] at h
          obtain ⟨h1, h2⟩ := GetStruct_lookup rest wrest acc d hv.2 hnd.2 h
          refine ⟨?_, List.Forall₂.cons (fun hcon => by rw [hh] at hcon; exact Bool.noConfusion hcon) h2⟩
          intro n hn
          simp only [List.map_cons, List.mem_cons, not_or] at hn
          exact h1 n hn.2
        · simp only [hh, if_true] at h
          cases hg : UPropType.Get f.2 w.2 with
          | none =>
            simp only [hg] at h
            obtain ⟨h1, h2⟩ := GetStruct_lookup rest wrest acc d hv.2 hnd.2 h
            refine ⟨?_, List.Forall₂.cons (fun _ p hp => by rw [hg] at hp; exact Option.noConfusion hp) h2⟩
            intro n hn
            simp only [List.map_cons, List.mem_cons, not_or] at hn
            exact h1 n hn.2
          | some valuePtr =>
            simp only [hg] at h
            obtain ⟨h1, h2⟩ := GetStruct_lookup rest wrest _ d hv.2 hnd.2 h
            refine ⟨?_, List.Forall₂.cons ?_ h2⟩
            · intro n hn
              simp only [List.map_cons, List.mem_cons, not_or] at hn
              rw [h1 n hn.2, dictGet_dictSet, if_neg hn.1]
            · intro _ p hp
              rw [hg] at hp
              simp only [Option.some.injEq] at hp
              subst hp
              rw [h1 f.1 hnd.1, dictGet_dictSet, if_pos rfl]

/-! ### A setter applied to a converted value -/

mutual
/-- For a supported class: the setter applied to the converted value of
well-typed data `w`, on well-typed old data without invalid slots, is defined
and leaves data whose converted value is that of `w`; for a number, boolean or
enumeration it leaves `w` itself. -/
theorem Set_Get : ∀ (t : UPropType) (old w : UValue) (p : sfProperty),
    t.Supported = true → t.HasValue old = true → t.Dense old = true → t.HasValue w = true →
    UPropType.Get t w = some p →
    ∃ c v', UPropType.Set t old p = some (c, v') ∧ UPropType.Get t v' = some p ∧
      (t.isScalar = true → v' = w)
  | .BoolProperty, old, w, p, _, ho, _, hw, hg => by
      simp only [UPropType.Get] at hg
      obtain ⟨c, hc⟩ := SetBool_Get old w p ho hw hg
      exact ⟨c, w, by simp only [UPropType.Set, hc], by simp only [UPropType.Get, hg],
        fun _ => rfl⟩
  | .FloatProperty, old, w, p, _, ho, _, hw, hg => by
      simp only [UPropType.Get] at hg
      obtain ⟨c, hc⟩ := SetFloat_Get old w p ho hw hg
      exact ⟨c, w, by simp only [UPropType.Set, hc], by simp only [UPropType.Get, hg],
        fun _ => rfl⟩
  | .IntProperty k, old, w, p, _, ho, _, hw, hg => by
      simp only [UPropType.Get] at hg
      obtain ⟨c, hc⟩ := SetInt_Get k old w p ho hw hg
      exact ⟨c, w, by simp only [UPropType.Set, hc], by simp only [UPropType.Get, hg],
        fun _ => rfl⟩
  | .DoubleProperty, old, w, p, _, ho, _, hw, hg => by
      simp only [UPropType.Get] at hg
      obtain ⟨c, hc⟩ := SetDouble_Get old w p ho hw hg
      exact ⟨c, w, by simp only [UPropType.Set, hc], by simp only [UPropType.Get, hg],
        fun _ => rfl⟩
  | .EnumProperty k, old, w, p, _, ho, _, hw, hg => by
      simp only [UPropType.Get] at hg
      obtain ⟨c, hc⟩ := SetEnum_Get k old w p ho hw hg
      exact ⟨c, w, by simp only [UPropType.Set, hc], by simp only [UPropType.Get, hg],
        fun _ => rfl⟩
  | .ArrayProperty inner, old, w, p, hs, ho, hd, hw, hg => by
      cases old <;> simp only [UPropType.HasValue] at ho <;> try exact Bool.noConfusion ho
      rename_i olds
      cases w <;> simp only [UPropType.HasValue] at hw <;> try exact Bool.noConfusion hw
      rename_i ws
      simp only [UPropType.Supported] at hs
      simp only [UPropType.Dense] at hd
      simp only [List.all_eq_true] at ho hd hw
      have hh := hasHandler_of_Supported inner hs
      simp only [UPropType.Get, hh, if_true, GetArray, Option.map_eq_some'] at hg
      obtain ⟨L, hL, rfl⟩ := hg
      obtain ⟨L', hL', hF⟩ := GetArray_loop_forall₂ _ ws [] L hL
      simp only [List.nil_append] at hL'
      subst hL'
      have hS : ∀ a q, (inner.HasValue a = true ∧ inner.Dense a = true) →
          (∃ x, inner.HasValue x = true ∧ UPropType.Get inner x = some q) →
          ∃ c a', UPropType.Set inner a q = some (c, a') ∧
            UPropType.Get inner a' = some q := by
        intro a q hgood hok
        obtain ⟨x, hx1, hx2⟩ := hok
        obtain ⟨c, v', e1, e2, _⟩ := Set_Get inner a x q hs hgood.1 hgood.2 hx1 hx2
        exact ⟨c, v', e1, e2⟩
      have key : ∀ (arr : List UValue) (ch : Bool), arr.length = L.length →
          (∀ a ∈ arr, a = inner.InitializeValue ∨ a ∈ olds) →
          ∃ c arr', SetArray.loop (UPropType.Set inner) arr L ch = some (c, arr') ∧
            UPropType.Get (.ArrayProperty inner) (.array arr') = some (.list L) := by
        intro arr ch hlen hmem
        obtain ⟨c, arr', e1, e2⟩ := SetArray_loop_Get (UPropType.Set inner)
          (UPropType.Get inner) _ _ hS L arr ch hlen
          (fun a ha => by
            rcases hmem a ha with rfl | h
            · exact ⟨InitializeValue_HasValue inner, InitializeValue_Dense inner⟩
            · exact ⟨ho a h, hd a h⟩)
          (fun q hq => by
            obtain ⟨a, ha, hr⟩ := forall₂_mem_right hF q hq
            exact ⟨a, hw a ha, hr⟩)
        exact ⟨c, arr', e1, by
          simp only [UPropType.Get, hh, if_true, GetArray,
            GetArray_loop_of_forall₂ _ arr' [] L e2, List.nil_append, Option.map_some']⟩
      simp only [UPropType.Set, hh, if_true, SetArray]
      by_cases hlen : olds.length ≠ L.length
      · rw [if_pos hlen]
        obtain ⟨c, arr', e1, e2⟩ := key _ true (SetArray_start _ olds L.length).1
          (SetArray_start _ olds L.length).2
        exact ⟨c, .array arr', by rw [e1]; rfl, e2, fun h => Bool.noConfusion h⟩
      · rw [if_neg hlen]
        obtain ⟨c, arr', e1, e2⟩ := key olds false (by omega) (fun a ha => Or.inr ha)
        exact ⟨c, .array arr', by rw [e1]; rfl, e2, fun h => Bool.noConfusion h⟩
  | .SetProperty element, old, w, p, hs, ho, hd, hw, hg => by
      cases old <;> simp only [UPropType.HasValue] at ho <;> try exact Bool.noConfusion ho
      rename_i oslots
      cases w <;> simp only [UPropType.HasValue] at hw <;> try exact Bool.noConfusion hw
      rename_i wslots
      simp only [UPropType.Supported] at hs
      simp only [UPropType.Dense, Bool.and_eq_true] at hd
      obtain ⟨hall, hd⟩ := hd
      simp only [List.all_eq_true] at ho hd hw
      have hh := hasHandler_of_Supported element hs
      simp only [UPropType.Get, hh, if_true, GetSet, Option.map_eq_some'] at hg
      obtain ⟨L, hL, rfl⟩ := hg
      obtain ⟨L', hL', hF⟩ := GetSet_loop_forall₂ _ wslots [] L hL
      simp only [List.nil_append] at hL'
      subst hL'
      have hS : ∀ a q, (element.HasValue a = true ∧ element.Dense a = true) →
          (∃ x, element.HasValue x = true ∧ UPropType.Get element x = some q) →
          ∃ a', (UPropType.Set element a q).map Prod.snd = some a' ∧
            UPropType.Get element a' = some q := by
        intro a q hgood hok
        obtain ⟨x, hx1, hx2⟩ := hok
        obtain ⟨c, v', e1, e2, _⟩ := Set_Get element a x q hs hgood.1 hgood.2 hx1 hx2
        exact ⟨v', by rw [e1]; rfl, e2⟩
      obtain ⟨xs, hxs, hxlen, hxmem⟩ := start_slots element.InitializeValue oslots L.length hall
      obtain ⟨ys, hys, hF'⟩ := overwriteSlots_Get
        (fun a q => (UPropType.Set element a q).map Prod.snd)
        (fun a q => UPropType.Get element a = some q) _ _ hS L xs hxlen
        (fun a ha => by
          rcases hxmem a ha with rfl | h
          · exact ⟨InitializeValue_HasValue element, InitializeValue_Dense element⟩
          · exact ⟨ho a h, hd a h⟩)
        (fun q hq => by
          obtain ⟨a, ha, hr⟩ := forall₂_mem_right hF q hq
          exact ⟨a, hw a ha, hr⟩)
      have h1 := SetSet_slots ⟨UPropType.Get element, UPropType.Set element⟩
        element.InitializeValue oslots L
      rw [hxs] at h1
      obtain ⟨c, hc⟩ := map_snd_eq_some (h1.trans hys)
      refine ⟨c, .set (ys.map some), ?_, ?_, fun h => Bool.noConfusion h⟩
      · simp only [UPropType.Set, hh, if_true, hc, Option.map_some']
      · simp only [UPropType.Get, hh, if_true, GetSet]
        rw [GetSet_loop_of_forall₂ _ (ys.map some) [] L (by rw [dense_map_some]; exact hF')]
        rfl
  | .MapProperty key value, old, w, p, hs, ho, hd, hw, hg => by
      cases old <;> simp only [UPropType.HasValue] at ho <;> try exact Bool.noConfusion ho
      rename_i oslots
      cases w <;> simp only [UPropType.HasValue] at hw <;> try exact Bool.noConfusion hw
      rename_i wslots
      simp only [UPropType.Supported, Bool.and_eq_true] at hs
      simp only [UPropType.Dense, Bool.and_eq_true] at hd
      obtain ⟨hall, hd⟩ := hd
      simp only [List.all_eq_true, Bool.and_eq_true] at ho hd hw
      have hhk := hasHandler_of_Supported key hs.1
      have hhv := hasHandler_of_Supported value hs.2
      simp only [UPropType.Get, hhk, hhv, if_true, GetMap, Option.map_eq_some'] at hg
      obtain ⟨L, hL, rfl⟩ := hg
      obtain ⟨L', hL', hF⟩ := GetMap_loop_forall₂ _ _ wslots [] L hL
      simp only [List.nil_append] at hL'
      subst hL'
      have hS : ∀ (a : UValue × UValue) q,
          ((key.HasValue a.1 = true ∧ value.HasValue a.2 = true) ∧
            (key.Dense a.1 = true ∧ value.Dense a.2 = true)) →
          (∃ x : UValue × UValue, (key.HasValue x.1 = true ∧ value.HasValue x.2 = true) ∧
            ∃ keyPtr valuePtr, UPropType.Get key x.1 = some keyPtr ∧
              UPropType.Get value x.2 = some valuePtr ∧
              q = sfProperty.list [keyPtr, valuePtr]) →
          ∃ a', SetMap.write (UPropType.Set key) (UPropType.Set value) a q = some a' ∧
            ∃ keyPtr valuePtr, UPropType.Get key a'.1 = some keyPtr ∧
              UPropType.Get value a'.2 = some valuePtr ∧
              q = sfProperty.list [keyPtr, valuePtr] := by
        intro a q hgood hok
        obtain ⟨x, hx, kp, vp, hk, hv, rfl⟩ := hok
        obtain ⟨c1, k', e1, e2, _⟩ := Set_Get key a.1 x.1 kp hs.1 hgood.1.1 hgood.2.1 hx.1 hk
        obtain ⟨c2, v', f1, f2, _⟩ := Set_Get value a.2 x.2 vp hs.2 hgood.1.2 hgood.2.2 hx.2 hv
        exact ⟨(k', v'), by simp [SetMap.write, e1, f1], kp, vp, e2, f2, rfl⟩
      obtain ⟨xs, hxs, hxlen, hxmem⟩ := start_slots
        (key.InitializeValue, value.InitializeValue) oslots L.length hall
      obtain ⟨ys, hys, hF'⟩ := overwriteSlots_Get
        (SetMap.write (UPropType.Set key) (UPropType.Set value))
        (fun (a : UValue × UValue) q => ∃ keyPtr valuePtr,
          UPropType.Get key a.1 = some keyPtr ∧ UPropType.Get value a.2 = some valuePtr ∧
          q = sfProperty.list [keyPtr, valuePtr]) _ _ hS L xs hxlen
        (fun a ha => by
          rcases hxmem a ha with rfl | h
          · exact ⟨⟨InitializeValue_HasValue key, InitializeValue_HasValue value⟩,
              InitializeValue_Dense key, InitializeValue_Dense value⟩
          · exact ⟨ho a h, hd a h⟩)
        (fun q hq => by
          obtain ⟨a, ha, hr⟩ := forall₂_mem_right hF q hq
          exact ⟨a, hw a ha, hr⟩)
      have h1 := SetMap_slots ⟨UPropType.Get key, UPropType.Set key⟩
        ⟨UPropType.Get value, UPropType.Set value⟩
        (key.InitializeValue, value.InitializeValue) oslots L
      rw [hxs] at h1
      obtain ⟨c, hc⟩ := map_snd_eq_some (h1.trans hys)
      refine ⟨c, .map (ys.map some), ?_, ?_, fun h => Bool.noConfusion h⟩
      · simp only [UPropType.Set, hhk, hhv, if_true, hc, Option.map_some']
      · simp only [UPropType.Get, hhk, hhv, if_true, GetMap]
        rw [GetMap_loop_of_forall₂ _ _ (ys.map some) [] L (by rw [dense_map_some]; exact hF')]
        rfl
  | .StructProperty fields, old, w, p, hs, ho, hd, hw, hg => by
      cases old <;> simp only [UPropType.HasValue] at ho <;> try exact Bool.noConfusion ho
      rename_i olds
      cases w <;> simp only [UPropType.HasValue] at hw <;> try exact Bool.noConfusion hw
      rename_i ws
      simp only [UPropType.Supported, Bool.and_eq_true, decide_eq_true_eq] at hs
      simp only [UPropType.Dense] at hd
      simp only [UPropType.Get, Option.map_eq_some'] at hg
      obtain ⟨d, hd', rfl⟩ := hg
      obtain ⟨_, hF⟩ := GetStruct_lookup fields ws [] d hw hs.2 hd'
      obtain ⟨c, vs', e1, e2⟩ := SetStruct_Get fields olds ws d false hs.1 ho hd hw hF
      refine ⟨c, .struct vs', ?_, ?_, fun h => Bool.noConfusion h⟩
      · simp only [UPropType.Set, e1, Option.map_some']
      · simp only [UPropType.Get, e2 [], hd', Option.map_some']
  | .Other, _, _, _, hs, _, _, _, _ => by simp [UPropType.Supported] at hs
/-- The loop of `SetStruct` on a dictionary that holds the converted values of
the fields of `ws`: it is defined and leaves fields with the same converted
values. -/
theorem SetStruct_Get : ∀ (fields : List (FName × UPropType))
    (olds ws : List (FName × UValue)) (dict : List (sfName × sfProperty)) (ch : Bool),
    UPropType.SupportedFields fields = true → UPropType.HasValues fields olds = true →
    UPropType.DenseFields fields olds = true → UPropType.HasValues fields ws = true →
    List.Forall₂ (fun (f : FName × UPropType) (w : FName × UValue) =>
      f.2.hasHandler = true → ∀ p, UPropType.Get f.2 w.2 = some p → dictGet dict f.1 = some p)
      fields ws →
    ∃ c vs', UPropType.SetStruct fields olds dict ch = some (c, vs') ∧
      ∀ acc, UPropType.GetStruct fields vs' acc = UPropType.GetStruct fields ws acc
  | [], olds, ws, dict, ch, _, _, _, _, _ =>
      ⟨ch, olds, by simp [UPropType.SetStruct], fun acc => by simp [UPropType.GetStruct]⟩
  | f :: rest, olds, ws, dict, ch, hs, ho, hd, hw, hF => by
      cases olds with
      | nil => simp [UPropType.HasValues] at ho
      | cons o orest =>
        cases ws with
        | nil => simp [UPropType.HasValues] at hw
        | cons w wrest =>
          simp only [UPropType.SupportedFields, Bool.and_eq_true, Bool.or_eq_true,
            Bool.not_eq_true'] at hs
          simp only [UPropType.HasValues, Bool.and_eq_true] at ho hw
          simp only [UPropType.DenseFields, Bool.and_eq_true] at hd
          cases hF with
          | cons hhead htail =>
            cases hh : f.2.hasHandler
            · obtain ⟨c, vs', e1, e2⟩ := SetStruct_Get rest orest wrest dict ch hs.2 ho.2 hd.2
                hw.2 htail
              refine ⟨c, o :: vs', ?_, ?_⟩
              · simp only [UPropType.SetStruct, hh, Bool.false_eq_true, if_false, e1,
                  Option.map_some']
              · intro acc
                simp only [UPropType.GetStruct, hh, Bool.false_eq_true, if_false, e2]
            · have hsup : f.2.Supported = true := by
                rcases hs.1 with h | h
                · exact h
                · rw [hh] at h
                  exact Bool.noConfusion h
              obtain ⟨p, hp⟩ := Get_some f.2 w.2 hsup hw.1
              have hget := hhead hh p hp
              obtain ⟨c1, v1, s1, s2, _⟩ := Set_Get f.2 o.2 w.2 p hsup ho.1 hd.1 hw.1 hp
              obtain ⟨c, vs', e1, e2⟩ := SetStruct_Get rest orest wrest dict (ch || c1) hs.2
                ho.2 hd.2 hw.2 htail
              refine ⟨c, (o.1, v1) :: vs', ?_, ?_⟩
              · simp only [UPropType.SetStruct, hh, if_true, hget, s1, e1, Option.map_some']
              · intro acc
                simp only [UPropType.GetStruct, hh, if_true, s2, hp, e2]
end

/-! ### C3: ApplyProperties -/

theorem ApplyProperties_step_skip (lists : SyncLists)
    (Identical : UPropType → UValue → UValue → Bool) (o : UObject)
    (dict : List (sfName × sfProperty)) (bl : Option (List FName)) (g : UField)
    (h : IsSyncable lists o g.prop = false ∨ blacklisted bl g.prop.name = true) :
    ApplyProperties.step lists Identical o dict bl g = some g := by
  unfold ApplyProperties.step
  cases hs : IsSyncable lists o g.prop
  · simp
  · rcases h with h | h
    · rw [hs] at h
      exact Bool.noConfusion h
    · simp [h]

theorem ApplyProperties_step_absent (lists : SyncLists)
    (Identical : UPropType → UValue → UValue → Bool) (o : UObject)
    (dict : List (sfName × sfProperty)) (bl : Option (List FName)) (g : UField)
    (hs : IsSyncable lists o g.prop = true) (hb : blacklisted bl g.prop.name = false)
    (hget : dictGet dict g.prop.name = none) :
    ApplyProperties.step lists Identical o dict bl g =
      some { g with value := SetToDefaultValue Identical o g } := by
  simp only [ApplyProperties.step, hs, hb, hget, if_true, Bool.false_eq_true, if_false]

theorem ApplyProperties_step_no_handler (lists : SyncLists)
    (Identical : UPropType → UValue → UValue → Bool) (o : UObject)
    (dict : List (sfName × sfProperty)) (bl : Option (List FName)) (g : UField)
    (hs : IsSyncable lists o g.prop = true) (hb : blacklisted bl g.prop.name = false)
    (p : sfProperty) (hget : dictGet dict g.prop.name = some p)
    (hh : g.prop.type.hasHandler = false) :
    ApplyProperties.step lists Identical o dict bl g = some g := by
  simp only [ApplyProperties.step, hs, hb, hget, if_true, Bool.false_eq_true, if_false,
    m_typeHandlers, hh, SetValue]

theorem ApplyProperties_step_present (lists : SyncLists)
    (Identical : UPropType → UValue → UValue → Bool) (o : UObject)
    (dict : List (sfName × sfProperty)) (bl : Option (List FName)) (g : UField)
    (hs : IsSyncable lists o g.prop = true) (hb : blacklisted bl g.prop.name = false)
    (p : sfProperty) (hget : dictGet dict g.prop.name = some p)
    (hsup : g.prop.type.Supported = true) (ho : g.prop.type.HasValue g.value = true)
    (hd : g.prop.type.Dense g.value = true) (w : UValue)
    (hw : g.prop.type.HasValue w = true) (hg : UPropType.Get g.prop.type w = some p) :
    ∃ g1, ApplyProperties.step lists Identical o dict bl g = some g1 ∧ g1.prop = g.prop ∧
      g1.defaultValue = g.defaultValue ∧ GetValue g1 = some p ∧
      (g.prop.type.isScalar = true → g1.value = w) := by
  obtain ⟨c, v', e1, e2, e3⟩ := Set_Get g.prop.type g.value w p hsup ho hd hw hg
  have hh := hasHandler_of_Supported g.prop.type hsup
  refine ⟨{ g with value := v' }, ?_, rfl, rfl, ?_, e3⟩
  · simp only [ApplyProperties.step, hs, hb, hget, if_true, Bool.false_eq_true, if_false,
      m_typeHandlers, hh, SetValue, e1]
  · simp only [GetValue, m_typeHandlers, hh, if_true, e2]

theorem ApplyProperties_loop_map (lists : SyncLists)
    (Identical : UPropType → UValue → UValue → Bool) (o : UObject)
    (dict : List (sfName × sfProperty)) (bl : Option (List FName)) (F : UField → UField)
    (R : UField → UField → Prop) :
    ∀ (fs : List UField),
      (∀ f ∈ fs, ∃ g1, ApplyProperties.step lists Identical o dict bl (F f) = some g1 ∧
        R f g1) →
      ∃ gs1, ApplyProperties.loop lists Identical o dict bl (fs.map F) = some gs1 ∧
        List.Forall₂ R fs gs1 := by
  intro fs
  induction fs with
  | nil => exact fun _ => ⟨[], rfl, List.Forall₂.nil⟩
  | cons f rest ih =>
    intro h
    obtain ⟨g1, hg1, hr⟩ := h f (List.mem_cons_self _ _)
    obtain ⟨gs1, hl, hF⟩ := ih (fun x hx => h x (List.mem_cons_of_mem _ hx))
    exact ⟨g1 :: gs1, by simp only [List.map_cons, ApplyProperties.loop, hg1, hl,
      Option.map_some'], List.Forall₂.cons hr hF⟩

theorem SetToDefaultValue_eq (Identical : UPropType → UValue → UValue → Bool) (o : UObject)
    (f : UField) :
    (f.prop.type.hasHandler = true → Identical f.prop.type f.value (o.defaultOf f) = false →
      SetToDefaultValue Identical o f = o.defaultOf f) ∧
    ((f.prop.type.hasHandler = false ∨ Identical f.prop.type f.value (o.defaultOf f) = true) →
      SetToDefaultValue Identical o f = f.value) := by
  unfold SetToDefaultValue
  constructor
  · intro h1 h2
    simp [h1, h2]
  · intro h
    rcases h with h | h
    · simp [h]
    · simp [h]

/-- C3 (as stated, refuted): a `double` field whose entry is a byte array of
four bytes. `SetDouble` logs an error and leaves the field as it is, so after
`ApplyProperties` the field does not hold the value of its entry. -/
theorem C3_apply_counterexample :
    ¬ (∀ (lists : SyncLists) (o o1 : UObject) (dict : List (sfName × sfProperty))
        (bl : Option (List FName)),
        ApplyProperties lists Identical_InContainer o (some dict) bl = some o1 →
        List.Forall₂ (fun f f1 =>
          IsSyncable lists o f.prop = true → blacklisted bl f.prop.name = false →
          f.prop.type.Supported = true →
          ∀ p, dictGet dict f.prop.name = some p → GetValue f1 = some p)
          o.fields o1.fields) := by
  intro h
  have h1 := h ⟨[], []⟩
    ⟨100, false, [⟨⟨1, CPF_Edit, some 100, UPropType.DoubleProperty⟩,
      UValue.double [0, 0, 0, 0, 0, 0, 0, 0], UValue.double [0, 0, 0, 0, 0, 0, 0, 0]⟩]⟩
    ⟨100, false, [⟨⟨1, CPF_Edit, some 100, UPropType.DoubleProperty⟩,
      UValue.double [0, 0, 0, 0, 0, 0, 0, 0], UValue.double [0, 0, 0, 0, 0, 0, 0, 0]⟩]⟩
    [(1, sfProperty.value (ksMultiType.BYTE_ARRAY [1, 2, 3, 4]))] none rfl
  cases h1 with
  | cons hhead _ =>
    have h2 := hhead (by decide) rfl rfl _ rfl
    have h3 : GetValue ⟨⟨1, CPF_Edit, some 100, UPropType.DoubleProperty⟩,
        UValue.double [0, 0, 0, 0, 0, 0, 0, 0], UValue.double [0, 0, 0, 0, 0, 0, 0, 0]⟩ =
      some (sfProperty.value (ksMultiType.BYTE_ARRAY [0, 0, 0, 0, 0, 0, 0, 0])) := rfl
    rw [h3] at h2
    simp at h2

/-- C3 (amended): `ApplyProperties(entity, dict)` is defined and leaves each
field as follows, when every entry of a syncable, non-blacklisted field whose
class has a handler is the converted value of well-typed data of the field's
class, the class is supported, and the field's old data is well typed without
invalid set or map slot. A syncable, non-blacklisted field with an entry: its
converted value is afterwards the entry (with a handler), or it is unchanged
(without handler). A syncable, non-blacklisted field without entry: it holds
the value of the default object when its class has a handler and the old
value was not `Identical` to that default, and is unchanged otherwise (it is
then `Identical` to the default, or has no handler). Non-syncable and
blacklisted fields are unchanged. -/
theorem C3_apply (lists : SyncLists) (Identical : UPropType → UValue → UValue → Bool)
    (o : UObject) (dict : List (sfName × sfProperty)) (bl : Option (List FName))
    (hvalid : ∀ f ∈ o.fields, IsSyncable lists o f.prop = true →
      blacklisted bl f.prop.name = false → f.prop.type.hasHandler = true →
      ∀ p, dictGet dict f.prop.name = some p →
        f.prop.type.Supported = true ∧ f.prop.type.HasValue f.value = true ∧
          f.prop.type.Dense f.value = true ∧
          ∃ w, f.prop.type.HasValue w = true ∧ UPropType.Get f.prop.type w = some p) :
    ∃ o1, ApplyProperties lists Identical o (some dict) bl = some o1 ∧
      o1.className = o.className ∧ o1.isClassDefaultObject = o.isClassDefaultObject ∧
      List.Forall₂ (fun f f1 => f1.prop = f.prop ∧ f1.defaultValue = f.defaultValue ∧
        (IsSyncable lists o f.prop = true → blacklisted bl f.prop.name = false →
          (∀ p, dictGet dict f.prop.name = some p →
            (f.prop.type.hasHandler = true → GetValue f1 = some p) ∧
            (f.prop.type.hasHandler = false → f1.value = f.value)) ∧
          (dictGet dict f.prop.name = none →
            (f.prop.type.hasHandler = true →
              Identical f.prop.type f.value (o.defaultOf f) = false →
              f1.value = o.defaultOf f) ∧
            ((f.prop.type.hasHandler = false ∨
                Identical f.prop.type f.value (o.defaultOf f) = true) →
              f1.value = f.value))) ∧
        ((IsSyncable lists o f.prop = false ∨ blacklisted bl f.prop.name = true) →
          f1.value = f.value)) o.fields o1.fields := by
  obtain ⟨gs1, hl, hF⟩ := ApplyProperties_loop_map lists Identical o dict bl id _ o.fields
    (fun f hf => by
      show ∃ g1, ApplyProperties.step lists Identical o dict bl f = some g1 ∧
        (g1.prop = f.prop ∧ g1.defaultValue = f.defaultValue ∧
        (IsSyncable lists o f.prop = true → blacklisted bl f.prop.name = false →
          (∀ p, dictGet dict f.prop.name = some p →
            (f.prop.type.hasHandler = true → GetValue g1 = some p) ∧
            (f.prop.type.hasHandler = false → g1.value = f.value)) ∧
          (dictGet dict f.prop.name = none →
            (f.prop.type.hasHandler = true →
              Identical f.prop.type f.value (o.defaultOf f) = false →
              g1.value = o.defaultOf f) ∧
            ((f.prop.type.hasHandler = false ∨
                Identical f.prop.type f.value (o.defaultOf f) = true) →
              g1.value = f.value))) ∧
        ((IsSyncable lists o f.prop = false ∨ blacklisted bl f.prop.name = true) →
          g1.value = f.value))
      cases hs : IsSyncable lists o f.prop
      · refine ⟨f, ApplyProperties_step_skip lists Identical o dict bl f (Or.inl hs), rfl, rfl,
          fun h => Bool.noConfusion h, fun _ => rfl⟩
      · cases hb : blacklisted bl f.prop.name
        · cases hget : dictGet dict f.prop.name with
          | none =>
            refine ⟨_, ApplyProperties_step_absent lists Identical o dict bl f hs hb hget,
              rfl, rfl, fun _ _ => ⟨fun p hp => Option.noConfusion hp,
                fun _ => SetToDefaultValue_eq Identical o f⟩, ?_⟩
            intro h
            rcases h with h | h <;> exact Bool.noConfusion h
          | some p =>
            cases hh : f.prop.type.hasHandler
            · refine ⟨f, ApplyProperties_step_no_handler lists Identical o dict bl f hs hb p
                hget hh, rfl, rfl, fun _ _ => ⟨fun q _ => ⟨fun h => Bool.noConfusion h,
                  fun _ => rfl⟩, fun h => Option.noConfusion h⟩, fun _ => rfl⟩
            · obtain ⟨hsup, ho, hd, w, hw, hg⟩ := hvalid f hf hs hb hh p hget
              obtain ⟨g1, e1, e2, e3, e4, _⟩ := ApplyProperties_step_present lists Identical o
                dict bl f hs hb p hget hsup ho hd w hw hg
              refine ⟨g1, e1, e2, e3, fun _ _ => ⟨fun q hq => ⟨fun _ => ?_,
                fun h => Bool.noConfusion h⟩, fun h => Option.noConfusion h⟩, ?_⟩
              · simp only [Option.some.injEq] at hq
                rw [← hq]
                exact e4
              · intro h
                rcases h with h | h <;> exact Bool.noConfusion h
        · refine ⟨f, ApplyProperties_step_skip lists Identical o dict bl f (Or.inr hb), rfl,
            rfl, fun _ h => Bool.noConfusion h, fun _ => rfl⟩)
  simp only [List.map_id] at hl
  exact ⟨{ o with fields := gs1 }, by simp only [ApplyProperties, hl, Option.map_some'],
    rfl, rfl, hF⟩

/-- C3 witness: a set of booleans with an entry, a float without entry that is
reset to its default, and a property that is not syncable. The entry of the
set is the converted value of a native set with an invalid slot. -/
theorem C3_apply_witness :
    ∃ o1, ApplyProperties (⟨[], []⟩ : SyncLists) Identical_InContainer
        ⟨100, false,
      [⟨⟨2, CPF_Edit, some 100, UPropType.SetProperty UPropType.BoolProperty⟩,
          UValue.set [some (UValue.bool true)], UValue.set []⟩,
        ⟨⟨3, CPF_Edit, some 100, UPropType.FloatProperty⟩, UValue.float 0, UValue.float 7⟩,
        ⟨⟨4, 0, some 100, UPropType.BoolProperty⟩, UValue.bool false, UValue.bool true⟩]⟩
        (some [(2, sfProperty.list [sfProperty.value (ksMultiType.BOOL false),
      sfProperty.value (ksMultiType.BOOL true)])]) none = some o1 ∧
      o1.className = 100 ∧ o1.isClassDefaultObject = false ∧
      List.Forall₂ (fun f f1 => f1.prop = f.prop ∧ f1.defaultValue = f.defaultValue ∧
        (IsSyncable (⟨[], []⟩ : SyncLists) (⟨100, false,
      [⟨⟨2, CPF_Edit, some 100, UPropType.SetProperty UPropType.BoolProperty⟩,
          UValue.set [some (UValue.bool true)], UValue.set []⟩,
        ⟨⟨3, CPF_Edit, some 100, UPropType.FloatProperty⟩, UValue.float 0, UValue.float 7⟩,
        ⟨⟨4, 0, some 100, UPropType.BoolProperty⟩, UValue.bool false, UValue.bool true⟩]⟩ : UObject) f.prop = true → blacklisted none f.prop.name = false →
          (∀ p, dictGet [(2, sfProperty.list [sfProperty.value (ksMultiType.BOOL false),
      sfProperty.value (ksMultiType.BOOL true)])] f.prop.name = some p →
            (f.prop.type.hasHandler = true → GetValue f1 = some p) ∧
            (f.prop.type.hasHandler = false → f1.value = f.value)) ∧
          (dictGet [(2, sfProperty.list [sfProperty.value (ksMultiType.BOOL false),
      sfProperty.value (ksMultiType.BOOL true)])] f.prop.name = none →
            (f.prop.type.hasHandler = true →
              Identical_InContainer f.prop.type f.value f.defaultValue = false →
              f1.value = f.defaultValue) ∧
            ((f.prop.type.hasHandler = false ∨
                Identical_InContainer f.prop.type f.value f.defaultValue = true) →
              f1.value = f.value))) ∧
        ((IsSyncable (⟨[], []⟩ : SyncLists) (⟨100, false,
      [⟨⟨2, CPF_Edit, some 100, UPropType.SetProperty UPropType.BoolProperty⟩,
          UValue.set [some (UValue.bool true)], UValue.set []⟩,
        ⟨⟨3, CPF_Edit, some 100, UPropType.FloatProperty⟩, UValue.float 0, UValue.float 7⟩,
        ⟨⟨4, 0, some 100, UPropType.BoolProperty⟩, UValue.bool false, UValue.bool true⟩]⟩ : UObject) f.prop = false ∨ blacklisted none f.prop.name = true) →
          f1.value = f.value))
        (⟨100, false,
      [⟨⟨2, CPF_Edit, some 100, UPropType.SetProperty UPropType.BoolProperty⟩,
          UValue.set [some (UValue.bool true)], UValue.set []⟩,
        ⟨⟨3, CPF_Edit, some 100, UPropType.FloatProperty⟩, UValue.float 0, UValue.float 7⟩,
        ⟨⟨4, 0, some 100, UPropType.BoolProperty⟩, UValue.bool false, UValue.bool true⟩]⟩ : UObject).fields o1.fields :=
  C3_apply ⟨[], []⟩ Identical_InContainer
    ⟨100, false,
      [⟨⟨2, CPF_Edit, some 100, UPropType.SetProperty UPropType.BoolProperty⟩,
          UValue.set [some (UValue.bool true)], UValue.set []⟩,
        ⟨⟨3, CPF_Edit, some 100, UPropType.FloatProperty⟩, UValue.float 0, UValue.float 7⟩,
        ⟨⟨4, 0, some 100, UPropType.BoolProperty⟩, UValue.bool false, UValue.bool true⟩]⟩
    [(2, sfProperty.list [sfProperty.value (ksMultiType.BOOL false),
      sfProperty.value (ksMultiType.BOOL true)])] none
    (by
      intro f hf hs hb hh p hp
      simp only [List.mem_cons, List.mem_singleton, List.not_mem_nil, or_false] at hf
      rcases hf with rfl | rfl | rfl
      · have hp1 : some (sfProperty.list [sfProperty.value (ksMultiType.BOOL false),
            sfProperty.value (ksMultiType.BOOL true)]) = some p := hp
        simp only [Option.some.injEq] at hp1
        subst hp1
        exact ⟨rfl, rfl, rfl,
          UValue.set [some (UValue.bool false), none, some (UValue.bool true)], rfl, rfl⟩
      · exact Option.noConfusion hp
      · exact Bool.noConfusion hs)

/-! ### C4: CreateProperties, then ApplyProperties on a fresh entity -/

theorem IsSyncable_congr (lists : SyncLists) (o o1 : UObject)
    (h : o1.className = o.className) (p : UProperty) :
    IsSyncable lists o1 p = IsSyncable lists o p := by
  simp only [IsSyncable, h]

theorem SetToDefaultValue_fresh (Identical : UPropType → UValue → UValue → Bool)
    (fresh : UObject) (hcdo : fresh.isClassDefaultObject = false) (g : UField)
    (h : g.value = g.defaultValue) : SetToDefaultValue Identical fresh g = g.defaultValue := by
  unfold SetToDefaultValue UObject.defaultOf
  rw [hcdo, h]
  cases g.prop.type.hasHandler
  · simp
  · cases Identical g.prop.type g.defaultValue g.defaultValue <;> simp

theorem GetValue_of_Supported (f : UField) (h : f.prop.type.Supported = true) :
    GetValue f = UPropType.Get f.prop.type f.value := by
  simp only [GetValue, m_typeHandlers, hasHandler_of_Supported _ h, if_true]

/-- C4 (as stated, refuted): a `double` field that holds -0.0 where the default
object holds +0.0. The engine compares doubles with `==`, so the field counts
as default, `CreateProperties` writes no entry for it, and the fresh entity
keeps +0.0: the two fields differ in the sign bit. -/
theorem C4_roundtrip_counterexample :
    ¬ (∀ (lists : SyncLists) (o fresh o1 : UObject) (d : List (sfName × sfProperty)),
        (o.fields.map (fun f => f.prop.name)).Nodup →
        fresh.className = o.className → fresh.isClassDefaultObject = false →
        fresh.fields = o.fields.map (fun f => { f with value := o.defaultOf f }) →
        (∀ f ∈ o.fields, f.prop.type.Supported = true ∧ f.prop.type.HasValue f.value = true ∧
          f.prop.type.HasValue (o.defaultOf f) = true ∧
          f.prop.type.Dense (o.defaultOf f) = true) →
        CreateProperties lists Identical_InContainer (some o) (some []) none = some d →
        ApplyProperties lists Identical_InContainer fresh (some d) none = some o1 →
        o1.fields.map (fun f => f.value) = o.fields.map (fun f => f.value)) := by
  intro h
  have h1 := h ⟨[], []⟩
    ⟨100, false, [⟨⟨1, CPF_Edit, some 100, UPropType.DoubleProperty⟩,
      UValue.double [0, 0, 0, 0, 0, 0, 0, 128], UValue.double [0, 0, 0, 0, 0, 0, 0, 0]⟩]⟩
    ⟨100, false, [⟨⟨1, CPF_Edit, some 100, UPropType.DoubleProperty⟩,
      UValue.double [0, 0, 0, 0, 0, 0, 0, 0], UValue.double [0, 0, 0, 0, 0, 0, 0, 0]⟩]⟩
    ⟨100, false, [⟨⟨1, CPF_Edit, some 100, UPropType.DoubleProperty⟩,
      UValue.double [0, 0, 0, 0, 0, 0, 0, 0], UValue.double [0, 0, 0, 0, 0, 0, 0, 0]⟩]⟩
    [] (by decide) rfl rfl rfl
    (by
      intro f hf
      simp only [List.mem_singleton] at hf
      subst hf
      exact ⟨rfl, rfl, rfl, rfl⟩)
    rfl rfl
  simp at h1

/-- C4 (amended): for an entity whose syncable fields have supported classes
and well-typed data, and a fresh entity of the same class that holds the
values of the default object (well typed, without invalid set or map slot),
`CreateProperties` into an empty dictionary and then `ApplyProperties` of that
dictionary on the fresh entity are defined, and afterwards, for each syncable
field: when `IsDefaultValue` is false for the original field, the fresh field
has the same converted value as the original and, for a number, boolean or
enumeration (so for `float` and `double`, bit for bit), the same value; when
`IsDefaultValue` is true (the engine finds the original `Identical` to the
default) the fresh field keeps the value of the default object. Fields that
are not syncable keep the value of the default object. Field names are
distinct. -/
theorem C4_roundtrip (lists : SyncLists) (Identical : UPropType → UValue → UValue → Bool)
    (o fresh : UObject)
    (hnodup : (o.fields.map (fun f => f.prop.name)).Nodup)
    (hclass : fresh.className = o.className)
    (hcdo : fresh.isClassDefaultObject = false)
    (hfresh : fresh.fields = o.fields.map
      (fun f => { f with value := o.defaultOf f, defaultValue := o.defaultOf f }))
    (htyped : ∀ f ∈ o.fields, IsSyncable lists o f.prop = true →
      f.prop.type.Supported = true ∧ f.prop.type.HasValue f.value = true ∧
      f.prop.type.HasValue (o.defaultOf f) = true ∧
      f.prop.type.Dense (o.defaultOf f) = true) :
    ∃ d o1, CreateProperties lists Identical (some o) (some []) none = some d ∧
      ApplyProperties lists Identical fresh (some d) none = some o1 ∧
      List.Forall₂ (fun f f1 => f1.prop = f.prop ∧
        (IsSyncable lists o f.prop = true → IsDefaultValue Identical o f = false →
          GetValue f1 = GetValue f ∧ (GetValue f).isSome = true ∧
          (f.prop.type.isScalar = true → f1.value = f.value)) ∧
        ((IsSyncable lists o f.prop = false ∨ IsDefaultValue Identical o f = true) →
          f1.value = o.defaultOf f)) o.fields o1.fields := by
  refine ⟨CreateProperties.loop lists Identical o none o.fields [], ?_⟩
  obtain ⟨gs1, hl, hF⟩ := ApplyProperties_loop_map lists Identical fresh
    (CreateProperties.loop lists Identical o none o.fields []) none
    (fun f => { f with value := o.defaultOf f, defaultValue := o.defaultOf f })
    (fun f f1 => f1.prop = f.prop ∧
        (IsSyncable lists o f.prop = true → IsDefaultValue Identical o f = false →
          GetValue f1 = GetValue f ∧ (GetValue f).isSome = true ∧
          (f.prop.type.isScalar = true → f1.value = f.value)) ∧
        ((IsSyncable lists o f.prop = false ∨ IsDefaultValue Identical o f = true) →
          f1.value = o.defaultOf f)) o.fields
    (fun f hf => by
      beta_reduce
      have hsync := IsSyncable_congr lists o fresh hclass f.prop
      cases hs : IsSyncable lists o f.prop
      · refine ⟨_, ApplyProperties_step_skip lists Identical fresh _ none _
          (Or.inl (by rw [← hs]; exact hsync)), rfl, fun h => Bool.noConfusion h, fun _ => rfl⟩
      · obtain ⟨hsup, hv, hdv, hdd⟩ := htyped f hf hs
        have hs' : IsSyncable lists fresh f.prop = true := by rw [hsync, hs]
        cases hdef : IsDefaultValue Identical o f
        · obtain ⟨p, hp⟩ := Get_some f.prop.type f.value hsup hv
          have hgv : GetValue f = some p := by rw [GetValue_of_Supported f hsup, hp]
          have hget := CreateProperties_loop_written lists Identical o none o.fields []
            hnodup f hf hs hdef rfl p hgv
          obtain ⟨g1, e1, e2, _, e4, e5⟩ := ApplyProperties_step_present lists Identical fresh
            (CreateProperties.loop lists Identical o none o.fields []) none
            { f with value := o.defaultOf f, defaultValue := o.defaultOf f }
            hs' rfl p hget hsup hdv hdd f.value hv hp
          refine ⟨g1, e1, e2, fun _ _ => ⟨by rw [e4, hgv], by rw [hgv]; rfl, e5⟩, ?_⟩
          intro h
          rcases h with h | h <;> exact Bool.noConfusion h
        · have hget : dictGet (CreateProperties.loop lists Identical o none o.fields [])
              f.prop.name = none := by
            rw [CreateProperties_loop_untouched lists Identical o none o.fields [] f.prop.name]
            · rfl
            · intro g hg hname hcon
              have hgf : g = f := List.inj_on_of_nodup_map hnodup hg hf hname
              rw [hgf, hdef] at hcon
              exact Bool.noConfusion hcon.2.1
          refine ⟨_, ApplyProperties_step_absent lists Identical fresh _ none
            { f with value := o.defaultOf f, defaultValue := o.defaultOf f } hs' rfl hget,
            rfl, fun _ h => Bool.noConfusion h, fun _ => ?_⟩
          exact SetToDefaultValue_fresh Identical fresh hcdo
            { f with value := o.defaultOf f, defaultValue := o.defaultOf f } rfl)
  refine ⟨{ fresh with fields := gs1 }, rfl, ?_, hF⟩
  simp only [ApplyProperties, hfresh, hl, Option.map_some']

/-- C4 witness: an entity with a changed integer, a `double` that holds -0.0
where the default is +0.0 (it counts as default and is not sent), a changed
array of doubles and a property that is not syncable. -/
theorem C4_roundtrip_witness :
    ∃ d o1, CreateProperties (⟨[], []⟩ : SyncLists) Identical_InContainer
        (some ⟨100, false,
      [⟨⟨1, CPF_Edit, some 100, UPropType.IntProperty IntKind.Int16⟩, UValue.int 9,
          UValue.int 5⟩,
        ⟨⟨2, CPF_Edit, some 100, UPropType.DoubleProperty⟩,
          UValue.double [0, 0, 0, 0, 0, 0, 0, 128], UValue.double [0, 0, 0, 0, 0, 0, 0, 0]⟩,
        ⟨⟨3, CPF_Edit, some 100, UPropType.ArrayProperty UPropType.DoubleProperty⟩,
          UValue.array [UValue.double [1, 2, 3, 4, 5, 6, 7, 8]], UValue.array []⟩,
        ⟨⟨4, 0, some 100, UPropType.BoolProperty⟩, UValue.bool false, UValue.bool true⟩]⟩)
        (some []) none = some d ∧
      ApplyProperties (⟨[], []⟩ : SyncLists) Identical_InContainer
        ⟨100, false,
      [⟨⟨1, CPF_Edit, some 100, UPropType.IntProperty IntKind.Int16⟩, UValue.int 5,
          UValue.int 5⟩,
        ⟨⟨2, CPF_Edit, some 100, UPropType.DoubleProperty⟩,
          UValue.double [0, 0, 0, 0, 0, 0, 0, 0], UValue.double [0, 0, 0, 0, 0, 0, 0, 0]⟩,
        ⟨⟨3, CPF_Edit, some 100, UPropType.ArrayProperty UPropType.DoubleProperty⟩,
          UValue.array [], UValue.array []⟩,
        ⟨⟨4, 0, some 100, UPropType.BoolProperty⟩, UValue.bool true, UValue.bool true⟩]⟩
        (some d) none = some o1 ∧
      List.Forall₂ (fun f f1 => f1.prop = f.prop ∧
        (IsSyncable (⟨[], []⟩ : SyncLists) (⟨100, false,
      [⟨⟨1, CPF_Edit, some 100, UPropType.IntProperty IntKind.Int16⟩, UValue.int 9,
          UValue.int 5⟩,
        ⟨⟨2, CPF_Edit, some 100, UPropType.DoubleProperty⟩,
          UValue.double [0, 0, 0, 0, 0, 0, 0, 128], UValue.double [0, 0, 0, 0, 0, 0, 0, 0]⟩,
        ⟨⟨3, CPF_Edit, some 100, UPropType.ArrayProperty UPropType.DoubleProperty⟩,
          UValue.array [UValue.double [1, 2, 3, 4, 5, 6, 7, 8]], UValue.array []⟩,
        ⟨⟨4, 0, some 100, UPropType.BoolProperty⟩, UValue.bool false, UValue.bool true⟩]⟩ : UObject) f.prop = true →
          IsDefaultValue Identical_InContainer (⟨100, false,
      [⟨⟨1, CPF_Edit, some 100, UPropType.IntProperty IntKind.Int16⟩, UValue.int 9,
          UValue.int 5⟩,
        ⟨⟨2, CPF_Edit, some 100, UPropType.DoubleProperty⟩,
          UValue.double [0, 0, 0, 0, 0, 0, 0, 128], UValue.double [0, 0, 0, 0, 0, 0, 0, 0]⟩,
        ⟨⟨3, CPF_Edit, some 100, UPropType.ArrayProperty UPropType.DoubleProperty⟩,
          UValue.array [UValue.double [1, 2, 3, 4, 5, 6, 7, 8]], UValue.array []⟩,
        ⟨⟨4, 0, some 100, UPropType.BoolProperty⟩, UValue.bool false, UValue.bool true⟩]⟩ : UObject) f = false →
          GetValue f1 = GetValue f ∧ (GetValue f).isSome = true ∧
          (f.prop.type.isScalar = true → f1.value = f.value)) ∧
        ((IsSyncable (⟨[], []⟩ : SyncLists) (⟨100, false,
      [⟨⟨1, CPF_Edit, some 100, UPropType.IntProperty IntKind.Int16⟩, UValue.int 9,
          UValue.int 5⟩,
        ⟨⟨2, CPF_Edit, some 100, UPropType.DoubleProperty⟩,
          UValue.double [0, 0, 0, 0, 0, 0, 0, 128], UValue.double [0, 0, 0, 0, 0, 0, 0, 0]⟩,
        ⟨⟨3, CPF_Edit, some 100, UPropType.ArrayProperty UPropType.DoubleProperty⟩,
          UValue.array [UValue.double [1, 2, 3, 4, 5, 6, 7, 8]], UValue.array []⟩,
        ⟨⟨4, 0, some 100, UPropType.BoolProperty⟩, UValue.bool false, UValue.bool true⟩]⟩ : UObject) f.prop = false ∨
            IsDefaultValue Identical_InContainer (⟨100, false,
      [⟨⟨1, CPF_Edit, some 100, UPropType.IntProperty IntKind.Int16⟩, UValue.int 9,
          UValue.int 5⟩,
        ⟨⟨2, CPF_Edit, some 100, UPropType.DoubleProperty⟩,
          UValue.double [0, 0, 0, 0, 0, 0, 0, 128], UValue.double [0, 0, 0, 0, 0, 0, 0, 0]⟩,
        ⟨⟨3, CPF_Edit, some 100, UPropType.ArrayProperty UPropType.DoubleProperty⟩,
          UValue.array [UValue.double [1, 2, 3, 4, 5, 6, 7, 8]], UValue.array []⟩,
        ⟨⟨4, 0, some 100, UPropType.BoolProperty⟩, UValue.bool false, UValue.bool true⟩]⟩ : UObject) f = true) →
          f1.value = f.defaultValue))
        (⟨100, false,
      [⟨⟨1, CPF_Edit, some 100, UPropType.IntProperty IntKind.Int16⟩, UValue.int 9,
          UValue.int 5⟩,
        ⟨⟨2, CPF_Edit, some 100, UPropType.DoubleProperty⟩,
          UValue.double [0, 0, 0, 0, 0, 0, 0, 128], UValue.double [0, 0, 0, 0, 0, 0, 0, 0]⟩,
        ⟨⟨3, CPF_Edit, some 100, UPropType.ArrayProperty UPropType.DoubleProperty⟩,
          UValue.array [UValue.double [1, 2, 3, 4, 5, 6, 7, 8]], UValue.array []⟩,
        ⟨⟨4, 0, some 100, UPropType.BoolProperty⟩, UValue.bool false, UValue.bool true⟩]⟩ : UObject).fields o1.fields :=
  C4_roundtrip ⟨[], []⟩ Identical_InContainer
    ⟨100, false,
      [⟨⟨1, CPF_Edit, some 100, UPropType.IntProperty IntKind.Int16⟩, UValue.int 9,
          UValue.int 5⟩,
        ⟨⟨2, CPF_Edit, some 100, UPropType.DoubleProperty⟩,
          UValue.double [0, 0, 0, 0, 0, 0, 0, 128], UValue.double [0, 0, 0, 0, 0, 0, 0, 0]⟩,
        ⟨⟨3, CPF_Edit, some 100, UPropType.ArrayProperty UPropType.DoubleProperty⟩,
          UValue.array [UValue.double [1, 2, 3, 4, 5, 6, 7, 8]], UValue.array []⟩,
        ⟨⟨4, 0, some 100, UPropType.BoolProperty⟩, UValue.bool false, UValue.bool true⟩]⟩
    ⟨100, false,
      [⟨⟨1, CPF_Edit, some 100, UPropType.IntProperty IntKind.Int16⟩, UValue.int 5,
          UValue.int 5⟩,
        ⟨⟨2, CPF_Edit, some 100, UPropType.DoubleProperty⟩,
          UValue.double [0, 0, 0, 0, 0, 0, 0, 0], UValue.double [0, 0, 0, 0, 0, 0, 0, 0]⟩,
        ⟨⟨3, CPF_Edit, some 100, UPropType.ArrayProperty UPropType.DoubleProperty⟩,
          UValue.array [], UValue.array []⟩,
        ⟨⟨4, 0, some 100, UPropType.BoolProperty⟩, UValue.bool true, UValue.bool true⟩]⟩
    (by decide) rfl rfl rfl
    (by
      intro f hf hs
      simp only [List.mem_cons, List.mem_singleton, List.not_mem_nil, or_false] at hf
      rcases hf with rfl | rfl | rfl | rfl
      · exact ⟨rfl, rfl, rfl, rfl⟩
      · exact ⟨rfl, rfl, rfl, rfl⟩
      · exact ⟨rfl, rfl, rfl, rfl⟩
      · exact Bool.noConfusion hs)

/-! ### Actor and component handlers: objects without parent -/

/-- On an object without parent and without `#name` entry
`LogNoParentErrorAndDisconnect` is undefined: the C++ dereferences the null
entry before it reaches `LeaveSession`. -/
theorem OnCreate_no_name :
    sfActorManager.OnCreate (sampleEngine none) emptyState
      (sfObject.mk 11 sfType.Actor true false (sfProperty.dictionary []) [] []) 0 = none := by
  rfl

/-- C18 as stated fails: the component manager does not leave the session. On
a component object without ancestors, in the state before anything is synced,
`sfComponentManager::OnCreate` only logs a warning. -/
theorem C18_disconnect_counterexample :
    ¬ (∀ (E : Engine) (s : State) (objPtr : sfObject) (childIndex : Int)
        (propertiesPtr : List (sfName × sfProperty)) (name : sfProperty),
        objPtr.Property.AsDict = some propertiesPtr →
        dictGet propertiesPtr sfProp.Name = some name →
        (objPtr.Parent = none →
          ∃ s1, sfActorManager.OnCreate E s objPtr childIndex = some s1 ∧
            Effect.LeaveSession ∈ s1.effects) ∧
        (objPtr.Parent = none → (GetActor E s.objectMap (some objPtr.addr)).isSome = true →
          ∃ s1, sfActorManager.OnParentChange E s objPtr childIndex = some s1 ∧
            Effect.LeaveSession ∈ s1.effects) ∧
        (sfComponentManager.actorAncestor objPtr.Ancestors = none →
          Effect.LeaveSession ∈ (sfComponentManager.OnCreate E s objPtr childIndex).effects) ∧
        (objPtr.Parent = none →
          Effect.LeaveSession ∈
            (sfComponentManager.OnParentChange E s objPtr childIndex).effects)) := by
  intro h
  have h1 := (h (sampleEngine none) emptyState
    (sfObject.mk 12 sfType.Component true false
      (sfProperty.dictionary [(sfProp.Name, sfProperty.value (ksMultiType.UINT 3))]) [] []) 0
    [(sfProp.Name, sfProperty.value (ksMultiType.UINT 3))]
    (sfProperty.value (ksMultiType.UINT 3)) rfl rfl).2.2.1 rfl
  revert h1
  decide

/-- C18 (amended): for an object without parent whose property is a dictionary
with a `#name` entry (what the error message reads), `sfActorManager::OnCreate`
leaves the session, and `sfActorManager::OnParentChange` leaves the session
when the object is mapped to an actor and does nothing when it is not. The
component manager never leaves the session here: `OnCreate` on an object
without actor ancestor and `OnParentChange` on an object without parent log a
warning and change nothing else. -/
theorem C18_disconnect (E : Engine) (s : State) (objPtr componentObjPtr : sfObject)
    (childIndex : Int) (propertiesPtr : List (sfName × sfProperty)) (name : sfProperty)
    (h : objPtr.Parent = none)
    (hdict : objPtr.Property.AsDict = some propertiesPtr)
    (hname : dictGet propertiesPtr sfProp.Name = some name)
    (hc : sfComponentManager.actorAncestor componentObjPtr.Ancestors = none) :
    (∃ message, sfActorManager.OnCreate E s objPtr childIndex =
        some { s with effects := s.effects ++ [Effect.Error message, Effect.LeaveSession] }) ∧
    (∃ message, sfActorManager.OnParentChange E s objPtr childIndex =
        some (if (GetActor E s.objectMap (some objPtr.addr)).isSome then
          { s with effects := s.effects ++ [Effect.Error message, Effect.LeaveSession] }
        else s)) ∧
    (∃ message, sfComponentManager.OnCreate E s componentObjPtr childIndex =
        { s with effects := s.effects ++ [Effect.Warning message] }) ∧
    (∃ message, sfComponentManager.OnParentChange E s objPtr childIndex =
        { s with effects := s.effects ++ [Effect.Warning message] }) := by
  refine ⟨⟨"Disconnecting because no parent object was found for actor", ?_⟩,
    ⟨"Disconnecting because no parent object was found for actor", ?_⟩,
    ⟨"Component object cannot be created without an actor ancestor.", ?_⟩,
    ⟨"Component became a root object. Components should always have a component or actor parent.",
      ?_⟩⟩
  · simp [sfActorManager.OnCreate, h, sfActorManager.LogNoParentErrorAndDisconnect, hdict,
      hname, State.log]
  · cases hg : GetActor E s.objectMap (some objPtr.addr) with
    | none => simp [sfActorManager.OnParentChange, hg]
    | some u =>
      simp [sfActorManager.OnParentChange, hg, h,
        sfActorManager.LogNoParentErrorAndDisconnect, hdict, hname, State.log]
  · simp only [sfComponentManager.OnCreate, hc, State.log]
  · simp only [sfComponentManager.OnParentChange, h, State.log]

theorem C18_disconnect_witness :
    sampleOrphanObject.Parent = none ∧
    sampleOrphanObject.Property.AsDict =
      some [(sfProp.Name, sfProperty.value (ksMultiType.UINT 3))] ∧
    dictGet [(sfProp.Name, sfProperty.value (ksMultiType.UINT 3))] sfProp.Name =
      some (sfProperty.value (ksMultiType.UINT 3)) ∧
    sfComponentManager.actorAncestor
      (sfObject.mk 12 sfType.Component true false (sfProperty.dictionary [])
        [⟨13, sfType.Component⟩] []).Ancestors = none ∧
    ((∃ message, sfActorManager.OnCreate (sampleEngine none) sampleMappedState
        sampleOrphanObject 0 =
        some { sampleMappedState with
          effects := sampleMappedState.effects ++ [Effect.Error message, Effect.LeaveSession] }) ∧
    (∃ message, sfActorManager.OnParentChange (sampleEngine none) sampleMappedState
        sampleOrphanObject 0 =
        some (if (GetActor (sampleEngine none) sampleMappedState.objectMap
          (some sampleOrphanObject.addr)).isSome then
          { sampleMappedState with
            effects := sampleMappedState.effects ++ [Effect.Error message, Effect.LeaveSession] }
        else sampleMappedState)) ∧
    (∃ message, sfComponentManager.OnCreate (sampleEngine none) sampleMappedState
        (sfObject.mk 12 sfType.Component true false (sfProperty.dictionary [])
          [⟨13, sfType.Component⟩] []) 0 =
        { sampleMappedState with
          effects := sampleMappedState.effects ++ [Effect.Warning message] }) ∧
    (∃ message, sfComponentManager.OnParentChange (sampleEngine none) sampleMappedState
        sampleOrphanObject 0 =
        { sampleMappedState with
          effects := sampleMappedState.effects ++ [Effect.Warning message] })) :=
  ⟨rfl, rfl, rfl, rfl, C18_disconnect (sampleEngine none) sampleMappedState sampleOrphanObject
    (sfObject.mk 12 sfType.Component true false (sfProperty.dictionary [])
      [⟨13, sfType.Component⟩] []) 0
    [(sfProp.Name, sfProperty.value (ksMultiType.UINT 3))]
    (sfProperty.value (ksMultiType.UINT 3)) rfl rfl rfl rfl⟩

/-! ### Stand-ins for actors of a missing class -/

theorem ToString_FromString (t : StringTable) (c : FString)
    (ht : t.GetStringFromTable (t.GetStringTableId c % 2 ^ 32) = c) :
    ToString (some t) (some (FromString (some t) c)) = some c := by
  simp only [FromString, ToString, ksMultiType.asInteger, wrapUnsigned]
  have h : (((t.GetStringTableId c % 2 ^ 32 : Nat) : Int) % 2 ^ 32).toNat =
      t.GetStringTableId c % 2 ^ 32 := by
    have h1 : ((t.GetStringTableId c % 2 ^ 32 : Nat) : Int) % 2 ^ 32 =
        ((t.GetStringTableId c % 2 ^ 32 % 2 ^ 32 : Nat) : Int) := by
      push_cast
      rfl
    rw [h1, Int.toNat_ofNat, Nat.mod_mod]
  rw [h, ht]

/-- C20 as stated fails: with a class name that cannot be resolved,
`InitializeActor` reuses a live actor of the stored name that is in the level
and not in the map, whatever its class, and creates no stand-in. -/
theorem C20_stand_in_counterexample :
    ¬ (∀ (E : Engine) (s : State) (objPtr : sfObject) (levelPtr : ULevelAddr)
        (fields : List (sfName × sfProperty)) (c : FString),
        objPtr.Property.AsDict = some fields →
        ToString E.Session (dictGet fields sfProp.Class) = some c →
        E.LoadClass c = none →
        ∃ s1 a, sfActorManager.InitializeActor E s objPtr levelPtr = some (s1, a) ∧
          a.isMissingActor = true ∧ AsfMissingActor.MissingClass a = c) := by
  intro h
  obtain ⟨s1, a, heq, hm, _⟩ := h (sampleEngine (some sampleActor)) emptyState
    sampleActorObject 1 _ "PluginActor" rfl rfl rfl
  have hev : sfActorManager.InitializeActor (sampleEngine (some sampleActor)) emptyState
      sampleActorObject 1 =
      some ({ emptyState with
        objectMap := ⟨[(21, 11)], [(11, 21)]⟩
        m_numSyncedActors := 1
        effects := [Effect.DetachFromActor 21] }, sampleActor) := rfl
  rw [hev] at heq
  injection heq with heq
  injection heq with _ ha
  rw [← ha] at hm
  revert hm
  decide

/-- C20 (amended): when the class name `c` stored on the actor object cannot
be resolved and `InitializeActor` finds no actor to reuse (none of the stored
name in the level, or one that is pending kill or in the map), it spawns an
actor of class `AsfMissingActor` whose `ClassName` is `c` and maps the object
to it. `CreateObject` on a stand-in that records `c`, in a level whose level
object is initialised, when the object of the stand-in is not syncing, its
property is a dictionary and no reflected property of the actor is named
`#class`, writes `FromString(c)` under `#class`, and `ToString` of that entry
is `c` again when the string table returns `c` for the id it gave to `c`. -/
theorem C20_stand_in (E : Engine) (lists : SyncLists)
    (Identical : UPropType → UValue → UValue → Bool) (deref : sfObjectAddr → sfObject)
    (created : sfObjectAddr) (s s2 : State) (objPtr : sfObject) (levelPtr : ULevelAddr)
    (fields : List (sfName × sfProperty)) (c name : FString) (t : StringTable)
    (standIn : AActor)
    (hsession : E.Session = some t)
    (htable : t.GetStringFromTable (t.GetStringTableId c % 2 ^ 32) = c)
    (hdict : objPtr.Property.AsDict = some fields)
    (hc : ToString E.Session (dictGet fields sfProp.Class) = some c)
    (hn : ToString E.Session (dictGet fields sfProp.Name) = some name)
    (hload : E.LoadClass c = none)
    (hfound : sfActorManager.reusedActor s none (E.FindActorWithNameInLevel levelPtr name) = none)
    (hstand : standIn.isMissingActor = true)
    (hrecord : AsfMissingActor.MissingClass standIn = c)
    (hlevel : sfLevelManager.IsLevelObjectInitialized E standIn.Level = true)
    (hsync : (sfActorManager.actorObject deref created s2.objectMap standIn.addr).IsSyncing =
      false)
    (hprop : ∃ d, (sfActorManager.actorObject deref created s2.objectMap
      standIn.addr).Property.AsDict = some d)
    (hnames : ∀ f ∈ standIn.reflected.fields, f.prop.name ≠ sfProp.Class) :
    (∃ s1 a, sfActorManager.InitializeActor E s objPtr levelPtr = some (s1, a) ∧
      a.isMissingActor = true ∧ AsfMissingActor.MissingClass a = c ∧
      Effect.SpawnActor AsfMissingActor.StaticClass levelPtr ∈ s1.effects ∧
      s1.objectMap.GetUObject (some objPtr.addr) = some a.addr) ∧
    (∃ s3 obj d, sfActorManager.CreateObject E lists Identical deref created s2 standIn =
        some (s3, some obj) ∧
      obj.Property = sfProperty.dictionary d ∧
      dictGet d sfProp.Class = some (FromString E.Session c) ∧
      ToString E.Session (dictGet d sfProp.Class) = some c) := by
  constructor
  · have hr : ∀ x, x = E.FindActorWithNameInLevel levelPtr name →
        sfActorManager.reusedActor s none x = none →
        ∃ s1 a, sfActorManager.InitializeActor E s objPtr levelPtr = some (s1, a) ∧
          a.isMissingActor = true ∧ AsfMissingActor.MissingClass a = c ∧
          Effect.SpawnActor AsfMissingActor.StaticClass levelPtr ∈ s1.effects ∧
          s1.objectMap.GetUObject (some objPtr.addr) = some a.addr := by
      intro x hx hre
      simp only [sfActorManager.InitializeActor, hdict, hc, hn, hload, ← hx, hre]
      refine ⟨_, _, rfl, ?_, ?_, ?_, ?_⟩
      · simp [AActor.isMissingActor]
      · simp [AsfMissingActor.MissingClass]
      · simp [State.log]
      · simp [sfObjectMap.GetUObject, sfObjectMap.Add, mapFind_mapSet]
    exact hr _ rfl hfound
  · have hlv : (!sfLevelManager.IsLevelObjectInitialized E standIn.Level) = false := by
      rw [hlevel]; rfl
    obtain ⟨d0, hd0⟩ := hprop
    have hwrite : ∀ d : List (sfName × sfProperty),
        dictGet (CreateProperties.loop lists Identical standIn.reflected none
          standIn.reflected.fields
          (dictSet (dictSet (dictSet d sfProp.Class (FromString E.Session c)) sfProp.Label
            (FromString E.Session standIn.ActorLabel)) sfProp.Folder
            (FromString E.Session standIn.FolderPath))) sfProp.Class =
          some (FromString E.Session c) := by
      intro d
      rw [CreateProperties_loop_untouched lists Identical standIn.reflected none
        standIn.reflected.fields _ sfProp.Class
        (fun f hf hname => absurd hname (hnames f hf))]
      rw [dictGet_dictSet, if_neg (by decide), dictGet_dictSet, if_neg (by decide),
        dictGet_dictSet, if_pos rfl]
    simp only [sfActorManager.CreateObject, hlv, hsync, hd0, hstand, hrecord,
      CreateProperties, Bool.false_eq_true, if_false, if_true]
    refine ⟨_, _, CreateProperties.loop lists Identical standIn.reflected none
        standIn.reflected.fields
        (dictSet (dictSet (dictSet (dictSet d0 sfProp.Name (FromString E.Session standIn.Name))
          sfProp.Class (FromString E.Session c)) sfProp.Label
          (FromString E.Session standIn.ActorLabel)) sfProp.Folder
          (FromString E.Session standIn.FolderPath)), rfl, ?_, ?_, ?_⟩
    · cases sfActorManager.actorObject deref created s2.objectMap standIn.addr
      rfl
    · exact hwrite _
    · rw [hwrite, hsession]
      exact ToString_FromString t c htable

theorem C20_stand_in_witness :
    (∃ s1 a, sfActorManager.InitializeActor (sampleEngine none) emptyState sampleActorObject 1 =
        some (s1, a) ∧
      a.isMissingActor = true ∧ AsfMissingActor.MissingClass a = "PluginActor" ∧
      Effect.SpawnActor AsfMissingActor.StaticClass 1 ∈ s1.effects ∧
      s1.objectMap.GetUObject (some sampleActorObject.addr) = some a.addr) ∧
    (∃ s3 obj d, sfActorManager.CreateObject (sampleEngine none) ⟨[], []⟩ Identical_InContainer
        (fun _ => sampleActorObject) 50 emptyState sampleStandIn = some (s3, some obj) ∧
      obj.Property = sfProperty.dictionary d ∧
      dictGet d sfProp.Class = some (FromString (sampleEngine none).Session "PluginActor") ∧
      ToString (sampleEngine none).Session (dictGet d sfProp.Class) = some "PluginActor") :=
  C20_stand_in (sampleEngine none) ⟨[], []⟩ Identical_InContainer (fun _ => sampleActorObject) 50
    emptyState emptyState sampleActorObject 1
    [(sfProp.Name, sfProperty.value (ksMultiType.UINT 3)),
      (sfProp.Class, sfProperty.value (ksMultiType.UINT 7))]
    "PluginActor" "Cube" sampleTable sampleStandIn rfl (by decide) rfl rfl rfl rfl rfl
    (by decide) rfl rfl rfl ⟨[], rfl⟩ (by intro f hf; cases hf)

/-! ### Removal of a deleted subtree from the map -/

theorem Contains_RemoveSFObject (m : sfObjectMap) (c x : sfObjectAddr) :
    (m.RemoveSFObject (some c)).2.ContainsSFObject (some x) =
      if x = c then false else m.ContainsSFObject (some x) := by
  simp only [sfObjectMap.RemoveSFObject, sfObjectMap.ContainsSFObject]
  cases hm : mapFind m.m_sfToUObjectMap c with
  | none =>
    by_cases hx : x = c
    · subst hx; simp [hm]
    · simp [hx]
  | some u =>
    simp only [mapFind_mapErase]
    by_cases hx : x = c
    · simp [hx]
    · simp [hx]

theorem Contains_removeChild (s : State) (c x : sfObjectAddr) (b : Bool) :
    (sfActorManager.removeChild s c b).objectMap.ContainsSFObject (some x) =
      if x = c then false else s.objectMap.ContainsSFObject (some x) := by
  simp only [sfActorManager.removeChild]
  exact Contains_RemoveSFObject s.objectMap c x

theorem objectMap_log (s : State) (e : Effect) : (s.log e).objectMap = s.objectMap := rfl

mutual
/-- `CleanUpChildrenOfDeletedObject` only removes entries: an object that is
not in the map before is not in the map afterwards. -/
theorem CleanUp_absent (E : Engine) (lvl : Option sfObjectAddr) (rec : Bool) (x : sfObjectAddr) :
    ∀ (objPtr : sfObject) (s : State), s.objectMap.ContainsSFObject (some x) = false →
      (sfActorManager.CleanUpChildrenOfDeletedObject E lvl rec objPtr s).objectMap.ContainsSFObject
        (some x) = false
  | .mk _ _ _ _ _ _ cs, s, h => by
      simp only [sfActorManager.CleanUpChildrenOfDeletedObject]
      exact CleanUp_loop_absent E lvl rec x cs s h
/-- The loop of `CleanUpChildrenOfDeletedObject` only removes entries. -/
theorem CleanUp_loop_absent (E : Engine) (lvl : Option sfObjectAddr) (rec : Bool)
    (x : sfObjectAddr) :
    ∀ (cs : List sfObject) (s : State), s.objectMap.ContainsSFObject (some x) = false →
      (sfActorManager.CleanUpChildrenOfDeletedObject.loop E lvl rec cs s).objectMap.ContainsSFObject
        (some x) = false
  | [], s, h => by
      simp only [sfActorManager.CleanUpChildrenOfDeletedObject.loop]
      exact h
  | c :: rest, s, h => by
      have h0 := CleanUp_loop_absent E lvl rec x rest s h
      have hrm : ∀ (s1 : State) (b : Bool), s1.objectMap = (sfActorManager.CleanUpChildrenOfDeletedObject.loop
          E lvl rec rest s).objectMap →
          (sfActorManager.CleanUpChildrenOfDeletedObject E lvl rec c
            (sfActorManager.removeChild s1 c.addr b)).objectMap.ContainsSFObject (some x) =
            false := by
        intro s1 b hs1
        apply CleanUp_absent E lvl rec x c
        rw [Contains_removeChild, hs1, h0]
        simp
      simp only [sfActorManager.CleanUpChildrenOfDeletedObject.loop]
      split
      · split
        · apply hrm
          split
          · split <;> rfl
          · rfl
        · split
          · split
            · exact h0
            · exact h0
          · exact h0
      · apply hrm
        split
        · split <;> rfl
        · rfl
end

mutual
/-- With `recurseChildActors` set, no object below the given one is in the
map after `CleanUpChildrenOfDeletedObject`. -/
theorem CleanUp_removes (E : Engine) (lvl : Option sfObjectAddr) :
    ∀ (objPtr : sfObject) (s : State), ∀ o ∈ sfObject.subtreeList objPtr.Children,
      (sfActorManager.CleanUpChildrenOfDeletedObject E lvl true objPtr s).objectMap.ContainsSFObject
        (some o.addr) = false
  | .mk _ _ _ _ _ _ cs, s, o, ho => by
      simp only [sfActorManager.CleanUpChildrenOfDeletedObject]
      exact CleanUp_loop_removes E lvl cs s o ho
/-- With `recurseChildActors` set, no object of the subtrees of the children
is in the map after the loop. -/
theorem CleanUp_loop_removes (E : Engine) (lvl : Option sfObjectAddr) :
    ∀ (cs : List sfObject) (s : State), ∀ o ∈ sfObject.subtreeList cs,
      (sfActorManager.CleanUpChildrenOfDeletedObject.loop E lvl true cs s).objectMap.ContainsSFObject
        (some o.addr) = false
  | [], s, o, ho => by
      simp [sfObject.subtreeList] at ho
  | c :: rest, s, o, ho => by
      have hstep : ∀ (s1 : State) (b : Bool), s1.objectMap =
          (sfActorManager.CleanUpChildrenOfDeletedObject.loop E lvl true rest s).objectMap →
          (sfActorManager.CleanUpChildrenOfDeletedObject E lvl true c
            (sfActorManager.removeChild s1 c.addr b)).objectMap.ContainsSFObject (some o.addr) =
            false := by
        intro s1 b hs1
        simp only [sfObject.subtreeList, List.mem_append] at ho
        rcases ho with ho | ho
        · have hsub : sfObject.subtree c = c :: sfObject.subtreeList c.Children := by
            cases c
            simp [sfObject.subtree, sfObject.Children]
          rw [hsub, List.mem_cons] at ho
          rcases ho with rfl | ho
          · apply CleanUp_absent
            rw [Contains_removeChild]
            simp
          · exact CleanUp_removes E lvl c _ o ho
        · apply CleanUp_absent
          rw [Contains_removeChild, hs1, CleanUp_loop_removes E lvl rest s o ho]
          simp
      simp only [sfActorManager.CleanUpChildrenOfDeletedObject.loop, Bool.true_or, if_true]
      split
      · apply hstep
        split
        · split <;> rfl
        · rfl
      · apply hstep
        split
        · split <;> rfl
        · rfl
end

theorem Consistent_removeChild (s : State) (c : sfObjectAddr) (b : Bool)
    (h : s.objectMap.Consistent) : (sfActorManager.removeChild s c b).objectMap.Consistent :=
  sfObjectMap.consistent_step s.objectMap (sfObjectMap.Call.removeSFObject (some c)) h rfl rfl

mutual
/-- `CleanUpChildrenOfDeletedObject` keeps the two directions of the map in
agreement. -/
theorem CleanUp_consistent (E : Engine) (lvl : Option sfObjectAddr) (rec : Bool) :
    ∀ (objPtr : sfObject) (s : State), s.objectMap.Consistent →
      (sfActorManager.CleanUpChildrenOfDeletedObject E lvl rec objPtr s).objectMap.Consistent
  | .mk _ _ _ _ _ _ cs, s, h => by
      simp only [sfActorManager.CleanUpChildrenOfDeletedObject]
      exact CleanUp_loop_consistent E lvl rec cs s h
/-- The loop of `CleanUpChildrenOfDeletedObject` keeps the two directions of
the map in agreement. -/
theorem CleanUp_loop_consistent (E : Engine) (lvl : Option sfObjectAddr) (rec : Bool) :
    ∀ (cs : List sfObject) (s : State), s.objectMap.Consistent →
      (sfActorManager.CleanUpChildrenOfDeletedObject.loop E lvl rec cs s).objectMap.Consistent
  | [], s, h => by
      simp only [sfActorManager.CleanUpChildrenOfDeletedObject.loop]
      exact h
  | c :: rest, s, h => by
      have h0 := CleanUp_loop_consistent E lvl rec rest s h
      have hrm : ∀ (s1 : State) (b : Bool), s1.objectMap =
          (sfActorManager.CleanUpChildrenOfDeletedObject.loop E lvl rec rest s).objectMap →
          (sfActorManager.CleanUpChildrenOfDeletedObject E lvl rec c
            (sfActorManager.removeChild s1 c.addr b)).objectMap.Consistent := by
        intro s1 b hs1
        apply CleanUp_consistent E lvl rec c
        apply Consistent_removeChild
        rw [hs1]
        exact h0
      simp only [sfActorManager.CleanUpChildrenOfDeletedObject.loop]
      split
      · split
        · apply hrm
          split
          · split <;> rfl
          · rfl
        · split
          · split
            · exact h0
            · exact h0
          · exact h0
      · apply hrm
        split
        · split <;> rfl
        · rfl
end

/-- C16: after `sfActorManager::OnDelete` on an object that the map holds
with an actor as native, neither the object nor any object of its subtree is
in the map; when the two directions of the map agreed before, no native is
mapped to one of these objects either. -/
theorem C16_delete (E : Engine) (s : State) (objPtr : sfObject) (u : UObjectAddr)
    (hmap : s.objectMap.GetUObject (some objPtr.addr) = some u) (hactor : E.isActor u = true) :
    ∀ o ∈ objPtr.subtree,
      (sfActorManager.OnDelete E s objPtr).objectMap.ContainsSFObject (some o.addr) = false ∧
      (s.objectMap.Consistent → ∀ u1,
        (sfActorManager.OnDelete E s objPtr).objectMap.GetSFObject (some u1) ≠ some o.addr) := by
  intro o ho
  have hsub : sfObject.subtree objPtr = objPtr :: sfObject.subtreeList objPtr.Children := by
    cases objPtr
    simp [sfObject.subtree, sfObject.Children]
  have hfind : mapFind s.objectMap.m_sfToUObjectMap objPtr.addr = some u := hmap
  have hr1 : (s.objectMap.RemoveSFObject (some objPtr.addr)).1 = some u := by
    simp [sfObjectMap.RemoveSFObject, hfind]
  have hfirst : (sfActorManager.OnDelete E s objPtr).objectMap.ContainsSFObject (some o.addr) =
      false := by
    simp only [sfActorManager.OnDelete, hr1, hactor, if_true, objectMap_log]
    rw [hsub, List.mem_cons] at ho
    rcases ho with rfl | ho
    · apply CleanUp_absent
      exact (Contains_RemoveSFObject s.objectMap _ _).trans (by simp)
    · exact CleanUp_removes E none objPtr _ o ho
  refine ⟨hfirst, ?_⟩
  intro hcons u1 hu1
  have hc : (sfActorManager.OnDelete E s objPtr).objectMap.Consistent := by
    simp only [sfActorManager.OnDelete, hr1, hactor, if_true, objectMap_log]
    apply CleanUp_consistent
    exact sfObjectMap.consistent_step s.objectMap
      (sfObjectMap.Call.removeSFObject (some objPtr.addr)) hcons rfl rfl
  have h2 := (hc u1 o.addr).1 hu1
  simp only [sfObjectMap.ContainsSFObject] at hfirst
  simp only [sfObjectMap.GetUObject] at h2
  rw [h2] at hfirst
  simp at hfirst

theorem C16_delete_witness :
    sampleMappedState.objectMap.GetUObject (some (sampleTree false).addr) = some 21 ∧
    (sampleEngine none).isActor 21 = true ∧
    ∀ o ∈ (sampleTree false).subtree,
      (sfActorManager.OnDelete (sampleEngine none) sampleMappedState
        (sampleTree false)).objectMap.ContainsSFObject (some o.addr) = false ∧
      (sampleMappedState.objectMap.Consistent → ∀ u1,
        (sfActorManager.OnDelete (sampleEngine none) sampleMappedState
          (sampleTree false)).objectMap.GetSFObject (some u1) ≠ some o.addr) :=
  ⟨rfl, rfl, C16_delete (sampleEngine none) sampleMappedState (sampleTree false) 21 rfl rfl⟩

/-! ### Deletion of a local actor -/

theorem filter_isDelete_log (s : State) (e : Effect) (he : e.isDelete = false) :
    (s.log e).effects.filter Effect.isDelete = s.effects.filter Effect.isDelete := by
  simp [State.log, List.filter_append, he]

mutual
/-- `CleanUpChildrenOfDeletedObject` sends no `Delete` request and leaves the
recreate queue as it is. -/
theorem CleanUp_frame (E : Engine) (lvl : Option sfObjectAddr) (rec : Bool) :
    ∀ (objPtr : sfObject) (s : State),
      (sfActorManager.CleanUpChildrenOfDeletedObject E lvl rec objPtr s).effects.filter
          Effect.isDelete = s.effects.filter Effect.isDelete ∧
        (sfActorManager.CleanUpChildrenOfDeletedObject E lvl rec objPtr s).m_recreateQueue =
          s.m_recreateQueue
  | .mk _ _ _ _ _ _ cs, s => by
      simp only [sfActorManager.CleanUpChildrenOfDeletedObject]
      exact CleanUp_loop_frame E lvl rec cs s
/-- The loop of `CleanUpChildrenOfDeletedObject` sends no `Delete` request and
leaves the recreate queue as it is. -/
theorem CleanUp_loop_frame (E : Engine) (lvl : Option sfObjectAddr) (rec : Bool) :
    ∀ (cs : List sfObject) (s : State),
      (sfActorManager.CleanUpChildrenOfDeletedObject.loop E lvl rec cs s).effects.filter
          Effect.isDelete = s.effects.filter Effect.isDelete ∧
        (sfActorManager.CleanUpChildrenOfDeletedObject.loop E lvl rec cs s).m_recreateQueue =
          s.m_recreateQueue
  | [], s => by
      simp [sfActorManager.CleanUpChildrenOfDeletedObject.loop]
  | c :: rest, s => by
      have h0 := CleanUp_loop_frame E lvl rec rest s
      have hrm : ∀ (s1 : State) (b : Bool),
          (s1.effects.filter Effect.isDelete = s.effects.filter Effect.isDelete ∧
            s1.m_recreateQueue = s.m_recreateQueue) →
          ((sfActorManager.CleanUpChildrenOfDeletedObject E lvl rec c
              (sfActorManager.removeChild s1 c.addr b)).effects.filter Effect.isDelete =
              s.effects.filter Effect.isDelete ∧
            (sfActorManager.CleanUpChildrenOfDeletedObject E lvl rec c
              (sfActorManager.removeChild s1 c.addr b)).m_recreateQueue = s.m_recreateQueue) := by
        intro s1 b hs1
        have h1 := CleanUp_frame E lvl rec c (sfActorManager.removeChild s1 c.addr b)
        exact ⟨h1.1.trans hs1.1, h1.2.trans hs1.2⟩
      simp only [sfActorManager.CleanUpChildrenOfDeletedObject.loop]
      split
      · split
        · apply hrm
          split
          · split
            · exact ⟨(filter_isDelete_log _ _ (by rfl)).trans h0.1, h0.2⟩
            · exact h0
          · exact h0
        · split
          · split
            · exact ⟨(filter_isDelete_log _ _ (by rfl)).trans
                ((filter_isDelete_log _ _ (by rfl)).trans h0.1), h0.2⟩
            · exact ⟨(filter_isDelete_log _ _ (by rfl)).trans h0.1, h0.2⟩
          · exact h0
      · apply hrm
        split
        · split
          · exact ⟨(filter_isDelete_log _ _ (by rfl)).trans h0.1, h0.2⟩
          · exact h0
        · exact h0
end

/-- When the object at the end of the queue is dequeued by
`RecreateLockedActors`, `OnCreate` is called on it unless it is in the map. -/
theorem RecreateLockedActors_loop_last (E : Engine) (deref : sfObjectAddr → sfObject)
    (o : sfObjectAddr) :
    ∀ (q : List sfObjectAddr) (s : State),
      sfActorManager.RecreateLockedActors.loop E deref (q ++ [o]) s = none ∨
      ∃ s2, s2.m_recreateQueue = [] ∧
        sfActorManager.RecreateLockedActors.loop E deref (q ++ [o]) s =
          if s2.objectMap.ContainsSFObject (some o) then some s2
          else sfActorManager.OnCreate E s2 (deref o) 0
  | [], s => by
      right
      refine ⟨{ s with m_recreateQueue := [] }, rfl, ?_⟩
      simp only [List.nil_append, sfActorManager.RecreateLockedActors.loop]
      split
      · rfl
      · cases sfActorManager.OnCreate E { s with m_recreateQueue := [] } (deref o) 0 <;> rfl
  | a :: rest, s => by
      simp only [List.cons_append, sfActorManager.RecreateLockedActors.loop]
      split
      · exact RecreateLockedActors_loop_last E deref o rest _
      · cases sfActorManager.OnCreate E { s with m_recreateQueue := rest ++ [o] } (deref a) 0 with
        | none => left; rfl
        | some s1 => exact RecreateLockedActors_loop_last E deref o rest s1

theorem Contains_RemoveUObject (m : sfObjectMap) (u : UObjectAddr) (o : sfObjectAddr)
    (h : m.GetSFObject (some u) = some o) :
    (m.RemoveUObject (some u)).1 = some o ∧
      (m.RemoveUObject (some u)).2.ContainsSFObject (some o) = false := by
  have hf : mapFind m.m_uToSFObjectMap u = some o := h
  simp [sfObjectMap.RemoveUObject, hf, sfObjectMap.ContainsSFObject, mapFind_mapErase]

/-- C12 as stated fails: the deletion of an actor that is in the transient
package is ignored. The actor 21 is mapped to the syncing, locked object 11;
after `OnActorDeleted` the recreate queue is still empty. -/
theorem C12_deleted_counterexample :
    ¬ (∀ (E : Engine) (deref : sfObjectAddr → sfObject) (s : State) (actorPtr : AActor)
        (o : sfObjectAddr),
        s.objectMap.GetSFObject (some actorPtr.addr) = some o →
        (deref o).IsSyncing = true → (deref o).IsLocked = true →
        (sfActorManager.OnActorDeleted E deref s actorPtr).effects.filter Effect.isDelete =
            s.effects.filter Effect.isDelete ∧
          (sfActorManager.OnActorDeleted E deref s actorPtr).m_recreateQueue =
            s.m_recreateQueue ++ [o]) := by
  intro h
  have h1 := (h (sampleEngine none) (sampleObjects true) sampleMappedState
    (sampleMappedActor true) 11 rfl rfl rfl).2
  revert h1
  decide

/-- C12 (amended): for a deleted actor that is not in the transient package
and whose object is syncing. Locked object: `OnActorDeleted` sends no `Delete`
request and appends the object to the recreate queue, and the object is not in
the map afterwards; the next `RecreateLockedActors` calls `OnCreate` on it when
it is dequeued, unless the map holds it then (when the queue was empty before,
`OnCreate` is called on it first). Unlocked object: exactly one `Delete`
request is sent, for the object, and the queue is as before. -/
theorem C12_deleted (E : Engine) (deref deref2 : sfObjectAddr → sfObject) (s : State)
    (actorPtr : AActor) (o : sfObjectAddr)
    (htransient : actorPtr.inTransientPackage = false)
    (hmap : s.objectMap.GetSFObject (some actorPtr.addr) = some o)
    (hsync : (deref o).IsSyncing = true) :
    ((deref o).IsLocked = true →
      (sfActorManager.OnActorDeleted E deref s actorPtr).effects.filter Effect.isDelete =
          s.effects.filter Effect.isDelete ∧
        (sfActorManager.OnActorDeleted E deref s actorPtr).m_recreateQueue =
          s.m_recreateQueue ++ [o] ∧
        (sfActorManager.OnActorDeleted E deref s actorPtr).objectMap.ContainsSFObject (some o) =
          false ∧
        (sfActorManager.RecreateLockedActors E deref2
            (sfActorManager.OnActorDeleted E deref s actorPtr) = none ∨
          ∃ s2, s2.m_recreateQueue = [] ∧
            sfActorManager.RecreateLockedActors E deref2
                (sfActorManager.OnActorDeleted E deref s actorPtr) =
              if s2.objectMap.ContainsSFObject (some o) then some s2
              else sfActorManager.OnCreate E s2 (deref2 o) 0) ∧
        (s.m_recreateQueue = [] →
          sfActorManager.RecreateLockedActors E deref2
              (sfActorManager.OnActorDeleted E deref s actorPtr) =
            sfActorManager.OnCreate E
              { sfActorManager.OnActorDeleted E deref s actorPtr with m_recreateQueue := [] }
              (deref2 o) 0)) ∧
    ((deref o).IsLocked = false →
      (sfActorManager.OnActorDeleted E deref s actorPtr).effects.filter Effect.isDelete =
          s.effects.filter Effect.isDelete ++ [Effect.Delete o] ∧
        (sfActorManager.OnActorDeleted E deref s actorPtr).m_recreateQueue =
          s.m_recreateQueue) := by
  obtain ⟨hr1, hr2⟩ := Contains_RemoveUObject s.objectMap actorPtr.addr o hmap
  constructor
  · intro hlock
    have hq : (sfActorManager.OnActorDeleted E deref s actorPtr).m_recreateQueue =
        s.m_recreateQueue ++ [o] := by
      simp only [sfActorManager.OnActorDeleted, htransient, hr1, hsync, hlock, if_true,
        Bool.false_eq_true, if_false]
      rw [(CleanUp_frame E none false (deref o) _).2]
      rfl
    have hc : (sfActorManager.OnActorDeleted E deref s actorPtr).objectMap.ContainsSFObject
        (some o) = false := by
      simp only [sfActorManager.OnActorDeleted, htransient, hr1, hsync, hlock, if_true,
        Bool.false_eq_true, if_false]
      exact CleanUp_absent E none false o (deref o) _ hr2
    refine ⟨?_, hq, hc, ?_, ?_⟩
    · simp only [sfActorManager.OnActorDeleted, htransient, hr1, hsync, hlock, if_true,
        Bool.false_eq_true, if_false]
      rw [(CleanUp_frame E none false (deref o) _).1]
      exact filter_isDelete_log _ _ (by rfl)
    · unfold sfActorManager.RecreateLockedActors
      rw [hq]
      exact RecreateLockedActors_loop_last E deref2 o s.m_recreateQueue _
    · intro hempty
      unfold sfActorManager.RecreateLockedActors
      rw [hq, hempty]
      simp only [List.nil_append, sfActorManager.RecreateLockedActors.loop]
      have hc2 : ({ sfActorManager.OnActorDeleted E deref s actorPtr with
          m_recreateQueue := [] } : State).objectMap.ContainsSFObject (some o) = false := hc
      rw [hc2]
      simp only [Bool.false_eq_true, if_false]
      cases sfActorManager.OnCreate E
        { sfActorManager.OnActorDeleted E deref s actorPtr with m_recreateQueue := [] }
        (deref2 o) 0 <;> rfl
  · intro hlock
    simp only [sfActorManager.OnActorDeleted, htransient, hr1, hsync, hlock, if_true,
      Bool.false_eq_true, if_false]
    constructor
    · have h1 := (CleanUp_frame E (sfLevelManager.GetLevelObject E actorPtr.Level) false
        (deref o) { ({ s with objectMap := (s.objectMap.RemoveUObject (some actorPtr.addr)).2 } :
          State) with m_numSyncedActors := s.m_numSyncedActors - 1 }).1
      simp only [State.log, List.filter_append, h1]
      rfl
    · exact (CleanUp_frame E _ false (deref o) _).2

theorem C12_deleted_witness :
    (((sampleObjects true) 11).IsLocked = true →
      (sfActorManager.OnActorDeleted (sampleEngine none) (sampleObjects true) sampleMappedState
          (sampleMappedActor false)).effects.filter Effect.isDelete =
          sampleMappedState.effects.filter Effect.isDelete ∧
        (sfActorManager.OnActorDeleted (sampleEngine none) (sampleObjects true) sampleMappedState
          (sampleMappedActor false)).m_recreateQueue =
          sampleMappedState.m_recreateQueue ++ [11] ∧
        (sfActorManager.OnActorDeleted (sampleEngine none) (sampleObjects true) sampleMappedState
          (sampleMappedActor false)).objectMap.ContainsSFObject (some 11) =
          false ∧
        (sfActorManager.RecreateLockedActors (sampleEngine none) (sampleObjects false)
            (sfActorManager.OnActorDeleted (sampleEngine none) (sampleObjects true) sampleMappedState
          (sampleMappedActor false)) = none ∨
          ∃ s2, s2.m_recreateQueue = [] ∧
            sfActorManager.RecreateLockedActors (sampleEngine none) (sampleObjects false)
                (sfActorManager.OnActorDeleted (sampleEngine none) (sampleObjects true) sampleMappedState
          (sampleMappedActor false)) =
              if s2.objectMap.ContainsSFObject (some 11) then some s2
              else sfActorManager.OnCreate (sampleEngine none) s2 ((sampleObjects false) 11) 0) ∧
        (sampleMappedState.m_recreateQueue = [] →
          sfActorManager.RecreateLockedActors (sampleEngine none) (sampleObjects false)
              (sfActorManager.OnActorDeleted (sampleEngine none) (sampleObjects true) sampleMappedState
          (sampleMappedActor false)) =
            sfActorManager.OnCreate (sampleEngine none)
              { sfActorManager.OnActorDeleted (sampleEngine none) (sampleObjects true) sampleMappedState
                  (sampleMappedActor false) with m_recreateQueue := [] }
              ((sampleObjects false) 11) 0)) ∧
    (((sampleObjects true) 11).IsLocked = false →
      (sfActorManager.OnActorDeleted (sampleEngine none) (sampleObjects true) sampleMappedState
          (sampleMappedActor false)).effects.filter Effect.isDelete =
          sampleMappedState.effects.filter Effect.isDelete ++ [Effect.Delete 11] ∧
        (sfActorManager.OnActorDeleted (sampleEngine none) (sampleObjects true) sampleMappedState
          (sampleMappedActor false)).m_recreateQueue =
          sampleMappedState.m_recreateQueue) :=
  C12_deleted (sampleEngine none) (sampleObjects true) (sampleObjects false)
    sampleMappedState (sampleMappedActor false) 11 rfl rfl rfl

/-! ### Selection tracking -/

theorem filter_isLock_log (s : State) (e : Effect) :
    (s.log e).effects.filter Effect.isLock =
      s.effects.filter Effect.isLock ++ (if e.isLock then [e] else []) := by
  cases h : e.isLock <;> simp [State.log, List.filter_append, h]

theorem newlyTracked_dictSet (deref : sfObjectAddr → sfObject) (m : sfObjectMap)
    (tracked : List (UObjectAddr × sfObjectAddr)) (a b : UObjectAddr) (o : sfObjectAddr)
    (hab : b ≠ a) :
    newlyTracked deref m (dictSet tracked a o) b = newlyTracked deref m tracked b := by
  simp only [newlyTracked, dictGet_dictSet, if_neg hab]

/-- The second loop of `UpdateSelection` adds the entry of each selected actor
that is newly tracked, calls `RequestLock` once on the object of each, and
makes no other lock call. -/
theorem request_spec (deref : sfObjectAddr → sfObject) :
    ∀ (sel : List UObjectAddr) (s : State), sel.Nodup →
      (∀ b o, dictGet (sfActorManager.UpdateSelection.request deref sel s).m_selectedActors b =
          some o ↔
        dictGet s.m_selectedActors b = some o ∨
          (b ∈ sel ∧ newlyTracked deref s.objectMap s.m_selectedActors b = some (b, o))) ∧
      (sfActorManager.UpdateSelection.request deref sel s).effects.filter Effect.isLock =
        s.effects.filter Effect.isLock ++
          (sel.filterMap (newlyTracked deref s.objectMap s.m_selectedActors)).map
            (fun p => Effect.RequestLock p.2)
  | [], s, _ => by
      simp [sfActorManager.UpdateSelection.request]
  | a :: rest, s, hnd => by
      have hnd' : rest.Nodup := (List.nodup_cons.1 hnd).2
      have ha : a ∉ rest := (List.nodup_cons.1 hnd).1
      have hskip : newlyTracked deref s.objectMap s.m_selectedActors a = none →
          ((∀ b o, dictGet (sfActorManager.UpdateSelection.request deref rest s).m_selectedActors
              b = some o ↔
            dictGet s.m_selectedActors b = some o ∨
              (b ∈ a :: rest ∧
                newlyTracked deref s.objectMap s.m_selectedActors b = some (b, o))) ∧
          (sfActorManager.UpdateSelection.request deref rest s).effects.filter Effect.isLock =
            s.effects.filter Effect.isLock ++
              ((a :: rest).filterMap (newlyTracked deref s.objectMap s.m_selectedActors)).map
                (fun p => Effect.RequestLock p.2)) := by
        intro hn
        obtain ⟨i1, i2⟩ := request_spec deref rest s hnd'
        refine ⟨?_, ?_⟩
        · intro b o
          rw [i1 b o]
          constructor
          · rintro (h | ⟨hb, h⟩)
            · exact Or.inl h
            · exact Or.inr ⟨List.mem_cons_of_mem _ hb, h⟩
          · rintro (h | ⟨hb, h⟩)
            · exact Or.inl h
            · rcases List.mem_cons.1 hb with rfl | hb
              · rw [hn] at h; exact absurd h (by simp)
              · exact Or.inr ⟨hb, h⟩
        · rw [i2, List.filterMap_cons, hn]
      simp only [sfActorManager.UpdateSelection.request]
      cases htr : (dictGet s.m_selectedActors a).isSome
      · simp only [Bool.false_eq_true, if_false]
        cases hg : s.objectMap.GetSFObject (some a) with
        | none =>
          simp only []
          exact hskip (by simp [newlyTracked, htr, hg])
        | some o1 =>
          simp only []
          cases hsy : (deref o1).IsSyncing
          · simp only [Bool.false_eq_true, if_false]
            exact hskip (by simp [newlyTracked, htr, hg, hsy])
          · simp only [if_true]
            have hn : newlyTracked deref s.objectMap s.m_selectedActors a = some (a, o1) := by
              simp [newlyTracked, htr, hg, hsy]
            have hnone : dictGet s.m_selectedActors a = none := by
              cases hd : dictGet s.m_selectedActors a with
              | none => rfl
              | some v => rw [hd] at htr; simp at htr
            have hgen : ∀ s2 : State, s2.objectMap = s.objectMap →
                s2.m_selectedActors = dictSet s.m_selectedActors a o1 →
                s2.effects.filter Effect.isLock =
                  s.effects.filter Effect.isLock ++ [Effect.RequestLock o1] →
                ((∀ b o, dictGet (sfActorManager.UpdateSelection.request deref rest
                    s2).m_selectedActors b = some o ↔
                  dictGet s.m_selectedActors b = some o ∨
                    (b ∈ a :: rest ∧
                      newlyTracked deref s.objectMap s.m_selectedActors b = some (b, o))) ∧
                (sfActorManager.UpdateSelection.request deref rest s2).effects.filter
                    Effect.isLock =
                  s.effects.filter Effect.isLock ++
                    ((a :: rest).filterMap
                      (newlyTracked deref s.objectMap s.m_selectedActors)).map
                      (fun p => Effect.RequestLock p.2)) := by
              intro s2 hm hsel heff
              obtain ⟨i1, i2⟩ := request_spec deref rest s2 hnd'
              have hcongr : rest.filterMap (newlyTracked deref s2.objectMap s2.m_selectedActors) =
                  rest.filterMap (newlyTracked deref s.objectMap s.m_selectedActors) := by
                apply List.filterMap_congr
                intro b hb
                rw [hm, hsel]
                exact newlyTracked_dictSet deref s.objectMap s.m_selectedActors a b o1
                  (fun e => ha (e ▸ hb))
              refine ⟨?_, ?_⟩
              · intro b o
                rw [i1 b o, hm, hsel, dictGet_dictSet]
                by_cases hba : b = a
                · subst hba
                  simp only [if_true, hnone, hn]
                  constructor
                  · rintro (h | ⟨hb, _⟩)
                    · right
                      refine ⟨List.mem_cons_self _ _, ?_⟩
                      rw [Option.some.inj h]
                    · exact absurd hb ha
                  · rintro (h | ⟨_, h⟩)
                    · exact absurd h (by simp)
                    · left
                      have := Option.some.inj h
                      rw [(Prod.mk.inj this).2]
                · simp only [if_neg hba]
                  rw [newlyTracked_dictSet deref s.objectMap s.m_selectedActors a b o1 hba]
                  constructor
                  · rintro (h | ⟨hb, h⟩)
                    · exact Or.inl h
                    · exact Or.inr ⟨List.mem_cons_of_mem _ hb, h⟩
                  · rintro (h | ⟨hb, h⟩)
                    · exact Or.inl h
                    · rcases List.mem_cons.1 hb with e | hb
                      · exact absurd e hba
                      · exact Or.inr ⟨hb, h⟩
              · rw [i2, hcongr, heff, List.filterMap_cons, hn]
                simp
            have hbase : (({ s.log (Effect.RequestLock o1) with
                m_selectedActors := dictSet s.m_selectedActors a o1 } : State)).effects.filter
                  Effect.isLock =
                s.effects.filter Effect.isLock ++ [Effect.RequestLock o1] := by
              simp [State.log, List.filter_append, Effect.isLock]
            split
            · refine hgen (({ s.log (Effect.RequestLock o1) with
                m_selectedActors := dictSet s.m_selectedActors a o1 } : State).log
                  (Effect.LoadAssetsFor o1)) rfl rfl ?_
              rw [filter_isLock_log, hbase]
              simp [Effect.isLock]
            · exact hgen ({ s.log (Effect.RequestLock o1) with
                m_selectedActors := dictSet s.m_selectedActors a o1 } : State) rfl rfl hbase
      · simp only [if_true]
        exact hskip (by simp [newlyTracked, htr])

theorem newlyTracked_eq_some (deref : sfObjectAddr → sfObject) (m : sfObjectMap)
    (tracked : List (UObjectAddr × sfObjectAddr)) (a : UObjectAddr) (o : sfObjectAddr) :
    newlyTracked deref m tracked a = some (a, o) ↔
      dictGet tracked a = none ∧ m.GetSFObject (some a) = some o ∧
        (deref o).IsSyncing = true := by
  unfold newlyTracked
  cases hd : dictGet tracked a with
  | some v => simp
  | none =>
    cases hg : m.GetSFObject (some a) with
    | none => simp
    | some o1 =>
      cases hs : (deref o1).IsSyncing
      · simp only [Option.isSome_none, Bool.false_eq_true, if_false, true_and,
          Option.some.injEq]
        constructor
        · intro h; exact absurd h (by simp [hs])
        · rintro ⟨h1, h2⟩
          rw [← h1, hs] at h2
          exact absurd h2 (by simp)
      · simp only [Option.isSome_none, Bool.false_eq_true, if_false, true_and,
          Option.some.injEq]
        constructor
        · intro h
          simp only [hs, if_true, Option.some.injEq, Prod.mk.injEq, true_and] at h
          rw [← h]
          exact ⟨rfl, hs⟩
        · rintro ⟨h1, h2⟩
          simp [hs, h1, h2]

/-! ### Order of the phases of a tick -/

/-- C19 as stated fails: in a tick of a connected session the change
notifications are broadcast before the property diffs are sent and before the
uploads are flushed, and the server events are delivered first. -/
theorem C19_tick_order_counterexample :
    ¬ (∀ i : TickInput, i.connected = true →
        nondecreasing ((Tick i).filterMap specPhaseRank) = true) := by
  intro h
  have h1 := h sampleTick rfl
  revert h1
  decide

theorem filter_map_none {α : Type} (l : List α) (f : α → Phase)
    (h : ∀ a, (specPhaseRank (f a)).isSome = true) :
    (l.map f).filter (fun p => (specPhaseRank p).isSome) = l.map f := by
  induction l with
  | nil => rfl
  | cons a rest ih => simp [List.filter, h a, ih]

theorem filter_map_skip {α : Type} (l : List α) (f : α → Phase)
    (h : ∀ a, (specPhaseRank (f a)).isSome = false) :
    (l.map f).filter (fun p => (specPhaseRank p).isSome) = [] := by
  induction l with
  | nil => rfl
  | cons a rest ih => simp [List.filter, h a, ih]

/-- C19 (amended): in every tick of a connected session with a valid actor
manager, the calls that the specification names run in this order: the update
of the service (which delivers the server events), a rehash of the stale
containers, the broadcast of the change notifications, the sync of the local
property changes, a second rehash, then in the tick of the actor manager the
upload of the queued actors when there are any, the update of the selection,
and the transform sync of each moved actor. -/
theorem C19_tick_order (i : TickInput) (hconnected : i.connected = true)
    (hvalid : i.ActorManagerValid = true) :
    (Tick i).filter (fun p => (specPhaseRank p).isSome) =
      [Phase.ServiceUpdate, Phase.RehashProperties, Phase.BroadcastChangeEvents,
        Phase.SyncProperties, Phase.RehashProperties] ++
        (if i.m_uploadList.length > 0 then [Phase.UploadActors] else []) ++
        [Phase.UpdateSelection] ++ i.m_movedActors.map Phase.SyncComponentTransforms := by
  have hm := filter_map_none i.m_movedActors Phase.SyncComponentTransforms (fun _ => rfl)
  have hp := filter_map_skip i.syncParents Phase.SyncParent (fun _ => rfl)
  simp only [Tick, sfActorManager.Tick, hconnected, hvalid, if_true, List.filter_append, hm, hp]
  cases i.LevelManagerValid <;> cases i.AvatarManagerValid <;>
    cases i.m_redrawActiveViewport <;> cases i.revertFolderQueueEmpty <;>
    cases i.m_collectGarbage <;>
    by_cases h1 : i.m_uploadList.length > 0 <;> by_cases h2 : i.m_foldersToCheck > 0 <;>
    simp [List.filter, specPhaseRank, h1, h2]

theorem C19_tick_order_witness :
    (Tick sampleTick).filter (fun p => (specPhaseRank p).isSome) =
      [Phase.ServiceUpdate, Phase.RehashProperties, Phase.BroadcastChangeEvents,
        Phase.SyncProperties, Phase.RehashProperties] ++
        (if sampleTick.m_uploadList.length > 0 then [Phase.UploadActors] else []) ++
        [Phase.UpdateSelection] ++ sampleTick.m_movedActors.map Phase.SyncComponentTransforms :=
  C19_tick_order sampleTick rfl rfl

/-! ### SyncProperty on a locked object -/

theorem FindPropertyByName_writeField (fields : List UField) (name : FName) (v : UValue)
    (f : UField) (h : fields.find? (fun g => g.prop.name == name) = some f) :
    (writeField fields name v).find? (fun g => g.prop.name == name) =
      some { f with value := v } := by
  induction fields with
  | nil => simp at h
  | cons g rest ih =>
    by_cases hg : (g.prop.name == name) = true
    · simp only [List.find?, hg] at h
      have hgf : g = f := Option.some.inj h
      subst hgf
      simp only [writeField, hg, if_true, List.find?]
    · have hg' : (g.prop.name == name) = false := by simpa using hg
      simp only [List.find?, hg'] at h
      simp only [writeField, hg', Bool.false_eq_true, if_false, List.find?]
      exact ih h

theorem FindPropertyByName_write (uobjPtr : UObject) (name : FName) (v : UValue) (f : UField)
    (h : FindPropertyByName uobjPtr name = some f) :
    FindPropertyByName (uobjPtr.write name v) name = some { f with value := v } :=
  FindPropertyByName_writeField uobjPtr.fields name v f h

/-- C11 as stated fails: the level manager claims the blacklisted property
`LevelTransform`, and `SyncProperty` returns before it reverts anything. The
level object is locked and its dictionary has no entry for the property; the
entity keeps its changed value, which is not the default. -/
theorem C11_locked_counterexample :
    ¬ (∀ (OnUPropertyChange : sfObject → UObject → UProperty → Bool) (objPtr : sfObject)
        (uobjPtr : UObject) (f : UField) (d : List (sfName × sfProperty)),
        objPtr.IsLocked = true → objPtr.Property = sfProperty.dictionary d →
        FindPropertyByName uobjPtr f.prop.name = some f →
        ∃ uobj1, SyncProperty Identical_InContainer OnUPropertyChange (some objPtr) uobjPtr
            (some f) false = some (some objPtr, uobj1) ∧
          ∀ f1, FindPropertyByName uobj1 f.prop.name = some f1 →
            (∀ p, dictGet d f.prop.name = some p → GetValue f1 = some p) ∧
            (dictGet d f.prop.name = none → f1.value = uobjPtr.defaultOf f)) := by
  intro h
  obtain ⟨uobj1, h1, h2⟩ := h sfLevelManager.OnUPropertyChange sampleLevelObject
    sampleStreamingLevel
    ⟨⟨FName.LevelTransform, CPF_Edit, some 600, FVector⟩,
      FVector.mk 0x3F800000 0 0, FVector.mk 0 0 0⟩ [] rfl rfl rfl
  have hev : SyncProperty Identical_InContainer sfLevelManager.OnUPropertyChange
      (some sampleLevelObject) sampleStreamingLevel
      (some ⟨⟨FName.LevelTransform, CPF_Edit, some 600, FVector⟩,
        FVector.mk 0x3F800000 0 0, FVector.mk 0 0 0⟩) false =
      some (some sampleLevelObject, sampleStreamingLevel) := rfl
  rw [hev] at h1
  have hu : uobj1 = sampleStreamingLevel := by
    injection h1 with h1
    injection h1 with _ h1
    exact h1.symm
  subst hu
  have h3 := (h2 _ rfl).2 rfl
  simp [UObject.defaultOf, sampleStreamingLevel, FVector.mk] at h3

/-- C11 (amended): `SyncProperty` on a locked object whose property is a
dictionary, for a property of the entity, leaves the object with its dictionary
as it is. When the manager of the object claims the property
(`OnUPropertyChange` answers true), the entity is left as it is too. Otherwise
the property of the entity is written: with an entry in the dictionary its
converted value is afterwards the entry (when its class has a handler; the
entry is then required to be the converted value of well-typed data of a
supported class, and the old data well typed without invalid set or map slot)
or it is unchanged (without handler); without entry it holds the value of the
default object when its class has a handler and the old value was not
`Identical` to that default, and is unchanged otherwise. -/
theorem C11_locked (Identical : UPropType → UValue → UValue → Bool)
    (OnUPropertyChange : sfObject → UObject → UProperty → Bool) (objPtr : sfObject)
    (uobjPtr : UObject) (f : UField) (d : List (sfName × sfProperty))
    (applyServerValue : Bool)
    (hlocked : objPtr.IsLocked = true) (hdict : objPtr.Property = sfProperty.dictionary d)
    (hfield : FindPropertyByName uobjPtr f.prop.name = some f)
    (hvalid : f.prop.type.hasHandler = true → ∀ p, dictGet d f.prop.name = some p →
      f.prop.type.Supported = true ∧ f.prop.type.HasValue f.value = true ∧
        f.prop.type.Dense f.value = true ∧
        ∃ w, f.prop.type.HasValue w = true ∧ UPropType.Get f.prop.type w = some p) :
    ∃ uobj1, SyncProperty Identical OnUPropertyChange (some objPtr) uobjPtr (some f)
        applyServerValue = some (some objPtr, uobj1) ∧
      (OnUPropertyChange objPtr uobjPtr f.prop = true → uobj1 = uobjPtr) ∧
      (OnUPropertyChange objPtr uobjPtr f.prop = false →
        ∃ f1, FindPropertyByName uobj1 f.prop.name = some f1 ∧ f1.prop = f.prop ∧
          f1.defaultValue = f.defaultValue ∧
          (∀ p, dictGet d f.prop.name = some p →
            (f.prop.type.hasHandler = true → GetValue f1 = some p) ∧
            (f.prop.type.hasHandler = false → f1.value = f.value)) ∧
          (dictGet d f.prop.name = none →
            (f.prop.type.hasHandler = true →
              Identical f.prop.type f.value (uobjPtr.defaultOf f) = false →
              f1.value = uobjPtr.defaultOf f) ∧
            ((f.prop.type.hasHandler = false ∨
                Identical f.prop.type f.value (uobjPtr.defaultOf f) = true) →
              f1.value = f.value))) := by
  cases hdisp : OnUPropertyChange objPtr uobjPtr f.prop
  · -- the property is not claimed
    cases hget : dictGet d f.prop.name with
    | none =>
      refine ⟨uobjPtr.write f.prop.name (SetToDefaultValue Identical uobjPtr f), ?_, ?_, ?_⟩
      · simp only [SyncProperty, hdict, hdisp, hlocked, hget, Bool.true_or, if_true,
          Bool.false_eq_true, if_false]
      · intro hc; exact absurd hc (by simp)
      · intro _
        refine ⟨_, FindPropertyByName_write uobjPtr f.prop.name _ f hfield, rfl, rfl, ?_, ?_⟩
        · intro p hp; exact absurd hp (by simp)
        · intro _
          exact SetToDefaultValue_eq Identical uobjPtr f
    | some p =>
      cases hh : f.prop.type.hasHandler
      · refine ⟨uobjPtr.write f.prop.name f.value, ?_, ?_, ?_⟩
        · simp only [SyncProperty, hdict, hdisp, hlocked, hget, hfield, Bool.true_or, if_true,
            Bool.false_eq_true, if_false, m_typeHandlers, hh, SetValue]
        · intro hc; exact absurd hc (by simp)
        · intro _
          refine ⟨_, FindPropertyByName_write uobjPtr f.prop.name _ f hfield, rfl, rfl, ?_, ?_⟩
          · intro q _
            exact ⟨fun hc => absurd hc (by simp), fun _ => rfl⟩
          · intro hc; exact absurd hc (by simp)
      · obtain ⟨hsup, ho, hd, w, hw, hg⟩ := hvalid hh p hget
        obtain ⟨c, v1, e1, e2, _⟩ := Set_Get f.prop.type f.value w p hsup ho hd hw hg
        refine ⟨uobjPtr.write f.prop.name v1, ?_, ?_, ?_⟩
        · simp only [SyncProperty, hdict, hdisp, hlocked, hget, hfield, Bool.true_or, if_true,
            Bool.false_eq_true, if_false, m_typeHandlers, hh, SetValue, e1]
        · intro hc; exact absurd hc (by simp)
        · intro _
          refine ⟨_, FindPropertyByName_write uobjPtr f.prop.name _ f hfield, rfl, rfl, ?_, ?_⟩
          · intro q hq
            have hqp : q = p := Option.some.inj hq.symm
            subst hqp
            refine ⟨fun _ => ?_, fun hc => absurd hc (by simp)⟩
            simp only [GetValue, m_typeHandlers, hh, if_true, e2]
          · intro hc; exact absurd hc (by simp)
  · -- the manager claims the property
    refine ⟨uobjPtr, ?_, fun _ => rfl, fun hc => absurd hc (by simp)⟩
    simp only [SyncProperty, hdict, hdisp, if_true]

theorem C11_locked_witness :
    ∃ uobj1, SyncProperty Identical_InContainer (fun _ _ _ => false) (some sampleLockedObject)
        sampleEntity
        (some ⟨⟨4, CPF_Edit, some 100, UPropType.BoolProperty⟩, UValue.bool false,
          UValue.bool false⟩) false = some (some sampleLockedObject, uobj1) ∧
      ((fun _ _ _ => false : sfObject → UObject → UProperty → Bool) sampleLockedObject
          sampleEntity ⟨4, CPF_Edit, some 100, UPropType.BoolProperty⟩ = true →
        uobj1 = sampleEntity) ∧
      ((fun _ _ _ => false : sfObject → UObject → UProperty → Bool) sampleLockedObject
          sampleEntity ⟨4, CPF_Edit, some 100, UPropType.BoolProperty⟩ = false →
        ∃ f1, FindPropertyByName uobj1 4 = some f1 ∧
          f1.prop = ⟨4, CPF_Edit, some 100, UPropType.BoolProperty⟩ ∧
          f1.defaultValue = UValue.bool false ∧
          (∀ p, dictGet [(4, sfProperty.value (ksMultiType.BOOL true))] 4 = some p →
            (UPropType.BoolProperty.hasHandler = true → GetValue f1 = some p) ∧
            (UPropType.BoolProperty.hasHandler = false → f1.value = UValue.bool false)) ∧
          (dictGet [(4, sfProperty.value (ksMultiType.BOOL true))] 4 = none →
            (UPropType.BoolProperty.hasHandler = true →
              Identical_InContainer UPropType.BoolProperty (UValue.bool false)
                (sampleEntity.defaultOf ⟨⟨4, CPF_Edit, some 100, UPropType.BoolProperty⟩,
                  UValue.bool false, UValue.bool false⟩) = false →
              f1.value = sampleEntity.defaultOf ⟨⟨4, CPF_Edit, some 100,
                UPropType.BoolProperty⟩, UValue.bool false, UValue.bool false⟩) ∧
            ((UPropType.BoolProperty.hasHandler = false ∨
                Identical_InContainer UPropType.BoolProperty (UValue.bool false)
                  (sampleEntity.defaultOf ⟨⟨4, CPF_Edit, some 100, UPropType.BoolProperty⟩,
                    UValue.bool false, UValue.bool false⟩) = true) →
              f1.value = UValue.bool false))) :=
  C11_locked Identical_InContainer (fun _ _ _ => false) sampleLockedObject sampleEntity
    ⟨⟨4, CPF_Edit, some 100, UPropType.BoolProperty⟩, UValue.bool false, UValue.bool false⟩
    [(4, sfProperty.value (ksMultiType.BOOL true))] false rfl rfl rfl
    (fun _ p hp => by
      have hp1 : p = sfProperty.value (ksMultiType.BOOL true) := by
        have : some (sfProperty.value (ksMultiType.BOOL true)) = some p := hp
        exact (Option.some.inj this).symm
      subst hp1
      exact ⟨rfl, rfl, rfl, UValue.bool true, rfl, rfl⟩)

/-! ### SyncParent and cycles of the object tree -/

/-- C13 fails on the code: the object 13 of the new native parent is a child
of the object 12 of the component, and the native parent of its own component
has no object, so the nested `SyncParent` in the loop returns without moving
13. The loop ends when it reaches 12, and `AddChild` puts 12 under 13: each of
the two objects is then its own ancestor. -/
theorem C13_sync_parent_cycle :
    sfComponentManager.SyncParent sampleNatives 3 20 31 12 sampleComponentState =
        some ⟨[(12, 13), (13, 12)], [], [Effect.SyncTransform 31]⟩ ∧
      IsDescendantOf [(12, 13), (13, 12)] 12 12 = true ∧
      IsDescendantOf [(12, 13), (13, 12)] 13 13 = true ∧
      IsDescendantOf sampleComponentState.parents 12 12 = false ∧
      IsDescendantOf sampleComponentState.parents 13 13 = false := by
  decide

/-! ### UploadActors: the requests are the batches of the outcomes -/

theorem createRequests_append (l1 l2 : List Effect) :
    createRequests (l1 ++ l2) = createRequests l1 ++ createRequests l2 := by
  induction l1 with
  | nil => rfl
  | cons e rest ih =>
    cases e <;> simp [createRequests, ih]

theorem createRequests_log (s : State) (e : Effect) :
    createRequests (s.log e).effects = createRequests s.effects ++ createRequests [e] := by
  simp [State.log, createRequests_append]

theorem createRequests_flush (s : State) (objects : List sfObjectAddr)
    (parentPtr : Option sfObjectAddr) :
    createRequests (UploadActors.flush s objects parentPtr).effects =
      createRequests s.effects ++ (if objects.length > 0 then [(objects, parentPtr)] else []) := by
  unfold UploadActors.flush
  by_cases h : objects.length > 0
  · simp [h, createRequests_log, createRequests]
  · simp [h]

theorem createRequests_resolve (E : Engine) (U : UploadEnv) (s s1 : State) (actorPtr : AActor)
    (cur : Option sfObjectAddr) (h : UploadActors.resolve E U s actorPtr = some (s1, cur)) :
    createRequests s1.effects = createRequests s.effects ∧
      (cur = none → sfLevelManager.GetLevelObject E actorPtr.Level = none) := by
  unfold UploadActors.resolve at h
  simp only at h
  split at h
  · exact absurd h (by simp)
  · split at h
    · exact absurd h (by simp)
    · split at h
      · simp only [Option.some.injEq, Prod.mk.injEq] at h
        obtain ⟨h1, h2⟩ := h
        subst h1
        refine ⟨?_, fun hc => ?_⟩
        · simp [createRequests_log, createRequests]
        · exact h2.trans hc
      · simp only [Option.some.injEq, Prod.mk.injEq] at h
        obtain ⟨h1, h2⟩ := h
        subst h1
        exact ⟨rfl, fun hc => by rw [hc] at h2; exact absurd h2 (by simp)⟩

/-- `CreateObject` is defined when the object it reads has a dictionary as its
property; it sends no `Create` request, and it returns an object only for an
actor whose level has a level object. -/
theorem CreateObject_spec (E : Engine) (lists : SyncLists)
    (Identical : UPropType → UValue → UValue → Bool) (deref : sfObjectAddr → sfObject)
    (created : sfObjectAddr) (s : State) (actorPtr : AActor)
    (hdict : ∀ o, ∃ d, (deref o).Property.AsDict = some d) :
    ∃ s3 objPtr, sfActorManager.CreateObject E lists Identical deref created s actorPtr =
        some (s3, objPtr) ∧
      createRequests s3.effects = createRequests s.effects ∧
      (objPtr.isSome = true → (sfLevelManager.GetLevelObject E actorPtr.Level).isSome = true) := by
  unfold sfActorManager.CreateObject
  cases hl : sfLevelManager.IsLevelObjectInitialized E actorPtr.Level
  · exact ⟨s, none, by simp, rfl, fun h => absurd h (by simp)⟩
  · have hlv : (sfLevelManager.GetLevelObject E actorPtr.Level).isSome = true := by
      unfold sfLevelManager.IsLevelObjectInitialized at hl
      cases hg : sfLevelManager.GetLevelObject E actorPtr.Level with
      | none => rw [hg] at hl; exact absurd hl (by simp)
      | some o => rfl
    simp only [Bool.not_true, Bool.false_eq_true, if_false]
    cases hs : (sfActorManager.actorObject deref created s.objectMap actorPtr.addr).IsSyncing
    · have hd : ∃ d, (sfActorManager.actorObject deref created s.objectMap
          actorPtr.addr).Property.AsDict = some d := by
        unfold sfActorManager.actorObject
        cases s.objectMap.GetSFObject (some actorPtr.addr) with
        | none => exact ⟨[], rfl⟩
        | some o => exact hdict o
      obtain ⟨d, hd⟩ := hd
      simp only [Bool.false_eq_true, if_false, hd, CreateProperties]
      refine ⟨_, _, rfl, ?_, fun _ => hlv⟩
      cases actorPtr.IsSelected <;> cases actorPtr.isMissingActor <;>
        simp [createRequests_log, createRequests, State.log, createRequests_append]
    · simp only [if_true]
      exact ⟨_, none, rfl, rfl, fun h => absurd h (by simp)⟩

/-- `UploadActors` is defined when every object it reads has a dictionary as
its property and no level object of an actor without attach parent is fully
locked; the `Create` requests it sends are the batches of the outcomes
of its actors. -/
theorem UploadActors_loop_batches (E : Engine) (lists : SyncLists)
    (Identical : UPropType → UValue → UValue → Bool) (U : UploadEnv)
    (hdict : ∀ s0 o, ∃ d, (U.deref s0 o).Property.AsDict = some d)
    (hlevel : ∀ s0 (a : AActor) o, U.attachParent a = none →
      sfLevelManager.GetLevelObject E a.Level = some o → U.IsFullyLocked s0 o = false) :
    ∀ (actors : List AActor) (s : State) (objects : List sfObjectAddr)
      (parentPtr : Option sfObjectAddr),
      ∃ s1 outs, UploadActors.loop E lists Identical U actors s objects parentPtr =
          some (s1, outs) ∧
        outs.length = actors.length ∧
        createRequests s1.effects = createRequests s.effects ++ batches outs objects parentPtr ∧
        ∀ out ∈ outs, out.valid
  | [], s, objects, parentPtr => by
      refine ⟨_, [], rfl, rfl, ?_, fun _ h => absurd h (by simp)⟩
      rw [createRequests_flush]
      rfl
  | a :: rest, s, objects, parentPtr => by
      have hskip : ∃ s1 outs,
          (UploadActors.loop E lists Identical U rest s objects parentPtr).map
            (fun r => (r.1, Outcome.skipped :: r.2)) = some (s1, outs) ∧
          outs.length = (a :: rest).length ∧
          createRequests s1.effects = createRequests s.effects ++ batches outs objects parentPtr ∧
          ∀ out ∈ outs, out.valid := by
        obtain ⟨s1, outs, h1, h2, h3, h4⟩ :=
          UploadActors_loop_batches E lists Identical U hdict hlevel rest s objects parentPtr
        refine ⟨s1, Outcome.skipped :: outs, by rw [h1]; rfl, by simp [h2], ?_, ?_⟩
        · rw [h3]; rfl
        · intro out hout
          rcases List.mem_cons.1 hout with rfl | hout
          · trivial
          · exact h4 out hout
      unfold UploadActors.loop
      cases hsync : sfActorManager.IsSyncable (U.flags a) a
      · simp only [Bool.not_false, if_true]
        exact hskip
      · have hnull : UploadActors.nullOwner E U s a = false := by
          unfold UploadActors.nullOwner
          cases hp : U.attachParent a with
          | some c => rfl
          | none =>
            cases hl : sfLevelManager.GetLevelObject E a.Level with
            | none => rfl
            | some o => simp [hlevel s a o hp hl]
        simp only [Bool.not_true, Bool.false_eq_true, if_false, hnull]
        cases hres : UploadActors.resolve E U s a with
        | none => exact hskip
        | some r =>
          obtain ⟨s1, cur⟩ := r
          obtain ⟨hr1, hr2⟩ := createRequests_resolve E U s s1 a cur hres
          simp only []
          generalize hp1 : (if parentPtr.isNone = true then cur else parentPtr) = p1
          generalize hs2 : (if cur ≠ p1 then UploadActors.flush s1 objects p1 else s1) = s2
          generalize ho2 : (if cur ≠ p1 then [] else objects) = objects2
          generalize hp2 : (if cur ≠ p1 then cur else p1) = p2
          obtain ⟨s3, objPtr, hc1, hc2, hc3⟩ := CreateObject_spec E lists Identical
            (U.deref s2) (U.created s2) s2 a (hdict _)
          rw [hc1]
          simp only []
          have hb : ∀ (outs : List Outcome) (ob : Option sfObjectAddr),
              createRequests s2.effects ++ batches outs (objects2 ++ ob.toList) p2 =
                createRequests s.effects ++
                  batches (Outcome.resolved cur ob :: outs) objects parentPtr := by
            intro outs ob
            subst hs2 ho2 hp2
            by_cases hne : cur ≠ p1
            · simp only [hne, if_true, batches, hp1, ne_eq, not_false_eq_true,
                createRequests_flush, hr1, List.append_assoc, List.nil_append]
            · simp only [hne, if_false, batches, hp1, hr1]
          have hvalid : ∀ o : sfObject, objPtr = some o →
              (Outcome.resolved cur (some o.addr)).valid := by
            intro o hob
            simp only [Outcome.valid]
            cases hcur : cur with
            | some c => rfl
            | none =>
              have := hc3 (by rw [hob]; rfl)
              rw [hr2 hcur] at this
              exact absurd this (by simp)
          cases objPtr with
          | none =>
            obtain ⟨s4, outs, h1, h2, h3, h4⟩ :=
              UploadActors_loop_batches E lists Identical U hdict hlevel rest s3 objects2 p2
            refine ⟨s4, Outcome.resolved cur none :: outs, ?_, by simp [h2], ?_, ?_⟩
            · rw [h1]; rfl
            · rw [h3, hc2, ← hb outs none]
              simp
            · intro out hout
              rcases List.mem_cons.1 hout with rfl | hout
              · trivial
              · exact h4 out hout
          | some o =>
            obtain ⟨s4, outs, h1, h2, h3, h4⟩ :=
              UploadActors_loop_batches E lists Identical U hdict hlevel rest s3
                (objects2 ++ [o.addr]) p2
            refine ⟨s4, Outcome.resolved cur (some o.addr) :: outs, ?_, by simp [h2], ?_, ?_⟩
            · rw [h1]; rfl
            · rw [h3, hc2, ← hb outs (some o.addr)]
              rfl
            · intro out hout
              rcases List.mem_cons.1 hout with rfl | hout
              · exact hvalid o rfl
              · exact h4 out hout

/-! ### UploadActors: properties of the batches -/

theorem batches_none (cur obj : Option sfObjectAddr) (rest : List Outcome)
    (objects : List sfObjectAddr) :
    batches (Outcome.resolved cur obj :: rest) objects none =
      batches rest (objects ++ obj.toList) cur := by
  simp [batches]

theorem batches_same (q : sfObjectAddr) (obj : Option sfObjectAddr) (rest : List Outcome)
    (objects : List sfObjectAddr) :
    batches (Outcome.resolved (some q) obj :: rest) objects (some q) =
      batches rest (objects ++ obj.toList) (some q) := by
  simp [batches]

theorem batches_other (q : sfObjectAddr) (cur obj : Option sfObjectAddr) (rest : List Outcome)
    (objects : List sfObjectAddr) (h : cur ≠ some q) :
    batches (Outcome.resolved cur obj :: rest) objects (some q) =
      (if objects.length > 0 then [(objects, some q)] else []) ++ batches rest obj.toList cur := by
  simp [batches, h]

theorem sentObjects_append (R1 R2 : List (List sfObjectAddr × Option sfObjectAddr)) :
    sentObjects (R1 ++ R2) = sentObjects R1 ++ sentObjects R2 := by
  induction R1 with
  | nil => rfl
  | cons r rest ih =>
    obtain ⟨objects, p⟩ := r
    simp [sentObjects, ih]

theorem sentObjects_flush (objects : List sfObjectAddr) (p : Option sfObjectAddr) :
    sentObjects (if objects.length > 0 then [(objects, p)] else []) =
      objects.map (fun o => (o, p)) := by
  cases objects with
  | nil => rfl
  | cons o rest => simp [sentObjects]

theorem uploadedOf_resolved (cur obj : Option sfObjectAddr) (rest : List Outcome) :
    uploadedOf (Outcome.resolved cur obj :: rest) =
      obj.toList.map (fun o => (o, cur)) ++ uploadedOf rest := by
  cases obj <;> simp [uploadedOf]

/-- The objects of the batches are the collected objects followed by the
created objects of the outcomes, each with its resolved parent. -/
theorem batches_sent : ∀ (outs : List Outcome) (objects : List sfObjectAddr)
    (parentPtr : Option sfObjectAddr), (∀ out ∈ outs, out.valid) →
    (objects ≠ [] → parentPtr.isSome = true) →
    sentObjects (batches outs objects parentPtr) =
      objects.map (fun o => (o, parentPtr)) ++ uploadedOf outs
  | [], objects, parentPtr, _, _ => by
      simp only [batches, sentObjects_flush, uploadedOf, List.append_nil]
  | Outcome.skipped :: rest, objects, parentPtr, hv, hinv => by
      simp only [batches, uploadedOf]
      exact batches_sent rest objects parentPtr
        (fun out h => hv out (List.mem_cons_of_mem _ h)) hinv
  | Outcome.resolved cur obj :: rest, objects, parentPtr, hv, hinv => by
      have hvr : ∀ out ∈ rest, out.valid := fun out h => hv out (List.mem_cons_of_mem _ h)
      have hvo : obj.toList ≠ [] → cur.isSome = true := by
        intro h
        cases hob : obj with
        | none => rw [hob] at h; simp at h
        | some o =>
          have := hv _ (List.mem_cons_self _ _)
          rw [hob] at this
          exact this
      rw [uploadedOf_resolved]
      cases parentPtr with
      | none =>
        have hobj : objects = [] := by
          by_contra h
          have := hinv h
          simp at this
        subst hobj
        rw [batches_none, batches_sent rest _ cur hvr (by simpa using hvo)]
        simp
      | some q =>
        by_cases hc : cur = some q
        · subst hc
          rw [batches_same, batches_sent rest _ (some q) hvr (fun _ => rfl)]
          simp
        · rw [batches_other q cur obj rest objects hc, sentObjects_append, sentObjects_flush,
            batches_sent rest _ cur hvr hvo]

/-- No batch is empty. -/
theorem batches_nonempty : ∀ (outs : List Outcome) (objects : List sfObjectAddr)
    (parentPtr : Option sfObjectAddr), ∀ r ∈ batches outs objects parentPtr, r.1 ≠ []
  | [], objects, parentPtr, r, hr => by
      cases objects with
      | nil => simp [batches] at hr
      | cons o os =>
        simp [batches] at hr
        subst hr
        simp
  | Outcome.skipped :: rest, objects, parentPtr, r, hr => by
      simp only [batches] at hr
      exact batches_nonempty rest objects parentPtr r hr
  | Outcome.resolved cur obj :: rest, objects, parentPtr, r, hr => by
      cases parentPtr with
      | none =>
        rw [batches_none] at hr
        exact batches_nonempty rest _ _ r hr
      | some q =>
        by_cases hc : cur = some q
        · subst hc
          rw [batches_same] at hr
          exact batches_nonempty rest _ _ r hr
        · rw [batches_other q cur obj rest objects hc] at hr
          rcases List.mem_append.1 hr with h | h
          · cases objects with
            | nil => simp at h
            | cons o os =>
              simp at h
              subst h
              simp
          · exact batches_nonempty rest _ _ r h

/-- Collected objects are sent at the head of one request, with the parent
they are collected for. -/
theorem batches_pending : ∀ (outs : List Outcome) (objects : List sfObjectAddr)
    (q : sfObjectAddr), objects ≠ [] →
    ∃ r ∈ batches outs objects (some q), r.2 = some q ∧ objects <+: r.1
  | [], objects, q, hne => by
      have hl : objects.length > 0 := List.length_pos.2 hne
      exact ⟨(objects, some q), by simp [batches, hl], rfl, List.prefix_refl _⟩
  | Outcome.skipped :: rest, objects, q, hne => by
      simp only [batches]
      exact batches_pending rest objects q hne
  | Outcome.resolved cur obj :: rest, objects, q, hne => by
      have hl : objects.length > 0 := List.length_pos.2 hne
      by_cases hc : cur = some q
      · subst hc
        rw [batches_same]
        obtain ⟨r, hr, h1, h2⟩ := batches_pending rest (objects ++ obj.toList) q (by simp [hne])
        exact ⟨r, hr, h1, (List.prefix_append _ _).trans h2⟩
      · rw [batches_other q cur obj rest objects hc]
        exact ⟨(objects, some q), by simp [hl], rfl, List.prefix_refl _⟩

/-- The objects created for a run of outcomes with one parent join the
collected objects in one request. -/
theorem batches_run (q o : sfObjectAddr) (post : List Outcome) :
    ∀ (mid : List Outcome) (objects : List sfObjectAddr) (parentPtr : Option sfObjectAddr),
      (∀ m ∈ mid, m = Outcome.skipped ∨ ∃ ob, m = Outcome.resolved (some q) ob) →
      (objects = [] ∨ parentPtr = some q) →
      ∃ r ∈ batches (mid ++ Outcome.resolved (some q) (some o) :: post) objects parentPtr,
        r.2 = some q ∧ (objects ++ createdOf mid ++ [o]) <+: r.1
  | [], objects, parentPtr, _, hpar => by
      simp only [List.nil_append, createdOf, uploadedOf, List.map_nil, List.append_nil]
      cases parentPtr with
      | none =>
        rw [batches_none]
        exact batches_pending post _ q (by simp)
      | some q2 =>
        by_cases hc : some q = some q2
        · injection hc with hc
          subst hc
          rw [batches_same]
          exact batches_pending post _ q (by simp)
        · have hobj : objects = [] := by
            rcases hpar with h | h
            · exact h
            · exact absurd h.symm hc
          subst hobj
          rw [batches_other q2 (some q) _ post [] hc]
          simpa using batches_pending post [o] q (by simp)
  | Outcome.skipped :: mid, objects, parentPtr, hmid, hpar => by
      have := batches_run q o post mid objects parentPtr
        (fun m hm => hmid m (List.mem_cons_of_mem _ hm)) hpar
      simpa [batches, createdOf, uploadedOf] using this
  | Outcome.resolved cur ob :: mid, objects, parentPtr, hmid, hpar => by
      have hcur : cur = some q := by
        rcases hmid _ (List.mem_cons_self _ _) with h | ⟨ob2, h⟩
        · exact absurd h (by simp)
        · injection h
      subst hcur
      have hmid2 : ∀ m ∈ mid, m = Outcome.skipped ∨ ∃ ob, m = Outcome.resolved (some q) ob :=
        fun m hm => hmid m (List.mem_cons_of_mem _ hm)
      have hcr : createdOf (Outcome.resolved (some q) ob :: mid) = ob.toList ++ createdOf mid := by
        cases ob <;> simp [createdOf, uploadedOf]
      rw [hcr, List.cons_append]
      cases parentPtr with
      | none =>
        rw [batches_none]
        obtain ⟨r, hr, h1, h2⟩ := batches_run q o post mid (objects ++ ob.toList) (some q) hmid2
          (Or.inr rfl)
        exact ⟨r, hr, h1, by simpa [List.append_assoc] using h2⟩
      | some q2 =>
        by_cases hc : some q = some q2
        · injection hc with hc
          subst hc
          rw [batches_same]
          obtain ⟨r, hr, h1, h2⟩ := batches_run q o post mid (objects ++ ob.toList) (some q) hmid2
            (Or.inr rfl)
          exact ⟨r, hr, h1, by simpa [List.append_assoc] using h2⟩
        · have hobj : objects = [] := by
            rcases hpar with h | h
            · exact h
            · exact absurd h.symm hc
          subst hobj
          rw [batches_other q2 (some q) _ _ [] hc]
          obtain ⟨r, hr, h1, h2⟩ := batches_run q o post mid ob.toList (some q) hmid2 (Or.inr rfl)
          exact ⟨r, by simpa using hr, h1, by simpa using h2⟩

/-- Two created objects with the same parent are in one request when no actor
between them is resolved to another parent. -/
theorem batches_adjacent (q o1 o2 : sfObjectAddr) (mid post : List Outcome)
    (hmid : ∀ m ∈ mid, m = Outcome.skipped ∨ ∃ ob, m = Outcome.resolved (some q) ob) :
    ∀ (pre : List Outcome) (objects : List sfObjectAddr) (parentPtr : Option sfObjectAddr),
      ∃ r ∈ batches (pre ++ Outcome.resolved (some q) (some o1) ::
          (mid ++ Outcome.resolved (some q) (some o2) :: post)) objects parentPtr,
        r.2 = some q ∧ (o1 :: createdOf mid ++ [o2]) <:+: r.1
  | [], objects, parentPtr => by
      have key : ∀ objs : List sfObjectAddr,
          ∃ r ∈ batches (mid ++ Outcome.resolved (some q) (some o2) :: post) (objs ++ [o1])
            (some q), r.2 = some q ∧ (o1 :: createdOf mid ++ [o2]) <:+: r.1 := by
        intro objs
        obtain ⟨r, hr, h1, t, ht⟩ := batches_run q o2 post mid (objs ++ [o1]) (some q) hmid
          (Or.inr rfl)
        exact ⟨r, hr, h1, objs, t, by rw [← ht]; simp [List.append_assoc]⟩
      rw [List.nil_append]
      cases parentPtr with
      | none =>
        rw [batches_none]
        exact key objects
      | some q2 =>
        by_cases hc : some q = some q2
        · injection hc with hc
          subst hc
          rw [batches_same]
          exact key objects
        · rw [batches_other q2 (some q) _ _ objects hc]
          obtain ⟨r, hr, h⟩ := key []
          exact ⟨r, List.mem_append_right _ (by simpa using hr), h⟩
  | Outcome.skipped :: pre, objects, parentPtr => by
      simp only [List.cons_append, batches]
      exact batches_adjacent q o1 o2 mid post hmid pre objects parentPtr
  | Outcome.resolved cur ob :: pre, objects, parentPtr => by
      rw [List.cons_append]
      cases parentPtr with
      | none =>
        rw [batches_none]
        exact batches_adjacent q o1 o2 mid post hmid pre _ _
      | some q2 =>
        by_cases hc : cur = some q2
        · subst hc
          rw [batches_same]
          exact batches_adjacent q o1 o2 mid post hmid pre _ _
        · rw [batches_other q2 cur ob _ objects hc]
          obtain ⟨r, hr, h⟩ := batches_adjacent q o1 o2 mid post hmid pre ob.toList cur
          exact ⟨r, List.mem_append_right _ hr, h⟩

theorem sentObjects_fst (objects : List sfObjectAddr) (p : Option sfObjectAddr)
    (rest : List (List sfObjectAddr × Option sfObjectAddr)) :
    (sentObjects ((objects, p) :: rest)).map Prod.fst =
      objects ++ (sentObjects rest).map Prod.fst := by
  simp [sentObjects, List.map_map, Function.comp_def]

theorem filter_request_none (o : sfObjectAddr) :
    ∀ R : List (List sfObjectAddr × Option sfObjectAddr),
      ((sentObjects R).map Prod.fst).count o = 0 →
      R.filter (fun r => decide (o ∈ r.1)) = []
  | [], _ => rfl
  | (objects, p) :: rest, h => by
      rw [sentObjects_fst, List.count_append] at h
      have h1 : o ∉ objects := List.count_eq_zero.1 (by omega)
      simp only [List.filter, h1, decide_False]
      exact filter_request_none o rest (by omega)

/-- An object that is sent once is in exactly one request. -/
theorem filter_request_count (o : sfObjectAddr) :
    ∀ R : List (List sfObjectAddr × Option sfObjectAddr),
      ((sentObjects R).map Prod.fst).count o = 1 →
      (R.filter (fun r => decide (o ∈ r.1))).length = 1
  | [], h => by simp [sentObjects] at h
  | (objects, p) :: rest, h => by
      rw [sentObjects_fst, List.count_append] at h
      by_cases h1 : o ∈ objects
      · have hpos : 0 < objects.count o := List.count_pos_iff.2 h1
        simp only [List.filter, h1, decide_True, List.length_cons]
        rw [filter_request_none o rest (by omega)]
        rfl
      · have h0 : objects.count o = 0 := List.count_eq_zero.2 h1
        simp only [List.filter, h1, decide_False]
        exact filter_request_count o rest (by omega)

/-- The requests that `UploadActors` sends for the sample list: the first two
actors and the fourth have the level object 10 as parent, the third the object
12 of the component it is attached to. -/
theorem UploadActors_sample :
    (sfActorManager.UploadActors (sampleEngine none) ⟨[], []⟩ Identical_InContainer
        sampleUploadEnv sampleUploadState sampleUploadList).map
      (fun r => (createRequests r.1.effects, r.2)) =
      some ([([50, 51], some 10), ([52], some 12), ([53], some 10)],
        [Outcome.resolved (some 10) (some 50), Outcome.resolved (some 10) (some 51),
          Outcome.resolved (some 12) (some 52), Outcome.resolved (some 10) (some 53)]) := by
  rfl

/-- The requests that `UploadActors` sends for the list with an actor of the
waiting level in the middle: no object is created for that actor, and the
objects of the two actors of level 1 are sent in two requests. -/
theorem UploadActors_split :
    (sfActorManager.UploadActors sampleUploadEngine ⟨[], []⟩ Identical_InContainer
        sampleUploadEnv sampleUploadState sampleSplitList).map
      (fun r => (createRequests r.1.effects, r.2)) =
      some ([([50], some 10), ([51], some 10)],
        [Outcome.resolved (some 10) (some 50), Outcome.resolved (some 17) none,
          Outcome.resolved (some 10) (some 51)]) := by
  rfl

/-- C15 as stated fails: of three actors, the first and the third in level 1
and the second in a level that is waiting for its children, only the first and
the third are uploaded. They follow each other among the uploaded actors and
have the same parent, the level object 10, and their objects 50 and 51 are sent
in two requests: the second actor resolves to the other level object, which
ends the first request, and `CreateObject` returns null for it. -/
theorem C15_upload_counterexample :
    ¬ (∀ (E : Engine) (lists : SyncLists) (Identical : UPropType → UValue → UValue → Bool)
        (U : UploadEnv) (s : State) (actors : List AActor) (s1 : State) (outs : List Outcome),
        (∀ s0 o, ∃ d, (U.deref s0 o).Property.AsDict = some d) →
        (∀ s0 (a : AActor) o, U.attachParent a = none →
          sfLevelManager.GetLevelObject E a.Level = some o → U.IsFullyLocked s0 o = false) →
        sfActorManager.UploadActors E lists Identical U s actors = some (s1, outs) →
        ∀ (pre mid post : List Outcome) (q o1 o2 : sfObjectAddr),
          outs = pre ++ Outcome.resolved (some q) (some o1) ::
            (mid ++ Outcome.resolved (some q) (some o2) :: post) →
          createdOf mid = [] →
          ∃ r ∈ (createRequests s1.effects).drop (createRequests s.effects).length,
            o1 ∈ r.1 ∧ o2 ∈ r.1) := by
  intro h
  obtain ⟨r, hr, h1, h2⟩ := h sampleUploadEngine ⟨[], []⟩ Identical_InContainer sampleUploadEnv
    sampleUploadState sampleSplitList _ _ (fun _ _ => ⟨[], rfl⟩) (fun _ _ _ _ _ => rfl) rfl []
    [Outcome.resolved (some 17) none] [] 10 50 51 rfl rfl
  have hreq : r = ([50], some 10) ∨ r = ([51], some 10) := by
    simpa [createRequests, sampleUploadState, emptyState] using hr
  rcases hreq with rfl | rfl
  · simp at h2
  · simp at h1

/-- C15 (amended): for every list of actors, `UploadActors` is defined when
every object has a dictionary as its property and the level object of an actor
without attach parent is not fully locked, and the `Create` requests it
sends, taken in order with each object paired with the parent of its request,
are exactly the objects created for the actors in input order, each paired with
the parent object resolved for its actor. So a request holds only objects whose
resolved parent is the parent of the request, no request is empty, and an
object that is created once is in exactly one request. Two uploaded actors with
the same parent are sent in the same request, next to the objects created
between them, when every actor between them in the list is skipped before its
parent is compared or resolves to that parent. -/
theorem C15_upload (E : Engine) (lists : SyncLists)
    (Identical : UPropType → UValue → UValue → Bool) (U : UploadEnv) (s : State)
    (actors : List AActor)
    (hdict : ∀ s0 o, ∃ d, (U.deref s0 o).Property.AsDict = some d)
    (hlevel : ∀ s0 (a : AActor) o, U.attachParent a = none →
      sfLevelManager.GetLevelObject E a.Level = some o → U.IsFullyLocked s0 o = false) :
    ∃ s1 outs requests,
      sfActorManager.UploadActors E lists Identical U s actors = some (s1, outs) ∧
      outs.length = actors.length ∧
      createRequests s1.effects = createRequests s.effects ++ requests ∧
      sentObjects requests = uploadedOf outs ∧
      (∀ r ∈ requests, r.1 ≠ []) ∧
      (∀ o, (createdOf outs).count o = 1 →
        (requests.filter (fun r => decide (o ∈ r.1))).length = 1) ∧
      (∀ (pre mid post : List Outcome) (q o1 o2 : sfObjectAddr),
        outs = pre ++ Outcome.resolved (some q) (some o1) ::
          (mid ++ Outcome.resolved (some q) (some o2) :: post) →
        (∀ m ∈ mid, m = Outcome.skipped ∨ ∃ ob, m = Outcome.resolved (some q) ob) →
        ∃ r ∈ requests, r.2 = some q ∧ (o1 :: createdOf mid ++ [o2]) <:+: r.1) := by
  obtain ⟨s1, outs, h1, h2, h3, h4⟩ :=
    UploadActors_loop_batches E lists Identical U hdict hlevel actors s [] none
  have hsent := batches_sent outs [] none h4 (fun h => absurd rfl h)
  refine ⟨s1, outs, batches outs [] none, h1, h2, h3, ?_, ?_, ?_, ?_⟩
  · simpa using hsent
  · exact batches_nonempty outs [] none
  · intro o ho
    apply filter_request_count
    rw [hsent]
    simpa [createdOf] using ho
  · intro pre mid post q o1 o2 hout hmid
    rw [hout]
    exact batches_adjacent q o1 o2 mid post hmid pre [] none

theorem C15_upload_witness :
    (∀ (s0 : State) (o : sfObjectAddr), ∃ d,
      (sampleUploadEnv.deref s0 o).Property.AsDict = some d) ∧
    (∀ (s0 : State) (a : AActor) (o : sfObjectAddr), sampleUploadEnv.attachParent a = none →
      sfLevelManager.GetLevelObject (sampleEngine none) a.Level = some o →
      sampleUploadEnv.IsFullyLocked s0 o = false) ∧
    ∃ s1 outs requests,
      sfActorManager.UploadActors (sampleEngine none) ⟨[], []⟩ Identical_InContainer
        sampleUploadEnv sampleUploadState sampleUploadList = some (s1, outs) ∧
      outs.length = sampleUploadList.length ∧
      createRequests s1.effects = createRequests sampleUploadState.effects ++ requests ∧
      sentObjects requests = uploadedOf outs ∧
      (∀ r ∈ requests, r.1 ≠ []) ∧
      (∀ o, (createdOf outs).count o = 1 →
        (requests.filter (fun r => decide (o ∈ r.1))).length = 1) ∧
      (∀ (pre mid post : List Outcome) (q o1 o2 : sfObjectAddr),
        outs = pre ++ Outcome.resolved (some q) (some o1) ::
          (mid ++ Outcome.resolved (some q) (some o2) :: post) →
        (∀ m ∈ mid, m = Outcome.skipped ∨ ∃ ob, m = Outcome.resolved (some q) ob) →
        ∃ r ∈ requests, r.2 = some q ∧ (o1 :: createdOf mid ++ [o2]) <:+: r.1) :=
  ⟨fun _ _ => ⟨[], rfl⟩, fun _ _ _ _ _ => rfl,
    C15_upload (sampleEngine none) ⟨[], []⟩ Identical_InContainer sampleUploadEnv
      sampleUploadState sampleUploadList (fun _ _ => ⟨[], rfl⟩) (fun _ _ _ _ _ => rfl)⟩

/-! ### The flag of the soft reference setters -/

/-- C21 fails on the code: `SetSoftClass` returns true whatever the pointer
held. A null soft class pointer set from the null property, which is what
`GetSoftClass` gives for it, is null afterwards and the setter returns true;
the same for the pointer with the path "Cube" set from `GetSoftClass` of that
path. `SetSoftObject` returns true for the null property on a pointer that is
null already. -/
theorem C21_soft_setters :
    GetSoftClass (some sampleTable) "" = sfProperty.null ∧
    SetSoftClass (some sampleTable) "" sfProperty.null = some (true, "") ∧
    SetSoftClass (some sampleTable) "Cube" (GetSoftClass (some sampleTable) "Cube") =
      some (true, "Cube") ∧
    SetSoftObject (some sampleTable) sampleSoftObjectEnv "" sfProperty.null = some (true, "") := by
  refine ⟨rfl, rfl, ?_, rfl⟩
  decide

/-! ### Remove and GetOrCreateSFObject of the map -/

/-- C22: `Remove` by native and `Remove` by object return the partner that the
map holds for the argument, and afterwards `Contains` is false for the argument
and for the returned partner. The result is null exactly when the argument is
null or not in the map, and the map is then as before. This holds in every
state of the two maps. -/
theorem C22_remove (m : sfObjectMap) (uobjPtr : Option UObjectAddr)
    (objPtr : Option sfObjectAddr) :
    ((m.RemoveUObject uobjPtr).1 = m.GetSFObject uobjPtr ∧
      (m.RemoveUObject uobjPtr).2.ContainsUObject uobjPtr = false ∧
      (m.RemoveUObject uobjPtr).2.ContainsSFObject (m.RemoveUObject uobjPtr).1 = false ∧
      ((m.RemoveUObject uobjPtr).1 = none ↔
        (uobjPtr = none ∨ m.ContainsUObject uobjPtr = false)) ∧
      ((m.RemoveUObject uobjPtr).1 = none → (m.RemoveUObject uobjPtr).2 = m)) ∧
    ((m.RemoveSFObject objPtr).1 = m.GetUObject objPtr ∧
      (m.RemoveSFObject objPtr).2.ContainsSFObject objPtr = false ∧
      (m.RemoveSFObject objPtr).2.ContainsUObject (m.RemoveSFObject objPtr).1 = false ∧
      ((m.RemoveSFObject objPtr).1 = none ↔
        (objPtr = none ∨ m.ContainsSFObject objPtr = false)) ∧
      ((m.RemoveSFObject objPtr).1 = none → (m.RemoveSFObject objPtr).2 = m)) := by
  constructor
  · cases uobjPtr with
    | none => simp [sfObjectMap.RemoveUObject, sfObjectMap.GetSFObject,
        sfObjectMap.ContainsUObject, sfObjectMap.ContainsSFObject]
    | some u =>
      cases h : mapFind m.m_uToSFObjectMap u with
      | none =>
        simp [sfObjectMap.RemoveUObject, sfObjectMap.GetSFObject, sfObjectMap.ContainsUObject,
          sfObjectMap.ContainsSFObject, h]
      | some o =>
        simp [sfObjectMap.RemoveUObject, sfObjectMap.GetSFObject, sfObjectMap.ContainsUObject,
          sfObjectMap.ContainsSFObject, h, mapFind_mapErase]
  · cases objPtr with
    | none => simp [sfObjectMap.RemoveSFObject, sfObjectMap.GetUObject,
        sfObjectMap.ContainsUObject, sfObjectMap.ContainsSFObject]
    | some o =>
      cases h : mapFind m.m_sfToUObjectMap o with
      | none =>
        simp [sfObjectMap.RemoveSFObject, sfObjectMap.GetUObject, sfObjectMap.ContainsUObject,
          sfObjectMap.ContainsSFObject, h]
      | some u =>
        simp [sfObjectMap.RemoveSFObject, sfObjectMap.GetUObject, sfObjectMap.ContainsUObject,
          sfObjectMap.ContainsSFObject, h, mapFind_mapErase]

/-- C23: for a native `u` that is not null, `GetOrCreateSFObject(u, type)`
returns the object that the map holds for `u` and leaves the map as it is when
there is one; otherwise it returns the new object, which has the given type and
an empty dictionary, and afterwards the map holds it for `u` and `u` for it. A
second call returns the same object and changes nothing. For a null native the
result is null and the map is as before. -/
theorem C23_get_or_create (deref : sfObjectAddr → sfObject) (m : sfObjectMap) (u : UObjectAddr)
    (type : sfType) (created created2 : sfObjectAddr) :
    (∀ o, m.GetSFObject (some u) = some o →
      m.GetOrCreateSFObject (some u) created = (some o, m) ∧
      sfObjectMap.GetOrCreateSFObject.object deref m (some u) type created = some (deref o)) ∧
    (m.GetSFObject (some u) = none →
      (m.GetOrCreateSFObject (some u) created).1 = some created ∧
      (∃ obj, sfObjectMap.GetOrCreateSFObject.object deref m (some u) type created = some obj ∧
        obj.addr = created ∧ obj.Type = type ∧ obj.Property = sfProperty.dictionary []) ∧
      (m.GetOrCreateSFObject (some u) created).2.GetSFObject (some u) = some created ∧
      (m.GetOrCreateSFObject (some u) created).2.GetUObject (some created) = some u) ∧
    (m.GetOrCreateSFObject (some u) created).2.GetOrCreateSFObject (some u) created2 =
      m.GetOrCreateSFObject (some u) created ∧
    m.GetOrCreateSFObject none created = (none, m) ∧
    sfObjectMap.GetOrCreateSFObject.object deref m none type created = none := by
  refine ⟨?_, ?_, ?_, rfl, rfl⟩
  · intro o h
    have h1 : mapFind m.m_uToSFObjectMap u = some o := h
    simp [sfObjectMap.GetOrCreateSFObject, sfObjectMap.GetOrCreateSFObject.object, h1]
  · intro h
    have h1 : mapFind m.m_uToSFObjectMap u = none := h
    simp [sfObjectMap.GetOrCreateSFObject, sfObjectMap.GetOrCreateSFObject.object, h1,
      sfObjectMap.Add, sfObjectMap.GetSFObject, sfObjectMap.GetUObject, mapFind_mapSet,
      sfObject.Create, sfDictionaryProperty.Create, sfObject.addr, sfObject.Type,
      sfObject.Property]
  · cases h1 : mapFind m.m_uToSFObjectMap u with
    | some o => simp [sfObjectMap.GetOrCreateSFObject, h1]
    | none =>
      simp [sfObjectMap.GetOrCreateSFObject, h1, sfObjectMap.Add, mapFind_mapSet]

/-! ### SetSet and SetMap on sparse storage with as many elements as the list -/

/-- C25 fails on the code: the native set has the free slot 0 and the elements
1 and 2 in the slots 1 and 2, and the incoming list has two elements. The
sizes agree, so nothing is emptied and the loop applies the element setter to
`GetElementPtr(0)`, the free slot. The same for a map with the free slot 0.
`GetSet` of the set before the call is already the incoming list. -/
theorem C25_sparse_same_count :
    SparseArray.Num [none, some 1, some 2] = 2 ∧
    SparseArray.IsValidIndex [none, some 1, some 2] 0 = false ∧
    GetSet (some natHandler) [none, some 1, some 2] =
      some (sfProperty.list
        [sfProperty.value (ksMultiType.INT 1), sfProperty.value (ksMultiType.INT 2)]) ∧
    SetSet (some natHandler) 0 [none, some 1, some 2]
      (sfProperty.list
        [sfProperty.value (ksMultiType.INT 1), sfProperty.value (ksMultiType.INT 2)]) = none ∧
    SetMap (some natHandler) (some natHandler) (0, 0) [none, some (1, 10), some (2, 20)]
      (sfProperty.list
        [sfProperty.list
            [sfProperty.value (ksMultiType.INT 1), sfProperty.value (ksMultiType.INT 10)],
          sfProperty.list
            [sfProperty.value (ksMultiType.INT 2), sfProperty.value (ksMultiType.INT 20)]]) =
      none := by
  refine ⟨rfl, rfl, rfl, rfl, rfl⟩

/-! ### Deletion of empty folders -/

/-- C26 fails on the code: the queue holds the folder "A" and its child "A/B",
and the only actor of the world has the folder path "A/B". The actor removes
"A/B" from the queue and the `break` ends the inner loop, so "A" stays queued
and `DeleteFolder` is called with it although it is not empty. -/
theorem C26_nested_folders :
    sfActorManager.DeleteEmptyFolders true PathIsChildOf ["A/B"] ["A", "A/B"] = (["A"], []) ∧
    folderIsEmpty PathIsChildOf ["A/B"] "A" = false ∧
    PathIsChildOf "A/B" "A" = true := by
  decide

/-! ### Broadcast of the change events -/

/-- The loop of `BroadcastChangeEvents` changes the events only: it appends the
pairs whose native is in the map, each with the state of the handler at the
start of the loop. -/
theorem BroadcastChangeEvents_loop_spec (m : sfObjectMap) :
    ∀ (pairs : List (UObjectAddr × Option FName)) (s : BroadcastState),
      BroadcastChangeEvents.loop m pairs s =
        { s with events := (s.events ++
            List.map (fun p => ⟨p.1, p.2, s.m_onPropertyChangeHandle⟩)
              (pairs.filter (fun p => m.ContainsUObject (some p.1)))) }
  | [], s => by simp [BroadcastChangeEvents.loop]
  | pair :: rest, s => by
      unfold BroadcastChangeEvents.loop
      by_cases h : m.ContainsUObject (some pair.1) = true
      · simp only [h, if_true]
        rw [BroadcastChangeEvents_loop_spec m rest]
        simp [List.filter, h, ListeningForPropertyChanges]
      · have h2 : m.ContainsUObject (some pair.1) = false := by simpa using h
        simp only [h2, Bool.false_eq_true, if_false]
        rw [BroadcastChangeEvents_loop_spec m rest]
        simp [List.filter, h]
        

/-- C28: the calls of `PostEditChangeProperty` that `BroadcastChangeEvents`
makes are one for each pending pair whose native is in the map, in order, and
each is made while the property change handler is not registered. On return no
pair is pending and the handler is registered again; it is registered before
the call, as it is while the session is connected. -/
theorem C28_broadcast (m : sfObjectMap) (s : BroadcastState)
    (hlistening : ListeningForPropertyChanges s = true) :
    (BroadcastChangeEvents m s).events = s.events ++
        (s.m_serverChangedProperties.filter (fun p => m.ContainsUObject (some p.1))).map
          (fun p => ⟨p.1, p.2, false⟩) ∧
    (∀ e ∈ ((BroadcastChangeEvents m s).events.drop s.events.length),
      e.listening = false ∧ m.ContainsUObject (some e.uobjPtr) = true) ∧
    (BroadcastChangeEvents m s).m_serverChangedProperties = [] ∧
    ListeningForPropertyChanges (BroadcastChangeEvents m s) = true := by
  have hev : (BroadcastChangeEvents m s).events = s.events ++
      (s.m_serverChangedProperties.filter (fun p => m.ContainsUObject (some p.1))).map
        (fun p => ⟨p.1, p.2, false⟩) := by
    unfold BroadcastChangeEvents
    cases hp : s.m_serverChangedProperties with
    | nil => simp
    | cons p rest =>
      simp [BroadcastChangeEvents_loop_spec, EnablePropertyChangeHandler,
        DisablePropertyChangeHandler]
  refine ⟨hev, ?_, ?_, ?_⟩
  · intro e he
    rw [hev, List.drop_left] at he
    obtain ⟨p, hp, rfl⟩ := List.mem_map.1 he
    have := (List.mem_filter.1 hp).2
    exact ⟨rfl, by simpa using this⟩
  · unfold BroadcastChangeEvents
    cases hp : s.m_serverChangedProperties with
    | nil => simp [hp]
    | cons p rest => simp [EnablePropertyChangeHandler]
  · unfold BroadcastChangeEvents
    cases hp : s.m_serverChangedProperties with
    | nil => simpa using hlistening
    | cons p rest => simp [EnablePropertyChangeHandler, ListeningForPropertyChanges]

theorem C28_broadcast_witness :
    ListeningForPropertyChanges sampleBroadcastState = true ∧
    (BroadcastChangeEvents sampleMappedState.objectMap sampleBroadcastState).events =
      sampleBroadcastState.events ++
        (sampleBroadcastState.m_serverChangedProperties.filter
          (fun p => sampleMappedState.objectMap.ContainsUObject (some p.1))).map
          (fun p => ⟨p.1, p.2, false⟩) ∧
    (∀ e ∈ ((BroadcastChangeEvents sampleMappedState.objectMap sampleBroadcastState).events.drop
        sampleBroadcastState.events.length),
      e.listening = false ∧ sampleMappedState.objectMap.ContainsUObject (some e.uobjPtr) = true) ∧
    (BroadcastChangeEvents sampleMappedState.objectMap
      sampleBroadcastState).m_serverChangedProperties = [] ∧
    ListeningForPropertyChanges
      (BroadcastChangeEvents sampleMappedState.objectMap sampleBroadcastState) = true :=
  ⟨rfl, C28_broadcast sampleMappedState.objectMap sampleBroadcastState rfl⟩

/-- The events of the sample: one call, for the native 21. -/
theorem BroadcastChangeEvents_sample :
    BroadcastChangeEvents sampleMappedState.objectMap sampleBroadcastState =
      ⟨true, [], [⟨21, some 3, false⟩]⟩ := by
  decide

/-! ### CopyList after the deletion of one element -/

/-- The recorded loop computes what `CopyList.loop` computes. -/
theorem CopyList_calls_loop_fst :
    ∀ (src : List sfProperty) (skip : Bool) (done rest toAdd : List sfProperty)
      (calls : List ListCall),
      ((CopyList.calls.loop src skip done rest toAdd calls).1,
        (CopyList.calls.loop src skip done rest toAdd calls).2.1) =
        CopyList.loop src skip done rest toAdd
  | [], skip, done, rest, toAdd, calls => by
      cases skip <;> simp [CopyList.calls.loop, CopyList.loop]
  | e :: srcRest, true, done, rest, toAdd, calls => by
      simp only [CopyList.calls.loop, CopyList.loop]
      exact CopyList_calls_loop_fst srcRest false done rest toAdd calls
  | e :: srcRest, false, done, [], toAdd, calls => by
      simp only [CopyList.calls.loop, CopyList.loop]
      exact CopyList_calls_loop_fst srcRest false done [] _ calls
  | e :: srcRest, false, done, d :: ds, toAdd, calls => by
      simp only [CopyList.calls.loop, CopyList.loop]
      split
      · exact CopyList_calls_loop_fst srcRest false _ ds toAdd calls
      · split
        · exact CopyList_calls_loop_fst srcRest false _ _ toAdd _
        · split
          · exact CopyList_calls_loop_fst srcRest true _ ds toAdd _
          · split
            · exact CopyList_calls_loop_fst srcRest false _ ds toAdd _
            · exact CopyList_calls_loop_fst srcRest false _ ds toAdd _

/-- The recorded `CopyList` leaves the destination that `CopyList` leaves. -/
theorem CopyList_calls_fst (dest src : List sfProperty) :
    (CopyList.calls dest src).1 = CopyList dest src := by
  have h := CopyList_calls_loop_fst src false [] dest [] []
  unfold CopyList.calls CopyList
  simp only []
  rw [← h]
  simp only []
  split
  · rfl
  · split <;> rfl

/-- On equal lists the loop makes no call. -/
theorem CopyList_calls_loop_same :
    ∀ (l done toAdd : List sfProperty) (calls : List ListCall),
      CopyList.calls.loop l false done l toAdd calls = (done ++ l, toAdd, calls)
  | [], done, toAdd, calls => by simp [CopyList.calls.loop]
  | e :: rest, done, toAdd, calls => by
      simp only [CopyList.calls.loop, sfProperty.beq_refl, if_true]
      rw [CopyList_calls_loop_same rest]
      simp

/-- The loop on a destination with one more element at its head than the
source: it makes no call and the elements are all the same, or the source is
not empty, it makes one `Remove` and the destination is the source. -/
theorem CopyList_calls_loop_deleted :
    ∀ (B : List sfProperty) (x : sfProperty) (done : List sfProperty) (calls : List ListCall),
      (CopyList.calls.loop B false done (x :: B) [] calls = (done ++ x :: B, [], calls) ∧
          (x :: B).dropLast = B) ∨
        (B ≠ [] ∧ ∃ k, CopyList.calls.loop B false done (x :: B) [] calls =
          (done ++ B, [], calls ++ [ListCall.Remove k]))
  | [], x, done, calls => by
      left
      simp [CopyList.calls.loop]
  | b :: B, x, done, calls => by
      simp only [CopyList.calls.loop]
      by_cases hbx : sfProperty.beq b x = true
      · have hb : b = x := sfProperty.eq_of_beq b x hbx
        subst hb
        simp only [hbx, if_true]
        rcases CopyList_calls_loop_deleted B b (done ++ [b]) calls with ⟨h1, h2⟩ | ⟨_, k, h⟩
        · left
          rw [h1]
          refine ⟨by simp, ?_⟩
          rw [List.dropLast_cons₂, h2]
        · right
          exact ⟨by simp, k, by rw [h]; simp⟩
      · right
        simp only [hbx, if_false, headEquals, sfProperty.beq_refl, if_true, List.take,
          List.drop]
        exact ⟨by simp, done.length, by rw [CopyList_calls_loop_same]; simp⟩

/-- The same after a common prefix. -/
theorem CopyList_calls_loop_prefix (B : List sfProperty) (x : sfProperty) :
    ∀ (A done : List sfProperty) (calls : List ListCall),
      (CopyList.calls.loop (A ++ B) false done (A ++ x :: B) [] calls =
            (done ++ A ++ x :: B, [], calls) ∧
          (x :: B).dropLast = B) ∨
        (B ≠ [] ∧ ∃ k, CopyList.calls.loop (A ++ B) false done (A ++ x :: B) [] calls =
          (done ++ A ++ B, [], calls ++ [ListCall.Remove k]))
  | [], done, calls => by
      simpa using CopyList_calls_loop_deleted B x done calls
  | a :: A, done, calls => by
      simp only [List.cons_append, CopyList.calls.loop, sfProperty.beq_refl, if_true]
      rcases CopyList_calls_loop_prefix B x A (done ++ [a]) calls with ⟨h1, h2⟩ | ⟨hne, k, h⟩
      · left
        exact ⟨by simpa using h1, h2⟩
      · right
        exact ⟨hne, k, by simpa using h⟩

/-- The recorded `CopyList` on a destination with one element more than the
source. -/
theorem CopyList_calls_deleted (A B : List sfProperty) (x : sfProperty) :
    CopyList.calls (A ++ x :: B) (A ++ B) = (A ++ B, [ListCall.Resize (A ++ B).length]) ∨
      (B ≠ [] ∧ ∃ k, CopyList.calls (A ++ x :: B) (A ++ B) = (A ++ B, [ListCall.Remove k])) := by
  unfold CopyList.calls
  rcases CopyList_calls_loop_prefix B x A [] [] with ⟨h1, h2⟩ | ⟨hne, k, h⟩
  · left
    have hlt : (A ++ B).length < (A ++ x :: B).length := by simp
    have htake : (A ++ x :: B).take (A ++ B).length = A ++ B := by
      have h3 : (x :: B).take B.length = B := by
        have := List.dropLast_eq_take (x :: B)
        rw [h2] at this
        simpa using this.symm
      rw [List.length_append, List.take_append_eq_append_take]
      simp [h3]
    simp only [h1, List.nil_append, List.length_nil, gt_iff_lt, lt_self_iff_false, if_false,
      hlt, if_true, htake]
  · right
    refine ⟨hne, k, ?_⟩
    simp only [h, List.nil_append, List.length_nil, gt_iff_lt, lt_self_iff_false, if_false]

/-- C29: when the source is the destination with one element deleted,
`CopyList` makes exactly one call on the destination, a `Remove` or the
`Resize` to the size of the source, and the destination is the source
afterwards: there is no `Set`, `Insert`, `AddRange` or copy into an element.
The call is the `Resize` when the deleted element was the last. -/
theorem C29_copy_list_deleted (A B : List sfProperty) (x : sfProperty) :
    (CopyList.calls (A ++ x :: B) (A ++ B)).1 = A ++ B ∧
    CopyList (A ++ x :: B) (A ++ B) = A ++ B ∧
    ((CopyList.calls (A ++ x :: B) (A ++ B)).2 = [ListCall.Resize (A ++ B).length] ∨
      ∃ k, (CopyList.calls (A ++ x :: B) (A ++ B)).2 = [ListCall.Remove k]) ∧
    (B = [] → (CopyList.calls (A ++ x :: B) (A ++ B)).2 = [ListCall.Resize (A ++ B).length]) := by
  have hfst : (CopyList.calls (A ++ x :: B) (A ++ B)).1 = A ++ B := by
    rcases CopyList_calls_deleted A B x with h | ⟨_, k, h⟩ <;> rw [h]
  refine ⟨hfst, ?_, ?_, ?_⟩
  · rw [← CopyList_calls_fst]
    exact hfst
  · rcases CopyList_calls_deleted A B x with h | ⟨_, k, h⟩
    · exact Or.inl (by rw [h])
    · exact Or.inr ⟨k, by rw [h]⟩
  · intro hB
    rcases CopyList_calls_deleted A B x with h | ⟨hne, _⟩
    · rw [h]
    · exact absurd hB hne

/-! ### Insertion of list elements and the change mark -/

/-- C30 fails on the code: an `int32` array holds 5 and the server inserts the
element 0 at index 1. `InsertValues` adds a zero element, `SetValue` finds it
equal to the incoming 0 and returns false, so `MarkPropertyChanged` is not
called although the array has grown. The same for a set of `int32` that
receives the element 0. `OnListRemove` of the element marks the property. -/
theorem C30_insert_default :
    OnListAdd (UPropType.ArrayProperty (UPropType.IntProperty IntKind.Int32))
        (UValue.array [UValue.int 5])
        [sfProperty.value (ksMultiType.INT 5), sfProperty.value (ksMultiType.INT 0)] 1 1 [] =
      some (false, UValue.array [UValue.int 5, UValue.int 0]) ∧
    OnListAdd (UPropType.SetProperty (UPropType.IntProperty IntKind.Int32))
        (UValue.set [some (UValue.int 5)])
        [sfProperty.value (ksMultiType.INT 5), sfProperty.value (ksMultiType.INT 0)] 1 1 [] =
      some (false, UValue.set [some (UValue.int 5), some (UValue.int 0)]) ∧
    OnListAdd (UPropType.ArrayProperty (UPropType.IntProperty IntKind.Int32))
        (UValue.array [UValue.int 5])
        [sfProperty.value (ksMultiType.INT 5), sfProperty.value (ksMultiType.INT 7)] 1 1 [] =
      some (true, UValue.array [UValue.int 5, UValue.int 7]) ∧
    OnListRemove (UPropType.ArrayProperty (UPropType.IntProperty IntKind.Int32))
        (UValue.array [UValue.int 5, UValue.int 0]) 1 1 =
      some (true, UValue.array [UValue.int 5]) := by
  refine ⟨?_, ?_, ?_, ?_⟩ <;> rfl

/-! ### Repair of the child lists after a transaction -/

theorem setChildren_children (w : ComponentWorld) (c x : UObjectAddr)
    (l : List (Option UObjectAddr)) :
    ((w.setChildren c l).component x).GetAttachChildren =
      if x = c then l else (w.component x).GetAttachChildren := by
  unfold ComponentWorld.setChildren ComponentWorld.setComponent
  by_cases h : x = c <;> simp [h]

theorem setChildren_parent (w : ComponentWorld) (c x : UObjectAddr)
    (l : List (Option UObjectAddr)) :
    ((w.setChildren c l).component x).GetAttachParent = (w.component x).GetAttachParent := by
  unfold ComponentWorld.setChildren ComponentWorld.setComponent
  by_cases h : x = c <;> simp [h]

theorem setChildren_kill (w : ComponentWorld) (c x : UObjectAddr)
    (l : List (Option UObjectAddr)) :
    ((w.setChildren c l).component x).IsPendingKill = (w.component x).IsPendingKill := by
  unfold ComponentWorld.setChildren ComponentWorld.setComponent
  by_cases h : x = c <;> simp [h]

/-- Taking entries out of a child list keeps every list in agreement. -/
theorem childrenAgree_setChildren_sub (w : ComponentWorld) (c P : UObjectAddr)
    (l : List (Option UObjectAddr))
    (hsub : ∀ e ∈ l, e ∈ (w.component c).GetAttachChildren) (h : childrenAgree w P) :
    childrenAgree (w.setChildren c l) P := by
  intro e he
  rw [setChildren_children] at he
  have hold : e ∈ (w.component P).GetAttachChildren := by
    by_cases hP : P = c
    · rw [if_pos hP] at he
      rw [hP]
      exact hsub e he
    · rw [if_neg hP] at he
      exact he
  obtain ⟨x, hx1, hx2⟩ := h e hold
  exact ⟨x, hx1, by rw [setChildren_parent]; exact hx2⟩

/-- Adding a component to the list of its attach parent keeps every list in
agreement. -/
theorem childrenAgree_setChildren_add (w : ComponentWorld) (p C P : UObjectAddr)
    (hparent : (w.component C).GetAttachParent = some p) (h : childrenAgree w P) :
    childrenAgree (w.setChildren p ((w.component p).GetAttachChildren ++ [some C])) P := by
  intro e he
  rw [setChildren_children] at he
  by_cases hP : P = p
  · rw [if_pos hP] at he
    rcases List.mem_append.1 he with h1 | h1
    · obtain ⟨x, hx1, hx2⟩ := h e (by rw [hP]; exact h1)
      exact ⟨x, hx1, by rw [setChildren_parent]; exact hx2⟩
    · have : e = some C := by simpa using h1
      exact ⟨C, this, by rw [setChildren_parent, hP]; exact hparent⟩
  · rw [if_neg hP] at he
    obtain ⟨x, hx1, hx2⟩ := h e he
    exact ⟨x, hx1, by rw [setChildren_parent]; exact hx2⟩

/-- The loop over the children of a duplicate keeps a component pending kill
or in agreement. -/
theorem attachChildrenToOriginal_keeps (ops : EngineOps) (hops : ops.Lawful)
    (componentPtr otherPtr : UObjectAddr) :
    ∀ (i : Nat) (w w1 : ComponentWorld),
      attachChildrenToOriginal ops componentPtr otherPtr i w = some w1 →
      ∀ P, ((w.component P).IsPendingKill = true ∨ childrenAgree w P) →
        ((w1.component P).IsPendingKill = true ∨ childrenAgree w1 P)
  | 0, w, w1, h, P, hP => by
      simp only [attachChildrenToOriginal, Option.some.injEq] at h
      subst h
      exact hP
  | i + 1, w, w1, h, P, hP => by
      simp only [attachChildrenToOriginal] at h
      split at h
      · rename_i childPtr _
        split at h
        · exact attachChildrenToOriginal_keeps ops hops componentPtr otherPtr i w w1 h P hP
        · refine attachChildrenToOriginal_keeps ops hops componentPtr otherPtr i _ w1 h P ?_
          have hmid : ∀ w0 : ComponentWorld,
              w0 = (if (w.component otherPtr).GetAttachChildren.contains (some childPtr) then
                  w.setChildren otherPtr
                    ((w.component otherPtr).GetAttachChildren.filter
                      (fun c => c != some childPtr))
                else w) →
              ((w0.component P).IsPendingKill = true ∨ childrenAgree w0 P) := by
            intro w0 hw0
            split at hw0
            · subst hw0
              rcases hP with hk | ha
              · exact Or.inl (by rw [setChildren_kill]; exact hk)
              · exact Or.inr (childrenAgree_setChildren_sub w otherPtr P _
                  (fun e he => (List.mem_filter.1 he).1) ha)
            · subst hw0
              exact hP
          rcases hmid _ rfl with hk | ha
          · exact Or.inl (hops.attach_kill _ _ _ _ hk)
          · exact Or.inr (hops.attach_agree _ _ _ _ ha)
      · exact absurd h (by simp)

/-- The entries of the child list of `P` from index `i` on name `P` as their
attach parent, or `P` is pending kill. -/
theorem removeBadChildren_spec (ops : EngineOps) (hops : ops.Lawful) (P : UObjectAddr) :
    ∀ (i : Nat) (w w1 : ComponentWorld),
      removeBadChildren ops P i w = some w1 →
      (∀ Q, ((w.component Q).IsPendingKill = true ∨ childrenAgree w Q) →
        ((w1.component Q).IsPendingKill = true ∨ childrenAgree w1 Q)) ∧
      (((w.component P).IsPendingKill = true ∨
          ∀ j, i ≤ j → ∀ e, (w.component P).GetAttachChildren[j]? = some e →
            ∃ x, e = some x ∧ (w.component x).GetAttachParent = some P) →
        ((w1.component P).IsPendingKill = true ∨ childrenAgree w1 P))
  | 0, w, w1, h => by
      simp only [removeBadChildren, Option.some.injEq] at h
      subst h
      refine ⟨fun Q hQ => hQ, fun hJ => ?_⟩
      rcases hJ with hk | hJ
      · exact Or.inl hk
      · right
        intro e he
        obtain ⟨j, hj⟩ := List.getElem?_of_mem he
        exact hJ j (Nat.zero_le j) e hj
  | i + 1, w, w1, h => by
      simp only [removeBadChildren] at h
      -- the world after `RemoveAt(i)`
      have herase : ∀ Q, ((w.component Q).IsPendingKill = true ∨ childrenAgree w Q) →
          (((w.setChildren P ((w.component P).GetAttachChildren.eraseIdx i)).component
              Q).IsPendingKill = true ∨
            childrenAgree (w.setChildren P ((w.component P).GetAttachChildren.eraseIdx i)) Q) := by
        intro Q hQ
        rcases hQ with hk | ha
        · exact Or.inl (by rw [setChildren_kill]; exact hk)
        · exact Or.inr (childrenAgree_setChildren_sub w P Q _
            (fun e he => List.mem_of_mem_eraseIdx he) ha)
      have hJerase : ((w.component P).IsPendingKill = true ∨
            ∀ j, i + 1 ≤ j → ∀ e, (w.component P).GetAttachChildren[j]? = some e →
              ∃ x, e = some x ∧ (w.component x).GetAttachParent = some P) →
          (((w.setChildren P ((w.component P).GetAttachChildren.eraseIdx i)).component
              P).IsPendingKill = true ∨
            ∀ j, i ≤ j → ∀ e,
              ((w.setChildren P ((w.component P).GetAttachChildren.eraseIdx i)).component
                P).GetAttachChildren[j]? = some e →
              ∃ x, e = some x ∧
                ((w.setChildren P ((w.component P).GetAttachChildren.eraseIdx i)).component
                  x).GetAttachParent = some P) := by
        intro hJ
        rcases hJ with hk | hJ
        · exact Or.inl (by rw [setChildren_kill]; exact hk)
        · right
          intro j hj e he
          rw [setChildren_children, if_pos rfl, List.getElem?_eraseIdx] at he
          have hlt : ¬ j < i := by omega
          rw [if_neg hlt] at he
          obtain ⟨x, hx1, hx2⟩ := hJ (j + 1) (by omega) e he
          exact ⟨x, hx1, by rw [setChildren_parent]; exact hx2⟩
      split at h
      · exact absurd h (by simp)
      · -- a null entry
        obtain ⟨h1, h2⟩ := removeBadChildren_spec ops hops P i _ w1 h
        exact ⟨fun Q hQ => h1 Q (herase Q hQ), fun hJ => h2 (hJerase hJ)⟩
      · rename_i childPtr hentry
        split at h
        · rename_i hbad
          split at h
          · -- the child is destroyed
            rename_i hcond
            obtain ⟨_, hnone, _⟩ := hcond
            obtain ⟨h1, h2⟩ := removeBadChildren_spec ops hops P i _ w1 h
            refine ⟨fun Q hQ => h1 Q ?_, fun hJ => h2 ?_⟩
            · rcases herase Q hQ with hk | ha
              · exact Or.inl (hops.destroy_kill _ _ _ hk)
              · exact Or.inr (hops.destroy_agree _ _ _ ha)
            · by_cases hc : P = childPtr
              · left
                rw [hc]
                exact hops.destroy_self _ _
              · rcases hJerase hJ with hk | hJ2
                · exact Or.inl (hops.destroy_kill _ _ _ hk)
                · right
                  intro j hj e he
                  rw [hops.destroy_children _ _ _ hnone hc] at he
                  obtain ⟨x, hx1, hx2⟩ := hJ2 j hj e he
                  exact ⟨x, hx1, hops.destroy_parent _ _ _ _ hnone hc hx2⟩
          · obtain ⟨h1, h2⟩ := removeBadChildren_spec ops hops P i _ w1 h
            exact ⟨fun Q hQ => h1 Q (herase Q hQ), fun hJ => h2 (hJerase hJ)⟩
        · -- the entry is right
          rename_i hgood
          have hparent : (w.component childPtr).GetAttachParent = some P := by
            by_contra hne
            exact hgood hne
          obtain ⟨h1, h2⟩ := removeBadChildren_spec ops hops P i w w1 h
          refine ⟨h1, fun hJ => h2 ?_⟩
          rcases hJ with hk | hJ
          · exact Or.inl hk
          · right
            intro j hj e he
            by_cases hji : j = i
            · subst hji
              rw [hentry] at he
              simp only [Option.some.injEq] at he
              exact ⟨childPtr, he.symm, hparent⟩
            · exact hJ j (by omega) e he

/-- The body of the first loop leaves its component pending kill or in
agreement, and keeps every other component so. -/
theorem fixParent_spec (ops : EngineOps) (hops : ops.Lawful) (m : sfObjectMap)
    (w w1 : ComponentWorld) (P : UObjectAddr) (h : fixParent ops m w P = some w1) :
    (∀ Q, ((w.component Q).IsPendingKill = true ∨ childrenAgree w Q) →
      ((w1.component Q).IsPendingKill = true ∨ childrenAgree w1 Q)) ∧
    ((w1.component P).IsPendingKill = true ∨ childrenAgree w1 P) := by
  have hstart : ∀ w0 : ComponentWorld, (w0.component P).IsPendingKill = true ∨
      ∀ j, (w0.component P).GetAttachChildren.length ≤ j → ∀ e,
        (w0.component P).GetAttachChildren[j]? = some e →
        ∃ x, e = some x ∧ (w0.component x).GetAttachParent = some P := by
    intro w0
    right
    intro j hj e he
    rw [List.getElem?_eq_none hj] at he
    exact absurd he (by simp)
  unfold fixParent at h
  split at h
  · rename_i actorPtr _
    simp only [] at h
    split at h
    · exact absurd h (by simp)
    · rename_i w2 hw2
      have hkeep : ∀ Q, ((w.component Q).IsPendingKill = true ∨ childrenAgree w Q) →
          ((w2.component Q).IsPendingKill = true ∨ childrenAgree w2 Q) := by
        intro Q hQ
        split at hw2
        · simp only [Option.some.injEq] at hw2
          subst hw2
          exact hQ
        · rename_i otherPtr _
          have hdestroy : ∀ w0 : ComponentWorld,
              ((w0.component Q).IsPendingKill = true ∨ childrenAgree w0 Q) →
              (((ops.DestroyComponent (ops.Rename w0 P) P).component Q).IsPendingKill = true ∨
                childrenAgree (ops.DestroyComponent (ops.Rename w0 P) P) Q) := by
            intro w0 h0
            rcases h0 with hk | ha
            · exact Or.inl (hops.destroy_kill _ _ _ (hops.rename_kill _ _ _ hk))
            · exact Or.inr (hops.destroy_agree _ _ _ (hops.rename_agree _ _ _ ha))
          split at hw2
          · cases hatt : attachChildrenToOriginal ops P otherPtr
                (w.component P).GetAttachChildren.length w with
            | none => rw [hatt] at hw2; exact absurd hw2 (by simp)
            | some w0 =>
              rw [hatt] at hw2
              simp only [Option.map_some', Option.some.injEq] at hw2
              subst hw2
              have h0 := attachChildrenToOriginal_keeps ops hops P otherPtr _ w w0 hatt Q hQ
              apply hdestroy
              split
              · rcases h0 with hk | ha
                · left
                  rw [hops.root_component]
                  exact hk
                · right
                  intro e he
                  rw [hops.root_component] at he ⊢
                  exact ha e he
              · exact h0
          · simp only [Option.map_some', Option.some.injEq] at hw2
            subst hw2
            exact hdestroy w hQ
      split at h
      · rename_i hk
        simp only [Option.some.injEq] at h
        subst h
        exact ⟨hkeep, Or.inl hk⟩
      · obtain ⟨h1, h2⟩ := removeBadChildren_spec ops hops P _ w2 w1 h
        exact ⟨fun Q hQ => h1 Q (hkeep Q hQ), h2 (hstart w2)⟩
  · obtain ⟨h1, h2⟩ := removeBadChildren_spec ops hops P _ w w1 h
    exact ⟨h1, h2 (hstart w)⟩

/-- After the first loop every component of the list is pending kill or in
agreement. -/
theorem fixParents_spec (ops : EngineOps) (hops : ops.Lawful) (m : sfObjectMap) :
    ∀ (parents : List UObjectAddr) (w w1 : ComponentWorld),
      fixParents ops m parents w = some w1 →
      (∀ Q, ((w.component Q).IsPendingKill = true ∨ childrenAgree w Q) →
        ((w1.component Q).IsPendingKill = true ∨ childrenAgree w1 Q)) ∧
      ∀ P ∈ parents, ((w1.component P).IsPendingKill = true ∨ childrenAgree w1 P)
  | [], w, w1, h => by
      simp only [fixParents, Option.some.injEq] at h
      subst h
      exact ⟨fun Q hQ => hQ, fun P hP => absurd hP (by simp)⟩
  | P :: rest, w, w1, h => by
      simp only [fixParents] at h
      split at h
      · exact absurd h (by simp)
      · rename_i w2 hw2
        obtain ⟨h1, h2⟩ := fixParent_spec ops hops m w w2 P hw2
        obtain ⟨h3, h4⟩ := fixParents_spec ops hops m rest w2 w1 h
        refine ⟨fun Q hQ => h3 Q (h1 Q hQ), fun Q hQ => ?_⟩
        rcases List.mem_cons.1 hQ with rfl | hQ
        · exact h3 _ h2
        · exact h4 Q hQ

/-- The body of the second loop puts its component in the list of its parent
when that parent is not pending kill, and keeps what holds of the others. -/
theorem fixChild_spec (ops : EngineOps) (hops : ops.Lawful) (w w1 : ComponentWorld)
    (C : UObjectAddr) (h : fixChild ops w C = some w1) :
    (∀ Q, ((w.component Q).IsPendingKill = true ∨ childrenAgree w Q) →
      ((w1.component Q).IsPendingKill = true ∨ childrenAgree w1 Q)) ∧
    inParentList w1 C ∧
    (∀ D, inParentList w D → inParentList w1 D) := by
  unfold fixChild at h
  split at h
  · rename_i hnone
    simp only [Option.some.injEq] at h
    subst h
    refine ⟨fun Q hQ => hQ, ?_, fun D hD => hD⟩
    intro p hp
    rw [hnone] at hp
    exact absurd hp (by simp)
  · rename_i parentPtr hparent
    split at h
    · rename_i hkill
      split at h
      · exact absurd h (by simp)
      · rename_i actorPtr _
        split at h
        · -- no root component: detach and become the root
          simp only [Option.some.injEq] at h
          subst h
          have hself : inParentList
              (ops.SetRootComponent (ops.DetachFromComponent w C) actorPtr C) C := by
            intro p hp
            rw [hops.root_component, hops.detach_self] at hp
            exact absurd hp (by simp)
          refine ⟨fun Q hQ => ?_, hself, fun D hD => ?_⟩
          · rcases hQ with hk | ha
            · left
              rw [hops.root_component]
              exact hops.detach_kill _ _ _ hk
            · right
              intro e he
              rw [hops.root_component] at he ⊢
              exact hops.detach_agree _ _ _ ha e he
          · by_cases hD2 : D = C
            · rw [hD2]; exact hself
            · intro p hp hk
              rw [hops.root_component] at hp hk ⊢
              exact hops.detach_other _ _ _ hD2 hD p hp hk
        · rename_i rootPtr _
          simp only [Option.some.injEq] at h
          subst h
          have hself : inParentList (ops.AttachToComponent w C rootPtr) C :=
            hops.attach_self _ _ _ _ hparent hkill
          refine ⟨fun Q hQ => ?_, hself, fun D hD => ?_⟩
          · rcases hQ with hk | ha
            · exact Or.inl (hops.attach_kill _ _ _ _ hk)
            · exact Or.inr (hops.attach_agree _ _ _ _ ha)
          · by_cases hD2 : D = C
            · rw [hD2]; exact hself
            · exact hops.attach_other _ _ _ _ hD2 hD
    · rename_i halive
      split at h
      · -- the component is added to the list of its parent
        simp only [Option.some.injEq] at h
        subst h
        refine ⟨fun Q hQ => ?_, ?_, fun D hD => ?_⟩
        · rcases hQ with hk | ha
          · exact Or.inl (by rw [setChildren_kill]; exact hk)
          · exact Or.inr (childrenAgree_setChildren_add w parentPtr C Q hparent ha)
        · intro p hp _
          rw [setChildren_parent, hparent] at hp
          simp only [Option.some.injEq] at hp
          subst hp
          rw [setChildren_children, if_pos rfl]
          simp
        · intro p hp hk
          rw [setChildren_parent] at hp
          rw [setChildren_kill] at hk
          have := hD p hp hk
          rw [setChildren_children]
          by_cases hpp : p = parentPtr
          · rw [if_pos hpp]
            rw [hpp] at this
            exact List.mem_append_left _ this
          · rw [if_neg hpp]
            exact this
      · rename_i hin
        simp only [Option.some.injEq] at h
        subst h
        refine ⟨fun Q hQ => hQ, ?_, fun D hD => hD⟩
        intro p hp _
        rw [hparent] at hp
        simp only [Option.some.injEq] at hp
        subst hp
        have : (w.component parentPtr).GetAttachChildren.contains (some C) = true := by
          simpa using hin
        simpa using this

/-- After the second loop every component of the list is in the list of its
parent when that parent is not pending kill. -/
theorem fixChildren_spec (ops : EngineOps) (hops : ops.Lawful) :
    ∀ (children : List UObjectAddr) (w w1 : ComponentWorld),
      fixChildren ops children w = some w1 →
      (∀ Q, ((w.component Q).IsPendingKill = true ∨ childrenAgree w Q) →
        ((w1.component Q).IsPendingKill = true ∨ childrenAgree w1 Q)) ∧
      (∀ D, inParentList w D → inParentList w1 D) ∧
      ∀ C ∈ children, inParentList w1 C
  | [], w, w1, h => by
      simp only [fixChildren, Option.some.injEq] at h
      subst h
      exact ⟨fun Q hQ => hQ, fun D hD => hD, fun C hC => absurd hC (by simp)⟩
  | C :: rest, w, w1, h => by
      simp only [fixChildren] at h
      split at h
      · exact absurd h (by simp)
      · rename_i w2 hw2
        obtain ⟨h1, h2, h3⟩ := fixChild_spec ops hops w w2 C hw2
        obtain ⟨h4, h5, h6⟩ := fixChildren_spec ops hops rest w2 w1 h
        refine ⟨fun Q hQ => h4 Q (h1 Q hQ), fun D hD => h5 D (h3 D hD), fun D hD => ?_⟩
        rcases List.mem_cons.1 hD with rfl | hD
        · exact h5 _ h2
        · exact h6 D hD

theorem sampleDetach_kill (w : ComponentWorld) (x y : UObjectAddr) :
    ((sampleDetach w x).component y).IsPendingKill = (w.component y).IsPendingKill := by
  unfold sampleDetach
  split <;> rfl

theorem sampleDetach_parent (w : ComponentWorld) (x y : UObjectAddr) :
    ((sampleDetach w x).component y).GetAttachParent =
      if y = x then none else (w.component y).GetAttachParent := by
  unfold sampleDetach
  split
  · rename_i h
    by_cases hy : y = x
    · rw [if_pos hy, hy, h]
    · rw [if_neg hy]
  · rfl

theorem sampleDetach_children (w : ComponentWorld) (x y : UObjectAddr) :
    ((sampleDetach w x).component y).GetAttachChildren =
      if (w.component x).GetAttachParent = some y then
        (w.component y).GetAttachChildren.filter (fun e => e != some x)
      else (w.component y).GetAttachChildren := by
  unfold sampleDetach
  split
  · rename_i h
    rw [h, if_neg (by simp)]
  · rename_i q h
    rw [h]
    by_cases hy : y = q
    · subst hy
      simp
    · have : ¬ some q = some y := fun h2 => hy (Option.some.inj h2).symm
      simp [hy, this]

theorem sampleDetach_none (w : ComponentWorld) (x : UObjectAddr)
    (h : (w.component x).GetAttachParent = none) : sampleDetach w x = w := by
  unfold sampleDetach
  rw [h]

/-- Agreement of a child list depends on the attach parents and child lists
only. -/
theorem childrenAgree_congr (w1 w2 : ComponentWorld) (P : UObjectAddr)
    (hp : ∀ y, (w2.component y).GetAttachParent = (w1.component y).GetAttachParent)
    (hc : ∀ y, (w2.component y).GetAttachChildren = (w1.component y).GetAttachChildren)
    (h : childrenAgree w1 P) : childrenAgree w2 P := by
  intro c hmem
  rw [hc] at hmem
  obtain ⟨ch, h1, h2⟩ := h c hmem
  exact ⟨ch, h1, by rw [hp]; exact h2⟩

theorem sampleDetach_agree (w : ComponentWorld) (x P : UObjectAddr)
    (h : childrenAgree w P) : childrenAgree (sampleDetach w x) P := by
  intro c hc
  rw [sampleDetach_children] at hc
  have hc2 : c ∈ (w.component P).GetAttachChildren ∧
      ((w.component x).GetAttachParent = some P → c ≠ some x) := by
    split at hc
    · rw [List.mem_filter] at hc
      exact ⟨hc.1, fun _ => by simpa using hc.2⟩
    · rename_i hq
      exact ⟨hc, fun h2 => absurd h2 hq⟩
  obtain ⟨ch, rfl, hp⟩ := h c hc2.1
  refine ⟨ch, rfl, ?_⟩
  rw [sampleDetach_parent]
  by_cases hx : ch = x
  · subst hx
    exact absurd rfl (hc2.2 hp)
  · rw [if_neg hx]
    exact hp

theorem sampleDetach_other (w : ComponentWorld) (x c : UObjectAddr) (hc : c ≠ x)
    (h : inParentList w c) : inParentList (sampleDetach w x) c := by
  intro p hp hk
  rw [sampleDetach_parent, if_neg hc] at hp
  rw [sampleDetach_kill] at hk
  have hmem := h p hp hk
  rw [sampleDetach_children]
  split
  · rw [List.mem_filter]
    exact ⟨hmem, by simpa using hc⟩
  · exact hmem

/-- The two cases of attaching in the small engine. -/
theorem sampleAttach_cases (w : ComponentWorld) (x p : UObjectAddr) :
    (sampleAttach w x p = w ∧ (x = p ∨ ((w.component x).GetAttachParent = some p ∧
        (w.component p).GetAttachChildren.contains (some x) = true))) ∨
    (x ≠ p ∧ ∀ y,
      ((sampleAttach w x p).component y).GetAttachParent =
        (if y = x then some p else ((sampleDetach w x).component y).GetAttachParent) ∧
      ((sampleAttach w x p).component y).GetAttachChildren =
        (if y = p then ((sampleDetach w x).component y).GetAttachChildren ++ [some x]
          else ((sampleDetach w x).component y).GetAttachChildren) ∧
      ((sampleAttach w x p).component y).IsPendingKill = (w.component y).IsPendingKill) := by
  unfold sampleAttach
  split
  · rename_i h
    exact Or.inl ⟨rfl, h⟩
  · rename_i h
    right
    refine ⟨fun hx => h (Or.inl hx), fun y => ⟨rfl, rfl, ?_⟩⟩
    exact sampleDetach_kill w x y

theorem sampleAttach_agree (w : ComponentWorld) (x p P : UObjectAddr)
    (h : childrenAgree w P) : childrenAgree (sampleAttach w x p) P := by
  rcases sampleAttach_cases w x p with ⟨h1, _⟩ | ⟨_, h2⟩
  · rw [h1]
    exact h
  · intro c hc
    rw [(h2 P).2.1] at hc
    have hd := sampleDetach_agree w x P h
    have hold : ∀ c ∈ ((sampleDetach w x).component P).GetAttachChildren,
        ∃ childPtr, c = some childPtr ∧
          ((sampleAttach w x p).component childPtr).GetAttachParent = some P := by
      intro c hc
      obtain ⟨ch, h3, h4⟩ := hd c hc
      refine ⟨ch, h3, ?_⟩
      rw [(h2 ch).1]
      by_cases hx : ch = x
      · rw [hx, sampleDetach_parent, if_pos rfl] at h4
        exact absurd h4 (by simp)
      · rw [if_neg hx]
        exact h4
    by_cases hP : P = p
    · rw [if_pos hP] at hc
      rcases List.mem_append.1 hc with hc | hc
      · exact hold c hc
      · refine ⟨x, by simpa using hc, ?_⟩
        rw [(h2 x).1, if_pos rfl, hP]
    · rw [if_neg hP] at hc
      exact hold c hc

theorem sampleAttach_self (w : ComponentWorld) (x p q : UObjectAddr)
    (hq : (w.component x).GetAttachParent = some q)
    (hk : (w.component q).IsPendingKill = true) : inParentList (sampleAttach w x p) x := by
  rcases sampleAttach_cases w x p with ⟨h1, _⟩ | ⟨_, h2⟩
  · rw [h1]
    intro p2 hp2 hk2
    rw [hq] at hp2
    simp only [Option.some.injEq] at hp2
    subst hp2
    rw [hk] at hk2
    exact absurd hk2 (by simp)
  · intro p2 hp2 _
    rw [(h2 x).1, if_pos rfl] at hp2
    simp only [Option.some.injEq] at hp2
    subst hp2
    rw [(h2 p).2.1, if_pos rfl]
    simp

theorem sampleAttach_other (w : ComponentWorld) (x p c : UObjectAddr) (hc : c ≠ x)
    (h : inParentList w c) : inParentList (sampleAttach w x p) c := by
  rcases sampleAttach_cases w x p with ⟨h1, _⟩ | ⟨_, h2⟩
  · rw [h1]
    exact h
  · intro p2 hp2 hk2
    rw [(h2 c).1, if_neg hc] at hp2
    rw [(h2 p2).2.2, ← sampleDetach_kill w x p2] at hk2
    have hmem := sampleDetach_other w x c hc h p2 hp2 hk2
    rw [(h2 p2).2.1]
    split
    · exact List.mem_append_left _ hmem
    · exact hmem

/-- The small engine has the properties that the proof uses of the engine. -/
theorem sampleEngineOps_lawful : sampleEngineOps.Lawful where
  attach_agree := fun w x p P h => sampleAttach_agree w x p P h
  attach_kill := by
    intro w x p c h
    show ((sampleAttach w x p).component c).IsPendingKill = true
    rcases sampleAttach_cases w x p with ⟨h1, _⟩ | ⟨_, h2⟩
    · rw [h1]
      exact h
    · rw [(h2 c).2.2]
      exact h
  attach_self := fun w x p q hq hk => sampleAttach_self w x p q hq hk
  attach_other := fun w x p c hc h => sampleAttach_other w x p c hc h
  detach_agree := fun w x P h => sampleDetach_agree w x P h
  detach_kill := by
    intro w x c h
    show ((sampleDetach w x).component c).IsPendingKill = true
    rw [sampleDetach_kill]
    exact h
  detach_self := by
    intro w x
    show ((sampleDetach w x).component x).GetAttachParent = none
    rw [sampleDetach_parent, if_pos rfl]
  detach_other := fun w x c hc h => sampleDetach_other w x c hc h
  root_component := fun _ _ _ => rfl
  rename_agree := fun w x P h =>
    childrenAgree_congr w _ P (fun _ => rfl) (fun _ => rfl) h
  rename_kill := fun _ _ _ h => h
  destroy_agree := fun w x P h =>
    childrenAgree_congr (sampleDetach w x) _ P (fun _ => rfl) (fun _ => rfl)
      (sampleDetach_agree w x P h)
  destroy_kill := by
    intro w x c h
    show (if c = x then true else ((sampleDetach w x).component c).IsPendingKill) = true
    split
    · rfl
    · rw [sampleDetach_kill]
      exact h
  destroy_self := by
    intro w x
    show (if x = x then true else ((sampleDetach w x).component x).IsPendingKill) = true
    rw [if_pos rfl]
  destroy_children := by
    intro w x P h _
    show ((sampleDetach w x).component P).GetAttachChildren = _
    rw [sampleDetach_none w x h]
  destroy_parent := by
    intro w x c P h _ hc
    show ((sampleDetach w x).component c).GetAttachParent = some P
    rw [sampleDetach_none w x h]
    exact hc

/-- In the sample world the function leaves component 31 with the one child
32. -/
theorem FixTransactedComponentChildren_sample :
    (FixTransactedComponentChildren sampleEngineOps sampleUndoMap sampleUndoState).map
      (fun s => ((s.world.component 31).GetAttachChildren, s.m_parentsToCheck,
        s.m_childrenToCheck)) = some ([some 32], [], []) := by
  rfl

/-- C27: when `FixTransactedComponentChildren` returns, every recorded parent
component that is not pending kill has a child list in which each entry is a
component that names it as its attach parent; every recorded child whose
attach parent is not pending kill is in the child list of that parent; and the
two recorded sets are empty. The engine calls are taken with the properties of
`EngineOps.Lawful`. -/
theorem C27_fix_children (ops : EngineOps) (m : sfObjectMap) (s s1 : UndoState)
    (hops : ops.Lawful) (h : FixTransactedComponentChildren ops m s = some s1) :
    (∀ P ∈ s.m_parentsToCheck, (s1.world.component P).IsPendingKill = false →
      childrenAgree s1.world P) ∧
    (∀ C ∈ s.m_childrenToCheck, inParentList s1.world C) ∧
    s1.m_parentsToCheck = [] ∧ s1.m_childrenToCheck = [] := by
  unfold FixTransactedComponentChildren at h
  split at h
  · exact absurd h (by simp)
  · rename_i w1 hw1
    split at h
    · exact absurd h (by simp)
    · rename_i w2 hw2
      simp only [Option.some.injEq] at h
      subst h
      obtain ⟨_, h2⟩ := fixParents_spec ops hops m _ _ _ hw1
      obtain ⟨h3, _, h5⟩ := fixChildren_spec ops hops _ _ _ hw2
      refine ⟨fun P hP hk => ?_, h5, rfl, rfl⟩
      rcases h3 P (h2 P hP) with hk2 | ha
      · rw [hk] at hk2
        exact absurd hk2 (by simp)
      · exact ha

/-- C27 at the sample world with the small engine: the run is defined, and its
result has the three properties. -/
theorem C27_fix_children_witness :
    sampleEngineOps.Lawful ∧
    ∃ s1, FixTransactedComponentChildren sampleEngineOps sampleUndoMap sampleUndoState =
        some s1 ∧
      ((∀ P ∈ sampleUndoState.m_parentsToCheck, (s1.world.component P).IsPendingKill = false →
        childrenAgree s1.world P) ∧
      (∀ C ∈ sampleUndoState.m_childrenToCheck, inParentList s1.world C) ∧
      s1.m_parentsToCheck = [] ∧ s1.m_childrenToCheck = []) :=
  ⟨sampleEngineOps_lawful, _, rfl,
    C27_fix_children sampleEngineOps sampleUndoMap sampleUndoState _ sampleEngineOps_lawful rfl⟩

/-- The keys of a map in key order are pairwise increasing. -/
theorem sortedKeys_pairwise {α : Type} (d : List (sfName × α)) :
    sortedKeys d = true ↔ d.Pairwise (fun p q => p.1 < q.1) := by
  induction d with
  | nil => simp [sortedKeys]
  | cons p rest ih =>
    obtain ⟨k, v⟩ := p
    rw [sortedKeys_cons, List.pairwise_cons, ih]

theorem dictRemove_of_ne {α : Type} (d : List (sfName × α)) (k : sfName)
    (h : ∀ p ∈ d, p.1 ≠ k) : dictRemove d k = d := by
  induction d with
  | nil => rfl
  | cons p rest ih =>
    obtain ⟨k1, v1⟩ := p
    have h1 : ¬ k1 = k := h (k1, v1) (List.mem_cons_self _ _)
    simp only [dictRemove, if_neg h1]
    rw [ih (fun q hq => h q (List.mem_cons_of_mem _ hq))]

theorem dictRemove_append_cons {α : Type} (kept rest : List (sfName × α)) (k : sfName) (v : α)
    (h1 : ∀ p ∈ kept, p.1 ≠ k) (h2 : ∀ p ∈ rest, p.1 ≠ k) :
    dictRemove (kept ++ (k, v) :: rest) k = kept ++ rest := by
  induction kept with
  | nil =>
    simp only [List.nil_append, dictRemove, if_true]
    exact dictRemove_of_ne rest k h2
  | cons p kept ih =>
    obtain ⟨k1, v1⟩ := p
    have hne : ¬ k1 = k := h1 (k1, v1) (List.mem_cons_self _ _)
    have hrec := ih (fun q hq => h1 q (List.mem_cons_of_mem _ hq))
    show dictRemove ((k1, v1) :: (kept ++ (k, v) :: rest)) k = (k1, v1) :: (kept ++ rest)
    simp only [dictRemove, if_neg hne, hrec]

/-- The iterator of the first loop stands at the first entry that is not
handled yet. -/
theorem next_append (kept todo : List (UObjectAddr × sfObjectAddr)) (last : Option UObjectAddr)
    (hpos : match last with
      | none => kept = []
      | some l => (∀ p ∈ kept, p.1 ≤ l) ∧ (∀ p ∈ todo, l < p.1)) :
    sfActorManager.UpdateSelection.next (kept ++ todo) last = todo.head? := by
  cases last with
  | none =>
    simp only [] at hpos
    subst hpos
    rfl
  | some l =>
    obtain ⟨h1, h2⟩ := hpos
    simp only [sfActorManager.UpdateSelection.next, List.find?_append]
    have hk : kept.find? (fun p => decide (l < p.1)) = none := by
      rw [List.find?_eq_none]
      intro p hp
      have := h1 p hp
      simp only [decide_eq_true_eq, not_lt]
      exact this
    rw [hk]
    cases todo with
    | nil => rfl
    | cons q rest =>
      have := h2 q (List.mem_cons_self _ _)
      simp [List.find?_cons, this]

theorem sync_frame (SyncComponents : State → UObjectAddr → sfObjectAddr → State)
    (sel : List UObjectAddr) (hsync : SyncFrame SyncComponents sel)
    (s : State) (a : UObjectAddr) (o : sfObjectAddr) :
    (sfActorManager.UpdateSelection.sync SyncComponents s a o).m_selectedActors =
        s.m_selectedActors ∧
      (sfActorManager.UpdateSelection.sync SyncComponents s a o).effects.filter Effect.isLock =
        s.effects.filter Effect.isLock ∧
      ∀ b ∈ sel,
        (sfActorManager.UpdateSelection.sync SyncComponents s a o).objectMap.GetSFObject
          (some b) = s.objectMap.GetSFObject (some b) := by
  unfold sfActorManager.UpdateSelection.sync
  obtain ⟨h1, h2, h3⟩ := hsync
    ((if s.m_movingActors then
      { s.log (Effect.SyncComponentTransforms a) with
        m_movedActors := s.m_movedActors.filter (fun x => x != a) }
    else s).log (Effect.SyncComponents a o)) a o
  refine ⟨?_, ?_, ?_⟩
  · rw [h1]
    cases hmv : s.m_movingActors <;> simp [State.log]
  · rw [h2]
    cases hmv : s.m_movingActors <;> simp [State.log, List.filter_append, Effect.isLock]
  · intro b hb
    rw [h3 b hb]
    cases hmv : s.m_movingActors <;> simp [State.log]

/-- With `SyncComponents` as in `SyncFrame`, the first loop of
`UpdateSelection` ends, keeps the tracked actors that are selected, calls
`ReleaseLock` once on the object of each other tracked actor, and makes no
other lock call. -/
theorem release_spec (SyncComponents : State → UObjectAddr → sfObjectAddr → State)
    (sel : List UObjectAddr) (hsync : SyncFrame SyncComponents sel) :
    ∀ (todo kept : List (UObjectAddr × sfObjectAddr)) (fuel : Nat) (last : Option UObjectAddr)
      (s : State),
      s.m_selectedActors = kept ++ todo →
      (kept ++ todo).Pairwise (fun p q => p.1 < q.1) →
      todo.length < fuel →
      (match last with
        | none => kept = []
        | some l => (∀ p ∈ kept, p.1 ≤ l) ∧ (∀ p ∈ todo, l < p.1)) →
      ∃ s1, sfActorManager.UpdateSelection.release SyncComponents sel fuel last s = some s1 ∧
        s1.m_selectedActors = kept ++ todo.filter (fun p => sel.contains p.1) ∧
        s1.effects.filter Effect.isLock =
          s.effects.filter Effect.isLock ++
            (todo.filter (fun p => !sel.contains p.1)).map (fun p => Effect.ReleaseLock p.2) ∧
        ∀ b ∈ sel, s1.objectMap.GetSFObject (some b) = s.objectMap.GetSFObject (some b)
  | [], kept, fuel, last, s, hs, _, hf, hpos => by
      obtain ⟨f, rfl⟩ : ∃ f, fuel = f + 1 := ⟨fuel - 1, by omega⟩
      refine ⟨s, ?_, ?_, ?_, fun _ _ => rfl⟩
      · simp only [sfActorManager.UpdateSelection.release]
        rw [hs, next_append kept [] last hpos]
        rfl
      · simpa using hs
      · simp
  | (a, o) :: rest, kept, fuel, last, s, hs, hp, hf, hpos => by
      obtain ⟨f, rfl⟩ : ∃ f, fuel = f + 1 := ⟨fuel - 1, by omega⟩
      have hf2 : rest.length < f := by
        simp only [List.length_cons] at hf
        omega
      obtain ⟨h1, h2, h3⟩ := sync_frame SyncComponents sel hsync s a o
      obtain ⟨hp1, hp2, hp3⟩ := List.pairwise_append.1 hp
      obtain ⟨hp4, hp5⟩ := List.pairwise_cons.1 hp2
      have hkept : ∀ p ∈ kept, p.1 < a := fun p hq => hp3 p hq (a, o) (List.mem_cons_self _ _)
      have hrest : ∀ p ∈ rest, a < p.1 := fun p hq => hp4 p hq
      have hget : dictGet (sfActorManager.UpdateSelection.sync SyncComponents s a
          o).m_selectedActors a = some o := by
        rw [h1, hs]
        exact dictGet_of_mem_sorted _ ((sortedKeys_pairwise _).2 hp) a o
          (List.mem_append_right _ (List.mem_cons_self _ _))
      have hnext : sfActorManager.UpdateSelection.next s.m_selectedActors last = some (a, o) := by
        rw [hs, next_append kept ((a, o) :: rest) last hpos]
        rfl
      simp only [sfActorManager.UpdateSelection.release, hnext, hget]
      cases hc : sel.contains a
      · simp only [Bool.not_false, if_true]
        have hp6 : (kept ++ rest).Pairwise (fun p q => p.1 < q.1) :=
          List.pairwise_append.2 ⟨hp1, hp5,
            fun p hq q hr => hp3 p hq q (List.mem_cons_of_mem _ hr)⟩
        obtain ⟨s1, r1, r2, r3, r4⟩ := release_spec SyncComponents sel hsync rest kept f (some a)
          { (sfActorManager.UpdateSelection.sync SyncComponents s a o).log
              (Effect.ReleaseLock o) with
            m_selectedActors :=
              dictRemove (sfActorManager.UpdateSelection.sync SyncComponents s a
                o).m_selectedActors a }
          (by
            show dictRemove (sfActorManager.UpdateSelection.sync SyncComponents s a
              o).m_selectedActors a = kept ++ rest
            rw [h1, hs]
            exact dictRemove_append_cons kept rest a o
              (fun p hq => Nat.ne_of_lt (hkept p hq))
              (fun p hq => Nat.ne_of_gt (hrest p hq)))
          hp6 hf2 ⟨fun p hq => Nat.le_of_lt (hkept p hq), hrest⟩
        refine ⟨s1, r1, ?_, ?_, ?_⟩
        · rw [r2, List.filter_cons_of_neg (by simpa using hc)]
        · rw [r3]
          have : ({ (sfActorManager.UpdateSelection.sync SyncComponents s a o).log
              (Effect.ReleaseLock o) with
            m_selectedActors :=
              dictRemove (sfActorManager.UpdateSelection.sync SyncComponents s a
                o).m_selectedActors a } : State).effects.filter Effect.isLock =
              s.effects.filter Effect.isLock ++ [Effect.ReleaseLock o] := by
            show ((sfActorManager.UpdateSelection.sync SyncComponents s a o).log
              (Effect.ReleaseLock o)).effects.filter Effect.isLock = _
            rw [filter_isLock_log, h2]
            simp [Effect.isLock]
          rw [this, List.filter_cons_of_pos (by simpa using hc)]
          simp
        · intro b hb
          rw [r4 b hb]
          exact h3 b hb
      · simp only [Bool.not_true, Bool.false_eq_true, if_false]
        have hp6 : ((kept ++ [(a, o)]) ++ rest).Pairwise (fun p q => p.1 < q.1) := by
          rw [List.append_assoc]
          exact hp
        obtain ⟨s1, r1, r2, r3, r4⟩ := release_spec SyncComponents sel hsync rest
          (kept ++ [(a, o)]) f (some a)
          (sfActorManager.UpdateSelection.sync SyncComponents s a o)
          (by rw [h1, hs, List.append_assoc]; rfl)
          hp6 hf2
          ⟨by
            intro p hq
            rcases List.mem_append.1 hq with hq | hq
            · exact Nat.le_of_lt (hkept p hq)
            · simp only [List.mem_singleton] at hq
              rw [hq], hrest⟩
        refine ⟨s1, r1, ?_, ?_, ?_⟩
        · rw [r2, List.filter_cons_of_pos (by simpa using hc), List.append_assoc]
          rfl
        · rw [r3, h2, List.filter_cons_of_neg (by simpa using hc)]
        · intro b hb
          rw [r4 b hb]
          exact h3 b hb

theorem newlyTracked_congr (deref : sfObjectAddr → sfObject) (m1 m2 : sfObjectMap)
    (tracked : List (UObjectAddr × sfObjectAddr)) (a : UObjectAddr)
    (h : m1.GetSFObject (some a) = m2.GetSFObject (some a)) :
    newlyTracked deref m1 tracked a = newlyTracked deref m2 tracked a := by
  simp only [newlyTracked, h]

/-- C14 as stated fails: `SyncComponents`, which the first loop calls for every
tracked actor, comes back into `sfActorManager::CreateObject` when it uploads a
new component to which another actor is attached, and `CreateObject` requests
the lock and tracks that actor because it is selected in the editor. Here
actor 23 is tracked and selected and actor 22 is selected and has no object:
after `UpdateSelection` actor 22 is tracked with the new object 50, on which
`RequestLock` was called, although it had no syncing object. -/
theorem C14_selection_counterexample :
    ¬ (∀ (SyncComponents : State → UObjectAddr → sfObjectAddr → State)
        (deref : sfObjectAddr → sfObject) (selectedActors : List UObjectAddr) (fuel : Nat)
        (s : State), selectedActors.Nodup → sortedKeys s.m_selectedActors = true →
        s.m_selectedActors.length < fuel →
        ∃ s2, sfActorManager.UpdateSelection SyncComponents deref selectedActors fuel s =
            some s2 ∧
          (∀ a o, dictGet s2.m_selectedActors a = some o ↔
            (dictGet s.m_selectedActors a = some o ∧ a ∈ selectedActors) ∨
              (a ∈ selectedActors ∧ dictGet s.m_selectedActors a = none ∧
                s.objectMap.GetSFObject (some a) = some o ∧ (deref o).IsSyncing = true)) ∧
          s2.effects.filter Effect.isLock =
            s.effects.filter Effect.isLock ++
              (s.m_selectedActors.filter (fun p => !selectedActors.contains p.1)).map
                (fun p => Effect.ReleaseLock p.2) ++
              (selectedActors.filterMap
                (newlyTracked deref s.objectMap s.m_selectedActors)).map
                (fun p => Effect.RequestLock p.2)) := by
  intro h
  obtain ⟨s2, h1, h2, _⟩ := h (sampleSyncComponents 23) (sampleObjects false) [22, 23] 2
    (sampleAttachedState [(23, 16)]) (by decide) rfl (by decide)
  have hd : (sfActorManager.UpdateSelection (sampleSyncComponents 23) (sampleObjects false)
      [22, 23] 2 (sampleAttachedState [(23, 16)])).map
      (fun s => dictGet s.m_selectedActors 22) = some (some 50) := by
    rfl
  rw [h1] at hd
  simp only [Option.map_some', Option.some.injEq] at hd
  rcases (h2 22 50).1 hd with ⟨h3, _⟩ | ⟨_, _, h3, _⟩
  · revert h3
    decide
  · revert h3
    decide

/-- C14 (amended): when no call of `SyncComponents` changes the tracked
selection, makes a lock call or changes the object that the map holds for a
selected actor (`SyncFrame`: it does not come back into `CreateObject` or
`InitializeActor` for an actor), `UpdateSelection` returns, and afterwards an
actor is tracked with an object exactly when it was tracked with it before and
is still selected, or it is selected, was not tracked, the map holds the object
for it and the object is syncing. The lock calls are one `ReleaseLock` on the
object of each tracked actor that is no longer selected, then one `RequestLock`
on the object of each newly tracked actor, and no other. `selectedActors` is a
set: it has no duplicates; `m_selectedActors` is a map: it is in key order;
`fuel` is more than the number of its entries. -/
theorem C14_selection (SyncComponents : State → UObjectAddr → sfObjectAddr → State)
    (deref : sfObjectAddr → sfObject) (selectedActors : List UObjectAddr) (fuel : Nat)
    (s : State) (hset : selectedActors.Nodup) (hmap : sortedKeys s.m_selectedActors = true)
    (hfuel : s.m_selectedActors.length < fuel)
    (hsync : SyncFrame SyncComponents selectedActors) :
    ∃ s2, sfActorManager.UpdateSelection SyncComponents deref selectedActors fuel s = some s2 ∧
      (∀ a o, dictGet s2.m_selectedActors a = some o ↔
        (dictGet s.m_selectedActors a = some o ∧ a ∈ selectedActors) ∨
          (a ∈ selectedActors ∧ dictGet s.m_selectedActors a = none ∧
            s.objectMap.GetSFObject (some a) = some o ∧ (deref o).IsSyncing = true)) ∧
      s2.effects.filter Effect.isLock =
        s.effects.filter Effect.isLock ++
          (s.m_selectedActors.filter (fun p => !selectedActors.contains p.1)).map
            (fun p => Effect.ReleaseLock p.2) ++
          (selectedActors.filterMap (newlyTracked deref s.objectMap s.m_selectedActors)).map
            (fun p => Effect.RequestLock p.2) := by
  obtain ⟨s1, r0, e1, e3, e2⟩ := release_spec SyncComponents selectedActors hsync
    s.m_selectedActors [] fuel none s rfl ((sortedKeys_pairwise _).1 hmap) hfuel rfl
  simp only [List.nil_append] at e1
  obtain ⟨q1, q2⟩ := request_spec deref selectedActors s1 hset
  have hkept : ∀ a, dictGet (s.m_selectedActors.filter (fun p => selectedActors.contains p.1)) a =
      if selectedActors.contains a then dictGet s.m_selectedActors a else none :=
    fun a => dictGet_filter_key s.m_selectedActors (fun k => selectedActors.contains k) a
  have hnew : ∀ a ∈ selectedActors,
      newlyTracked deref s1.objectMap
        (s.m_selectedActors.filter (fun p => selectedActors.contains p.1)) a =
      newlyTracked deref s.objectMap s.m_selectedActors a := by
    intro a ha
    have hc : selectedActors.contains a = true := by simpa using ha
    rw [newlyTracked_congr deref s1.objectMap s.objectMap _ a (e2 a ha)]
    simp only [newlyTracked, hkept, hc, if_true]
  refine ⟨sfActorManager.UpdateSelection.request deref selectedActors s1, ?_, ?_, ?_⟩
  · simp only [sfActorManager.UpdateSelection, r0]
  · rw [e1] at q1
    intro a o
    rw [q1 a o, hkept]
    by_cases ha : a ∈ selectedActors
    · have hc : selectedActors.contains a = true := by simpa using ha
      rw [hnew a ha, newlyTracked_eq_some]
      simp [hc, ha]
    · have hc : selectedActors.contains a = false := by simpa using ha
      simp [hc, ha]
  · rw [e1] at q2
    rw [q2, e3, List.filterMap_congr hnew]

/-- The sample call that uploads a component without attached actor leaves
the tracked selection, the lock calls and the objects of the actors as they
are. -/
theorem sampleSyncUpload_frame : SyncFrame sampleSyncUpload [22, 23] := by
  intro s0 a o
  refine ⟨rfl, ?_, ?_⟩
  · show (s0.log (Effect.Create [17] (some o) 0)).effects.filter Effect.isLock = _
    rw [filter_isLock_log]
    simp [Effect.isLock]
  · intro b hb
    show (s0.objectMap.GetOrCreateSFObject (some 35) 17).2.GetSFObject (some b) = _
    have hb2 : b ≠ 35 := by
      simp only [List.mem_cons, List.mem_singleton, List.not_mem_nil, or_false] at hb
      rcases hb with rfl | rfl <;> decide
    simp only [sfObjectMap.GetOrCreateSFObject, sfObjectMap.GetSFObject]
    cases hf : mapFind s0.objectMap.m_uToSFObjectMap 35 with
    | some v => rfl
    | none =>
      simp only [sfObjectMap.Add, mapFind_mapSet]
      rw [if_neg hb2]

theorem C14_selection_witness :
    [22, 23].Nodup ∧ sortedKeys sampleSelectionState.m_selectedActors = true ∧
    sampleSelectionState.m_selectedActors.length < 3 ∧ SyncFrame sampleSyncUpload [22, 23] ∧
    ∃ s2, sfActorManager.UpdateSelection sampleSyncUpload (sampleObjects false) [22, 23] 3
        sampleSelectionState = some s2 ∧
      (∀ a o, dictGet s2.m_selectedActors a = some o ↔
        (dictGet sampleSelectionState.m_selectedActors a = some o ∧ a ∈ [22, 23]) ∨
          (a ∈ [22, 23] ∧ dictGet sampleSelectionState.m_selectedActors a = none ∧
            sampleSelectionState.objectMap.GetSFObject (some a) = some o ∧
            (sampleObjects false o).IsSyncing = true)) ∧
      s2.effects.filter Effect.isLock =
        sampleSelectionState.effects.filter Effect.isLock ++
          (sampleSelectionState.m_selectedActors.filter
            (fun p => !(List.contains [22, 23] p.1))).map (fun p => Effect.ReleaseLock p.2) ++
          ([22, 23].filterMap (newlyTracked (sampleObjects false)
            sampleSelectionState.objectMap sampleSelectionState.m_selectedActors)).map
            (fun p => Effect.RequestLock p.2) :=
  ⟨by decide, rfl, by decide, sampleSyncUpload_frame,
    C14_selection sampleSyncUpload (sampleObjects false) [22, 23] 3 sampleSelectionState
      (by decide) rfl (by decide) sampleSyncUpload_frame⟩

/-- The tracked selection and the lock calls of three runs. With a call of
`SyncComponents` that only uploads a component, actor 21 is released and actor
22 newly tracked. When the upload for actor 23 reaches `CreateObject` for the
selected actor 22, that actor is tracked with its new object 50 inside the
first loop. When actor 22 is selected in the editor but is not in the set that
`GetSelectedActors` returns, it is entered after the iterator, so the loop
reaches it and releases the lock again. -/
theorem UpdateSelection_sample :
    (sfActorManager.UpdateSelection sampleSyncUpload (sampleObjects false) [22, 23] 3
        sampleSelectionState).map
        (fun s => (s.m_selectedActors, s.effects.filter Effect.isLock)) =
      some ([(22, 14), (23, 16)], [Effect.ReleaseLock 11, Effect.RequestLock 14]) ∧
    (sfActorManager.UpdateSelection (sampleSyncComponents 23) (sampleObjects false) [22, 23] 2
        (sampleAttachedState [(23, 16)])).map
        (fun s => (s.m_selectedActors, s.effects.filter Effect.isLock)) =
      some ([(22, 50), (23, 16)], [Effect.RequestLock 50]) ∧
    (sfActorManager.UpdateSelection (sampleSyncComponents 21) (sampleObjects false) [21] 3
        (sampleAttachedState [(21, 11)])).map
        (fun s => (s.m_selectedActors, s.effects.filter Effect.isLock)) =
      some ([(21, 11)], [Effect.RequestLock 50, Effect.ReleaseLock 50]) :=
  ⟨rfl, rfl, rfl⟩

end SceneFusion
